import Mathlib

/-! ps2iconsys: icon codec, colour packing, mesh model and bitmap unpacking

A shallow embedding of the parts of the repository that the specification's
testable properties talk about, followed by the theorems that settle them.

Conventions of the embedding

* unsigned machine integers are `Nat` with an explicit `% 2 ^ w` where the
  source converts to a `w`-bit type; `short` and `int` values are `Int`;
* `float` and `double` values are rationals (`ℚ`); a conversion from `double` to
  `float` and a `float` product round to single precision (`Float32.toFloat32`),
  while the product with `4096.0f` and the quotient by it in the fixed-point
  conversion are exact for `float` arguments;
* a binary file is a list of bytes (`List Nat`, every entry below 256);
* an out-parameter array that the source fills front to back is a returned list.
-/

set_option autoImplicit false

/-! ## Canonical colour (`gbLib/include/gbColor.hpp`) -/

namespace GBCOLOR32

/-- Bit pattern of a 32-bit `int` read as `unsigned int` (two's complement). -/
def toU32 (x : Int) : Nat := (x % 4294967296).toNat

/-- `ARGB(GBCOLOR_COMPONENT a, r, g, b)`: `(a<<24) | (r<<16) | (g<<8) | (b)`, the
arguments being bytes, the result converted to the 32-bit `GBCOLOR`. -/
def ARGB (a r g b : Nat) : Nat :=
  ((a <<< 24) ||| (r <<< 16) ||| (g <<< 8) ||| b) % 4294967296

/-- `ARGB(int a, int r, int g, int b)`:
`((a&0xff)<<24) | ((r&0xff)<<16) | ((g&0xff)<<8) | (b&0xff)`. -/
def ARGB_int (a r g b : Int) : Nat :=
  (((toU32 a &&& 0xff) <<< 24) ||| ((toU32 r &&& 0xff) <<< 16) |||
    ((toU32 g &&& 0xff) <<< 8) ||| (toU32 b &&& 0xff)) % 4294967296

/-- `GetR(c)`: `static_cast<GBCOLOR_COMPONENT>((c>>16) & 0xff)`. -/
def GetR (c : Nat) : Nat := ((c >>> 16) &&& 0xff) % 256

/-- `GetG(c)`: `static_cast<GBCOLOR_COMPONENT>((c>>8) & 0xff)`. -/
def GetG (c : Nat) : Nat := ((c >>> 8) &&& 0xff) % 256

/-- `GetB(c)`: `static_cast<GBCOLOR_COMPONENT>(c & 0xff)`. -/
def GetB (c : Nat) : Nat := (c &&& 0xff) % 256

/-- `GetA(c)`: `static_cast<GBCOLOR_COMPONENT>((c>>24) & 0xff)`. -/
def GetA (c : Nat) : Nat := ((c >>> 24) &&& 0xff) % 256

end GBCOLOR32

/-! ## Icon codec: data model (`include/ps2_ps2icon.hpp`) -/

namespace PS2Icon

/-- `Icon_Header_t`: five `unsigned int` fields. -/
structure Icon_Header where
  file_id : Nat
  animation_shapes : Nat
  texture_type : Nat
  reserved : Nat
  n_vertices : Nat
deriving DecidableEq, Repr

/-- `Vertex_Coord_t`: four `short` fields. -/
structure Vertex_Coord where
  f16_x : Int
  f16_y : Int
  f16_z : Int
  f16_unknown : Int
deriving DecidableEq, Repr

/-- `Texture_Data_t`: two `short` fields and one `unsigned int`. -/
structure Texture_Data where
  f16_u : Int
  f16_v : Int
  color : Nat
deriving DecidableEq, Repr

/-- `Animation_Header_t`; `anim_speed` is kept as the 32-bit pattern of the float,
which the codec copies without looking at it. -/
structure Animation_Header where
  id_tag : Nat
  frame_length : Nat
  anim_speed : Nat
  play_offset : Nat
  n_frames : Nat
deriving DecidableEq, Repr

/-- `Frame_Data_t`: two `unsigned int` fields. -/
structure Frame_Data where
  shape_id : Nat
  n_keys : Nat
deriving DecidableEq, Repr

/-- `Frame_Key_t`: two floats, kept as their 32-bit patterns. -/
structure Frame_Key where
  time : Nat
  value : Nat
deriving DecidableEq, Repr

/-! ### Fixed point conversion (`ps2_ps2icon.cpp`, lines 12-22) -/

/-- Conversion of a real value to an integer type by a cast: truncation toward zero. -/
def truncToInt (q : ℚ) : Int := Int.tdiv q.num (q.den : Int)

/-- Value of an integer stored in a `short` (two's complement wrap). -/
def toShort (z : Int) : Int := (z + 32768) % 65536 - 32768

/-- `convert_f32_to_f16(f)`: `static_cast<short>(f * 4096.0f)`. -/
def convert_f32_to_f16 (f : ℚ) : Int := toShort (truncToInt (f * 4096))

/-- `convert_f16_to_f32(i)`: `static_cast<float>(i) / 4096.0f`. -/
def convert_f16_to_f32 (i : Int) : ℚ := (i : ℚ) / 4096

/-! ### Header validation (`ps2_ps2icon.cpp`, lines 24-40) -/

/-- `PS2Icon::CheckValidity`: the test of `file_id` and `reserved` guards an empty
block (its `return false` is commented out); only `n_vertices % 3` decides. -/
def CheckValidity (p : Icon_Header) : Bool :=
  let _idsDiffer : Bool := (p.file_id != 0x010000) || (p.reserved != 0x3F800000)
  if p.n_vertices % 3 != 0 then false else true

/-! ### Texture words (`ps2_ps2icon.cpp`, lines 131-182 and 503-547) -/

/-- Lines 135-141: the uncompressed branch turns the 16-bit word `c` into a texture
entry; `r`, `g`, `b` are `unsigned char`. -/
def decodeWord_uncompressed (c : Nat) : Nat :=
  let r := ((c &&& 0x1f) <<< 3) % 256
  let g := (((c >>> 5) &&& 0x1f) <<< 3) % 256
  let b := ((c >>> 10) <<< 3) % 256
  ((0xff <<< 24) ||| ((r &&& 0xff) <<< 16) ||| ((g &&& 0xff) <<< 8) ||| (b &&& 0xff)) % 4294967296

/-- Lines 160-167: the repeat branch of the RLE reader. -/
def decodeWord_repeat (c : Nat) : Nat :=
  let r := ((c &&& 0x1f) <<< 3) % 256
  let g := (((c >>> 5) &&& 0x1f) <<< 3) % 256
  let b := ((c >>> 10) <<< 3) % 256
  ((0xff <<< 24) ||| ((r &&& 0xff) <<< 16) ||| ((g &&& 0xff) <<< 8) ||| (b &&& 0xff)) % 4294967296

/-- Lines 173-179: the literal branch of the RLE reader. -/
def decodeWord_literal (c : Nat) : Nat :=
  let r := ((c &&& 0x1f) <<< 3) % 256
  let g := (((c >>> 5) &&& 0x1f) <<< 3) % 256
  let b := ((c >>> 10) <<< 3) % 256
  ((0xff <<< 24) ||| ((r &&& 0xff) <<< 16) ||| ((g &&& 0xff) <<< 8) ||| (b &&& 0xff)) % 4294967296

/-- The value the specification gives for the decoding of a texture word. -/
def specDecodeWord (c : Nat) : Nat :=
  0xFF000000 ||| (((c &&& 0x1F) <<< 3) <<< 16) ||| ((((c >>> 5) &&& 0x1F) <<< 3) <<< 8) |||
    (((c >>> 10) &&& 0x1F) <<< 3)

end PS2Icon

/-! ## Bitmap loader: 1-bit unpacking (`gbLib/src/gbImageLoader_BMP.cpp`, lines 81-106) -/

namespace GhulbusUtil

/-- One assignment `data[dst] = (data[src] & mask) >> sh;` on a byte buffer. -/
def assignBit (data : List Nat) (dst src mask sh : Nat) : List Nat :=
  data.set dst ((data.getD src 0 &&& mask) >>> sh)

/-- Body of the unpacking loop of `ReadData1Bit` (lines 93-100), for loop index `i`. -/
def unpack1BitBody (data : List Nat) (i : Nat) : List Nat :=
  let data := assignBit data i (i >>> 3) 0x1 0
  let data := assignBit data (i - 1) (i >>> 3) 0x2 1
  let data := assignBit data (i - 2) (i >>> 3) 0x4 2
  let data := assignBit data (i - 3) (i >>> 3) 0x8 3
  let data := assignBit data (i - 4) (i >>> 3) 0x10 4
  let data := assignBit data (i - 5) (i >>> 3) 0x20 5
  let data := assignBit data (i - 6) (i >>> 3) 0x40 6
  assignBit data (i - 7) (i >>> 3) 0x80 7

/-- The loop `for(int i = width*height - 1; i >= 7; i -= 8)` of `ReadData1Bit`. -/
def unpack1BitLoop (i : Int) (data : List Nat) : List Nat :=
  if 7 ≤ i then unpack1BitLoop (i - 8) (unpack1BitBody data i.toNat) else data
termination_by i.toNat
decreasing_by omega

/-- The unpacking part of `ReadData1Bit`: `data` is the buffer of `width*height` bytes
right after `file.read` stored `(width*height)>>3` packed bytes at its start. -/
def ReadData1Bit_unpack (biWidth biHeight : Int) (data : List Nat) : List Nat :=
  unpack1BitLoop (biWidth * biHeight - 1) data

/-- Pixel `j` of a packed 1-bit row: bit `7 - j mod 8` of byte `j div 8`. -/
def packedBit (packed : List Nat) (j : Nat) : Nat :=
  (packed.getD (j / 8) 0 >>> (7 - j % 8)) &&& 1

end GhulbusUtil

/-! ## Exceptions (`gbLib/include/gbException.hpp`) -/

/-- Error codes of `Ghulbus::gbException` together with the optional message. -/
inductive gbException where
  | GB_FAILED (msg : String)
  | GB_OUTOFMEMORY
  | GB_ILLEGALPARAMETER
  | GB_INVALIDCONTEXT (msg : String)
  | GB_NOTIMPLEMENTED
deriving DecidableEq, Repr

/-- Value of a 32-bit `unsigned int` converted to `int` (two's complement). -/
def toInt32 (u : Nat) : Int :=
  if u % 4294967296 < 2147483648 then ((u % 4294967296 : Nat) : Int)
  else ((u % 4294967296 : Nat) : Int) - 4294967296

/-! ## Single-precision values

The values of the types `float` and `double` are rational numbers here. A conversion to
`float` and every `float` operation rounds its exact result to the nearest value with
24 significant bits (least exponent `-149`), a tie going to the even significand.
Infinities and NaN are not part of the model: a rounded value stands for a `float`
as long as its magnitude is below `2^128`, and the statements about rounded values
carry bounds that keep it there. -/

namespace Float32

/-- Rounding to the nearest integer, a tie going to the even one. -/
def roundHalfEven (q : ℚ) : Int :=
  if q - ⌊q⌋ < 1 / 2 then ⌊q⌋
  else if 1 / 2 < q - ⌊q⌋ then ⌊q⌋ + 1
  else if ⌊q⌋ % 2 = 0 then ⌊q⌋ else ⌊q⌋ + 1

/-- Binary exponent of the unit in the last place of the `float` values around `q`. -/
def ulpExp (q : ℚ) : Int := max (Int.log 2 |q| - 23) (-149)

/-- `static_cast<float>(q)`, and the rounding of the exact result `q` of a `float`
operation. -/
def toFloat32 (q : ℚ) : ℚ := (roundHalfEven (q / 2 ^ ulpExp q) : ℚ) * 2 ^ ulpExp q

/-- The `float` product `a * b`. -/
def fmul (a b : ℚ) : ℚ := toFloat32 (a * b)

/-- The value is a `float` value: rounding leaves it as it is. -/
def isFloat32 (q : ℚ) : Prop := toFloat32 q = q

instance (q : ℚ) : Decidable (isFloat32 q) := by
  unfold isFloat32
  infer_instance

end Float32

/-! ## Indexed mesh model (`src/obj_loader.cpp`, `src/obj_loader.impl.hpp`)

The fields of `Face` and `OBJ_Mesh` are the ones the two implementation files use. -/

/-- `OBJ_Mesh::Face`: three corners with one index per attribute, and a smoothing
group; all fields are `int`. -/
structure Face where
  vert1 : Int
  texture1 : Int
  normal1 : Int
  vert2 : Int
  texture2 : Int
  normal2 : Int
  vert3 : Int
  texture3 : Int
  normal3 : Int
  smoothing_group : Int
deriving DecidableEq, Repr

/-- `OBJ_Mesh`: name and the vectors `m_geometry`, `m_normals`, `m_texcoords`
(doubles, three per entry) and `m_faces`. -/
structure OBJ_Mesh where
  m_name : String
  m_geometry : List ℚ
  m_normals : List ℚ
  m_texcoords : List ℚ
  m_faces : List Face
deriving DecidableEq, Repr

namespace OBJ_Mesh

/-- `v[i]` for a vector of doubles and an `int` index; the source does not check the
index, the theorems only use indices in range. -/
def elemAt (v : List ℚ) (i : Int) : ℚ := v.getD i.toNat 0

/-- `OBJ_Mesh::GetNVertices`. -/
def GetNVertices (m : OBJ_Mesh) : Int := ((m.m_geometry.length / 3 : Nat) : Int)

/-- `OBJ_Mesh::GetNFaces`. -/
def GetNFaces (m : OBJ_Mesh) : Int := ((m.m_faces.length : Nat) : Int)

/-- `OBJ_Mesh::GetNNormals`. -/
def GetNNormals (m : OBJ_Mesh) : Int := ((m.m_normals.length / 3 : Nat) : Int)

/-- `OBJ_Mesh::GetNTexture`. -/
def GetNTexture (m : OBJ_Mesh) : Int := ((m.m_texcoords.length / 3 : Nat) : Int)

/-- The nine position values `GetMeshGeometryUnindexed` writes for one face
(`obj_loader.impl.hpp`, lines 15-23), for the instantiation `T = float`, the only one
in the program: `static_cast<float>(m_geometry[..]) * scale`, a `float` product. -/
def faceGeometry (m : OBJ_Mesh) (f : Face) (scale : ℚ) : List ℚ :=
  [ Float32.fmul (Float32.toFloat32 (elemAt m.m_geometry (f.vert1 * 3))) scale,
    Float32.fmul (Float32.toFloat32 (elemAt m.m_geometry (f.vert1 * 3 + 1))) scale,
    Float32.fmul (Float32.toFloat32 (elemAt m.m_geometry (f.vert1 * 3 + 2))) scale,
    Float32.fmul (Float32.toFloat32 (elemAt m.m_geometry (f.vert2 * 3))) scale,
    Float32.fmul (Float32.toFloat32 (elemAt m.m_geometry (f.vert2 * 3 + 1))) scale,
    Float32.fmul (Float32.toFloat32 (elemAt m.m_geometry (f.vert2 * 3 + 2))) scale,
    Float32.fmul (Float32.toFloat32 (elemAt m.m_geometry (f.vert3 * 3))) scale,
    Float32.fmul (Float32.toFloat32 (elemAt m.m_geometry (f.vert3 * 3 + 1))) scale,
    Float32.fmul (Float32.toFloat32 (elemAt m.m_geometry (f.vert3 * 3 + 2))) scale ]

/-- The nine normal values written for one face (lines 26-34):
`static_cast<float>(m_normals[..])`. -/
def faceNormals (m : OBJ_Mesh) (f : Face) : List ℚ :=
  [ Float32.toFloat32 (elemAt m.m_normals (f.normal1 * 3)),
    Float32.toFloat32 (elemAt m.m_normals (f.normal1 * 3 + 1)),
    Float32.toFloat32 (elemAt m.m_normals (f.normal1 * 3 + 2)),
    Float32.toFloat32 (elemAt m.m_normals (f.normal2 * 3)),
    Float32.toFloat32 (elemAt m.m_normals (f.normal2 * 3 + 1)),
    Float32.toFloat32 (elemAt m.m_normals (f.normal2 * 3 + 2)),
    Float32.toFloat32 (elemAt m.m_normals (f.normal3 * 3)),
    Float32.toFloat32 (elemAt m.m_normals (f.normal3 * 3 + 1)),
    Float32.toFloat32 (elemAt m.m_normals (f.normal3 * 3 + 2)) ]

/-- The nine texture values written for one face (lines 37-45):
`static_cast<float>(m_texcoords[..])`. -/
def faceTexture (m : OBJ_Mesh) (f : Face) : List ℚ :=
  [ Float32.toFloat32 (elemAt m.m_texcoords (f.texture1 * 3)),
    Float32.toFloat32 (elemAt m.m_texcoords (f.texture1 * 3 + 1)),
    Float32.toFloat32 (elemAt m.m_texcoords (f.texture1 * 3 + 2)),
    Float32.toFloat32 (elemAt m.m_texcoords (f.texture2 * 3)),
    Float32.toFloat32 (elemAt m.m_texcoords (f.texture2 * 3 + 1)),
    Float32.toFloat32 (elemAt m.m_texcoords (f.texture2 * 3 + 2)),
    Float32.toFloat32 (elemAt m.m_texcoords (f.texture3 * 3)),
    Float32.toFloat32 (elemAt m.m_texcoords (f.texture3 * 3 + 1)),
    Float32.toFloat32 (elemAt m.m_texcoords (f.texture3 * 3 + 2)) ]

/-- `OBJ_Mesh::GetMeshGeometryUnindexed<float>` with three non-null outputs: the loop
over the faces writes entries `index*9 .. index*9+8` of each output for the face number
`index`, so each output is the concatenation of the per-face blocks of `float`
values. -/
def GetMeshGeometryUnindexed (m : OBJ_Mesh) (scale : ℚ) : List ℚ × List ℚ × List ℚ :=
  (m.m_faces.flatMap (fun f => faceGeometry m f scale),
   m.m_faces.flatMap (fun f => faceNormals m f),
   m.m_faces.flatMap (fun f => faceTexture m f))

/-- `FillVector(dest, data, n_data)`: `dest` is cleared and receives
`data[0 .. n_data-1]`; nothing is copied when `n_data` is not positive. -/
def FillVector (data : List ℚ) (n_data : Int) : List ℚ :=
  (List.range n_data.toNat).map (fun i => data.getD i 0)

/-- `AppendToVector(dest, data, n_data)`. -/
def AppendToVector (dest data : List ℚ) (n_data : Int) : List ℚ :=
  dest ++ (List.range n_data.toNat).map (fun i => data.getD i 0)

/-- `OBJ_Mesh::SetGeometry(T const* data, int n_data)`. -/
def SetGeometry (m : OBJ_Mesh) (data : List ℚ) (n_data : Int) : OBJ_Mesh :=
  { m with m_geometry := FillVector data n_data }

/-- `OBJ_Mesh::SetNormals(T const* data, int n_data)`. -/
def SetNormals (m : OBJ_Mesh) (data : List ℚ) (n_data : Int) : OBJ_Mesh :=
  { m with m_normals := FillVector data n_data }

/-- `OBJ_Mesh::AddGeometry(T const* data, int n_data)`. -/
def AddGeometry (m : OBJ_Mesh) (data : List ℚ) (n_data : Int) : OBJ_Mesh :=
  { m with m_geometry := AppendToVector m.m_geometry data n_data }

/-- `OBJ_Mesh::AddNormals(T const* data, int n_data)`. -/
def AddNormals (m : OBJ_Mesh) (data : List ℚ) (n_data : Int) : OBJ_Mesh :=
  { m with m_normals := AppendToVector m.m_normals data n_data }

/-- `OBJ_Mesh::AddTextureData(T const* data, int n_data)`. -/
def AddTextureData (m : OBJ_Mesh) (data : List ℚ) (n_data : Int) : OBJ_Mesh :=
  { m with m_texcoords := AppendToVector m.m_texcoords data n_data }

/-- `OBJ_Mesh::ClearTextureData`. -/
def ClearTextureData (m : OBJ_Mesh) : OBJ_Mesh := { m with m_texcoords := [] }

/-- `OBJ_Mesh::ClearFaceData`. -/
def ClearFaceData (m : OBJ_Mesh) : OBJ_Mesh := { m with m_faces := [] }

/-- `OBJ_Mesh::AddFaceData(&face, 1)`. -/
def AddFaceData (m : OBJ_Mesh) (face : Face) : OBJ_Mesh :=
  { m with m_faces := m.m_faces ++ [face] }

/-- `OBJ_Mesh::SetName`. -/
def SetName (m : OBJ_Mesh) (name : String) : OBJ_Mesh := { m with m_name := name }

end OBJ_Mesh
/-! ## Icon codec: state and geometry conversion (`src/ps2_ps2icon.cpp`) -/

namespace PS2Icon

/-- Result of an operation on 32-bit `unsigned int` values. -/
def u32 (n : Nat) : Nat := n % 4294967296

/-- The data members of the class `PS2Icon`. Arrays are lists; the `texture` entries
are 32-bit values. -/
structure Icon where
  header : Icon_Header
  vertices : List Vertex_Coord
  normals : List Vertex_Coord
  vert_texture : List Texture_Data
  fvertices : List ℚ
  fnormals : List ℚ
  anim_header : Animation_Header
  animation : List Frame_Data
  anim_keys : List (List Frame_Key)
  texture : List Nat
deriving DecidableEq, Repr

instance : Inhabited Vertex_Coord := ⟨⟨0, 0, 0, 0⟩⟩

instance : Inhabited Texture_Data := ⟨⟨0, 0, 0⟩⟩

/-- Bit pattern of the float `1.0f`. -/
def floatBits_one : Nat := 0x3F800000

/-- Bit pattern of the float `0.0f`. -/
def floatBits_zero : Nat := 0

/-- `PS2Icon::SetGeometry(OBJ_Mesh const& mesh, float scale_factor)` (lines 210-260).
`AllocateVertexMemory` sizes the arrays for `GetNFaces()*3` vertices and one shape;
`GetMeshGeometryUnindexed` fills `fvertices`, `fnormals` and `tmptexture`. -/
def SetGeometry (self : Icon) (mesh : OBJ_Mesh) (scale_factor : ℚ) : Icon :=
  let out := mesh.GetMeshGeometryUnindexed scale_factor
  let fvertices := out.1
  let fnormals := out.2.1
  let tmptexture := out.2.2
  let idx := List.range (mesh.GetNFaces * 3).toNat
  { header :=
      { self.header with
        file_id := 0x010000, reserved := 0x3F800000, animation_shapes := 1,
        n_vertices := GBCOLOR32.toU32 (mesh.GetNFaces * 3) }
    vertices := idx.map (fun i =>
      { f16_x := convert_f32_to_f16 (fvertices.getD (i * 3) 0),
        f16_y := convert_f32_to_f16 (fvertices.getD (i * 3 + 1) 0),
        f16_z := convert_f32_to_f16 (fvertices.getD (i * 3 + 2) 0),
        f16_unknown := 0 })
    normals := idx.map (fun i =>
      { f16_x := convert_f32_to_f16 (fnormals.getD (i * 3) 0),
        f16_y := convert_f32_to_f16 (fnormals.getD (i * 3 + 1) 0),
        f16_z := convert_f32_to_f16 (fnormals.getD (i * 3 + 2) 0),
        f16_unknown := 0 })
    vert_texture := idx.map (fun i =>
      { f16_u := convert_f32_to_f16 (tmptexture.getD (i * 3) 0),
        f16_v := convert_f32_to_f16 (tmptexture.getD (i * 3 + 1) 0),
        color := 0xFFFFFFFF })
    fvertices := fvertices
    fnormals := fnormals
    anim_header := { self.anim_header with n_frames := 1 }
    animation := [{ shape_id := 0, n_keys := 1 }]
    anim_keys := [[{ time := floatBits_zero, value := floatBits_one }]]
    texture := self.texture }

/-- `PS2Icon::SetGeometry(OBJ_Mesh const& mesh)`: scale factor `1.0f`. -/
def SetGeometry_default (self : Icon) (mesh : OBJ_Mesh) : Icon :=
  SetGeometry self mesh 1

/-- `PS2Icon::GetVertexData(float* data, int shape)` (lines 419-438); the index
expressions are `unsigned int` arithmetic. -/
def GetVertexData (self : Icon) (shape : Int) : Except gbException (List ℚ) :=
  if shape ≥ toInt32 self.header.animation_shapes then
    .error .GB_ILLEGALPARAMETER
  else if shape ≥ 0 then
    .ok ((List.range self.header.n_vertices).flatMap (fun i =>
      [ self.fvertices.getD (u32 ((i * self.header.animation_shapes + shape.toNat) * 3)) 0,
        self.fvertices.getD (u32 ((i * self.header.animation_shapes + shape.toNat) * 3 + 1)) 0,
        self.fvertices.getD (u32 ((i * self.header.animation_shapes + shape.toNat) * 3 + 2)) 0 ]))
  else
    .ok ((List.range self.header.animation_shapes).flatMap (fun j =>
      (List.range self.header.n_vertices).flatMap (fun i =>
        [ self.fvertices.getD (u32 ((i * self.header.animation_shapes + j) * 3)) 0,
          self.fvertices.getD (u32 ((i * self.header.animation_shapes + j) * 3 + 1)) 0,
          self.fvertices.getD (u32 ((i * self.header.animation_shapes + j) * 3 + 2)) 0 ])))

/-- The three `AddTextureData` calls of `BuildMesh` for vertex `i` (lines 333-338). -/
def addVertexTexture (self : Icon) (mesh : OBJ_Mesh) (i : Nat) : OBJ_Mesh :=
  let mesh := mesh.AddTextureData [convert_f16_to_f32 (self.vert_texture.getD i default).f16_u] 1
  let mesh := mesh.AddTextureData [convert_f16_to_f32 (self.vert_texture.getD i default).f16_v] 1
  mesh.AddTextureData [0] 1

/-- The face `BuildMesh` adds for triangle `i` (lines 346-351). -/
def freshFace (i : Nat) : Face :=
  { vert1 := toInt32 (u32 (i * 3)), normal1 := toInt32 (u32 (i * 3)),
    texture1 := toInt32 (u32 (i * 3)),
    vert2 := toInt32 (u32 (i * 3 + 1)), normal2 := toInt32 (u32 (i * 3 + 1)),
    texture2 := toInt32 (u32 (i * 3 + 1)),
    vert3 := toInt32 (u32 (i * 3 + 2)), normal3 := toInt32 (u32 (i * 3 + 2)),
    texture3 := toInt32 (u32 (i * 3 + 2)),
    smoothing_group := 1 }

/-- `PS2Icon::BuildMesh(OBJ_Mesh* mesh)` (lines 322-353); `GetVertexData` may throw. -/
def BuildMesh (self : Icon) (mesh : OBJ_Mesh) : Except gbException OBJ_Mesh :=
  match GetVertexData self 0 with
  | .error e => .error e
  | .ok tf =>
    let mesh := mesh.SetGeometry tf (toInt32 (u32 (self.header.n_vertices * 3)))
    let mesh := mesh.SetNormals self.fnormals (toInt32 (u32 (self.header.n_vertices * 3)))
    let mesh := mesh.ClearTextureData
    let mesh := (List.range self.header.n_vertices).foldl (addVertexTexture self) mesh
    let mesh := mesh.ClearFaceData
    let mesh := (List.range (self.header.n_vertices / 3)).foldl
      (fun mesh i => mesh.AddFaceData (freshFace i)) mesh
    .ok mesh

end PS2Icon

instance : Inhabited Face := ⟨⟨0, 0, 0, 0, 0, 0, 0, 0, 0, 0⟩⟩

namespace Face

/-- Position index of corner `j` (0, 1 or 2) of a face. -/
def vert (f : Face) (j : Nat) : Int :=
  match j with
  | 0 => f.vert1
  | 1 => f.vert2
  | _ => f.vert3

/-- Normal index of corner `j` of a face. -/
def normal (f : Face) (j : Nat) : Int :=
  match j with
  | 0 => f.normal1
  | 1 => f.normal2
  | _ => f.normal3

/-- Texture index of corner `j` of a face. -/
def texture (f : Face) (j : Nat) : Int :=
  match j with
  | 0 => f.texture1
  | 1 => f.texture2
  | _ => f.texture3

end Face

namespace PS2Icon

/-- The default constructor `PS2Icon::PS2Icon()` (lines 58-74): null arrays, default
headers and a zeroed texture. -/
def PS2Icon_default : Icon :=
  { header := { file_id := 0x010000, animation_shapes := 1, texture_type := 0x07,
                reserved := 0x3F800000, n_vertices := 0 }
    vertices := []
    normals := []
    vert_texture := []
    fvertices := []
    fnormals := []
    anim_header := { id_tag := 1, frame_length := 31, anim_speed := floatBits_one,
                     play_offset := 0, n_frames := 0 }
    animation := []
    anim_keys := []
    texture := List.replicate 16384 0 }

/-- A mesh of two triangles over four vertices (a unit square); the triangles share
the vertices 0 and 2. -/
def exampleQuad : OBJ_Mesh :=
  { m_name := "quad"
    m_geometry := [0, 0, 0, 1, 0, 0, 1, 1, 0, 0, 1, 0]
    m_normals := [0, 0, 1]
    m_texcoords := [0, 0, 0, 1, 0, 0, 1, 1, 0, 0, 1, 0]
    m_faces := [ { vert1 := 0, texture1 := 0, normal1 := 0, vert2 := 1, texture2 := 1,
                   normal2 := 0, vert3 := 2, texture3 := 2, normal3 := 0,
                   smoothing_group := 1 },
                 { vert1 := 0, texture1 := 0, normal1 := 0, vert2 := 2, texture2 := 2,
                   normal2 := 0, vert3 := 3, texture3 := 3, normal3 := 0,
                   smoothing_group := 1 } ] }

end PS2Icon

namespace PS2Icon

/-- The position values of one shape of an icon, vertex by vertex: entries
`(i * animation_shapes + shape) * 3 + d` of `fvertices`. -/
def shapePositions (self : Icon) (shape : Nat) : List ℚ :=
  (List.range self.header.n_vertices).flatMap (fun i =>
    [ self.fvertices.getD ((i * self.header.animation_shapes + shape) * 3) 0,
      self.fvertices.getD ((i * self.header.animation_shapes + shape) * 3 + 1) 0,
      self.fvertices.getD ((i * self.header.animation_shapes + shape) * 3 + 2) 0 ])

/-- The texture triples `(u, v, 0)` of an icon, vertex by vertex. -/
def textureTriples (self : Icon) : List ℚ :=
  self.vert_texture.flatMap (fun t =>
    [convert_f16_to_f32 t.f16_u, convert_f16_to_f32 t.f16_v, 0])

/-- An icon without vertices whose header announces `2^31` animation shapes, as
`ReadFile` builds it from a file with such a header. -/
def iconManyShapes : Icon :=
  { PS2Icon_default with
    header := { file_id := 0x010000, animation_shapes := 2147483648, texture_type := 0x07,
                reserved := 0x3F800000, n_vertices := 0 } }

/-- An icon with one triangle and one shape. -/
def exampleTriangleIcon : Icon :=
  { PS2Icon_default with
    header := { file_id := 0x010000, animation_shapes := 1, texture_type := 0x07,
                reserved := 0x3F800000, n_vertices := 3 }
    vertices := [⟨0, 0, 0, 0⟩, ⟨4096, 0, 0, 0⟩, ⟨0, 4096, 0, 0⟩]
    normals := [⟨0, 0, 4096, 0⟩, ⟨0, 0, 4096, 0⟩, ⟨0, 0, 4096, 0⟩]
    vert_texture := [⟨0, 0, 0xFFFFFFFF⟩, ⟨4096, 0, 0xFFFFFFFF⟩, ⟨0, 4096, 0xFFFFFFFF⟩]
    fvertices := [0, 0, 0, 1, 0, 0, 0, 1, 0]
    fnormals := [0, 0, 1, 0, 0, 1, 0, 0, 1] }

end PS2Icon

/-! ## Mesh text reader (`src/obj_loader.cpp`, lines 122-233) -/

namespace OBJ_FileLoader

/-- The nine 1-based indices of an `f` line, in the order `sscanf` stores them. -/
structure FaceRef where
  vert1 : Int
  texture1 : Int
  normal1 : Int
  vert2 : Int
  texture2 : Int
  normal2 : Int
  vert3 : Int
  texture3 : Int
  normal3 : Int
deriving DecidableEq, Repr

/-- One line of a mesh text file, as `ReadFile` classifies it from its first two
characters, with the fields `sscanf` extracts from a well-formed line. -/
inductive Line where
  /-- Line starting with `#`. -/
  | comment
  /-- Line `v x y z`. -/
  | v (x y z : ℚ)
  /-- Line `vt x y z`. -/
  | vt (x y z : ℚ)
  /-- Line `vn x y z`. -/
  | vn (x y z : ℚ)
  /-- Line starting with `vp`. -/
  | vp
  /-- Line starting with `v` and any other second character. -/
  | vOther
  /-- Line `f a/b/c d/e/f g/h/i`. -/
  | f (r : FaceRef)
  /-- Line starting with `g`: with a name (`sscanf` returns 1) or without. -/
  | g (name : Option String)
  /-- Line `s n`. -/
  | s (group : Int)
  /-- Line starting with `s` and a second character other than a blank. -/
  | sOther
  /-- Any other line, the empty line included. -/
  | other
deriving DecidableEq, Repr

/-- The local variables of `ReadFile` that live across lines, and the mesh list. -/
structure ReadState where
  m_MeshList : List OBJ_Mesh
  mesh : OBJ_Mesh
  group_name : String
  new_group_was_opened : Bool
  smoothing_group : Int
  vert_counter : Int
  normal_counter : Int
  texture_counter : Int
  vert_base : Int
  normal_base : Int
  texture_base : Int
deriving DecidableEq, Repr

/-- Lines 149-160: on a line starting with `v`, a group opened since the last vertex
line closes the current mesh and starts a new one. -/
def openNewMesh (st : ReadState) : ReadState :=
  if st.new_group_was_opened then
    { st with
      m_MeshList := st.m_MeshList ++ [st.mesh.SetName st.group_name]
      mesh := { m_name := "", m_geometry := [], m_normals := [], m_texcoords := [], m_faces := [] }
      vert_base := st.vert_counter
      normal_base := st.normal_counter
      texture_base := st.texture_counter
      new_group_was_opened := false }
  else st

/-- Lines 192-204: the face stored for an `f` line. -/
def adjustFace (st : ReadState) (r : FaceRef) : Face :=
  { vert1 := r.vert1 - st.vert_base - 1
    vert2 := r.vert2 - st.vert_base - 1
    vert3 := r.vert3 - st.vert_base - 1
    normal1 := r.normal1 - st.normal_base - 1
    normal2 := r.normal2 - st.normal_base - 1
    normal3 := r.normal3 - st.normal_base - 1
    texture1 := r.texture1 - st.texture_base - 1
    texture2 := r.texture2 - st.texture_base - 1
    texture3 := r.texture3 - st.texture_base - 1
    smoothing_group := st.smoothing_group }

/-- The body of the `while(std::getline(f, buffer))` loop (lines 142-225). -/
def readLine (st : ReadState) : Line → ReadState
  | .comment => st
  | .v x y z =>
    let st := openNewMesh st
    { st with mesh := st.mesh.AddGeometry [x, y, z] 3, vert_counter := st.vert_counter + 1 }
  | .vt x y z =>
    let st := openNewMesh st
    { st with mesh := st.mesh.AddTextureData [x, y, z] 3,
              texture_counter := st.texture_counter + 1 }
  | .vn x y z =>
    let st := openNewMesh st
    { st with mesh := st.mesh.AddNormals [x, y, z] 3, normal_counter := st.normal_counter + 1 }
  | .vp => openNewMesh st
  | .vOther => openNewMesh st
  | .f r => { st with mesh := st.mesh.AddFaceData (adjustFace st r) }
  | .g (some name) => { st with group_name := name, new_group_was_opened := true }
  | .g none => st
  | .s group => { st with smoothing_group := group }
  | .sOther => st
  | .other => st

/-- The state at the start of `ReadFile`; `group_name` is an uninitialised buffer, its
content is the parameter `group_name`. -/
def initialState (group_name : String) : ReadState :=
  { m_MeshList := []
    mesh := { m_name := "", m_geometry := [], m_normals := [], m_texcoords := [], m_faces := [] }
    group_name := group_name
    new_group_was_opened := false
    smoothing_group := -1
    vert_counter := 0, normal_counter := 0, texture_counter := 0
    vert_base := 0, normal_base := 0, texture_base := 0 }

/-- Lines 227-232: the last mesh is kept when it has a face. -/
def finish (st : ReadState) : List OBJ_Mesh :=
  if st.mesh.GetNFaces > 0 then st.m_MeshList ++ [st.mesh.SetName st.group_name]
  else st.m_MeshList

/-- `OBJ_FileLoader::ReadFile` on a loader whose mesh list is `m_MeshList`. -/
def ReadFile (m_MeshList : List OBJ_Mesh) (group_name : String) (lines : List Line) :
    Except gbException (List OBJ_Mesh) :=
  if m_MeshList.length > 0 then
    .error (.GB_INVALIDCONTEXT "The mesh list is not empty")
  else
    .ok (finish (lines.foldl readLine (initialState group_name)))

/-! ### Files made of consecutive groups -/

/-- A group of a mesh text file: its vertex data lines, its name and its faces. -/
structure Group where
  vlines : List Line
  name : String
  faces : List FaceRef
deriving DecidableEq, Repr

/-- The line is a `v`, `vt` or `vn` line. -/
def Line.isVertexData : Line → Bool
  | .v _ _ _ => true
  | .vt _ _ _ => true
  | .vn _ _ _ => true
  | _ => false

/-- Coordinates of the `v` lines of a list of lines. -/
def geometryOf : List Line → List ℚ
  | [] => []
  | .v x y z :: ls => x :: y :: z :: geometryOf ls
  | _ :: ls => geometryOf ls

/-- Coordinates of the `vt` lines of a list of lines. -/
def texcoordsOf : List Line → List ℚ
  | [] => []
  | .vt x y z :: ls => x :: y :: z :: texcoordsOf ls
  | _ :: ls => texcoordsOf ls

/-- Coordinates of the `vn` lines of a list of lines. -/
def normalsOf : List Line → List ℚ
  | [] => []
  | .vn x y z :: ls => x :: y :: z :: normalsOf ls
  | _ :: ls => normalsOf ls

/-- Number of `v` lines. -/
def countV : List Line → Int
  | [] => 0
  | .v _ _ _ :: ls => countV ls + 1
  | _ :: ls => countV ls

/-- Number of `vt` lines. -/
def countVT : List Line → Int
  | [] => 0
  | .vt _ _ _ :: ls => countVT ls + 1
  | _ :: ls => countVT ls

/-- Number of `vn` lines. -/
def countVN : List Line → Int
  | [] => 0
  | .vn _ _ _ :: ls => countVN ls + 1
  | _ :: ls => countVN ls

/-- The lines of a group: vertex data, the named group marker, the faces. -/
def groupLines (g : Group) : List Line :=
  g.vlines ++ [Line.g (some g.name)] ++ g.faces.map Line.f

/-- The lines of a file made of consecutive groups. -/
def fileLines (gs : List Group) : List Line := gs.flatMap groupLines

/-- The face the specification expects for an `f` line of a group preceded by `bv`,
`bt`, `bn` entries of the three attributes: every index is the file index minus 1
minus the number of entries of that attribute in all preceding groups. -/
def groupFace (bv bt bn : Int) (r : FaceRef) : Face :=
  { vert1 := r.vert1 - 1 - bv
    vert2 := r.vert2 - 1 - bv
    vert3 := r.vert3 - 1 - bv
    texture1 := r.texture1 - 1 - bt
    texture2 := r.texture2 - 1 - bt
    texture3 := r.texture3 - 1 - bt
    normal1 := r.normal1 - 1 - bn
    normal2 := r.normal2 - 1 - bn
    normal3 := r.normal3 - 1 - bn
    smoothing_group := -1 }

/-- The mesh the specification expects for a group preceded by `bv`, `bt`, `bn`
entries of the three attributes. -/
def groupMesh (bv bt bn : Int) (g : Group) : OBJ_Mesh :=
  { m_name := g.name
    m_geometry := geometryOf g.vlines
    m_normals := normalsOf g.vlines
    m_texcoords := texcoordsOf g.vlines
    m_faces := g.faces.map (groupFace bv bt bn) }

/-- The meshes expected for consecutive groups, the first of which is preceded by
`bv`, `bt`, `bn` entries. -/
def expectedMeshes (bv bt bn : Int) : List Group → List OBJ_Mesh
  | [] => []
  | g :: gs =>
    groupMesh bv bt bn g ::
      expectedMeshes (bv + countV g.vlines) (bt + countVT g.vlines) (bn + countVN g.vlines) gs

/-- Every face of every group refers, through 1-based file-global indices, to entries
of its own group; `bv`, `bt`, `bn` count the entries before the first group. -/
def ownReferences (bv bt bn : Int) : List Group → Prop
  | [] => True
  | g :: gs =>
    (∀ r ∈ g.faces,
      (bv < r.vert1 ∧ r.vert1 ≤ bv + countV g.vlines) ∧
      (bv < r.vert2 ∧ r.vert2 ≤ bv + countV g.vlines) ∧
      (bv < r.vert3 ∧ r.vert3 ≤ bv + countV g.vlines) ∧
      (bt < r.texture1 ∧ r.texture1 ≤ bt + countVT g.vlines) ∧
      (bt < r.texture2 ∧ r.texture2 ≤ bt + countVT g.vlines) ∧
      (bt < r.texture3 ∧ r.texture3 ≤ bt + countVT g.vlines) ∧
      (bn < r.normal1 ∧ r.normal1 ≤ bn + countVN g.vlines) ∧
      (bn < r.normal2 ∧ r.normal2 ≤ bn + countVN g.vlines) ∧
      (bn < r.normal3 ∧ r.normal3 ≤ bn + countVN g.vlines)) ∧
    ownReferences (bv + countV g.vlines) (bt + countVT g.vlines) (bn + countVN g.vlines) gs

/-- All indices of all faces of a mesh are valid 0-based indices into the mesh's own
attribute vectors. -/
def validIndices (m : OBJ_Mesh) : Prop :=
  ∀ f ∈ m.m_faces, ∀ j, j < 3 →
    (0 ≤ f.vert j ∧ f.vert j < m.GetNVertices) ∧
    (0 ≤ f.texture j ∧ f.texture j < m.GetNTexture) ∧
    (0 ≤ f.normal j ∧ f.normal j < m.GetNNormals)

end OBJ_FileLoader

namespace OBJ_FileLoader

/-- State of `ReadFile` at the start of a group's vertex data: an empty current mesh,
no group pending, the index bases equal to the counters. -/
def freshState (L : List OBJ_Mesh) (cv ct cn : Int) (gname : String) : ReadState :=
  { m_MeshList := L
    mesh := { m_name := "", m_geometry := [], m_normals := [], m_texcoords := [], m_faces := [] }
    group_name := gname
    new_group_was_opened := false
    smoothing_group := -1
    vert_counter := cv, normal_counter := cn, texture_counter := ct
    vert_base := cv, normal_base := cn, texture_base := ct }

/-- State of `ReadFile` after the last face of the group `g`, whose data started at
the counters `bv`, `bt`, `bn`: the group's mesh is the current mesh, still unnamed. -/
def pendingState (L : List OBJ_Mesh) (bv bt bn : Int) (g : Group) : ReadState :=
  { m_MeshList := L
    mesh := (groupMesh bv bt bn g).SetName ""
    group_name := g.name
    new_group_was_opened := true
    smoothing_group := -1
    vert_counter := bv + countV g.vlines
    normal_counter := bn + countVN g.vlines
    texture_counter := bt + countVT g.vlines
    vert_base := bv, normal_base := bn, texture_base := bt }

/-- A file of two groups: a triangle over three vertices, then a triangle over the
next three vertices, referenced by the file-global indices 4, 5 and 6. -/
def exampleGroups : List Group :=
  [ { vlines := [.v 0 0 0, .v 1 0 0, .v 0 1 0, .vt 0 0 0, .vn 0 0 1]
      name := "first"
      faces := [⟨1, 1, 1, 2, 1, 1, 3, 1, 1⟩] },
    { vlines := [.v 0 0 1, .v 1 0 1, .v 0 1 1, .vt 1 1 0, .vn 0 0 1]
      name := "second"
      faces := [⟨4, 2, 2, 5, 2, 2, 6, 2, 2⟩] } ]

end OBJ_FileLoader

/-! ## Icon codec: the binary file (`src/ps2_ps2icon.cpp`, `ReadFile` and `WriteFile`)

A file is a list of bytes. The structs are written and read as raw memory; they are
unpadded and little-endian. -/

namespace PS2Icon

/-- The four bytes of a 32-bit `unsigned int`, least significant first. -/
def putU32 (n : Nat) : List Nat :=
  [n % 256, n / 256 % 256, n / 65536 % 256, n / 16777216 % 256]

/-- The two bytes of a 16-bit `unsigned short`, least significant first. -/
def putU16 (n : Nat) : List Nat := [n % 256, n / 256 % 256]

/-- The two bytes of a `short` (two's complement), least significant first. -/
def putS16 (z : Int) : List Nat := putU16 (z % 65536).toNat

/-- The `unsigned int` stored in four bytes. -/
def getU32 (b0 b1 b2 b3 : Nat) : Nat := b0 + 256 * b1 + 65536 * b2 + 16777216 * b3

/-- The `unsigned short` stored in two bytes. -/
def getU16 (b0 b1 : Nat) : Nat := b0 + 256 * b1

/-- The `short` stored in two bytes. -/
def getS16 (b0 b1 : Nat) : Int := toShort (getU16 b0 b1 : Nat)

/-- `fin.read` of a 32-bit value: `none` when fewer than four bytes are left. -/
def readU32 : List Nat → Option (Nat × List Nat)
  | b0 :: b1 :: b2 :: b3 :: rest => some (getU32 b0 b1 b2 b3, rest)
  | _ => none

/-- `fin.read` of a 16-bit unsigned value. -/
def readU16 : List Nat → Option (Nat × List Nat)
  | b0 :: b1 :: rest => some (getU16 b0 b1, rest)
  | _ => none

/-- `fin.read` of a `short`. -/
def readS16 : List Nat → Option (Int × List Nat)
  | b0 :: b1 :: rest => some (getS16 b0 b1, rest)
  | _ => none

/-- Bytes of an `Icon_Header` (20 bytes). -/
def writeHeader (h : Icon_Header) : List Nat :=
  putU32 h.file_id ++ putU32 h.animation_shapes ++ putU32 h.texture_type ++ putU32 h.reserved ++
    putU32 h.n_vertices

/-- Bytes of a `Vertex_Coord` (8 bytes). -/
def writeVertexCoord (v : Vertex_Coord) : List Nat :=
  putS16 v.f16_x ++ putS16 v.f16_y ++ putS16 v.f16_z ++ putS16 v.f16_unknown

/-- Bytes of a `Texture_Data` (8 bytes). -/
def writeTextureData (t : Texture_Data) : List Nat :=
  putS16 t.f16_u ++ putS16 t.f16_v ++ putU32 t.color

/-- Bytes of an `Animation_Header` (20 bytes). -/
def writeAnimHeader (a : Animation_Header) : List Nat :=
  putU32 a.id_tag ++ putU32 a.frame_length ++ putU32 a.anim_speed ++ putU32 a.play_offset ++
    putU32 a.n_frames

/-- Bytes of a `Frame_Data` (8 bytes). -/
def writeFrameData (f : Frame_Data) : List Nat := putU32 f.shape_id ++ putU32 f.n_keys

/-- Bytes of a `Frame_Key` (8 bytes). -/
def writeFrameKey (k : Frame_Key) : List Nat := putU32 k.time ++ putU32 k.value

instance : Inhabited Frame_Data := ⟨⟨0, 0⟩⟩

instance : Inhabited Frame_Key := ⟨⟨0, 0⟩⟩

/-- `WriteFile`, lines 483-491: for vertex `i` the `animation_shapes` coordinates
starting at `vertices[i*animation_shapes]`, the normal and the texture tuple. -/
def writeVertex (self : Icon) (i : Nat) : List Nat :=
  (List.range self.header.animation_shapes).flatMap (fun j =>
      writeVertexCoord (self.vertices.getD (u32 (i * self.header.animation_shapes) + j) default)) ++
    writeVertexCoord (self.normals.getD i default) ++
    writeTextureData (self.vert_texture.getD i default)

/-- `WriteFile`, lines 497-500: the frame data of frame `i` and its `n_keys` keys. -/
def writeFrame (self : Icon) (i : Nat) : List Nat :=
  writeFrameData (self.animation.getD i default) ++
    (List.range (self.animation.getD i default).n_keys).flatMap (fun k =>
      writeFrameKey ((self.anim_keys.getD i []).getD k default))

/-- `WriteFile`, lines 480-500: header, vertex segment and animation segment. -/
def WriteFile_geometry (self : Icon) : List Nat :=
  writeHeader self.header ++
    (List.range self.header.n_vertices).flatMap (writeVertex self) ++
    writeAnimHeader self.anim_header ++
    (List.range self.anim_header.n_frames).flatMap (writeFrame self)

/-- `ReadFile` of an `Icon_Header`. -/
def readHeader (s : List Nat) : Option (Icon_Header × List Nat) :=
  match readU32 s with
  | none => none
  | some (file_id, s) =>
    match readU32 s with
    | none => none
    | some (animation_shapes, s) =>
      match readU32 s with
      | none => none
      | some (texture_type, s) =>
        match readU32 s with
        | none => none
        | some (reserved, s) =>
          match readU32 s with
          | none => none
          | some (n_vertices, s) =>
            some ({ file_id := file_id, animation_shapes := animation_shapes,
                    texture_type := texture_type, reserved := reserved,
                    n_vertices := n_vertices }, s)

/-- `fin.read` of one `Vertex_Coord`. -/
def readVertexCoord (s : List Nat) : Option (Vertex_Coord × List Nat) :=
  match readS16 s with
  | none => none
  | some (x, s) =>
    match readS16 s with
    | none => none
    | some (y, s) =>
      match readS16 s with
      | none => none
      | some (z, s) =>
        match readS16 s with
        | none => none
        | some (w, s) => some ({ f16_x := x, f16_y := y, f16_z := z, f16_unknown := w }, s)

/-- `fin.read` of one `Texture_Data`. -/
def readTextureData (s : List Nat) : Option (Texture_Data × List Nat) :=
  match readS16 s with
  | none => none
  | some (u, s) =>
    match readS16 s with
    | none => none
    | some (v, s) =>
      match readU32 s with
      | none => none
      | some (c, s) => some ({ f16_u := u, f16_v := v, color := c }, s)

/-- `fin.read` of `count` consecutive `Vertex_Coord` values. -/
def readVertexCoords : Nat → List Nat → Option (List Vertex_Coord × List Nat)
  | 0, s => some ([], s)
  | count + 1, s =>
    match readVertexCoord s with
    | none => none
    | some (v, s) =>
      match readVertexCoords count s with
      | none => none
      | some (vs, s) => some (v :: vs, s)

/-- The vertex loop of `ReadFile` (lines 93-110) for `count` vertices: the result holds
the `vertices`, `normals` and `vert_texture` arrays in order. -/
def readVertexSegment (animation_shapes : Nat) :
    Nat → List Nat → Option ((List Vertex_Coord × List Vertex_Coord × List Texture_Data) × List Nat)
  | 0, s => some (([], [], []), s)
  | count + 1, s =>
    match readVertexCoords animation_shapes s with
    | none => none
    | some (shapes, s) =>
      match readVertexCoord s with
      | none => none
      | some (normal, s) =>
        match readTextureData s with
        | none => none
        | some (tex, s) =>
          match readVertexSegment animation_shapes count s with
          | none => none
          | some ((vs, ns, ts), s) => some ((shapes ++ vs, normal :: ns, tex :: ts), s)

/-- `fin.read` of an `Animation_Header`. -/
def readAnimHeader (s : List Nat) : Option (Animation_Header × List Nat) :=
  match readU32 s with
  | none => none
  | some (id_tag, s) =>
    match readU32 s with
    | none => none
    | some (frame_length, s) =>
      match readU32 s with
      | none => none
      | some (anim_speed, s) =>
        match readU32 s with
        | none => none
        | some (play_offset, s) =>
          match readU32 s with
          | none => none
          | some (n_frames, s) =>
            some ({ id_tag := id_tag, frame_length := frame_length, anim_speed := anim_speed,
                    play_offset := play_offset, n_frames := n_frames }, s)

/-- `fin.read` of `count` consecutive `Frame_Key` values. -/
def readFrameKeys : Nat → List Nat → Option (List Frame_Key × List Nat)
  | 0, s => some ([], s)
  | count + 1, s =>
    match readU32 s with
    | none => none
    | some (time, s) =>
      match readU32 s with
      | none => none
      | some (value, s) =>
        match readFrameKeys count s with
        | none => none
        | some (ks, s) => some ({ time := time, value := value } :: ks, s)

/-- The frame loop of `ReadFile` (lines 120-128) for `count` frames; a frame without
keys gets no key array (`NULL`), which is the empty list here. -/
def readFrames : Nat → List Nat → Option ((List Frame_Data × List (List Frame_Key)) × List Nat)
  | 0, s => some (([], []), s)
  | count + 1, s =>
    match readU32 s with
    | none => none
    | some (shape_id, s) =>
      match readU32 s with
      | none => none
      | some (n_keys, s) =>
        match (if n_keys > 0 then readFrameKeys n_keys s else some ([], s)) with
        | none => none
        | some (keys, s) =>
          match readFrames count s with
          | none => none
          | some ((fs, ks), s) =>
            some (({ shape_id := shape_id, n_keys := n_keys } :: fs, keys :: ks), s)

/-- The arrays `fvertices` and `fnormals` that `ReadFile` fills next to the
fixed-point ones (lines 99-109). -/
def floatCoords (vs : List Vertex_Coord) : List ℚ :=
  vs.flatMap (fun v =>
    [convert_f16_to_f32 v.f16_x, convert_f16_to_f32 v.f16_y, convert_f16_to_f32 v.f16_z])

/-- What `ReadFile` has read when it reaches the texture segment. -/
structure GeometryAndAnimation where
  header : Icon_Header
  vertices : List Vertex_Coord
  normals : List Vertex_Coord
  vert_texture : List Texture_Data
  anim_header : Animation_Header
  animation : List Frame_Data
  anim_keys : List (List Frame_Key)
deriving DecidableEq, Repr

/-- Outcome of reading: a value, a thrown `GB_FAILED` with its message, or
`streamFailed`: a read of the header, of the vertex or animation segment, or inside
the compressed texture segment ran past the end of the stream. After such a read the
stream is in the fail state and the variables read afterwards keep what they held,
which for an icon under construction is indeterminate; the code goes on with those
values (array sizes, loop counts, the RLE limit), so the file determines no outcome;
where the code gets as far as the final test of `fin.fail()` (lines 184-185) it raises
`GB_FAILED` "File read error". `streamFailed` stands for that case. A short read in the
uncompressed texture segment behind a complete vertex and animation segment is
different: the loop of 16384 reads depends on no value read, and the test of
`fin.fail()` behind it raises `GB_FAILED` "File read error". -/
inductive ReadOutcome (α : Type) where
  | ok (a : α)
  | gbFailed (msg : String)
  | streamFailed
deriving DecidableEq, Repr

/-- `ReadFile`, lines 79-128: header, validity check, vertex segment and animation
segment; the result comes with the bytes that follow. -/
def ReadFile_geometry (s : List Nat) : ReadOutcome (GeometryAndAnimation × List Nat) :=
  match readHeader s with
  | none => .streamFailed
  | some (header, s) =>
    if !CheckValidity header then
      .gbFailed "Icon Header seems to be corrupted"
    else
      match readVertexSegment header.animation_shapes header.n_vertices s with
      | none => .streamFailed
      | some ((vertices, normals, vert_texture), s) =>
        match readAnimHeader s with
        | none => .streamFailed
        | some (anim_header, s) =>
          match readFrames anim_header.n_frames s with
          | none => .streamFailed
          | some ((animation, anim_keys), s) =>
            .ok ({ header := header, vertices := vertices, normals := normals,
                   vert_texture := vert_texture, anim_header := anim_header,
                   animation := animation, anim_keys := anim_keys }, s)

end PS2Icon

namespace PS2Icon

/-- A `short` value. -/
def shortRange (z : Int) : Prop := -32768 ≤ z ∧ z ≤ 32767

instance (z : Int) : Decidable (shortRange z) := by unfold shortRange; infer_instance

/-- The fields of a `Vertex_Coord` are `short` values. -/
def Vertex_Coord.inRange (v : Vertex_Coord) : Prop :=
  shortRange v.f16_x ∧ shortRange v.f16_y ∧ shortRange v.f16_z ∧ shortRange v.f16_unknown

instance (v : Vertex_Coord) : Decidable v.inRange := by
  unfold Vertex_Coord.inRange; infer_instance

/-- The fields of a `Texture_Data` are two `short` values and a 32-bit value. -/
def Texture_Data.inRange (t : Texture_Data) : Prop :=
  shortRange t.f16_u ∧ shortRange t.f16_v ∧ t.color < 4294967296

instance (t : Texture_Data) : Decidable t.inRange := by
  unfold Texture_Data.inRange; infer_instance

/-- The fields of an `Icon_Header` are 32-bit values. -/
def Icon_Header.inRange (h : Icon_Header) : Prop :=
  h.file_id < 4294967296 ∧ h.animation_shapes < 4294967296 ∧ h.texture_type < 4294967296 ∧
    h.reserved < 4294967296 ∧ h.n_vertices < 4294967296

instance (h : Icon_Header) : Decidable h.inRange := by
  unfold Icon_Header.inRange; infer_instance

/-- The fields of an `Animation_Header` are 32-bit values. -/
def Animation_Header.inRange (a : Animation_Header) : Prop :=
  a.id_tag < 4294967296 ∧ a.frame_length < 4294967296 ∧ a.anim_speed < 4294967296 ∧
    a.play_offset < 4294967296 ∧ a.n_frames < 4294967296

instance (a : Animation_Header) : Decidable a.inRange := by
  unfold Animation_Header.inRange; infer_instance

/-- The fields of a `Frame_Data` are 32-bit values. -/
def Frame_Data.inRange (f : Frame_Data) : Prop :=
  f.shape_id < 4294967296 ∧ f.n_keys < 4294967296

instance (f : Frame_Data) : Decidable f.inRange := by
  unfold Frame_Data.inRange; infer_instance

/-- The fields of a `Frame_Key` are 32-bit patterns. -/
def Frame_Key.inRange (k : Frame_Key) : Prop :=
  k.time < 4294967296 ∧ k.value < 4294967296

instance (k : Frame_Key) : Decidable k.inRange := by
  unfold Frame_Key.inRange; infer_instance

/-- Every frame has as many keys as its `n_keys` says. -/
def keysMatch : List Frame_Data → List (List Frame_Key) → Prop
  | [], [] => True
  | f :: fs, k :: ks => k.length = f.n_keys ∧ keysMatch fs ks
  | _, _ => False

instance : ∀ (fs : List Frame_Data) (ks : List (List Frame_Key)), Decidable (keysMatch fs ks)
  | [], [] => isTrue trivial
  | f :: fs, k :: ks =>
    have := instDecidableKeysMatch fs ks
    by unfold keysMatch; infer_instance
  | [], _ :: _ => isFalse (by simp [keysMatch])
  | _ :: _, [] => isFalse (by simp [keysMatch])

/-- The state of an icon as the class keeps it: every field has the range of its C
type, the arrays have the sizes `AllocateVertexMemory` and `ReadFile` give them, and
the size `n_vertices * animation_shapes` computed in `unsigned int` did not wrap. -/
def Icon.WellFormed (self : Icon) : Prop :=
  self.header.inRange ∧ self.anim_header.inRange ∧
  self.header.n_vertices * self.header.animation_shapes < 4294967296 ∧
  self.vertices.length = self.header.n_vertices * self.header.animation_shapes ∧
  self.normals.length = self.header.n_vertices ∧
  self.vert_texture.length = self.header.n_vertices ∧
  (∀ v ∈ self.vertices, v.inRange) ∧ (∀ v ∈ self.normals, v.inRange) ∧
  (∀ t ∈ self.vert_texture, t.inRange) ∧
  self.animation.length = self.anim_header.n_frames ∧
  (∀ f ∈ self.animation, f.inRange) ∧
  keysMatch self.animation self.anim_keys ∧
  (∀ ks ∈ self.anim_keys, ∀ k ∈ ks, k.inRange)

instance (self : Icon) : Decidable self.WellFormed := by
  unfold Icon.WellFormed; infer_instance

end PS2Icon

/-! ## Icon codec: the texture segment (`src/ps2_ps2icon.cpp`, lines 130-183, 502-556) -/

namespace PS2Icon

/-- `WriteFile`, lines 507-510: the 16-bit word written for a texture entry in the
uncompressed branch. -/
def encodeWord_uncompressed (t : Nat) : Nat :=
  let r := ((t >>> 16) &&& 0xff) % 256
  let g := ((t >>> 8) &&& 0xff) % 256
  let b := (t &&& 0xff) % 256
  (((r >>> 3) &&& 0x001f) ||| ((g <<< 2) &&& 0x03e0) ||| ((b <<< 7) &&& 0x7c00)) % 65536

/-- `WriteFile`, lines 526-529: the word written in a repeat record. -/
def encodeWord_repeat (t : Nat) : Nat :=
  let r := ((t >>> 16) &&& 0xff) % 256
  let g := ((t >>> 8) &&& 0xff) % 256
  let b := (t &&& 0xff) % 256
  (((r >>> 3) % 65536) ||| (g <<< 2) ||| (b <<< 7)) % 65536

/-- `WriteFile`, lines 541-544: the word written in a literal record. -/
def encodeWord_literal (t : Nat) : Nat :=
  let r := ((t >>> 16) &&& 0xff) % 256
  let g := ((t >>> 8) &&& 0xff) % 256
  let b := (t &&& 0xff) % 256
  (((r >>> 3) % 65536) ||| (g <<< 2) ||| (b <<< 7)) % 65536

/-- `WriteFile`, lines 503-512: the uncompressed texture segment. -/
def writeTexture_uncompressed (texture : List Nat) : List Nat :=
  (List.range 16384).flatMap (fun i => putU16 (encodeWord_uncompressed (texture.getD i 0)))

/-- Line 524, `while(texture[i] == texture[i+rep_count]) rep_count++`, on the memory
`mem` that starts at `texture[0]`: the entries of the array followed by the words
behind it. The loop has no bound; `none` is a read outside `mem`. The first argument
bounds the number of iterations. -/
def countRep (mem : List Nat) (i : Nat) : Nat → Nat → Option Nat
  | 0, _ => none
  | fuel + 1, rep_count =>
    match mem[i]?, mem[i + rep_count]? with
    | some a, some b => if a = b then countRep mem i fuel (rep_count + 1) else some rep_count
    | _, _ => none

/-- Lines 535-536, `while((texture[i+pix_count] != texture[i+pix_count+1]) &&
(pix_count < 255)) pix_count++`; the comparison is evaluated before the bound. -/
def countLiteral (mem : List Nat) (i : Nat) : Nat → Nat → Option Nat
  | 0, _ => none
  | fuel + 1, pix_count =>
    match mem[i + pix_count]?, mem[i + pix_count + 1]? with
    | some a, some b =>
      if a ≠ b ∧ pix_count < 255 then countLiteral mem i fuel (pix_count + 1) else some pix_count
    | _, _ => none

/-- Lines 540-547: the pixels of a literal record, `texture[i] .. texture[i+pix_count]`
for the already complemented `pix_count`. -/
def literalPixels (mem : List Nat) (i : Nat) : Nat → Option (List Nat)
  | 0 => some []
  | n + 1 =>
    match mem[i]? with
    | none => none
    | some t =>
      match literalPixels mem (i + 1) n with
      | none => none
      | some bytes => some (putU16 (encodeWord_literal t) ++ bytes)

/-- Lines 521-549: the main loop of the RLE encoder, from index `i`; the result is the
bytes of the records. The first argument bounds the number of records. -/
def rleEncodeLoop (mem : List Nat) : Nat → Nat → Option (List Nat)
  | 0, i => if i < 16384 then none else some []
  | fuel + 1, i =>
    if i < 16384 then
      match countRep mem i mem.length 1 with
      | none => none
      | some rep_count =>
        if rep_count > 1 then
          match mem[i]? with
          | none => none
          | some t =>
            match rleEncodeLoop mem fuel (i + rep_count) with
            | none => none
            | some bytes =>
              some (putU16 (rep_count % 65536) ++ putU16 (encodeWord_repeat t) ++ bytes)
        else
          match countLiteral mem i 256 0 with
          | none => none
          | some pix_count =>
            let token := (0xFFFF ^^^ GBCOLOR32.toU32 ((pix_count : Int) - 1)) % 65536
            let pix_count := (token ^^^ 0xFFFF) % 65536
            match literalPixels mem i (pix_count + 1) with
            | none => none
            | some pixels =>
              match rleEncodeLoop mem fuel (i + (pix_count + 1)) with
              | none => none
              | some bytes => some (putU16 token ++ pixels ++ bytes)
    else some []

/-- `WriteFile`, lines 514-556: the RLE texture segment, the size field patched in
front of the records. `after` are the words behind the array `texture`. -/
def writeTexture_rle (texture after : List Nat) : Option (List Nat) :=
  match rleEncodeLoop (texture ++ after) 16384 0 with
  | none => none
  | some records => some (putU32 (u32 records.length) ++ records)

/-- `WriteFile`: geometry, animation and texture segment. -/
def WriteFile (self : Icon) (after : List Nat) : Option (List Nat) :=
  if self.header.texture_type ≤ 0x07 then
    some (WriteFile_geometry self ++ writeTexture_uncompressed self.texture)
  else
    match writeTexture_rle self.texture after with
    | none => none
    | some bytes => some (WriteFile_geometry self ++ bytes)

/-- `ReadFile`, lines 133-142: `count` words of an uncompressed texture. -/
def readTexture_uncompressed : Nat → List Nat → Option (List Nat × List Nat)
  | 0, s => some ([], s)
  | count + 1, s =>
    match readU16 s with
    | none => none
    | some (c, s) =>
      match readTexture_uncompressed count s with
      | none => none
      | some (ts, s) => some (decodeWord_uncompressed c :: ts, s)

/-- Lines 170-180: `count` words of a literal record. -/
def readLiteral : Nat → List Nat → Option (List Nat × List Nat)
  | 0, s => some ([], s)
  | count + 1, s =>
    match readU16 s with
    | none => none
    | some (c, s) =>
      match readLiteral count s with
      | none => none
      | some (ts, s) => some (decodeWord_literal c :: ts, s)

/-- Lines 153-182: the loop `while(fin.tellg() < static_cast<int>(limit))` of the RLE
reader. `pos` is the stream position, `s` the bytes from there on; the result is the
list of the entries written to `texture[0], texture[1], ...` in order (the code does
not compare the index with 16384), and the rest of the stream. The first argument
bounds the number of records. -/
def rleDecodeLoop (limit : Int) : Nat → Nat → List Nat → Option (List Nat × List Nat)
  | 0, pos, s => if (pos : Int) < limit then none else some ([], s)
  | fuel + 1, pos, s =>
    if (pos : Int) < limit then
      match readU16 s with
      | none => none
      | some (rep_count, s1) =>
        if rep_count < 0xFF00 then
          match readU16 s1 with
          | none => none
          | some (c, s2) =>
            match rleDecodeLoop limit fuel (pos + 4) s2 with
            | none => none
            | some (ts, rest) => some (List.replicate rep_count (decodeWord_repeat c) ++ ts, rest)
        else
          match readLiteral ((0xFFFF ^^^ rep_count) + 1) s1 with
          | none => none
          | some (lit, s2) =>
            match rleDecodeLoop limit fuel (pos + 2 + 2 * ((0xFFFF ^^^ rep_count) + 1)) s2 with
            | none => none
            | some (ts, rest) => some (lit ++ ts, rest)
    else some ([], s)

/-- Lines 130-185: the texture segment and the final test of the stream; `pos` is the
stream position at the start of the segment. In the uncompressed branch a read that
runs short ends in `GB_FAILED` "File read error" (lines 184-185). -/
def readTexture (texture_type : Nat) (pos : Nat) (s : List Nat) : ReadOutcome (List Nat) :=
  if texture_type ≤ 0x07 then
    match readTexture_uncompressed 16384 s with
    | none => .gbFailed "File read error"
    | some (ts, _) => .ok ts
  else
    match readU32 s with
    | none => .streamFailed
    | some (data_size, s1) =>
      let limit := u32 (u32 (pos + 4) + data_size)
      if limit > 2147483647 then
        .gbFailed "File size is bigger than INT_MAX"
      else
        match rleDecodeLoop (toInt32 limit) s1.length (pos + 4) s1 with
        | none => .streamFailed
        | some (ts, _) => .ok ts

/-- `PS2Icon::ReadFile` (lines 76-187) on the bytes of a file. The `texture` of the
result lists the entries the texture loops wrote, in order. -/
def ReadFile (bytes : List Nat) : ReadOutcome Icon :=
  match ReadFile_geometry bytes with
  | .streamFailed => .streamFailed
  | .gbFailed msg => .gbFailed msg
  | .ok (g, s) =>
    match readTexture g.header.texture_type (bytes.length - s.length) s with
    | .streamFailed => .streamFailed
    | .gbFailed msg => .gbFailed msg
    | .ok texture =>
      .ok { header := g.header, vertices := g.vertices, normals := g.normals,
            vert_texture := g.vert_texture, fvertices := floatCoords g.vertices,
            fnormals := floatCoords g.normals, anim_header := g.anim_header,
            animation := g.animation, anim_keys := g.anim_keys, texture := texture }

end PS2Icon

namespace PS2Icon

/-- An icon with three vertices in two shapes and two frames, the second without keys. -/
def exampleAnimatedIcon : Icon :=
  { header := { file_id := 0x010000, animation_shapes := 2, texture_type := 0x07,
                reserved := 0x3F800000, n_vertices := 3 }
    vertices := [⟨0, 0, 0, 0⟩, ⟨1, 2, 3, 4⟩, ⟨4096, 0, 0, 0⟩, ⟨-4096, 5, -6, 7⟩,
                 ⟨0, 4096, 0, 0⟩, ⟨-32768, 32767, -1, 1⟩]
    normals := [⟨0, 0, 4096, 0⟩, ⟨0, 0, 4096, 0⟩, ⟨0, 0, -4096, 0⟩]
    vert_texture := [⟨0, 0, 0xFFFFFFFF⟩, ⟨4096, 0, 0x80808080⟩, ⟨0, 4096, 0⟩]
    fvertices := []
    fnormals := []
    anim_header := { id_tag := 1, frame_length := 31, anim_speed := 0x3F800000,
                     play_offset := 0, n_frames := 2 }
    animation := [⟨0, 2⟩, ⟨1, 0⟩]
    anim_keys := [[⟨0, 0x3F800000⟩, ⟨0x3F800000, 0⟩], []]
    texture := List.replicate 16384 0 }

end PS2Icon

namespace PS2Icon

/-- A header with a vertex count that is not a multiple of 3. -/
def exampleBadHeader : Icon_Header :=
  { file_id := 0, animation_shapes := 1, texture_type := 0x07, reserved := 0, n_vertices := 4 }

end PS2Icon

namespace PS2Icon

/-- The texture entries of the statement of the codec round trip: alpha `0xFF` and each
colour channel a multiple of 8, that is, the decodings of the 5-5-5 pixel words. -/
def validPixel (t : Nat) : Prop :=
  t / 16777216 = 255 ∧ t / 65536 % 256 % 8 = 0 ∧ t / 256 % 256 % 8 = 0 ∧ t % 256 % 8 = 0

instance (t : Nat) : Decidable (validPixel t) := by unfold validPixel; infer_instance

/-- The 5-5-5 pixel word of a texture entry in arithmetic form: red in bits 0-4, green
in bits 5-9, blue in bits 10-14. -/
def pixelWord (t : Nat) : Nat :=
  t / 65536 % 256 / 8 + t / 256 % 256 / 8 * 32 + t % 256 / 8 * 1024

end PS2Icon

namespace PS2Icon

/-- `PS2Icon::SetGeometry(float const* pverts, float const* pnormals,
float const* ptexture, int n_vertices)` (lines 262-314). The header receives
`n_vertices` converted to `unsigned int`. The first two `memcpy` calls fill `fvertices`
and `fnormals`; the third writes the bytes of `ptexture` into `vert_texture`, every
entry of which the loop then overwrites from `tmptexture`, an array the function
allocates and never fills: its content is the parameter `tmptexture`. For a negative
`n_vertices` the sizes passed to `memcpy` wrap around; the lists are empty then. -/
def SetGeometry_raw (self : Icon) (pverts pnormals _ptexture tmptexture : List ℚ)
    (n_vertices : Int) : Icon :=
  let fvertices := (List.range (3 * n_vertices).toNat).map (fun i => pverts.getD i 0)
  let fnormals := (List.range (3 * n_vertices).toNat).map (fun i => pnormals.getD i 0)
  let idx := List.range n_vertices.toNat
  { header :=
      { self.header with
        file_id := 0x010000, reserved := 0x3F800000, animation_shapes := 1,
        n_vertices := GBCOLOR32.toU32 n_vertices }
    vertices := idx.map (fun i =>
      { f16_x := convert_f32_to_f16 (fvertices.getD (i * 3) 0),
        f16_y := convert_f32_to_f16 (fvertices.getD (i * 3 + 1) 0),
        f16_z := convert_f32_to_f16 (fvertices.getD (i * 3 + 2) 0),
        f16_unknown := 0 })
    normals := idx.map (fun i =>
      { f16_x := convert_f32_to_f16 (fnormals.getD (i * 3) 0),
        f16_y := convert_f32_to_f16 (fnormals.getD (i * 3 + 1) 0),
        f16_z := convert_f32_to_f16 (fnormals.getD (i * 3 + 2) 0),
        f16_unknown := 0 })
    vert_texture := idx.map (fun i =>
      { f16_u := convert_f32_to_f16 (tmptexture.getD (i * 2) 0),
        f16_v := convert_f32_to_f16 (tmptexture.getD (i * 2 + 1) 0),
        color := 0xFFFFFFFF })
    fvertices := fvertices
    fnormals := fnormals
    anim_header := { self.anim_header with n_frames := 1 }
    animation := [{ shape_id := 0, n_keys := 1 }]
    anim_keys := [[{ time := floatBits_zero, value := floatBits_one }]]
    texture := self.texture }

/-- `PS2Icon::SetTextureData(unsigned int const* data)` (lines 316-320): the 16384
entries of `texture` are copied from `data`. -/
def SetTextureData (self : Icon) (data : List Nat) : Icon :=
  { self with texture := (List.range 16384).map (fun i => data.getD i 0) }

/-- An icon without vertices and frames whose header asks for the RLE texture. -/
def exampleRleIcon : Icon :=
  { PS2Icon_default with
    header := { file_id := 0x010000, animation_shapes := 1, texture_type := 0x0F,
                reserved := 0x3F800000, n_vertices := 0 } }

end PS2Icon

/-! ## Mesh accessors and the mesh text writer (`src/obj_loader.cpp`) -/

namespace OBJ_Mesh

/-- The element that `&v[i]` addresses for an `int` index `i`: `none` when the address
lies outside the vector. -/
def addressOf {α : Type} (v : List α) (i : Int) : Option α :=
  if i < 0 then none else v[i.toNat]?

/-- `OBJ_Mesh::GetVertexX` (lines 316-321): the only test is
`index >= static_cast<int>(m_geometry.size() / 3)`. -/
def GetVertexX (m : OBJ_Mesh) (index : Int) : Except gbException (Option ℚ) :=
  if index ≥ ((m.m_geometry.length / 3 : Nat) : Int) then .error .GB_ILLEGALPARAMETER
  else .ok (addressOf m.m_geometry (index * 3))

/-- `OBJ_Mesh::GetVertexY` (lines 322-327). -/
def GetVertexY (m : OBJ_Mesh) (index : Int) : Except gbException (Option ℚ) :=
  if index ≥ ((m.m_geometry.length / 3 : Nat) : Int) then .error .GB_ILLEGALPARAMETER
  else .ok (addressOf m.m_geometry (index * 3 + 1))

/-- `OBJ_Mesh::GetVertexZ` (lines 328-333). -/
def GetVertexZ (m : OBJ_Mesh) (index : Int) : Except gbException (Option ℚ) :=
  if index ≥ ((m.m_geometry.length / 3 : Nat) : Int) then .error .GB_ILLEGALPARAMETER
  else .ok (addressOf m.m_geometry (index * 3 + 2))

/-- `OBJ_Mesh::GetNormalX` (lines 334-339). -/
def GetNormalX (m : OBJ_Mesh) (index : Int) : Except gbException (Option ℚ) :=
  if index ≥ ((m.m_normals.length / 3 : Nat) : Int) then .error .GB_ILLEGALPARAMETER
  else .ok (addressOf m.m_normals (index * 3))

/-- `OBJ_Mesh::GetNormalY` (lines 340-345). -/
def GetNormalY (m : OBJ_Mesh) (index : Int) : Except gbException (Option ℚ) :=
  if index ≥ ((m.m_normals.length / 3 : Nat) : Int) then .error .GB_ILLEGALPARAMETER
  else .ok (addressOf m.m_normals (index * 3 + 1))

/-- `OBJ_Mesh::GetNormalZ` (lines 346-351). -/
def GetNormalZ (m : OBJ_Mesh) (index : Int) : Except gbException (Option ℚ) :=
  if index ≥ ((m.m_normals.length / 3 : Nat) : Int) then .error .GB_ILLEGALPARAMETER
  else .ok (addressOf m.m_normals (index * 3 + 2))

/-- `OBJ_Mesh::GetTextureX` (lines 352-357). -/
def GetTextureX (m : OBJ_Mesh) (index : Int) : Except gbException (Option ℚ) :=
  if index ≥ ((m.m_texcoords.length / 3 : Nat) : Int) then .error .GB_ILLEGALPARAMETER
  else .ok (addressOf m.m_texcoords (index * 3))

/-- `OBJ_Mesh::GetTextureY` (lines 358-363). -/
def GetTextureY (m : OBJ_Mesh) (index : Int) : Except gbException (Option ℚ) :=
  if index ≥ ((m.m_texcoords.length / 3 : Nat) : Int) then .error .GB_ILLEGALPARAMETER
  else .ok (addressOf m.m_texcoords (index * 3 + 1))

/-- `OBJ_Mesh::GetTextureZ` (lines 364-369). -/
def GetTextureZ (m : OBJ_Mesh) (index : Int) : Except gbException (Option ℚ) :=
  if index ≥ ((m.m_texcoords.length / 3 : Nat) : Int) then .error .GB_ILLEGALPARAMETER
  else .ok (addressOf m.m_texcoords (index * 3 + 2))

/-- `OBJ_Mesh::GetFace` (lines 370-375). -/
def GetFace (m : OBJ_Mesh) (index : Int) : Except gbException (Option Face) :=
  if index ≥ ((m.m_faces.length : Nat) : Int) then .error .GB_ILLEGALPARAMETER
  else .ok (addressOf m.m_faces index)

end OBJ_Mesh

namespace OBJ_FileLoader

/-- What a call of `ReadFile` leaves behind: the exception raised, if any, the mesh
list of the loader and the lines of the stream that `std::getline` has not taken. -/
structure ReadEffect where
  raised : Option gbException
  m_MeshList : List OBJ_Mesh
  unread : List Line
deriving DecidableEq, Repr

/-- `OBJ_FileLoader::ReadFile` (lines 122-233) with its effect on the loader and on the
stream: the test of the mesh list comes before the first `std::getline`; otherwise the
loop takes every line. -/
def ReadFile_effect (m_MeshList : List OBJ_Mesh) (group_name : String) (lines : List Line) :
    ReadEffect :=
  if m_MeshList.length > 0 then
    { raised := some (.GB_INVALIDCONTEXT "The mesh list is not empty")
      m_MeshList := m_MeshList
      unread := lines }
  else
    { raised := none
      m_MeshList := finish (lines.foldl readLine (initialState group_name))
      unread := [] }

/-- `isspace` of the "C" locale: blank, tab, line feed, vertical tab, form feed and
carriage return. -/
def isspace (c : Char) : Bool := c.toNat = 32 || (9 ≤ c.toNat && c.toNat ≤ 13)

/-- What `sscanf(buffer, "g %s", group_name)` stores for a line that consists of the
letter `g` and then `text`: white space is skipped, the characters up to the next white
space are the name; nothing is stored (and the result of `sscanf` is not positive)
when no character is left. -/
def scanGroupName (text : String) : Option String :=
  let tok := (text.data.dropWhile isspace).takeWhile (fun c => !isspace c)
  if tok = [] then none else some (String.mk tok)

/-- The nine numbers `WriteFile` prints for a face (lines 102-110): every index plus
the base of its attribute plus 1. -/
def faceRef (vert_base texture_base normal_base : Int) (f : Face) : FaceRef :=
  { vert1 := f.vert1 + vert_base + 1
    texture1 := f.texture1 + texture_base + 1
    normal1 := f.normal1 + normal_base + 1
    vert2 := f.vert2 + vert_base + 1
    texture2 := f.texture2 + texture_base + 1
    normal2 := f.normal2 + normal_base + 1
    vert3 := f.vert3 + vert_base + 1
    texture3 := f.texture3 + texture_base + 1
    normal3 := f.normal3 + normal_base + 1 }

/-- The face loop of `WriteFile` (lines 96-111): an `s` line precedes a face whose
smoothing group differs from `current_smooth_group`. -/
def faceLines (vert_base texture_base normal_base : Int) : Int → List Face → List Line
  | _, [] => []
  | current_smooth_group, f :: fs =>
    if f.smoothing_group ≠ current_smooth_group then
      Line.s f.smoothing_group :: Line.f (faceRef vert_base texture_base normal_base f) ::
        faceLines vert_base texture_base normal_base f.smoothing_group fs
    else
      Line.f (faceRef vert_base texture_base normal_base f) ::
        faceLines vert_base texture_base normal_base current_smooth_group fs

/-- The lines up to the face list that `WriteFile` writes for one mesh (lines 67-90):
two comment lines, then for each attribute its entries, a comment line and an empty
line. `reread x` is the number `sscanf` reads from the text that `operator<<` writes
for `x` with six decimals. The accessors cannot fail for `j` below the count. -/
def dataLines (reread : ℚ → ℚ) (m : OBJ_Mesh) : List Line :=
  [Line.comment, Line.comment] ++
  (List.range m.GetNVertices.toNat).map (fun j =>
    Line.v (reread (m.m_geometry.getD (j * 3) 0)) (reread (m.m_geometry.getD (j * 3 + 1) 0))
      (reread (m.m_geometry.getD (j * 3 + 2) 0))) ++
  [Line.comment, Line.other] ++
  (List.range m.GetNTexture.toNat).map (fun j =>
    Line.vt (reread (m.m_texcoords.getD (j * 3) 0)) (reread (m.m_texcoords.getD (j * 3 + 1) 0))
      (reread (m.m_texcoords.getD (j * 3 + 2) 0))) ++
  [Line.comment, Line.other] ++
  (List.range m.GetNNormals.toNat).map (fun j =>
    Line.vn (reread (m.m_normals.getD (j * 3) 0)) (reread (m.m_normals.getD (j * 3 + 1) 0))
      (reread (m.m_normals.getD (j * 3 + 2) 0))) ++
  [Line.comment, Line.other]

/-- The lines `WriteFile` writes for one mesh whose first face is `first` (lines
67-118), as `ReadFile` classifies them: the data lines, the line `g NAME`, the line
`s N`, the face lines, a comment line, an empty line and the line `g`. An `f` or `s`
line stands for the integers that `operator<<` writes and `sscanf` reads back; the
name is taken to hold no line break. -/
def meshLines (reread : ℚ → ℚ) (vert_base texture_base normal_base : Int) (m : OBJ_Mesh)
    (first : Face) : List Line :=
  dataLines reread m ++
  [Line.g (scanGroupName (" " ++ m.m_name)), Line.s first.smoothing_group] ++
  faceLines vert_base texture_base normal_base first.smoothing_group m.m_faces ++
  [Line.comment, Line.other, Line.g (scanGroupName "")]

/-- The loop over the meshes of `WriteFile` (lines 64-119); the bases are the numbers
of entries written for the meshes before. `GetFace(0)` raises `GB_ILLEGALPARAMETER`
for a mesh without faces. -/
def writeMeshes (reread : ℚ → ℚ) : Int → Int → Int → List OBJ_Mesh →
    Except gbException (List Line)
  | _, _, _, [] => .ok []
  | vert_base, texture_base, normal_base, m :: ms =>
    match m.m_faces with
    | [] => .error .GB_ILLEGALPARAMETER
    | first :: _ =>
      match writeMeshes reread (vert_base + m.GetNVertices) (texture_base + m.GetNTexture)
          (normal_base + m.GetNNormals) ms with
      | .error e => .error e
      | .ok ls => .ok (meshLines reread vert_base texture_base normal_base m first ++ ls)

/-- `OBJ_FileLoader::WriteFile` (lines 46-120): three comment lines, then the meshes. -/
def WriteFile (reread : ℚ → ℚ) (m_MeshList : List OBJ_Mesh) : Except gbException (List Line) :=
  match writeMeshes reread 0 0 0 m_MeshList with
  | .error e => .error e
  | .ok ls => .ok ([Line.comment, Line.comment, Line.comment] ++ ls)

/-- The mesh `ReadFile` builds from the lines written for `m`: the name and the faces
of `m`, and the coordinates read back from the data lines. -/
def rereadMesh (reread : ℚ → ℚ) (m : OBJ_Mesh) : OBJ_Mesh :=
  { m_name := m.m_name
    m_geometry := geometryOf (dataLines reread m)
    m_normals := normalsOf (dataLines reread m)
    m_texcoords := texcoordsOf (dataLines reread m)
    m_faces := m.m_faces }

/-- What the text round trip preserves: the name, the numbers of positions, texture
coordinates and normals, and the faces with all indices and smoothing groups. -/
def sameShape (m m' : OBJ_Mesh) : Prop :=
  m'.m_name = m.m_name ∧ m'.GetNVertices = m.GetNVertices ∧ m'.GetNTexture = m.GetNTexture ∧
    m'.GetNNormals = m.GetNNormals ∧ m'.m_faces = m.m_faces

instance (m m' : OBJ_Mesh) : Decidable (sameShape m m') := by
  unfold sameShape; infer_instance

/-- The meshes the statement of the text round trip is about: at least one face, every
index in range, and a name that is not empty, holds no white space and fits the
256-byte buffer of the reader. -/
def writable (m : OBJ_Mesh) : Prop :=
  m.m_faces ≠ [] ∧ validIndices m ∧ m.m_name ≠ "" ∧
    (∀ c ∈ m.m_name.data, isspace c = false) ∧ m.m_name.utf8ByteSize < 256

/-- State of `ReadFile` before the lines of a mesh when no group is pending: an empty
current mesh, the index bases equal to the counters. -/
def readyState (L : List OBJ_Mesh) (cv ct cn : Int) (gname : String) (sg : Int) : ReadState :=
  { m_MeshList := L
    mesh := { m_name := "", m_geometry := [], m_normals := [], m_texcoords := [], m_faces := [] }
    group_name := gname
    new_group_was_opened := false
    smoothing_group := sg
    vert_counter := cv, normal_counter := cn, texture_counter := ct
    vert_base := cv, normal_base := cn, texture_base := ct }

/-- State of `ReadFile` after the lines of the mesh `m'`, whose data started at the
counters `bv`, `bt`, `bn`: the mesh is the current mesh, still unnamed, and its group
is pending. -/
def writtenState (L : List OBJ_Mesh) (bv bt bn : Int) (m' : OBJ_Mesh) (sg : Int) : ReadState :=
  { m_MeshList := L
    mesh := m'.SetName ""
    group_name := m'.m_name
    new_group_was_opened := true
    smoothing_group := sg
    vert_counter := bv + m'.GetNVertices
    normal_counter := bn + m'.GetNNormals
    texture_counter := bt + m'.GetNTexture
    vert_base := bv, normal_base := bn, texture_base := bt }

/-- A second mesh for the examples: one triangle with its own three positions. -/
def exampleTriangle : OBJ_Mesh :=
  { m_name := "tri"
    m_geometry := [0, 0, 1, 1, 0, 1, 0, 1, 1]
    m_normals := [0, 0, 1]
    m_texcoords := [0, 0, 0]
    m_faces := [ { vert1 := 0, texture1 := 0, normal1 := 0, vert2 := 1, texture2 := 0,
                   normal2 := 0, vert3 := 2, texture3 := 0, normal3 := 0,
                   smoothing_group := 2 } ] }

end OBJ_FileLoader

/-! ## Raster readers (`gbLib/src/gbImageLoader.cpp`, `gbImageLoader_BMP.cpp`,
`gbImageLoader_TGA.cpp`)

The model follows the control flow of the two `ReadFile` functions: the headers, the
size of the pixel buffer, the dispatch on the format, the reads and the state of the
stream. The contents of the pixel buffer and of the palette are not part of it. -/

namespace GhulbusUtil

/-- A `std::ifstream` as far as the readers use it: the bytes of the file, the read
position and the fail state. -/
structure FileStream where
  bytes : List Nat
  pos : Nat
  failed : Bool
deriving DecidableEq, Repr

namespace FileStream

/-- The stream right after the file was opened. -/
def ofBytes (bytes : List Nat) : FileStream := { bytes := bytes, pos := 0, failed := false }

/-- `file.seekg(p, std::ios::beg)`: without effect in the fail state; a position behind
the end of the file is accepted. -/
def seekg (f : FileStream) (p : Nat) : FileStream :=
  if f.failed then f else { f with pos := p }

/-- The bytes that `file.read(buffer, n)` stores at the start of `buffer`: none in the
fail state, otherwise the bytes that are left, at most `n`. -/
def stored (f : FileStream) (n : Nat) : List Nat :=
  if f.failed then [] else (f.bytes.drop f.pos).take n

/-- The stream after `file.read(buffer, n)`: when fewer than `n` bytes are left the
stream enters the fail state; a read of no bytes never fails. -/
def read (f : FileStream) (n : Nat) : FileStream :=
  if f.failed then f
  else if f.pos + n ≤ f.bytes.length then { f with pos := f.pos + n }
  else if n = 0 then f
  else { f with pos := f.bytes.length, failed := true }

end FileStream

/-- The bytes of a buffer of `n` bytes after a read that stored `stored` at its start;
`prior` is what the buffer held before (for a local variable, whatever the stack
held). -/
def overlay (stored prior : List Nat) (n : Nat) : List Nat :=
  (List.range n).map (fun i => if i < stored.length then stored.getD i 0 else prior.getD i 0)

/-- How a `ReadFile` ends when it does not return: with a `gbException`, with
`std::bad_alloc` from `new[]` called with a negative size, or with undefined behaviour
(an `int` product out of range, or a read that runs past its buffer). -/
inductive Failure where
  | raised (e : gbException)
  | bad_alloc
  | undefined
deriving DecidableEq, Repr

/-- The members of `gbImageLoader` that the constructor receives from `ReadFile`
through the out-parameters: width, height, bits per pixel, and whether `m_palette`
is non-null. -/
structure gbImageLoader where
  m_width : Int
  m_height : Int
  m_bpp : Int
  m_palette : Bool
deriving DecidableEq, Repr

/-- `gbImageLoader::GetBpp`. -/
def gbImageLoader.GetBpp (l : gbImageLoader) : Int := l.m_bpp

/-- `gbImageLoader::HasPalette`: `m_palette != NULL`. -/
def gbImageLoader.HasPalette (l : gbImageLoader) : Bool := l.m_palette

/-- `struct BITMAPFILEHEADER` (packed, 14 bytes). -/
structure BITMAPFILEHEADER where
  bfType : Nat
  bfSize : Nat
  bfReserved1 : Nat
  bfReserved2 : Nat
  bfOffBits : Nat
deriving DecidableEq, Repr

/-- `struct BITMAPINFOHEADER` (40 bytes). -/
structure BITMAPINFOHEADER where
  biSize : Nat
  biWidth : Int
  biHeight : Int
  biPlanes : Nat
  biBitCount : Nat
  biCompression : Nat
  biSizeImage : Nat
  biXPelsPerMeter : Int
  biYPelsPerMeter : Int
  biClrUsed : Nat
  biClrImportant : Nat
deriving DecidableEq, Repr

/-- The 16-bit value at offset `o` of a buffer (little-endian). -/
def u16At (mem : List Nat) (o : Nat) : Nat := PS2Icon.getU16 (mem.getD o 0) (mem.getD (o + 1) 0)

/-- The 32-bit unsigned value at offset `o` of a buffer. -/
def u32At (mem : List Nat) (o : Nat) : Nat :=
  PS2Icon.getU32 (mem.getD o 0) (mem.getD (o + 1) 0) (mem.getD (o + 2) 0) (mem.getD (o + 3) 0)

/-- The 32-bit `int` at offset `o` of a buffer. -/
def s32At (mem : List Nat) (o : Nat) : Int := toInt32 (u32At mem o)

/-- The `BITMAPFILEHEADER` held by 14 bytes of memory. -/
def BITMAPFILEHEADER.ofMemory (mem : List Nat) : BITMAPFILEHEADER :=
  { bfType := u16At mem 0, bfSize := u32At mem 2, bfReserved1 := u16At mem 6,
    bfReserved2 := u16At mem 8, bfOffBits := u32At mem 10 }

/-- The `BITMAPINFOHEADER` held by 40 bytes of memory. -/
def BITMAPINFOHEADER.ofMemory (mem : List Nat) : BITMAPINFOHEADER :=
  { biSize := u32At mem 0, biWidth := s32At mem 4, biHeight := s32At mem 8,
    biPlanes := u16At mem 12, biBitCount := u16At mem 14, biCompression := u32At mem 16,
    biSizeImage := u32At mem 20, biXPelsPerMeter := s32At mem 24,
    biYPelsPerMeter := s32At mem 28, biClrUsed := u32At mem 32, biClrImportant := u32At mem 36 }

/-- `file.seekg(file_offset + fheader.bfOffBits)`: the sum is `unsigned int`. -/
def seekToBits (file : FileStream) (fheader : BITMAPFILEHEADER) (file_offset : Nat) :
    FileStream :=
  file.seekg ((file_offset + fheader.bfOffBits) % 4294967296)

/-- `ReadData1Bit` (lines 81-106): for compression 0 a palette of 2 entries is
allocated and read, then `(width*height)>>3` bytes of pixels; the result tells that
the palette is non-null. -/
def ReadData1Bit (file : FileStream) (iheader : BITMAPINFOHEADER) (fheader : BITMAPFILEHEADER)
    (file_offset : Nat) : Except Failure (Bool × FileStream) :=
  if iheader.biCompression = 0 then
    let file := file.read 8
    let file := seekToBits file fheader file_offset
    .ok (true, file.read ((iheader.biWidth * iheader.biHeight) >>> 3).toNat)
  else .error (.raised .GB_NOTIMPLEMENTED)

/-- `ReadData4Bit` (lines 110-129): palette of 16 entries, `(width*height)>>1` bytes. -/
def ReadData4Bit (file : FileStream) (iheader : BITMAPINFOHEADER) (fheader : BITMAPFILEHEADER)
    (file_offset : Nat) : Except Failure (Bool × FileStream) :=
  if iheader.biCompression = 0 then
    let file := file.read 64
    let file := seekToBits file fheader file_offset
    .ok (true, file.read ((iheader.biWidth * iheader.biHeight) >>> 1).toNat)
  else .error (.raised .GB_NOTIMPLEMENTED)

/-- `ReadData8Bit` (lines 133-147): palette of 256 entries, `width*height` bytes. -/
def ReadData8Bit (file : FileStream) (iheader : BITMAPINFOHEADER) (fheader : BITMAPFILEHEADER)
    (file_offset : Nat) : Except Failure (Bool × FileStream) :=
  if iheader.biCompression = 0 then
    let file := file.read 1024
    let file := seekToBits file fheader file_offset
    .ok (true, file.read (iheader.biWidth * iheader.biHeight).toNat)
  else .error (.raised .GB_NOTIMPLEMENTED)

/-- `ReadData16Bit` (lines 151-155). -/
def ReadData16Bit (_file : FileStream) (_iheader : BITMAPINFOHEADER)
    (_fheader : BITMAPFILEHEADER) (_file_offset : Nat) : Except Failure (Bool × FileStream) :=
  .error (.raised .GB_NOTIMPLEMENTED)

/-- `ReadData24Bit` (lines 159-172): for compression 0 the function reads
`width*height*4` bytes into the buffer `data`, which `ReadFile` allocated with
`width*height*3` bytes (`capacity`); a read that stores more bytes than the buffer
holds is undefined. No palette. -/
def ReadData24Bit (file : FileStream) (iheader : BITMAPINFOHEADER) (fheader : BITMAPFILEHEADER)
    (file_offset : Nat) (capacity : Int) : Except Failure (Bool × FileStream) :=
  if iheader.biCompression = 0 then
    let file := seekToBits file fheader file_offset
    let n := iheader.biWidth * iheader.biHeight * 4
    if n > 2147483647 then .error .undefined
    else if (((file.stored n.toNat).length : Nat) : Int) > capacity then .error .undefined
    else .ok (false, file.read n.toNat)
  else .error (.raised .GB_NOTIMPLEMENTED)

/-- `ReadData32Bit` (lines 176-207): for compression 3 the three colour masks are read
first; then `width*height*4` bytes of pixels. No palette. -/
def ReadData32Bit (file : FileStream) (iheader : BITMAPINFOHEADER) (fheader : BITMAPFILEHEADER)
    (file_offset : Nat) : Except Failure (Bool × FileStream) :=
  if iheader.biCompression = 0 ∨ iheader.biCompression = 3 then
    let file := if iheader.biCompression = 0 then file else file.read 12
    let file := seekToBits file fheader file_offset
    .ok (false, file.read (iheader.biWidth * iheader.biHeight * 4).toNat)
  else .error (.raised .GB_NOTIMPLEMENTED)

namespace gbImageType_BMP_T

/-- Lines 229-233 of `ReadFile`: the two headers after the two reads, and the stream.
`m_file_offset` is 0 (the constructor sets it and nothing changes it). `prior` is what
the 54 bytes of the two local variables held before. -/
def headers (bytes prior : List Nat) : BITMAPFILEHEADER × BITMAPINFOHEADER × FileStream :=
  let file := (FileStream.ofBytes bytes).seekg 0
  let fheader := BITMAPFILEHEADER.ofMemory (overlay (file.stored 14) (prior.take 14) 14)
  let file := file.read 14
  let iheader := BITMAPINFOHEADER.ofMemory (overlay (file.stored 40) (prior.drop 14) 40)
  (fheader, iheader, file.read 40)

/-- The number of bytes `ReadFile` allocates for `data` (line 240). -/
def capacity (iheader : BITMAPINFOHEADER) : Int :=
  iheader.biWidth * iheader.biHeight *
    (if iheader.biBitCount ≥ 8 then ((iheader.biBitCount >>> 3 : Nat) : Int) else 1)

/-- The `switch(iheader.biBitCount)` of `ReadFile` (lines 243-266). -/
def dispatch (file : FileStream) (iheader : BITMAPINFOHEADER) (fheader : BITMAPFILEHEADER) :
    Except Failure (Bool × FileStream) :=
  if iheader.biBitCount = 1 then ReadData1Bit file iheader fheader 0
  else if iheader.biBitCount = 4 then ReadData4Bit file iheader fheader 0
  else if iheader.biBitCount = 8 then ReadData8Bit file iheader fheader 0
  else if iheader.biBitCount = 16 then ReadData16Bit file iheader fheader 0
  else if iheader.biBitCount = 24 then ReadData24Bit file iheader fheader 0 (capacity iheader)
  else if iheader.biBitCount = 32 then ReadData32Bit file iheader fheader 0
  else .error (.raised (.GB_FAILED "Illegal bit depth in BMP image file"))

/-- `gbImageType_BMP_T::ReadFile` (lines 226-280) on the bytes of a file. The state of
the stream is never tested. The result holds the values stored through the
out-parameters and the stream as the function leaves it. -/
def ReadFile (bytes prior : List Nat) : Except Failure (gbImageLoader × FileStream) :=
  let fheader := (headers bytes prior).1
  let iheader := (headers bytes prior).2.1
  let file := (headers bytes prior).2.2
  if iheader.biClrUsed ≠ 0 ∨ iheader.biHeight < 0 then .error (.raised .GB_NOTIMPLEMENTED)
  else if capacity iheader > 2147483647 ∨ capacity iheader < -2147483648 then .error .undefined
  else if capacity iheader < 0 then .error .bad_alloc
  else
    match dispatch file iheader fheader with
    | .error e => .error e
    | .ok (palette, file) =>
      .ok ({ m_width := iheader.biWidth, m_height := iheader.biHeight,
             m_bpp := iheader.biBitCount, m_palette := palette }, file)

end gbImageType_BMP_T

/-- `struct TGAHEADER` (18 bytes); `ColorMapSpec` is left out. -/
structure TGAHEADER where
  nCharIDField : Nat
  ColorMapType : Nat
  ImageTypeCode : Nat
  XOrigin : Nat
  YOrigin : Nat
  Width : Nat
  Height : Nat
  ImagePixelSize : Nat
  ImageDescByte : Nat
deriving DecidableEq, Repr

/-- The `TGAHEADER` held by 18 bytes of memory. -/
def TGAHEADER.ofMemory (mem : List Nat) : TGAHEADER :=
  { nCharIDField := mem.getD 0 0, ColorMapType := mem.getD 1 0, ImageTypeCode := mem.getD 2 0,
    XOrigin := u16At mem 8, YOrigin := u16At mem 10, Width := u16At mem 12,
    Height := u16At mem 14, ImagePixelSize := mem.getD 16 0, ImageDescByte := mem.getD 17 0 }

/-- `ReadUnmappedRBG` (lines 57-63): the stream after the seek behind the header and
the ID field and the read of `(Width*Height*ImagePixelSize) / 8` bytes. -/
def ReadUnmappedRBG (file : FileStream) (header : TGAHEADER) (file_offset : Nat) : FileStream :=
  (file.seekg (file_offset + 18 + header.nCharIDField)).read
    ((header.Width * header.Height * header.ImagePixelSize) / 8)

namespace gbImageType_TGA_T

/-- Lines 84-86 of `ReadFile`: the header after the read, and the stream. `prior` is
what the 18 bytes of the local variable held before. -/
def header (bytes prior : List Nat) : TGAHEADER × FileStream :=
  let file := (FileStream.ofBytes bytes).seekg 0
  (TGAHEADER.ofMemory (overlay (file.stored 18) prior 18), file.read 18)

/-- `gbImageType_TGA_T::ReadFile` (lines 81-113). The size of the pixel buffer is the
`int` product `Width*Height*ImagePixelSize`. The state of the stream is tested once,
after the dispatch on the image type. No palette. -/
def ReadFile (bytes prior : List Nat) : Except Failure (gbImageLoader × FileStream) :=
  let hdr := (header bytes prior).1
  let file := (header bytes prior).2
  if hdr.Width * hdr.Height > 2147483647 ∨
      hdr.Width * hdr.Height * hdr.ImagePixelSize > 2147483647 then .error .undefined
  else if hdr.ImageTypeCode = 2 then
    let file := ReadUnmappedRBG file hdr 0
    if file.failed then
      .error (.raised (.GB_FAILED "Error while reading TGA image file"))
    else
      .ok ({ m_width := hdr.Width, m_height := hdr.Height, m_bpp := hdr.ImagePixelSize,
             m_palette := false }, file)
  else .error (.raised .GB_NOTIMPLEMENTED)

end gbImageType_TGA_T

/-- The 54 header bytes of a bitmap file for the examples. -/
def exampleBmpHeader (biWidth biHeight : Int) (biBitCount biCompression biClrUsed : Nat) :
    List Nat :=
  PS2Icon.putU16 0x4D42 ++ PS2Icon.putU32 0 ++ PS2Icon.putU16 0 ++ PS2Icon.putU16 0 ++
    PS2Icon.putU32 54 ++
  PS2Icon.putU32 40 ++ PS2Icon.putU32 (GBCOLOR32.toU32 biWidth) ++
    PS2Icon.putU32 (GBCOLOR32.toU32 biHeight) ++ PS2Icon.putU16 1 ++
    PS2Icon.putU16 biBitCount ++ PS2Icon.putU32 biCompression ++ PS2Icon.putU32 0 ++
    PS2Icon.putU32 0 ++ PS2Icon.putU32 0 ++ PS2Icon.putU32 biClrUsed ++ PS2Icon.putU32 0

/-- The 18 header bytes of a TGA file without ID field, for the examples. -/
def exampleTgaHeader (ImageTypeCode Width Height ImagePixelSize ImageDescByte : Nat) :
    List Nat :=
  [0, 0, ImageTypeCode, 0, 0, 0, 0, 0] ++ PS2Icon.putU16 0 ++ PS2Icon.putU16 0 ++
    PS2Icon.putU16 Width ++ PS2Icon.putU16 Height ++ [ImagePixelSize, ImageDescByte]

end GhulbusUtil

namespace OBJ_Mesh

end OBJ_Mesh

namespace PS2Icon

/-- An icon without vertices whose header announces `2^32 - 1` animation shapes and a
compressed texture: the state `ReadFile` builds from the 44 bytes of
`fileWideShapes`. -/
def iconWideShapes : Icon :=
  { exampleRleIcon with
    header := { file_id := 0x010000, animation_shapes := 4294967295, texture_type := 0x0F,
                reserved := 0x3F800000, n_vertices := 0 }
    texture := [] }

/-- The bytes of an icon file: the header of `iconWideShapes`, the animation header
without frames, and an RLE texture segment of declared size 0. -/
def fileWideShapes : List Nat := WriteFile_geometry iconWideShapes ++ putU32 0

/-- A file with the header and animation header of `exampleRleIcon` (no vertices, an
accepted header) whose RLE size field is `0x7FFFFFFF`. -/
def fileHugeRle : List Nat := WriteFile_geometry exampleRleIcon ++ [0xFF, 0xFF, 0xFF, 0x7F]

/-- An icon without vertices whose header announces an uncompressed texture. -/
def iconUncompressed : Icon :=
  { exampleRleIcon with
    header := { file_id := 0x010000, animation_shapes := 1, texture_type := 0x07,
                reserved := 0x3F800000, n_vertices := 0 } }

/-- A file with the complete header and animation header of `iconUncompressed`,
followed by a single texture word where 16384 are expected. -/
def fileShortTexture : List Nat := WriteFile_geometry iconUncompressed ++ putU16 0x001F

end PS2Icon

/-! ## Bitmap loader: pixel data (`gbLib/src/gbImageLoader_BMP.cpp`) -/

namespace GhulbusUtil

/-- The buffer `data` after `file.read(reinterpret_cast<char*>(data), n)`: the bytes
the stream stores replace the start of the buffer, the rest keeps what it held. -/
def readInto (file : FileStream) (n : Nat) (data : List Nat) : List Nat :=
  overlay (file.stored n) data data.length

/-- Body of the unpacking loop of `ReadData4Bit` (lines 121-122), for loop index `i`:
`data[i] = (data[i>>1] & 0xF); data[i-1] = (data[i>>1] & 0xF0) >> 4;`. -/
def unpack4BitBody (data : List Nat) (i : Nat) : List Nat :=
  let data := assignBit data i (i >>> 1) 0xF 0
  assignBit data (i - 1) (i >>> 1) 0xF0 4

/-- The loop `for(int i = width*height - 1; i > 0; i -= 2)` of `ReadData4Bit`. -/
def unpack4BitLoop (i : Int) (data : List Nat) : List Nat :=
  if 0 < i then unpack4BitLoop (i - 2) (unpack4BitBody data i.toNat) else data
termination_by i.toNat
decreasing_by omega

/-- The unpacking part of `ReadData4Bit`: `data` is the buffer of `width*height` bytes
right after `file.read` stored `(width*height)>>1` packed bytes at its start. -/
def ReadData4Bit_unpack (biWidth biHeight : Int) (data : List Nat) : List Nat :=
  unpack4BitLoop (biWidth * biHeight - 1) data

/-- The pixel buffer after `ReadData4Bit` (lines 110-129); `data` is what the buffer
held when it was allocated. -/
def ReadData4Bit_data (file : FileStream) (iheader : BITMAPINFOHEADER)
    (fheader : BITMAPFILEHEADER) (file_offset : Nat) (data : List Nat) :
    Except Failure (List Nat) :=
  if iheader.biCompression = 0 then
    let file := file.read 64
    let file := seekToBits file fheader file_offset
    let data := readInto file ((iheader.biWidth * iheader.biHeight) >>> 1).toNat data
    .ok (ReadData4Bit_unpack iheader.biWidth iheader.biHeight data)
  else .error (.raised .GB_NOTIMPLEMENTED)

/-- One channel of the colour-mask expression of `ReadData32Bit` (lines 199-201):
`((tmp & mask) / ((mask>>8)+1)) & 0xff`. For 32-bit operands no intermediate value
leaves the range of `unsigned int`. -/
def maskChannel (tmp mask : Nat) : Nat :=
  ((tmp &&& mask) / ((mask >>> 8) + 1)) &&& 0xff

/-- The word that lines 199-201 of `ReadData32Bit` store for the pixel word `tmp`. -/
def applyColorMasks (tmp : Nat) (colormasks : List Nat) : Nat :=
  (maskChannel tmp (colormasks.getD 0 0) <<< 16) |||
  (maskChannel tmp (colormasks.getD 1 0) <<< 8) |||
  maskChannel tmp (colormasks.getD 2 0)

/-- The store `*ptmp = w` through `ptmp = (unsigned int*)(&data[o])`, least significant
byte first. -/
def storeU32 (data : List Nat) (o w : Nat) : List Nat :=
  (((data.set o (w % 256)).set (o + 1) (w / 256 % 256)).set (o + 2) (w / 65536 % 256)).set
    (o + 3) (w / 16777216 % 256)

/-- The loop `for(int i=0; i<width*height; i++)` of `ReadData32Bit` (lines 196-202),
`n` being the number of iterations. -/
def colorMaskLoop (colormasks : List Nat) (n : Nat) (data : List Nat) : List Nat :=
  (List.range n).foldl
    (fun d i => storeU32 d (i * 4) (applyColorMasks (u32At d (i * 4)) colormasks)) data

/-- The three colour masks of `ReadData32Bit` (lines 184-191): fixed for compression 0,
otherwise read from the file into the local array, which held `prior_masks`. -/
def colorMasks (file : FileStream) (iheader : BITMAPINFOHEADER) (prior_masks : List Nat) :
    List Nat :=
  if iheader.biCompression = 0 then [0x00FF0000, 0x0000FF00, 0x000000FF]
  else
    let m := overlay (file.stored 12) prior_masks 12
    [u32At m 0, u32At m 4, u32At m 8]

/-- The pixel buffer after `ReadData32Bit` (lines 176-207); `data` is what the buffer
held when it was allocated. -/
def ReadData32Bit_data (file : FileStream) (iheader : BITMAPINFOHEADER)
    (fheader : BITMAPFILEHEADER) (file_offset : Nat) (prior_masks data : List Nat) :
    Except Failure (List Nat) :=
  if iheader.biCompression = 0 ∨ iheader.biCompression = 3 then
    let colormasks := colorMasks file iheader prior_masks
    let file := if iheader.biCompression = 0 then file else file.read 12
    let file := seekToBits file fheader file_offset
    let data := readInto file (iheader.biWidth * iheader.biHeight * 4).toNat data
    .ok (colorMaskLoop colormasks (iheader.biWidth * iheader.biHeight).toNat data)
  else .error (.raised .GB_NOTIMPLEMENTED)

end GhulbusUtil

namespace GhulbusUtil

/-- A 32-bit bitmap file of one pixel, for the examples. -/
def exampleBmp32 : List Nat := exampleBmpHeader 1 1 32 0 0 ++ [0x11, 0x22, 0x33, 0x44]

/-- A 4-bit bitmap file of 3 by 1 pixels whose first byte behind the headers is `0xAB`
(the headers give 54 as the offset of the pixel data), for the examples. -/
def exampleBmp4 : List Nat := exampleBmpHeader 3 1 4 0 0 ++ 0xAB :: List.replicate 63 0

end GhulbusUtil

/-! ## Raster images: pixel buffers, vertical flip, conversion and writer
(`gbLib/src/gbImageLoader.cpp`, `gbImageLoader_BMP.cpp`, `gbImageLoader_TGA.cpp`) -/

namespace GBCOLOR32

/-- `XRGB(GBCOLOR_COMPONENT r, g, b)`: `0xFF000000 | (r<<16) | (g<<8) | (b)`. -/
def XRGB (r g b : Nat) : Nat :=
  (0xFF000000 ||| (r <<< 16) ||| (g <<< 8) ||| b) % 4294967296

end GBCOLOR32

namespace GhulbusUtil

/-- The statement `data[a] ^= data[b] ^= data[a] ^= data[b];` of `FlipImageVertical`.
The compound assignments group from the right and the right operand of an assignment
is evaluated first: `data[a] ^= data[b]`, then `data[b] ^= data[a]`, then
`data[a] ^= data[b]`. -/
def xorSwap (data : List Nat) (a b : Nat) : List Nat :=
  let data := data.set a (data.getD a 0 ^^^ data.getD b 0)
  let data := data.set b (data.getD b 0 ^^^ data.getD a 0)
  data.set a (data.getD a 0 ^^^ data.getD b 0)

/-- The three nested loops of `FlipImageVertical` (the same in both decoders), for a
width, a height and `p` bytes per pixel. -/
def FlipImageVertical (width height p : Nat) (data : List Nat) : List Nat :=
  (List.range (height / 2)).foldl (fun data y =>
    (List.range width).foldl (fun data x =>
      (List.range p).foldl (fun data q =>
        xorSwap data ((y * width + x) * p + q) ((((height - 1) - y) * width + x) * p + q))
        data) data) data

/-- `FlipImageVertical(BITMAPINFOHEADER const&, unsigned char*)` (bitmap decoder, lines
60-73): `p = (biBitCount >= 8) ? (biBitCount >> 3) : 1`; a loop over a negative width or
height does not run. -/
def FlipImageVertical_BMP (iheader : BITMAPINFOHEADER) (data : List Nat) : List Nat :=
  FlipImageVertical iheader.biWidth.toNat iheader.biHeight.toNat
    (if iheader.biBitCount ≥ 8 then iheader.biBitCount >>> 3 else 1) data

/-- `FlipImageVertical(TGAHEADER const&, unsigned char*)` (TGA decoder, lines 40-53):
`p = ImagePixelSize >> 3`. -/
def FlipImageVertical_TGA (header : TGAHEADER) (data : List Nat) : List Nat :=
  FlipImageVertical header.Width header.Height (header.ImagePixelSize >>> 3) data

/-- The array `new unsigned char[n]`: `n` bytes that hold what the memory held. -/
def newBuffer (n : Nat) (junk : List Nat) : List Nat :=
  (List.range n).map (fun i => junk.getD i 0)

/-- The pixel buffer after `ReadData1Bit` (lines 81-106). -/
def ReadData1Bit_data (file : FileStream) (iheader : BITMAPINFOHEADER)
    (fheader : BITMAPFILEHEADER) (file_offset : Nat) (data : List Nat) :
    Except Failure (List Nat) :=
  if iheader.biCompression = 0 then
    let file := file.read 8
    let file := seekToBits file fheader file_offset
    let data := readInto file ((iheader.biWidth * iheader.biHeight) >>> 3).toNat data
    .ok (ReadData1Bit_unpack iheader.biWidth iheader.biHeight data)
  else .error (.raised .GB_NOTIMPLEMENTED)

/-- The pixel buffer after `ReadData8Bit` (lines 133-147). -/
def ReadData8Bit_data (file : FileStream) (iheader : BITMAPINFOHEADER)
    (fheader : BITMAPFILEHEADER) (file_offset : Nat) (data : List Nat) :
    Except Failure (List Nat) :=
  if iheader.biCompression = 0 then
    let file := file.read 1024
    let file := seekToBits file fheader file_offset
    .ok (readInto file (iheader.biWidth * iheader.biHeight).toNat data)
  else .error (.raised .GB_NOTIMPLEMENTED)

/-- The pixel buffer after `ReadData24Bit` (lines 159-172): `width*height*4` bytes are
read into the buffer; storing more bytes than the buffer holds is undefined. -/
def ReadData24Bit_data (file : FileStream) (iheader : BITMAPINFOHEADER)
    (fheader : BITMAPFILEHEADER) (file_offset : Nat) (data : List Nat) :
    Except Failure (List Nat) :=
  if iheader.biCompression = 0 then
    let file := seekToBits file fheader file_offset
    let n := iheader.biWidth * iheader.biHeight * 4
    if n > 2147483647 then .error .undefined
    else if (file.stored n.toNat).length > data.length then .error .undefined
    else .ok (readInto file n.toNat data)
  else .error (.raised .GB_NOTIMPLEMENTED)

namespace gbImageType_BMP_T

/-- The pixel buffer after the `switch(iheader.biBitCount)` of `ReadFile` (lines
243-266). -/
def dispatch_data (file : FileStream) (iheader : BITMAPINFOHEADER) (fheader : BITMAPFILEHEADER)
    (prior_masks data : List Nat) : Except Failure (List Nat) :=
  if iheader.biBitCount = 1 then ReadData1Bit_data file iheader fheader 0 data
  else if iheader.biBitCount = 4 then ReadData4Bit_data file iheader fheader 0 data
  else if iheader.biBitCount = 8 then ReadData8Bit_data file iheader fheader 0 data
  else if iheader.biBitCount = 16 then .error (.raised .GB_NOTIMPLEMENTED)
  else if iheader.biBitCount = 24 then ReadData24Bit_data file iheader fheader 0 data
  else if iheader.biBitCount = 32 then ReadData32Bit_data file iheader fheader 0 prior_masks data
  else .error (.raised (.GB_FAILED "Illegal bit depth in BMP image file"))

/-- The buffer that `gbImageType_BMP_T::ReadFile` (lines 226-280) stores through
`pp_data`: allocated with the size `capacity`, filled by the reader of the bit depth,
then flipped (line 273). `junk` is what the allocated memory held, `prior_masks` what
the local array of colour masks held. -/
def ReadFile_data (bytes prior prior_masks junk : List Nat) : Except Failure (List Nat) :=
  let fheader := (headers bytes prior).1
  let iheader := (headers bytes prior).2.1
  let file := (headers bytes prior).2.2
  if iheader.biClrUsed ≠ 0 ∨ iheader.biHeight < 0 then .error (.raised .GB_NOTIMPLEMENTED)
  else if capacity iheader > 2147483647 ∨ capacity iheader < -2147483648 then .error .undefined
  else if capacity iheader < 0 then .error .bad_alloc
  else
    match dispatch_data file iheader fheader prior_masks
        (newBuffer (capacity iheader).toNat junk) with
    | .error e => .error e
    | .ok data => .ok (FlipImageVertical_BMP iheader data)

end gbImageType_BMP_T

namespace gbImageType_TGA_T

/-- The buffer that `gbImageType_TGA_T::ReadFile` (lines 81-113) stores through
`pp_data`: allocated with `Width*Height*ImagePixelSize` bytes, filled by
`ReadUnmappedRBG` with `(Width*Height*ImagePixelSize) / 8` bytes and flipped when
`(ImageDescByte & 0x20) == 0`. `junk` is what the allocated memory held. -/
def ReadFile_data (bytes prior junk : List Nat) : Except Failure (List Nat) :=
  let hdr := (header bytes prior).1
  let file := (header bytes prior).2
  if hdr.Width * hdr.Height > 2147483647 ∨
      hdr.Width * hdr.Height * hdr.ImagePixelSize > 2147483647 then .error .undefined
  else if hdr.ImageTypeCode = 2 then
    let data := newBuffer (hdr.Width * hdr.Height * hdr.ImagePixelSize) junk
    let data := readInto (file.seekg (0 + 18 + hdr.nCharIDField))
      ((hdr.Width * hdr.Height * hdr.ImagePixelSize) / 8) data
    let data := if hdr.ImageDescByte &&& 0x20 = 0 then FlipImageVertical_TGA hdr data else data
    if (ReadUnmappedRBG file hdr 0).failed then
      .error (.raised (.GB_FAILED "Error while reading TGA image file"))
    else .ok data
  else .error (.raised .GB_NOTIMPLEMENTED)

end gbImageType_TGA_T

/-- `gbImageLoader::GetImageData32` (lines 68-113) on the members `m_data` (bytes) and
`m_palette` (32-bit words): the colours written to `pData`. -/
def gbImageLoader.GetImageData32 (l : gbImageLoader) (m_data m_palette : List Nat) :
    Except gbException (List Nat) :=
  let n := (l.m_width * l.m_height).toNat
  if l.m_bpp = 32 then
    .ok ((List.range n).map (fun i =>
      GBCOLOR32.ARGB (m_data.getD (i * 4 + 3) 0) (m_data.getD (i * 4 + 2) 0)
        (m_data.getD (i * 4 + 1) 0) (m_data.getD (i * 4) 0)))
  else if l.m_bpp = 24 then
    .ok ((List.range n).map (fun i =>
      GBCOLOR32.XRGB (m_data.getD (i * 3 + 2) 0) (m_data.getD (i * 3 + 1) 0)
        (m_data.getD (i * 3) 0)))
  else if l.m_bpp = 16 then
    .ok ((List.range n).map (fun i =>
      let r := ((m_data.getD (i * 2 + 1) 0 &&& 0x7C) >>> 2) % 256
      let g := (((m_data.getD (i * 2) 0 &&& 0xE0) >>> 5) |||
                ((m_data.getD (i * 2 + 1) 0 &&& 0x03) <<< 3)) % 256
      let b := (m_data.getD (i * 2) 0 &&& 0x1F) % 256
      let a := 1
      GBCOLOR32.ARGB_int ((a * 255 : Nat) : Int) ((r * 8 : Nat) : Int) ((g * 8 : Nat) : Int)
        ((b * 8 : Nat) : Int)))
  else if l.m_bpp = 8 ∨ l.m_bpp = 4 ∨ l.m_bpp = 1 then
    .ok ((List.range n).map (fun i =>
      let c := m_palette.getD (m_data.getD i 0) 0
      GBCOLOR32.ARGB (GBCOLOR32.GetA c) (GBCOLOR32.GetR c) (GBCOLOR32.GetG c)
        (GBCOLOR32.GetB c)))
  else .error (.GB_FAILED "Unable to acquire 32bit image data")

/-- The 18 bytes of the header that `WriteImage` writes (lines 134-141): all zero but
the image type 2, the width and the height converted to `unsigned short`, 32 bits per
pixel and the descriptor `0x28`. -/
def WriteImage_header (width height : Int) : List Nat :=
  [0, 0, 2, 0, 0, 0, 0, 0] ++ PS2Icon.putU16 0 ++ PS2Icon.putU16 0 ++
    PS2Icon.putU16 (width % 65536).toNat ++ PS2Icon.putU16 (height % 65536).toNat ++ [32, 0x28]

/-- `GhulbusUtil::WriteImage` (lines 119-160): the bytes written to the file, which is
taken to open and to accept every write. The `int` product `width*height` out of range
is undefined. -/
def WriteImage (data : List Nat) (width height : Int) : Except Failure (List Nat) :=
  if width > 65535 ∨ height > 65535 then .error (.raised .GB_ILLEGALPARAMETER)
  else if width * height > 2147483647 ∨ width * height < -2147483648 then .error .undefined
  else
    .ok (WriteImage_header width height ++
      (List.range (width * height).toNat).flatMap (fun i =>
        [GBCOLOR32.GetB (data.getD i 0), GBCOLOR32.GetG (data.getD i 0),
         GBCOLOR32.GetR (data.getD i 0), GBCOLOR32.GetA (data.getD i 0)]))

end GhulbusUtil

/-! ## Icon codec: the RLE reader on a stream (`src/ps2_ps2icon.cpp`, lines 146-187) -/

namespace PS2Icon

/-- `fin.tellg()`: the position, or `-1` when the stream is in the fail state. -/
def tellg (fin : GhulbusUtil.FileStream) : Int :=
  if fin.failed then -1 else (fin.pos : Int)

/-- `fin.read(reinterpret_cast<char*>(&v), 2)` for an `unsigned short v` that held
`prior`: the value of `v` afterwards, and the stream. -/
def readShort (fin : GhulbusUtil.FileStream) (prior : Nat) : Nat × GhulbusUtil.FileStream :=
  (GhulbusUtil.u16At (GhulbusUtil.overlay (fin.stored 2) (putU16 prior) 2) 0, fin.read 2)

/-- What the RLE loop of `ReadFile` changes besides the entries of `texture`: the
stream and the write index `index`. -/
structure RleReader where
  fin : GhulbusUtil.FileStream
  index : Nat
deriving DecidableEq, Repr

/-- Lines 170-180: the loop of a literal record, `count` iterations; each reads a word
into a fresh `c` (which held `junk_c`) and writes `texture[index++]`. A write behind
`texture[16383]` is undefined. -/
def rleReadLiteral (junk_c : Nat) : Nat → RleReader → Except GhulbusUtil.Failure RleReader
  | 0, st => .ok st
  | count + 1, st =>
    if st.index < 16384 then
      rleReadLiteral junk_c count { fin := (readShort st.fin junk_c).2, index := st.index + 1 }
    else .error .undefined

/-- Lines 155-181: the body of the loop `while(fin.tellg() < static_cast<int>(limit))`;
`junk_rep` and `junk_c` are what the fresh variables `rep_count` and `c` hold before
the reads. -/
def rleReadBody (junk_rep junk_c : Nat) (st : RleReader) :
    Except GhulbusUtil.Failure RleReader :=
  let rep_count := (readShort st.fin junk_rep).1
  let fin := (readShort st.fin junk_rep).2
  if rep_count < 0xFF00 then
    if st.index + rep_count ≤ 16384 then
      .ok { fin := (readShort fin junk_c).2, index := st.index + rep_count }
    else .error .undefined
  else
    rleReadLiteral junk_c ((0xFFFF ^^^ rep_count) + 1) { fin := fin, index := st.index }

/-- The loop `while(fin.tellg() < static_cast<int>(limit))` (lines 153-182). The first
argument bounds the number of iterations; `none` means that the loop is still running
after that many. -/
def rleReadLoop (limit : Int) (junk_rep junk_c : Nat) :
    Nat → RleReader → Option (Except GhulbusUtil.Failure RleReader)
  | 0, st => if tellg st.fin < limit then none else some (.ok st)
  | fuel + 1, st =>
    if tellg st.fin < limit then
      match rleReadBody junk_rep junk_c st with
      | .error e => some (.error e)
      | .ok st => rleReadLoop limit junk_rep junk_c fuel st
    else some (.ok st)

/-- Lines 143-187 of `ReadFile`: the compressed texture segment and the final test of
the stream, on the stream as the animation segment left it. `junk_size` is what the
variable `data_size` held before the read. -/
def readTexture_rle_stream (fin : GhulbusUtil.FileStream) (junk_size junk_rep junk_c : Nat)
    (fuel : Nat) : Option (Except GhulbusUtil.Failure RleReader) :=
  let data_size := GhulbusUtil.u32At (GhulbusUtil.overlay (fin.stored 4) (putU32 junk_size) 4) 0
  let fin := fin.read 4
  let limit := u32 (GBCOLOR32.toU32 (tellg fin) + data_size)
  if limit > 2147483647 then
    some (.error (.raised (.GB_FAILED "File size is bigger than INT_MAX")))
  else
    match rleReadLoop (toInt32 limit) junk_rep junk_c fuel { fin := fin, index := 0 } with
    | none => none
    | some (.error e) => some (.error e)
    | some (.ok st) =>
      if st.fin.failed then some (.error (.raised (.GB_FAILED "File read error")))
      else some (.ok st)

end PS2Icon

namespace PS2Icon

/-- The bytes of an icon file that ends right behind the size field of its RLE
texture segment: header and animation header of `exampleRleIcon`, then the size 4. -/
def exampleTruncatedRle : List Nat := WriteFile_geometry exampleRleIcon ++ putU32 4

/-- The bytes of an icon file whose RLE texture segment is one repeat record: 16384
times the pixel word `0x001F`. -/
def exampleOneRunRle : List Nat :=
  WriteFile_geometry exampleRleIcon ++ putU32 4 ++ putU16 16384 ++ putU16 0x001F

end PS2Icon

namespace PS2Icon

/-- An icon with one shape and `715827885 = 3 * 238609295` vertices, every coordinate
`1.0`: three times its vertex count is above `INT_MAX`. -/
def iconWideCount : Icon :=
  { PS2Icon_default with
    header := { file_id := 0x010000, animation_shapes := 1, texture_type := 0x07,
                reserved := 0x3F800000, n_vertices := 715827885 }
    vertices := List.replicate 715827885 ⟨4096, 4096, 4096, 0⟩
    normals := List.replicate 715827885 ⟨4096, 4096, 4096, 0⟩
    vert_texture := List.replicate 715827885 ⟨0, 0, 0xFFFFFFFF⟩
    fvertices := List.replicate 2147483655 1
    fnormals := List.replicate 2147483655 1 }

end PS2Icon

/-! ## `icon.sys` colours and title coding (`src/ps2_iconsys.cpp`)

Characters and S-JIS bytes are natural numbers below 256; a C string is the list of
its characters before the terminating zero. -/

namespace IconSys

/-- `IconSys::IconSys_Color`: four `int` channels. -/
structure IconSys_Color where
  R : Int
  G : Int
  B : Int
  X : Int
deriving DecidableEq, Repr

namespace IconSys_Color

/-- The two tests `CheckRanges` applies to one channel, in the order of the source:
`if(v < 0) v = 0; if(v > 255) v = 255;`. -/
def checkChannel (v : Int) : Int :=
  let v := if v < 0 then 0 else v
  if v > 255 then 255 else v

/-- `IconSys_Color::CheckRanges` (lines 511-520): the two tests for `R`, `G`, `B` and
`X` in turn. -/
def CheckRanges (c : IconSys_Color) : IconSys_Color :=
  { R := checkChannel c.R, G := checkChannel c.G, B := checkChannel c.B,
    X := checkChannel c.X }

/-- `IconSys_Color(int const* p)` (lines 418-421). -/
def ofIntArray (p : List Int) : IconSys_Color :=
  CheckRanges { R := p.getD 0 0, G := p.getD 1 0, B := p.getD 2 0, X := p.getD 3 0 }

/-- `IconSys_Color(unsigned int const* p)` (lines 422-425): the members are `int`, so
each 32-bit value is converted to `int`. -/
def ofUnsignedArray (p : List Nat) : IconSys_Color :=
  CheckRanges { R := toInt32 (p.getD 0 0), G := toInt32 (p.getD 1 0),
                B := toInt32 (p.getD 2 0), X := toInt32 (p.getD 3 0) }

/-- `IconSys_Color(int r, int g, int b, int x)` (lines 426-429). -/
def ofInts (r g b x : Int) : IconSys_Color :=
  CheckRanges { R := r, G := g, B := b, X := x }

/-- `IconSys_Color(IconSys_Color const& in)` (lines 430-433). -/
def copy (c : IconSys_Color) : IconSys_Color :=
  CheckRanges { R := c.R, G := c.G, B := c.B, X := c.X }

/-- `IconSys_Color::SetR` (lines 473-480): the returned flag and the new state. -/
def SetR (c : IconSys_Color) (r : Int) : Bool × IconSys_Color :=
  if r ≥ 0 ∧ r ≤ 128 then (true, { c with R := r }) else (false, c)

/-- `IconSys_Color::SetG` (lines 481-488). -/
def SetG (c : IconSys_Color) (g : Int) : Bool × IconSys_Color :=
  if g ≥ 0 ∧ g ≤ 128 then (true, { c with G := g }) else (false, c)

/-- `IconSys_Color::SetB` (lines 489-496). -/
def SetB (c : IconSys_Color) (b : Int) : Bool × IconSys_Color :=
  if b ≥ 0 ∧ b ≤ 128 then (true, { c with B := b }) else (false, c)

/-- `IconSys_Color::SetX` (lines 497-504). -/
def SetX (c : IconSys_Color) (x : Int) : Bool × IconSys_Color :=
  if x ≥ 0 ∧ x ≤ 128 then (true, { c with X := x }) else (false, c)

/-- All four channels lie in `0x00 .. 0x80`. -/
def inRange (c : IconSys_Color) : Prop :=
  (0 ≤ c.R ∧ c.R ≤ 128) ∧ (0 ≤ c.G ∧ c.G ≤ 128) ∧ (0 ≤ c.B ∧ c.B ≤ 128) ∧
  (0 ≤ c.X ∧ c.X ≤ 128)

instance (c : IconSys_Color) : Decidable (inRange c) := by
  unfold inRange
  infer_instance

end IconSys_Color

/-- The bytes `EncodeTitle` stores for one character (the `switch` of lines 89-138):
nine punctuation cases, then the two ranges of the `default` case; any other
character stores nothing. -/
def encodeChar (c : Nat) : List Nat :=
  if c = 32 then [0x82, 0x3F]
  else if c = 58 then [0x81, 0x46]
  else if c = 47 then [0x81, 0x5E]
  else if c = 40 then [0x81, 0x69]
  else if c = 41 then [0x81, 0x6A]
  else if c = 91 then [0x81, 0x6D]
  else if c = 93 then [0x81, 0x6E]
  else if c = 123 then [0x81, 0x6F]
  else if c = 125 then [0x81, 0x70]
  else if c ≥ 48 ∧ c ≤ 90 then [0x82, (c + 31) % 256]
  else if c ≥ 97 ∧ c ≤ 122 then [0x82, (c + 32) % 256]
  else []

/-- `IconSys::EncodeTitle(str_in, str_out)` (lines 86-142) for the 68-byte buffer
`File.title`: the bytes of the characters one after the other, then zeros up to byte
67. `none` when the character loop stores behind byte 67. -/
def EncodeTitle (str_in : List Nat) : Option (List Nat) :=
  let sjis := str_in.flatMap encodeChar
  if sjis.length ≤ 68 then some (sjis ++ List.replicate (68 - sjis.length) 0) else none

/-- The character `DecodeTitle` stores for the byte pair `t1`, `t2` (the `switch` of
lines 34-82); `none` for the pair `(0, 0)`, where it stores the terminator and
returns. -/
def decodeChar (t1 t2 : Nat) : Option Nat :=
  if t1 = 0x00 then
    if t2 = 0x00 then none else some 63
  else if t1 = 0x81 then
    if t2 = 0x40 then some 32
    else if t2 = 0x46 then some 58
    else if t2 = 0x5E then some 47
    else if t2 = 0x69 then some 40
    else if t2 = 0x6A then some 41
    else if t2 = 0x6D then some 91
    else if t2 = 0x6E then some 93
    else if t2 = 0x6F then some 123
    else if t2 = 0x70 then some 125
    else some 63
  else if t1 = 0x82 then
    if t2 ≥ 0x4f ∧ t2 ≤ 0x7A then some (t2 - 31)
    else if t2 ≥ 0x81 ∧ t2 ≤ 0x9B then some (t2 - 32)
    else if t2 = 0x3F then some 32
    else some 63
  else some 63

/-- The loop of `DecodeTitle` (lines 30-83) from byte index `i` on, with `n` passes
left; `str_out` is the content of the output buffer. -/
def DecodeTitle_loop (str_in : List Nat) : Nat → Nat → List Nat → List Nat
  | 0, _, str_out => str_out
  | n + 1, i, str_out =>
    match decodeChar (str_in.getD i 0) (str_in.getD (i + 1) 0) with
    | none => str_out.set (i >>> 1) 0
    | some c => DecodeTitle_loop str_in n (i + 2) (str_out.set (i >>> 1) c)

/-- `IconSys::DecodeTitle(str_in, str_out)`: `i` runs over `0, 2, .., 66`, that is 34
passes; the result is the output buffer, whose prior content is `str_out`. -/
def DecodeTitle (str_in : List Nat) (str_out : List Nat) : List Nat :=
  DecodeTitle_loop str_in 34 0 str_out

/-- The C string a character buffer holds: the characters before the first zero. -/
def cString (buf : List Nat) : List Nat := buf.takeWhile (fun c => c != 0)

/-- The alphabet of the title coding: space, `:`, `/`, `(`, `)`, `[`, `]`, `{`, `}`,
the codes 48 to 90 and the letters `a` to `z`. -/
def supported (c : Nat) : Prop :=
  c = 32 ∨ c = 58 ∨ c = 47 ∨ c = 40 ∨ c = 41 ∨ c = 91 ∨ c = 93 ∨ c = 123 ∨ c = 125 ∨
  (48 ≤ c ∧ c ≤ 90) ∨ (97 ≤ c ∧ c ≤ 122)

instance (c : Nat) : Decidable (supported c) := by
  unfold supported
  infer_instance

/-- The title `Save: A/b (1)` as character codes. -/
def exampleTitle : List Nat := [83, 97, 118, 101, 58, 32, 65, 47, 98, 32, 40, 49, 41]

end IconSys

namespace GhulbusUtil

/-- The divisor `(mask>>8)+1` of lines 199-201 of `ReadData32Bit`, computed in 32-bit
`unsigned int` arithmetic. -/
def maskDivisor (mask : Nat) : Nat := ((mask >>> 8) + 1) % 4294967296

end GhulbusUtil

namespace OBJ_FileLoader

/-- A mesh text file that opens its group before the vertex data: the line `g cube`,
three positions, a texture coordinate, a normal and one face. -/
def exampleGroupFirst : List Line :=
  [.g (some "cube"), .v 0 0 0, .v 1 0 0, .v 0 1 0, .vt 0 0 0, .vn 0 0 1,
   .f ⟨1, 1, 1, 2, 1, 1, 3, 1, 1⟩]

/-- The mesh without any data, named `cube`. -/
def exampleEmptyCube : OBJ_Mesh :=
  { m_name := "cube", m_geometry := [], m_normals := [], m_texcoords := [], m_faces := [] }

/-- The mesh with the data of `exampleGroupFirst`, named `cube`. -/
def exampleFullCube : OBJ_Mesh :=
  { m_name := "cube", m_geometry := [0, 0, 0, 1, 0, 0, 0, 1, 0], m_normals := [0, 0, 1],
    m_texcoords := [0, 0, 0],
    m_faces := [ { vert1 := 0, texture1 := 0, normal1 := 0, vert2 := 1, texture2 := 0,
                   normal2 := 0, vert3 := 2, texture3 := 0, normal3 := 0,
                   smoothing_group := -1 } ] }

end OBJ_FileLoader

/-! ## Theorems -/

/-! ### Rounding to single precision -/

namespace Float32

theorem roundHalfEven_intCast (n : Int) : roundHalfEven (n : ℚ) = n := by
  unfold roundHalfEven
  rw [Int.floor_intCast, sub_self, if_pos (by norm_num)]

theorem two_zpow_pos (e : Int) : (0 : ℚ) < 2 ^ e := zpow_pos (by norm_num) e

theorem toFloat32_zero : toFloat32 0 = 0 := by
  unfold toFloat32
  rw [zero_div, show (0 : ℚ) = ((0 : Int) : ℚ) from rfl, roundHalfEven_intCast]
  simp

/-- An integer of at most 24 bits times a power of two, the exponent not below `-149`,
is a `float` value. -/
theorem isFloat32_scaled (m e : Int) (hm : |m| ≤ 2 ^ 24) (he : -149 ≤ e) :
    isFloat32 ((m : ℚ) * 2 ^ e) := by
  unfold isFloat32
  by_cases hm0 : m = 0
  · rw [hm0]
    simp [toFloat32_zero]
  have hmq : (0 : ℚ) < |(m : ℚ)| := abs_pos.2 (by exact_mod_cast hm0)
  have hx : |(m : ℚ) * 2 ^ e| = |(m : ℚ)| * 2 ^ e := by
    rw [abs_mul, abs_of_pos (two_zpow_pos e)]
  have hpos : 0 < |(m : ℚ) * 2 ^ e| := by
    rw [hx]
    exact mul_pos hmq (two_zpow_pos e)
  have hmle : |(m : ℚ)| ≤ 2 ^ 24 := by
    have : ((|m| : Int) : ℚ) ≤ ((2 ^ 24 : Int) : ℚ) := by exact_mod_cast hm
    rw [Int.cast_abs] at this
    simpa using this
  -- the exponent of the rounding is at most `e + 1`
  have hlogle : Int.log 2 |(m : ℚ) * 2 ^ e| ≤ e + 24 := by
    have h : |(m : ℚ) * 2 ^ e| < ((2 : ℕ) : ℚ) ^ (e + 24 + 1) := by
      rw [hx, Nat.cast_ofNat, zpow_add₀ (by norm_num : (2 : ℚ) ≠ 0),
        zpow_add₀ (by norm_num : (2 : ℚ) ≠ 0)]
      have e24 : (2 : ℚ) ^ (24 : Int) = 2 ^ 24 := by norm_cast
      rw [e24, zpow_one]
      have := two_zpow_pos e
      nlinarith
    have := (Int.lt_zpow_iff_log_lt (b := 2) (by norm_num) hpos).1 h
    omega
  rcases le_or_lt (ulpExp ((m : ℚ) * 2 ^ e)) e with hE | hE
  · -- the value is an integer multiple of the unit
    obtain ⟨d, hd⟩ : ∃ d : Nat, e = ulpExp ((m : ℚ) * 2 ^ e) + d :=
      ⟨(e - ulpExp ((m : ℚ) * 2 ^ e)).toNat, by omega⟩
    have hq : (m : ℚ) * 2 ^ e / 2 ^ ulpExp ((m : ℚ) * 2 ^ e) = ((m * 2 ^ d : Int) : ℚ) := by
      have hp := two_zpow_pos (ulpExp ((m : ℚ) * 2 ^ e))
      rw [div_eq_iff hp.ne']
      conv_lhs => rw [hd]
      rw [zpow_add₀ (by norm_num : (2 : ℚ) ≠ 0), zpow_natCast]
      push_cast
      ring
    unfold toFloat32
    rw [hq, roundHalfEven_intCast]
    have hp := two_zpow_pos (ulpExp ((m : ℚ) * 2 ^ e))
    rw [← hq, div_mul_cancel₀ _ hp.ne']
  · -- the significand is `±2^24`
    have hu : ulpExp ((m : ℚ) * 2 ^ e) = Int.log 2 |(m : ℚ) * 2 ^ e| - 23 := by
      unfold ulpExp at hE ⊢
      rcases le_total (Int.log 2 |(m : ℚ) * 2 ^ e| - 23) (-149) with h | h
      · rw [max_eq_right h] at hE
        omega
      · exact max_eq_left h
    have hlog : Int.log 2 |(m : ℚ) * 2 ^ e| = e + 24 := by omega
    have hge : (2 : ℚ) ^ (e + 24) ≤ |(m : ℚ)| * 2 ^ e := by
      have := Int.zpow_log_le_self (b := 2) (by norm_num) hpos
      rw [hlog, Nat.cast_ofNat, hx] at this
      exact this
    have hm24 : |(m : ℚ)| = 2 ^ 24 := by
      apply le_antisymm hmle
      rw [zpow_add₀ (by norm_num : (2 : ℚ) ≠ 0)] at hge
      have e24 : (2 : ℚ) ^ (24 : Int) = 2 ^ 24 := by norm_cast
      rw [e24] at hge
      have hp := two_zpow_pos e
      by_contra hc
      have hlt : |(m : ℚ)| < 2 ^ 24 := lt_of_not_le hc
      nlinarith
    have hE1 : ulpExp ((m : ℚ) * 2 ^ e) = e + 1 := by omega
    have hq : (m : ℚ) * 2 ^ e / 2 ^ (e + 1) = ((m / 2 : Int) : ℚ) := by
      have hpe := two_zpow_pos e
      rw [zpow_add₀ (by norm_num : (2 : ℚ) ≠ 0), zpow_one, div_eq_iff (by positivity)]
      have hmcases : m = 2 ^ 24 ∨ m = -2 ^ 24 := by
        have : |m| = 2 ^ 24 := by
          have : ((|m| : Int) : ℚ) = ((2 ^ 24 : Int) : ℚ) := by
            rw [Int.cast_abs]
            simpa using hm24
          exact_mod_cast this
        rcases abs_eq (by norm_num : (0 : Int) ≤ 2 ^ 24) |>.1 this with h | h
        · exact Or.inl h
        · exact Or.inr h
      rcases hmcases with h | h
      · rw [h]
        norm_num
        ring
      · rw [h]
        norm_num
        ring
    unfold toFloat32
    rw [hE1, hq, roundHalfEven_intCast, ← hq,
      div_mul_cancel₀ _ (two_zpow_pos (e + 1)).ne']

theorem getD_isFloat32 (l : List ℚ) (h : ∀ x ∈ l, isFloat32 x) (i : Nat) :
    isFloat32 (l.getD i 0) := by
  by_cases hi : i < l.length
  · rw [List.getD_eq_getElem _ _ hi]
    exact h _ (List.getElem_mem _)
  · rw [List.getD_eq_default _ _ (by omega)]
    exact toFloat32_zero

/-- For a `float` value the conversion is the identity and the product with `1.0f` is
exact. -/
theorem fmul_toFloat32_one (x : ℚ) (h : isFloat32 x) : fmul (toFloat32 x) 1 = x := by
  unfold fmul
  rw [mul_one, h, h]

theorem isFloat32_zero : isFloat32 0 := toFloat32_zero

theorem isFloat32_intCast (m : Int) (hm : |m| ≤ 2 ^ 24) : isFloat32 (m : ℚ) := by
  have h := isFloat32_scaled m 0 hm (by norm_num)
  rwa [zpow_zero, mul_one] at h

theorem isFloat32_one : isFloat32 1 := by
  have h := isFloat32_intCast 1 (by norm_num)
  rwa [Int.cast_one] at h

end Float32

section BitLemmas

theorem and_255_eq_mod (x : Nat) : x &&& 255 = x % 256 :=
  Nat.and_pow_two_sub_one_eq_mod x 8

theorem and_31_eq_mod (x : Nat) : x &&& 31 = x % 32 :=
  Nat.and_pow_two_sub_one_eq_mod x 5

/-- Or-ing four byte fields at bit offsets 24, 16, 8 and 0 adds them. -/
theorem pack4_eq_add (a r g b : Nat) (hr : r < 256) (hg : g < 256) (hb : b < 256) :
    (a <<< 24) ||| (r <<< 16) ||| (g <<< 8) ||| b
      = a * 16777216 + r * 65536 + g * 256 + b := by
  simp only [Nat.shiftLeft_eq]
  have h1 : a * 2 ^ 24 ||| r * 2 ^ 16 = a * 2 ^ 24 + r * 2 ^ 16 := by
    have h := @Nat.mul_add_lt_is_or 24 (r * 2 ^ 16) (by omega) a
    rw [Nat.mul_comm (2 ^ 24) a] at h
    exact h.symm
  have h2 : (a * 2 ^ 24 + r * 2 ^ 16) ||| g * 2 ^ 8 = a * 2 ^ 24 + r * 2 ^ 16 + g * 2 ^ 8 := by
    have h := @Nat.mul_add_lt_is_or 16 (g * 2 ^ 8) (by omega) (a * 2 ^ 8 + r)
    have e : 2 ^ 16 * (a * 2 ^ 8 + r) = a * 2 ^ 24 + r * 2 ^ 16 := by ring
    rw [e] at h
    exact h.symm
  have h3 : (a * 2 ^ 24 + r * 2 ^ 16 + g * 2 ^ 8) ||| b
      = a * 2 ^ 24 + r * 2 ^ 16 + g * 2 ^ 8 + b := by
    have h := @Nat.mul_add_lt_is_or 8 b (by omega) (a * 2 ^ 16 + r * 2 ^ 8 + g)
    have e : 2 ^ 8 * (a * 2 ^ 16 + r * 2 ^ 8 + g) = a * 2 ^ 24 + r * 2 ^ 16 + g * 2 ^ 8 := by ring
    rw [e] at h
    exact h.symm
  rw [h1, h2, h3]
  norm_num

end BitLemmas

/-! ### Colour packing -/

namespace GBCOLOR32

theorem toU32_and_255 (x : Int) : toU32 x &&& 255 = (x % 256).toNat := by
  rw [and_255_eq_mod]
  unfold toU32
  omega

theorem ARGB_eq_add (a r g b : Nat) (ha : a < 256) (hr : r < 256) (hg : g < 256)
    (hb : b < 256) : ARGB a r g b = a * 16777216 + r * 65536 + g * 256 + b := by
  unfold ARGB
  rw [pack4_eq_add a r g b hr hg hb]
  omega

theorem ARGB_int_eq_ARGB (a r g b : Int) :
    ARGB_int a r g b
      = ARGB (a % 256).toNat (r % 256).toNat (g % 256).toNat (b % 256).toNat := by
  unfold ARGB_int ARGB
  simp only [Nat.reduceAdd, show (0xff : Nat) = 255 from rfl, toU32_and_255]

theorem channels_of_add (a r g b : Nat) (ha : a < 256) (hr : r < 256) (hg : g < 256)
    (hb : b < 256) :
    GetA (a * 16777216 + r * 65536 + g * 256 + b) = a ∧
    GetR (a * 16777216 + r * 65536 + g * 256 + b) = r ∧
    GetG (a * 16777216 + r * 65536 + g * 256 + b) = g ∧
    GetB (a * 16777216 + r * 65536 + g * 256 + b) = b := by
  unfold GetA GetR GetG GetB
  simp only [show (0xff : Nat) = 255 from rfl, and_255_eq_mod, Nat.shiftRight_eq_div_pow]
  refine ⟨?_, ?_, ?_, ?_⟩ <;> omega

/-- C3: unpacking a colour packed by `ARGB` from four bytes returns the four bytes,
for the byte overload and for the `int` overload; the `int` overload applied to any
four ints yields the channels reduced modulo 256. -/
theorem argb_unpack_pack (a r g b : Nat) (ha : a < 256) (hr : r < 256) (hg : g < 256)
    (hb : b < 256) (ia ir ig ib : Int) :
    (GetA (ARGB a r g b) = a ∧ GetR (ARGB a r g b) = r ∧
      GetG (ARGB a r g b) = g ∧ GetB (ARGB a r g b) = b) ∧
    (GetA (ARGB_int a r g b) = a ∧ GetR (ARGB_int a r g b) = r ∧
      GetG (ARGB_int a r g b) = g ∧ GetB (ARGB_int a r g b) = b) ∧
    (GetA (ARGB_int ia ir ig ib) = (ia % 256).toNat ∧
      GetR (ARGB_int ia ir ig ib) = (ir % 256).toNat ∧
      GetG (ARGB_int ia ir ig ib) = (ig % 256).toNat ∧
      GetB (ARGB_int ia ir ig ib) = (ib % 256).toNat) := by
  refine ⟨?_, ?_, ?_⟩
  · rw [ARGB_eq_add a r g b ha hr hg hb]
    exact channels_of_add a r g b ha hr hg hb
  · rw [ARGB_int_eq_ARGB]
    have e : ∀ n : Nat, n < 256 → ((n : Int) % 256).toNat = n := by intro n hn; omega
    rw [e a ha, e r hr, e g hg, e b hb, ARGB_eq_add a r g b ha hr hg hb]
    exact channels_of_add a r g b ha hr hg hb
  · rw [ARGB_int_eq_ARGB]
    have e : ∀ z : Int, (z % 256).toNat < 256 := by intro z; omega
    rw [ARGB_eq_add _ _ _ _ (e ia) (e ir) (e ig) (e ib)]
    exact channels_of_add _ _ _ _ (e ia) (e ir) (e ig) (e ib)

theorem argb_unpack_pack_witness :
    GetA (ARGB 255 128 7 0) = 255 ∧ GetR (ARGB 255 128 7 0) = 128 ∧
      GetG (ARGB 255 128 7 0) = 7 ∧ GetB (ARGB 255 128 7 0) = 0 :=
  (argb_unpack_pack 255 128 7 0 (by decide) (by decide) (by decide) (by decide) 0 0 0 0).1

end GBCOLOR32

/-! ### Texture word decoding -/

namespace PS2Icon

theorem decodeWord_uncompressed_eq_add (c : Nat) :
    decodeWord_uncompressed c
      = 255 * 16777216 + (c % 32 * 8) * 65536 + (c / 32 % 32 * 8) * 256 + c / 1024 % 32 * 8 := by
  unfold decodeWord_uncompressed
  simp only [show (0xff : Nat) = 255 from rfl, show (0x1f : Nat) = 31 from rfl,
    and_255_eq_mod, and_31_eq_mod, Nat.shiftRight_eq_div_pow]
  rw [pack4_eq_add 255 _ _ _ (Nat.mod_lt _ (by norm_num)) (Nat.mod_lt _ (by norm_num))
    (Nat.mod_lt _ (by norm_num))]
  simp only [Nat.shiftLeft_eq]
  norm_num
  have e1 : c % 32 * 8 % 256 = c % 32 * 8 := by omega
  have e2 : c / 32 % 32 * 8 % 256 = c / 32 % 32 * 8 := by omega
  have e3 : c / 1024 * 8 % 256 = c / 1024 % 32 * 8 := by omega
  rw [e1, e2, e3]
  omega

theorem decodeWord_repeat_eq (c : Nat) : decodeWord_repeat c = decodeWord_uncompressed c := rfl

theorem decodeWord_literal_eq (c : Nat) : decodeWord_literal c = decodeWord_uncompressed c := rfl

theorem specDecodeWord_eq_add (c : Nat) :
    specDecodeWord c
      = 255 * 16777216 + (c % 32 * 8) * 65536 + (c / 32 % 32 * 8) * 256 + c / 1024 % 32 * 8 := by
  unfold specDecodeWord
  simp only [show (0x1F : Nat) = 31 from rfl, and_31_eq_mod, Nat.shiftRight_eq_div_pow]
  have h := pack4_eq_add 255 (c % 32 * 8) (c / 32 % 32 * 8) (c / 1024 % 32 * 8)
    (by omega) (by omega) (by omega)
  simp only [Nat.shiftLeft_eq] at h ⊢
  norm_num at h ⊢
  rw [← h]

/-- C10: every 16-bit texture word is decoded to alpha 0xFF and the three 5-bit
channels shifted left by 3, as the specification's formula says; bit 15 of the word
has no influence, and the uncompressed branch and both RLE branches agree. -/
theorem decodeWord_spec (c : Nat) :
    decodeWord_uncompressed c = specDecodeWord c ∧
    decodeWord_repeat c = specDecodeWord c ∧
    decodeWord_literal c = specDecodeWord c ∧
    GBCOLOR32.GetA (decodeWord_uncompressed c) = 0xFF ∧
    GBCOLOR32.GetR (decodeWord_uncompressed c) = (c &&& 0x1F) <<< 3 ∧
    GBCOLOR32.GetG (decodeWord_uncompressed c) = ((c >>> 5) &&& 0x1F) <<< 3 ∧
    GBCOLOR32.GetB (decodeWord_uncompressed c) = ((c >>> 10) &&& 0x1F) <<< 3 ∧
    decodeWord_uncompressed (c % 32768) = decodeWord_uncompressed c ∧
    decodeWord_uncompressed (c % 32768 + 32768) = decodeWord_uncompressed c := by
  have hs : decodeWord_uncompressed c = specDecodeWord c := by
    rw [decodeWord_uncompressed_eq_add, specDecodeWord_eq_add]
  have hch := GBCOLOR32.channels_of_add 255 (c % 32 * 8) (c / 32 % 32 * 8) (c / 1024 % 32 * 8)
    (by omega) (by omega) (by omega) (by omega)
  refine ⟨hs, by rw [decodeWord_repeat_eq, hs], by rw [decodeWord_literal_eq, hs], ?_, ?_, ?_, ?_,
    ?_, ?_⟩
  · rw [decodeWord_uncompressed_eq_add]; exact hch.1
  · rw [decodeWord_uncompressed_eq_add, hch.2.1]
    simp only [show (0x1F : Nat) = 31 from rfl, and_31_eq_mod, Nat.shiftLeft_eq]
  · rw [decodeWord_uncompressed_eq_add, hch.2.2.1]
    simp only [show (0x1F : Nat) = 31 from rfl, and_31_eq_mod, Nat.shiftLeft_eq,
      Nat.shiftRight_eq_div_pow]
  · rw [decodeWord_uncompressed_eq_add, hch.2.2.2]
    simp only [show (0x1F : Nat) = 31 from rfl, and_31_eq_mod, Nat.shiftLeft_eq,
      Nat.shiftRight_eq_div_pow]
  · rw [decodeWord_uncompressed_eq_add, decodeWord_uncompressed_eq_add]; omega
  · rw [decodeWord_uncompressed_eq_add, decodeWord_uncompressed_eq_add]; omega

/-! ### Fixed point -/

theorem truncToInt_of_nonneg (q : ℚ) (h : 0 ≤ q) : truncToInt q = ⌊q⌋ := by
  unfold truncToInt
  rw [Int.tdiv_eq_ediv (Rat.num_nonneg.2 h) (by positivity)]
  exact (Rat.floor_def' q).symm

theorem truncToInt_neg (q : ℚ) : truncToInt (-q) = -truncToInt q := by
  simp [truncToInt, Int.neg_tdiv]

/-- Truncation toward zero moves a value by less than one, toward zero. -/
theorem truncToInt_bounds (q : ℚ) :
    |(truncToInt q : ℚ) - q| < 1 ∧ |(truncToInt q : ℚ)| ≤ |q| := by
  rcases le_or_lt 0 q with h | h
  · rw [truncToInt_of_nonneg q h]
    have h1 := Int.floor_le q
    have h2 := Int.lt_floor_add_one q
    have h3 : (0 : ℚ) ≤ (⌊q⌋ : ℚ) := by exact_mod_cast Int.floor_nonneg.2 h
    rw [abs_lt, abs_of_nonneg h3, abs_of_nonneg h]
    exact ⟨⟨by linarith, by linarith⟩, h1⟩
  · have hq : 0 ≤ -q := by linarith
    have e : truncToInt q = -⌊-q⌋ := by
      have := truncToInt_neg (-q)
      rw [neg_neg] at this
      rw [this, truncToInt_of_nonneg (-q) hq]
    rw [e]
    have h1 := Int.floor_le (-q)
    have h2 := Int.lt_floor_add_one (-q)
    have h3 : (0 : ℚ) ≤ (⌊-q⌋ : ℚ) := by exact_mod_cast Int.floor_nonneg.2 hq
    push_cast
    rw [abs_lt, abs_neg, abs_of_nonneg h3, abs_of_neg h]
    exact ⟨⟨by linarith, by linarith⟩, h1⟩

theorem toShort_of_range (z : Int) (h1 : -32768 ≤ z) (h2 : z ≤ 32767) : toShort z = z := by
  unfold toShort
  omega

/-- C2: over exact arithmetic, for `|f| < 8` the cast to `short` in
`convert_f32_to_f16` does not overflow (the stored value is `f * 4096` truncated
toward zero) and converting back differs from `f` by at most `1/4096`. -/
theorem fixed_point_roundtrip (f : ℚ) (hf : |f| < 8) :
    convert_f32_to_f16 f = truncToInt (f * 4096) ∧
    -32768 ≤ truncToInt (f * 4096) ∧ truncToInt (f * 4096) ≤ 32767 ∧
    |convert_f16_to_f32 (convert_f32_to_f16 f) - f| ≤ 1 / 4096 := by
  obtain ⟨hb1, hb2⟩ := truncToInt_bounds (f * 4096)
  have habs : |f * 4096| < 32768 := by
    rw [abs_mul, abs_of_pos (by norm_num : (0 : ℚ) < 4096)]
    linarith
  have hlt : |(truncToInt (f * 4096) : ℚ)| < 32768 := lt_of_le_of_lt hb2 habs
  rw [abs_lt] at hlt
  have hlo : -32768 < truncToInt (f * 4096) := by exact_mod_cast hlt.1
  have hhi : truncToInt (f * 4096) < 32768 := by exact_mod_cast hlt.2
  have hconv : convert_f32_to_f16 f = truncToInt (f * 4096) :=
    toShort_of_range _ (by omega) (by omega)
  refine ⟨hconv, by omega, by omega, ?_⟩
  rw [hconv]
  unfold convert_f16_to_f32
  have e : (truncToInt (f * 4096) : ℚ) / 4096 - f = ((truncToInt (f * 4096) : ℚ) - f * 4096) / 4096 := by
    ring
  rw [e, abs_div, abs_of_pos (by norm_num : (0 : ℚ) < 4096)]
  exact div_le_div_of_nonneg_right (le_of_lt hb1) (by norm_num)

theorem fixed_point_roundtrip_witness :
    |(-79 / 10 : ℚ)| < 8 ∧
      |convert_f16_to_f32 (convert_f32_to_f16 (-79 / 10)) - (-79 / 10)| ≤ 1 / 4096 :=
  ⟨by norm_num [abs_lt], (fixed_point_roundtrip (-79 / 10) (by norm_num [abs_lt])).2.2.2⟩

/-! ### Header validation -/

theorem CheckValidity_iff (p : Icon_Header) : CheckValidity p = true ↔ p.n_vertices % 3 = 0 := by
  unfold CheckValidity
  by_cases h : p.n_vertices % 3 = 0 <;> simp [h]

end PS2Icon

/-! ### 1-bit raster unpacking -/

namespace GhulbusUtil

theorem getD_set (l : List Nat) (i j a : Nat) (hi : i < l.length) :
    (l.set i a).getD j 0 = if j = i then a else l.getD j 0 := by
  simp only [List.getD_eq_getElem?_getD, List.getElem?_set]
  by_cases h : i = j
  · subst h; simp [hi]
  · simp [h, Ne.symm h]

/-- Masking bit `k` and shifting it down is reading bit `k`. -/
theorem and_pow_shift (x k : Nat) : (x &&& 2 ^ k) >>> k = (x >>> k) &&& 1 := by
  apply Nat.eq_of_testBit_eq
  intro i
  rw [Nat.testBit_shiftRight, Nat.testBit_and, Nat.testBit_and, Nat.testBit_shiftRight,
    Nat.testBit_two_pow]
  have h1 : Nat.testBit 1 i = decide (0 = i) := by
    have := @Nat.testBit_two_pow 0 i
    simpa using this
  rw [h1]
  by_cases h : i = 0
  · subst h; simp
  · have h2 : ¬ (k = k + i) := by omega
    have h3 : ¬ (0 = i) := by omega
    simp [h2, h3]

theorem bit_extract (x : Nat) :
    (x &&& 0x1) >>> 0 = (x >>> 0) &&& 1 ∧ (x &&& 0x2) >>> 1 = (x >>> 1) &&& 1 ∧
    (x &&& 0x4) >>> 2 = (x >>> 2) &&& 1 ∧ (x &&& 0x8) >>> 3 = (x >>> 3) &&& 1 ∧
    (x &&& 0x10) >>> 4 = (x >>> 4) &&& 1 ∧ (x &&& 0x20) >>> 5 = (x >>> 5) &&& 1 ∧
    (x &&& 0x40) >>> 6 = (x >>> 6) &&& 1 ∧ (x &&& 0x80) >>> 7 = (x >>> 7) &&& 1 :=
  ⟨and_pow_shift x 0, and_pow_shift x 1, and_pow_shift x 2, and_pow_shift x 3,
   and_pow_shift x 4, and_pow_shift x 5, and_pow_shift x 6, and_pow_shift x 7⟩

theorem assignBit_length (d : List Nat) (dst src mask sh : Nat) :
    (assignBit d dst src mask sh).length = d.length := by
  simp [assignBit]

theorem assignBit_getD (d : List Nat) (dst src mask sh j : Nat) (hdst : dst < d.length) :
    (assignBit d dst src mask sh).getD j 0
      = if j = dst then (d.getD src 0 &&& mask) >>> sh else d.getD j 0 := by
  unfold assignBit
  exact getD_set d dst j _ hdst

theorem unpack1BitBody_length (data : List Nat) (i : Nat) :
    (unpack1BitBody data i).length = data.length := by
  simp [unpack1BitBody, assignBit_length]

/-- One assignment of the loop body, seen from the buffer `data` the body started
with: the source byte `m` is still the original one. -/
theorem assignBit_chain (data d : List Nat) (m dst mask sh : Nat) (P : Nat → Nat)
    (hl : d.length = data.length) (hr : d.getD m 0 = data.getD m 0)
    (hg : ∀ j, d.getD j 0 = P j) (hdst : dst < data.length) :
    (assignBit d dst m mask sh).length = data.length ∧
    (dst ≠ m → (assignBit d dst m mask sh).getD m 0 = data.getD m 0) ∧
    ∀ j, (assignBit d dst m mask sh).getD j 0
      = if j = dst then (data.getD m 0 &&& mask) >>> sh else P j := by
  have hget := fun j => assignBit_getD d dst m mask sh j (by rw [hl]; exact hdst)
  refine ⟨by rw [assignBit_length]; exact hl, ?_, ?_⟩
  · intro hne
    rw [hget, if_neg (Ne.symm hne)]
    exact hr
  · intro j
    rw [hget, hr, hg]

theorem unpack1BitBody_getD (data : List Nat) (m j : Nat) (hL : 8 * m + 7 < data.length) :
    (unpack1BitBody data (8 * m + 7)).getD j 0
      = if 8 * m ≤ j ∧ j ≤ 8 * m + 7 then (data.getD m 0 >>> (7 - j % 8)) &&& 1
        else data.getD j 0 := by
  have hs : (8 * m + 7) >>> 3 = m := by
    rw [Nat.shiftRight_eq_div_pow]; omega
  obtain ⟨b0, b1, b2, b3, b4, b5, b6, b7⟩ := bit_extract (data.getD m 0)
  unfold unpack1BitBody
  simp only [hs]
  have s1 := assignBit_chain data data m (8 * m + 7) 1 0 (fun j => data.getD j 0) rfl rfl (fun _ => rfl)
    (by omega)
  have s2 := assignBit_chain data _ m (8 * m + 7 - 1) 2 1 _ s1.1 (s1.2.1 (by omega)) s1.2.2
    (by omega)
  have s3 := assignBit_chain data _ m (8 * m + 7 - 2) 4 2 _ s2.1 (s2.2.1 (by omega)) s2.2.2
    (by omega)
  have s4 := assignBit_chain data _ m (8 * m + 7 - 3) 8 3 _ s3.1 (s3.2.1 (by omega)) s3.2.2
    (by omega)
  have s5 := assignBit_chain data _ m (8 * m + 7 - 4) 16 4 _ s4.1 (s4.2.1 (by omega)) s4.2.2
    (by omega)
  have s6 := assignBit_chain data _ m (8 * m + 7 - 5) 32 5 _ s5.1 (s5.2.1 (by omega)) s5.2.2
    (by omega)
  have s7 := assignBit_chain data _ m (8 * m + 7 - 6) 64 6 _ s6.1 (s6.2.1 (by omega)) s6.2.2
    (by omega)
  have s8 := assignBit_chain data _ m (8 * m + 7 - 7) 128 7 _ s7.1 (s7.2.1 (by omega)) s7.2.2
    (by omega)
  rw [s8.2.2 j, b0, b1, b2, b3, b4, b5, b6, b7]
  split_ifs <;> first | rfl | omega | (congr 2; omega)

theorem unpack1BitLoop_stop (i : Int) (data : List Nat) (h : i < 7) :
    unpack1BitLoop i data = data := by
  rw [unpack1BitLoop, if_neg (by omega)]

theorem unpack1BitLoop_step (i : Int) (data : List Nat) (h : 7 ≤ i) :
    unpack1BitLoop i data = unpack1BitLoop (i - 8) (unpack1BitBody data i.toNat) := by
  rw [unpack1BitLoop, if_pos h]

/-- Loop invariant: once the bytes above `m` are unpacked and the bytes up to `m` are
still intact, running the loop from index `8 m + 7` unpacks everything. -/
theorem unpack1BitLoop_correct (packed : List Nat) :
    ∀ (m : Nat) (data : List Nat), 8 * m + 8 ≤ data.length →
      (∀ k, k ≤ m → data.getD k 0 = packed.getD k 0) →
      (∀ j, 8 * m + 8 ≤ j → j < data.length → data.getD j 0 = packedBit packed j) →
      (unpack1BitLoop ((8 * m + 7 : Nat) : Int) data).length = data.length ∧
      ∀ j, j < data.length →
        (unpack1BitLoop ((8 * m + 7 : Nat) : Int) data).getD j 0 = packedBit packed j := by
  intro m
  induction m with
  | zero =>
    intro data hlen hsrc hdone
    rw [unpack1BitLoop_step _ _ (by omega), unpack1BitLoop_stop _ _ (by omega)]
    refine ⟨unpack1BitBody_length _ _, ?_⟩
    intro j hj
    have hb := unpack1BitBody_getD data 0 j (by omega)
    simp only [Nat.mul_zero, Nat.zero_add, Int.toNat_ofNat] at hb ⊢
    rw [hb]
    by_cases h : 0 ≤ j ∧ j ≤ 7
    · rw [if_pos h, hsrc 0 (le_refl 0)]
      unfold packedBit
      rw [show j / 8 = 0 by omega]
    · rw [if_neg h]
      exact hdone j (by omega) hj
  | succ m ih =>
    intro data hlen hsrc hdone
    rw [unpack1BitLoop_step _ _ (by omega)]
    have hi : (((8 * (m + 1) + 7 : Nat) : Int) - 8) = ((8 * m + 7 : Nat) : Int) := by omega
    rw [hi, Int.toNat_ofNat]
    have hbl := unpack1BitBody_length data (8 * (m + 1) + 7)
    have hb := fun j => unpack1BitBody_getD data (m + 1) j (by omega)
    have := ih (unpack1BitBody data (8 * (m + 1) + 7)) (by rw [hbl]; omega)
      (by
        intro k hk
        rw [hb k, if_neg (by omega)]
        exact hsrc k (by omega))
      (by
        intro j hj1 hj2
        rw [hb j]
        by_cases h : 8 * (m + 1) ≤ j ∧ j ≤ 8 * (m + 1) + 7
        · rw [if_pos h, hsrc (m + 1) (le_refl _)]
          unfold packedBit
          rw [show j / 8 = m + 1 by omega]
        · rw [if_neg h]
          rw [hbl] at hj2
          exact hdone j (by omega) hj2)
    rw [hbl] at this
    exact this

/-- C9: for a pixel count `n = width * height` that is a positive multiple of 8, the
in-place loop of `ReadData1Bit` turns the `n/8` packed bytes at the start of the
`n`-byte buffer into `n` one-byte pixels, pixel `j` being bit `7 - j mod 8` of packed
byte `j div 8` (most significant bit first), whatever the rest of the buffer held. -/
theorem ReadData1Bit_unpack_correct (biWidth biHeight : Nat) (packed rest : List Nat)
    (hpos : 0 < biWidth * biHeight) (h8 : biWidth * biHeight % 8 = 0)
    (_hint : biWidth * biHeight < 2147483648)
    (hpacked : packed.length = (biWidth * biHeight) >>> 3)
    (hrest : packed.length + rest.length = biWidth * biHeight)
    (_hbytes : ∀ b ∈ packed, b < 256) :
    (ReadData1Bit_unpack biWidth biHeight (packed ++ rest)).length = biWidth * biHeight ∧
    ∀ j, j < biWidth * biHeight →
      (ReadData1Bit_unpack biWidth biHeight (packed ++ rest)).getD j 0
        = (packed.getD (j / 8) 0 >>> (7 - j % 8)) &&& 1 := by
  rw [Nat.shiftRight_eq_div_pow] at hpacked
  obtain ⟨m, hm⟩ : ∃ m, biWidth * biHeight = 8 * m + 8 := ⟨biWidth * biHeight / 8 - 1, by omega⟩
  have hlen : (packed ++ rest).length = 8 * m + 8 := by rw [List.length_append]; omega
  have hidx : ((biWidth : Int) * (biHeight : Int) - 1) = ((8 * m + 7 : Nat) : Int) := by
    have : ((biWidth * biHeight : Nat) : Int) = ((8 * m + 8 : Nat) : Int) := by rw [hm]
    push_cast at this ⊢
    omega
  unfold ReadData1Bit_unpack
  rw [hidx, hm]
  have key := unpack1BitLoop_correct packed m (packed ++ rest) (by omega)
    (by
      intro k hk
      simp only [List.getD_eq_getElem?_getD]
      rw [List.getElem?_append_left (by omega)])
    (by intro j hj1 hj2; omega)
  rw [hlen] at key
  exact key

theorem ReadData1Bit_unpack_correct_witness :
    (ReadData1Bit_unpack (8 : Nat) (8 : Nat)
        ([0x80, 0x01, 0xFF, 0x00, 0xA5, 0x5A, 0x3C, 0xC3] ++ List.replicate 56 7)).length = 8 * 8 ∧
    ∀ j, j < 8 * 8 →
      (ReadData1Bit_unpack (8 : Nat) (8 : Nat)
        ([0x80, 0x01, 0xFF, 0x00, 0xA5, 0x5A, 0x3C, 0xC3] ++ List.replicate 56 7)).getD j 0
        = (([0x80, 0x01, 0xFF, 0x00, 0xA5, 0x5A, 0x3C, 0xC3] : List Nat).getD (j / 8) 0
            >>> (7 - j % 8)) &&& 1 :=
  ReadData1Bit_unpack_correct 8 8 [0x80, 0x01, 0xFF, 0x00, 0xA5, 0x5A, 0x3C, 0xC3]
    (List.replicate 56 7) (by decide) (by decide) (by decide) (by decide) (by decide) (by decide)

end GhulbusUtil

/-! ### Unindexed geometry and `SetGeometry` -/

section ListLemmas

/-- Entry `c * k + r` of a concatenation of blocks of length `c` is entry `r` of
block `k`. -/
theorem getD_flatMap_block {α : Type} [Inhabited α] (f : α → List ℚ) (c : Nat) :
    ∀ (l : List α), (∀ a ∈ l, (f a).length = c) → ∀ k r, k < l.length → r < c →
      (l.flatMap f).getD (c * k + r) 0 = (f (l.getD k default)).getD r 0 := by
  intro l
  induction l with
  | nil => intro _ k r hk; simp at hk
  | cons a l ih =>
    intro hc k r hk hr
    rw [List.flatMap_cons]
    have ha : (f a).length = c := hc a (List.mem_cons_self a l)
    cases k with
    | zero =>
      rw [Nat.mul_zero, Nat.zero_add, List.getD_append _ _ _ _ (by omega)]
      rfl
    | succ k =>
      rw [List.getD_append_right _ _ _ _ (by rw [ha, Nat.mul_succ]; omega)]
      have e : c * (k + 1) + r - (f a).length = c * k + r := by rw [ha, Nat.mul_succ]; omega
      rw [e, ih (fun b hb => hc b (List.mem_cons_of_mem a hb)) k r
        (by simpa using hk) hr]
      rfl

theorem length_flatMap_block {α : Type} (f : α → List ℚ) (c : Nat) :
    ∀ (l : List α), (∀ a ∈ l, (f a).length = c) → (l.flatMap f).length = c * l.length := by
  intro l
  induction l with
  | nil => intro _; simp
  | cons a l ih =>
    intro hc
    rw [List.flatMap_cons, List.length_append, hc a (List.mem_cons_self a l),
      ih (fun b hb => hc b (List.mem_cons_of_mem a hb)), List.length_cons, Nat.mul_succ]
    omega

theorem getD_map_range {β : Type} (g : Nat → β) (d : β) (n i : Nat) (hi : i < n) :
    ((List.range n).map g).getD i d = g i := by
  rw [List.getD_eq_getElem?_getD, List.getElem?_map, List.getElem?_range hi]
  rfl

end ListLemmas

namespace OBJ_Mesh

end OBJ_Mesh

namespace PS2Icon

end PS2Icon

/-! ### `BuildMesh` followed by unindexing -/

section ListLemmas2

theorem list_ext_getD (l1 l2 : List ℚ) (hlen : l1.length = l2.length)
    (h : ∀ i, i < l1.length → l1.getD i 0 = l2.getD i 0) : l1 = l2 := by
  apply List.ext_getElem hlen
  intro i h1 h2
  have := h i h1
  rw [List.getD_eq_getElem _ _ h1, List.getD_eq_getElem _ _ h2] at this
  exact this

theorem map_range_getD (l : List ℚ) :
    (List.range l.length).map (fun i => l.getD i 0) = l := by
  apply list_ext_getD
  · simp
  · intro i hi
    rw [List.length_map, List.length_range] at hi
    rw [getD_map_range _ _ _ _ hi]

/-- Reading a list of `3 n` values in consecutive triples gives the list back. -/
theorem flatMap_triples (l : List ℚ) (n : Nat) (hl : l.length = 3 * n) :
    (List.range n).flatMap (fun i => [l.getD (i * 3) 0, l.getD (i * 3 + 1) 0, l.getD (i * 3 + 2) 0])
      = l := by
  have hc : ∀ a ∈ List.range n,
      ((fun i => [l.getD (i * 3) 0, l.getD (i * 3 + 1) 0, l.getD (i * 3 + 2) 0]) a).length = 3 :=
    fun _ _ => rfl
  have hlen := length_flatMap_block _ 3 (List.range n) hc
  rw [List.length_range] at hlen
  apply list_ext_getD _ _ (by rw [hlen, hl])
  intro i hi
  rw [hlen] at hi
  have hq : i / 3 < n := by omega
  have hr : (List.range n).getD (i / 3) default = i / 3 := by
    rw [List.getD_eq_getElem _ _ (by rw [List.length_range]; exact hq)]
    simp
  have key := getD_flatMap_block _ 3 (List.range n) hc (i / 3) (i % 3)
    (by rw [List.length_range]; exact hq) (by omega)
  rw [show 3 * (i / 3) + i % 3 = i by omega, hr] at key
  rw [key]
  have h3 : i % 3 = 0 ∨ i % 3 = 1 ∨ i % 3 = 2 := by omega
  rcases h3 with h | h | h
  · rw [h]
    show l.getD (i / 3 * 3) 0 = l.getD i 0
    rw [show i / 3 * 3 = i by omega]
  · rw [h]
    show l.getD (i / 3 * 3 + 1) 0 = l.getD i 0
    rw [show i / 3 * 3 + 1 = i by omega]
  · rw [h]
    show l.getD (i / 3 * 3 + 2) 0 = l.getD i 0
    rw [show i / 3 * 3 + 2 = i by omega]

end ListLemmas2

theorem toInt32_u32_small (n : Nat) (h : n < 2147483648) : toInt32 (PS2Icon.u32 n) = (n : Int) := by
  unfold toInt32 PS2Icon.u32
  have e : n % 4294967296 % 4294967296 = n := by omega
  rw [e, if_pos h]

namespace OBJ_Mesh

theorem FillVector_full (data : List ℚ) : FillVector data ((data.length : Nat) : Int) = data := by
  unfold FillVector
  rw [Int.toNat_ofNat]
  exact map_range_getD data

/-- Unindexing the faces `freshFace 0 .. freshFace (k-1)` over an attribute vector of
`9 k` values returns the vector. -/
theorem flatMap_freshFace_blocks (g : List ℚ) (k : Nat) (hg : g.length = 9 * k)
    (blk : Face → List ℚ)
    (hblk : ∀ i, i < k → blk (PS2Icon.freshFace i)
      = [g.getD (9 * i) 0, g.getD (9 * i + 1) 0, g.getD (9 * i + 2) 0, g.getD (9 * i + 3) 0,
         g.getD (9 * i + 4) 0, g.getD (9 * i + 5) 0, g.getD (9 * i + 6) 0, g.getD (9 * i + 7) 0,
         g.getD (9 * i + 8) 0]) :
    ((List.range k).map PS2Icon.freshFace).flatMap blk = g := by
  have hc : ∀ a ∈ (List.range k).map PS2Icon.freshFace, (blk a).length = 9 := by
    intro a ha
    rw [List.mem_map] at ha
    obtain ⟨i, hi, rfl⟩ := ha
    rw [hblk i (List.mem_range.1 hi)]
    rfl
  have hlen := length_flatMap_block blk 9 _ hc
  rw [List.length_map, List.length_range] at hlen
  apply list_ext_getD _ _ (by rw [hlen, hg])
  intro i hi
  rw [hlen] at hi
  have hq : i / 9 < k := by omega
  have key := getD_flatMap_block blk 9 _ hc (i / 9) (i % 9)
    (by rw [List.length_map, List.length_range]; exact hq) (by omega)
  have hr : ((List.range k).map PS2Icon.freshFace).getD (i / 9) default
      = PS2Icon.freshFace (i / 9) := by
    rw [List.getD_eq_getElem _ _ (by rw [List.length_map, List.length_range]; exact hq)]
    simp
  rw [show 9 * (i / 9) + i % 9 = i by omega, hr, hblk _ hq] at key
  rw [key]
  have h9 : i % 9 < 9 := by omega
  have e : i = 9 * (i / 9) + i % 9 := by omega
  conv_rhs => rw [e]
  generalize i % 9 = r at h9 ⊢
  interval_cases r <;> rfl

end OBJ_Mesh

section ListLemmas3

theorem flatMap_congr_mem {α β : Type} (f g : α → List β) :
    ∀ l : List α, (∀ a ∈ l, f a = g a) → l.flatMap f = l.flatMap g := by
  intro l
  induction l with
  | nil => intro _; rfl
  | cons a l ih =>
    intro h
    rw [List.flatMap_cons, List.flatMap_cons, h a (List.mem_cons_self a l),
      ih (fun b hb => h b (List.mem_cons_of_mem a hb))]

theorem flatMap_map_eq {α β γ : Type} (h : α → β) (g : β → List γ) :
    ∀ l : List α, (l.map h).flatMap g = l.flatMap (fun a => g (h a)) := by
  intro l
  induction l with
  | nil => rfl
  | cons a l ih => rw [List.map_cons, List.flatMap_cons, List.flatMap_cons, ih]

theorem flatMap_range_getD {α β : Type} [Inhabited α] (f : α → List β) (l : List α) :
    (List.range l.length).flatMap (fun i => f (l.getD i default)) = l.flatMap f := by
  induction l using List.reverseRecOn with
  | nil => rfl
  | append_singleton l a ih =>
    rw [List.length_append, List.length_singleton, List.range_succ, List.flatMap_append,
      List.flatMap_append]
    congr 1
    · rw [← ih]
      apply flatMap_congr_mem
      intro i hi
      rw [List.getD_append _ _ _ _ (List.mem_range.1 hi)]
    · simp only [List.flatMap_cons, List.flatMap_nil, List.append_nil]
      rw [List.getD_append_right _ _ _ _ (le_refl _), Nat.sub_self]
      rfl

end ListLemmas3

namespace PS2Icon

theorem shapePositions_length (self : Icon) (shape : Nat) :
    (shapePositions self shape).length = 3 * self.header.n_vertices := by
  unfold shapePositions
  have hc : ∀ a ∈ List.range self.header.n_vertices,
      ((fun i =>
        [ self.fvertices.getD ((i * self.header.animation_shapes + shape) * 3) 0,
          self.fvertices.getD ((i * self.header.animation_shapes + shape) * 3 + 1) 0,
          self.fvertices.getD ((i * self.header.animation_shapes + shape) * 3 + 2) 0 ]) a).length
        = 3 := fun _ _ => rfl
  rw [length_flatMap_block _ 3 _ hc, List.length_range]

theorem GetVertexData_zero (self : Icon) (h1 : 1 ≤ self.header.animation_shapes)
    (h2 : self.header.animation_shapes ≤ 2147483647)
    (hw : self.header.n_vertices * self.header.animation_shapes * 3 < 4294967296) :
    GetVertexData self 0 = .ok (shapePositions self 0) := by
  have hs : toInt32 self.header.animation_shapes = (self.header.animation_shapes : Int) := by
    unfold toInt32
    have e : self.header.animation_shapes % 4294967296 = self.header.animation_shapes := by omega
    rw [e, if_pos (by omega)]
  unfold GetVertexData
  rw [hs, if_neg (by omega), if_pos (le_refl _)]
  unfold shapePositions
  congr 1
  apply flatMap_congr_mem
  intro i hi
  have hi2 := List.mem_range.1 hi
  have hb : (i * self.header.animation_shapes + 0) * 3 + 2 < 4294967296 := by
    have : (i + 1) * self.header.animation_shapes ≤
        self.header.n_vertices * self.header.animation_shapes :=
      Nat.mul_le_mul_right _ hi2
    have e : (i + 1) * self.header.animation_shapes
        = i * self.header.animation_shapes + self.header.animation_shapes := by ring
    omega
  simp only [Int.toNat_zero, u32]
  rw [Nat.mod_eq_of_lt (by omega), Nat.mod_eq_of_lt (by omega), Nat.mod_eq_of_lt (by omega)]

theorem AppendToVector_one (dest : List ℚ) (x : ℚ) :
    OBJ_Mesh.AppendToVector dest [x] 1 = dest ++ [x] := by
  simp [OBJ_Mesh.AppendToVector, List.range_succ]

theorem foldl_addVertexTexture (self : Icon) (n : Nat) (mesh : OBJ_Mesh) :
    (List.range n).foldl (addVertexTexture self) mesh
      = { mesh with m_texcoords := mesh.m_texcoords ++ (List.range n).flatMap (fun i =>
          [convert_f16_to_f32 (self.vert_texture.getD i default).f16_u,
           convert_f16_to_f32 (self.vert_texture.getD i default).f16_v, 0]) } := by
  induction n with
  | zero => simp
  | succ n ih =>
    rw [List.range_succ, List.foldl_append, ih, List.flatMap_append]
    simp only [List.foldl_cons, List.foldl_nil, addVertexTexture, OBJ_Mesh.AddTextureData,
      AppendToVector_one, List.flatMap_cons, List.flatMap_nil, List.append_nil, List.append_assoc,
      List.cons_append, List.nil_append, List.singleton_append]

theorem foldl_AddFaceData (k : Nat) (mesh : OBJ_Mesh) :
    (List.range k).foldl (fun mesh i => mesh.AddFaceData (freshFace i)) mesh
      = { mesh with m_faces := mesh.m_faces ++ (List.range k).map freshFace } := by
  induction k with
  | zero => simp
  | succ k ih =>
    rw [List.range_succ, List.foldl_append, ih, List.map_append]
    simp only [List.foldl_cons, List.foldl_nil, OBJ_Mesh.AddFaceData, List.map_cons, List.map_nil,
      List.append_assoc]

end PS2Icon

namespace PS2Icon

theorem textureTriples_length (self : Icon) :
    (textureTriples self).length = 3 * self.vert_texture.length := by
  unfold textureTriples
  have hc : ∀ a ∈ self.vert_texture,
      ((fun t : Texture_Data =>
        [convert_f16_to_f32 t.f16_u, convert_f16_to_f32 t.f16_v, 0]) a).length = 3 :=
    fun _ _ => rfl
  rw [length_flatMap_block _ 3 _ hc]

/-- The mesh `BuildMesh` produces for an icon whose header values fit in an `int`. -/
theorem BuildMesh_eq (self : Icon) (mesh : OBJ_Mesh)
    (h1 : 1 ≤ self.header.animation_shapes) (h2 : self.header.animation_shapes ≤ 2147483647)
    (h3 : 3 * self.header.n_vertices ≤ 2147483647)
    (hw : self.header.n_vertices * self.header.animation_shapes * 3 < 4294967296)
    (hfn : self.fnormals.length = 3 * self.header.n_vertices)
    (hvt : self.vert_texture.length = self.header.n_vertices) :
    BuildMesh self mesh = .ok
      { m_name := mesh.m_name
        m_geometry := shapePositions self 0
        m_normals := self.fnormals
        m_texcoords := textureTriples self
        m_faces := (List.range (self.header.n_vertices / 3)).map freshFace } := by
  unfold BuildMesh
  rw [GetVertexData_zero self h1 h2 hw]
  simp only
  have hcount : toInt32 (u32 (self.header.n_vertices * 3))
      = ((3 * self.header.n_vertices : Nat) : Int) := by
    rw [toInt32_u32_small _ (by omega)]
    push_cast
    ring
  rw [foldl_AddFaceData, foldl_addVertexTexture]
  simp only [OBJ_Mesh.ClearFaceData, OBJ_Mesh.ClearTextureData, OBJ_Mesh.SetNormals,
    OBJ_Mesh.SetGeometry, List.nil_append, hcount]
  have hg : OBJ_Mesh.FillVector (shapePositions self 0) ((3 * self.header.n_vertices : Nat) : Int)
      = shapePositions self 0 := by
    rw [← shapePositions_length self 0]
    exact OBJ_Mesh.FillVector_full _
  have hnrm : OBJ_Mesh.FillVector self.fnormals ((3 * self.header.n_vertices : Nat) : Int)
      = self.fnormals := by
    rw [← hfn]
    exact OBJ_Mesh.FillVector_full _
  have htex : (List.range self.header.n_vertices).flatMap (fun i =>
      [convert_f16_to_f32 (self.vert_texture.getD i default).f16_u,
       convert_f16_to_f32 (self.vert_texture.getD i default).f16_v, 0])
      = textureTriples self := by
    rw [← hvt]
    exact flatMap_range_getD
      (fun t : Texture_Data => [convert_f16_to_f32 t.f16_u, convert_f16_to_f32 t.f16_v, 0])
      self.vert_texture
  rw [hg, hnrm, htex]

theorem freshFace_index (i c : Nat) (d : Nat) (h : i * 3 + c < 2147483648) :
    (toInt32 (u32 (i * 3 + c)) * 3 + (d : Int)).toNat = 9 * i + (3 * c + d) := by
  rw [toInt32_u32_small _ h]
  have e : ((i * 3 + c : Nat) : Int) * 3 + (d : Int) = ((9 * i + (3 * c + d) : Nat) : Int) := by
    push_cast
    ring
  rw [e, Int.toNat_ofNat]

/-- Unindexing a mesh whose faces are the fresh faces `0 .. k-1` over attribute vectors
of `9 k` values, all of them `float` values, returns the three vectors. -/
theorem unindexed_fresh (m : OBJ_Mesh) (k : Nat) (hk : 9 * k ≤ 2147483647)
    (hf : m.m_faces = (List.range k).map freshFace)
    (hg : m.m_geometry.length = 9 * k) (hn : m.m_normals.length = 9 * k)
    (ht : m.m_texcoords.length = 9 * k)
    (hgf : ∀ x ∈ m.m_geometry, Float32.isFloat32 x)
    (hnf : ∀ x ∈ m.m_normals, Float32.isFloat32 x)
    (htf : ∀ x ∈ m.m_texcoords, Float32.isFloat32 x) :
    m.GetMeshGeometryUnindexed 1 = (m.m_geometry, m.m_normals, m.m_texcoords) := by
  have xg : ∀ i, Float32.fmul (Float32.toFloat32 (m.m_geometry.getD i 0)) 1
      = m.m_geometry.getD i 0 :=
    fun i => Float32.fmul_toFloat32_one _ (Float32.getD_isFloat32 _ hgf i)
  have xn : ∀ i, Float32.toFloat32 (m.m_normals.getD i 0) = m.m_normals.getD i 0 :=
    fun i => Float32.getD_isFloat32 _ hnf i
  have xt : ∀ i, Float32.toFloat32 (m.m_texcoords.getD i 0) = m.m_texcoords.getD i 0 :=
    fun i => Float32.getD_isFloat32 _ htf i
  have hidx : ∀ i, i < k → ∀ c, c < 3 → ∀ d : Nat,
      (toInt32 (u32 (i * 3 + c)) * 3 + (d : Int)).toNat = 9 * i + (3 * c + d) :=
    fun i hi c hc d => freshFace_index i c d (by omega)
  have hidx0 : ∀ i, i < k → ∀ c, c < 3 →
      (toInt32 (u32 (i * 3 + c)) * 3).toNat = 9 * i + (3 * c) := by
    intro i hi c hc
    have := hidx i hi c hc 0
    simpa using this
  unfold OBJ_Mesh.GetMeshGeometryUnindexed
  rw [hf]
  refine Prod.ext ?_ (Prod.ext ?_ ?_)
  · apply OBJ_Mesh.flatMap_freshFace_blocks _ k hg
    intro i hi
    have a0 := hidx0 i hi 0 (by omega)
    have a1 := hidx0 i hi 1 (by omega)
    have a2 := hidx0 i hi 2 (by omega)
    have b0 := hidx i hi 0 (by omega)
    have b1 := hidx i hi 1 (by omega)
    have b2 := hidx i hi 2 (by omega)
    simp only [Nat.add_zero] at a0 b0
    simp only [OBJ_Mesh.faceGeometry, OBJ_Mesh.elemAt, freshFace]
    have c1 := b0 1
    have c2 := b0 2
    have d1 := b1 1
    have d2 := b1 2
    have e1 := b2 1
    have e2 := b2 2
    simp only [Nat.cast_one, Nat.cast_ofNat] at c1 c2 d1 d2 e1 e2
    rw [a0, a1, a2, c1, c2, d1, d2, e1, e2]
    simp only [xg]
    rfl
  · apply OBJ_Mesh.flatMap_freshFace_blocks _ k hn
    intro i hi
    have a0 := hidx0 i hi 0 (by omega)
    have a1 := hidx0 i hi 1 (by omega)
    have a2 := hidx0 i hi 2 (by omega)
    have b0 := hidx i hi 0 (by omega)
    have b1 := hidx i hi 1 (by omega)
    have b2 := hidx i hi 2 (by omega)
    simp only [Nat.add_zero] at a0 b0
    simp only [OBJ_Mesh.faceNormals, OBJ_Mesh.elemAt, freshFace]
    have c1 := b0 1
    have c2 := b0 2
    have d1 := b1 1
    have d2 := b1 2
    have e1 := b2 1
    have e2 := b2 2
    simp only [Nat.cast_one, Nat.cast_ofNat] at c1 c2 d1 d2 e1 e2
    rw [a0, a1, a2, c1, c2, d1, d2, e1, e2]
    simp only [xn]
    rfl
  · apply OBJ_Mesh.flatMap_freshFace_blocks _ k ht
    intro i hi
    have a0 := hidx0 i hi 0 (by omega)
    have a1 := hidx0 i hi 1 (by omega)
    have a2 := hidx0 i hi 2 (by omega)
    have b0 := hidx i hi 0 (by omega)
    have b1 := hidx i hi 1 (by omega)
    have b2 := hidx i hi 2 (by omega)
    simp only [Nat.add_zero] at a0 b0
    simp only [OBJ_Mesh.faceTexture, OBJ_Mesh.elemAt, freshFace]
    have c1 := b0 1
    have c2 := b0 2
    have d1 := b1 1
    have d2 := b1 2
    have e1 := b2 1
    have e2 := b2 2
    simp only [Nat.cast_one, Nat.cast_ofNat] at c1 c2 d1 d2 e1 e2
    rw [a0, a1, a2, c1, c2, d1, d2, e1, e2]
    simp only [xt]
    rfl

end PS2Icon

namespace PS2Icon

theorem truncToInt_intCast (s : Int) : truncToInt (s : ℚ) = s := by
  unfold truncToInt
  simp

/-- Storing a value that was read from a `short` gives the same `short` back. -/
theorem convert_f16_roundtrip (s : Int) (h1 : -32768 ≤ s) (h2 : s ≤ 32767) :
    convert_f32_to_f16 (convert_f16_to_f32 s) = s := by
  unfold convert_f32_to_f16 convert_f16_to_f32
  rw [div_mul_cancel₀ _ (by norm_num : (4096 : ℚ) ≠ 0), truncToInt_intCast]
  exact toShort_of_range s h1 h2

theorem textureTriples_getD (self : Icon) (i : Nat) (hi : i < self.vert_texture.length) :
    (textureTriples self).getD (i * 3) 0
        = convert_f16_to_f32 (self.vert_texture.getD i default).f16_u ∧
    (textureTriples self).getD (i * 3 + 1) 0
        = convert_f16_to_f32 (self.vert_texture.getD i default).f16_v ∧
    (textureTriples self).getD (i * 3 + 2) 0 = 0 := by
  have hc : ∀ a ∈ self.vert_texture,
      ((fun t : Texture_Data =>
        [convert_f16_to_f32 t.f16_u, convert_f16_to_f32 t.f16_v, 0]) a).length = 3 :=
    fun _ _ => rfl
  have k0 := getD_flatMap_block _ 3 self.vert_texture hc i 0 hi (by omega)
  have k1 := getD_flatMap_block _ 3 self.vert_texture hc i 1 hi (by omega)
  have k2 := getD_flatMap_block _ 3 self.vert_texture hc i 2 hi (by omega)
  unfold textureTriples
  rw [show i * 3 = 3 * i + 0 by omega, show 3 * i + 0 + 1 = 3 * i + 1 by omega,
    show 3 * i + 0 + 2 = 3 * i + 2 by omega, k0, k1, k2]
  exact ⟨rfl, rfl, rfl⟩

end PS2Icon

namespace PS2Icon

/-- A `short` converted by `convert_f16_to_f32` is a `float` value. -/
theorem convert_f16_to_f32_isFloat32 (i : Int) (h1 : -32768 ≤ i) (h2 : i ≤ 32767) :
    Float32.isFloat32 (convert_f16_to_f32 i) := by
  have h := Float32.isFloat32_scaled i (-12)
    (by rw [abs_le]; constructor <;> omega) (by norm_num)
  have e : convert_f16_to_f32 i = (i : ℚ) * 2 ^ (-12 : Int) := by
    unfold convert_f16_to_f32
    rw [zpow_neg, div_eq_mul_inv]
    norm_num
  rw [e]
  exact h

/-- The positions `BuildMesh` hands to the mesh are values of the icon's `float` array. -/
theorem shapePositions_isFloat32 (self : Icon) (shape : Nat)
    (hfl : ∀ x ∈ self.fvertices, Float32.isFloat32 x) :
    ∀ x ∈ shapePositions self shape, Float32.isFloat32 x := by
  intro x hx
  unfold shapePositions at hx
  rw [List.mem_flatMap] at hx
  obtain ⟨i, _, hx⟩ := hx
  simp only [List.mem_cons, List.mem_singleton, List.not_mem_nil, or_false] at hx
  rcases hx with rfl | rfl | rfl <;> exact Float32.getD_isFloat32 _ hfl _

/-- The texture triples `BuildMesh` hands to the mesh are `float` values. -/
theorem textureTriples_isFloat32 (self : Icon)
    (hshort : ∀ t ∈ self.vert_texture,
      (-32768 ≤ t.f16_u ∧ t.f16_u ≤ 32767) ∧ (-32768 ≤ t.f16_v ∧ t.f16_v ≤ 32767)) :
    ∀ x ∈ textureTriples self, Float32.isFloat32 x := by
  intro x hx
  unfold textureTriples at hx
  rw [List.mem_flatMap] at hx
  obtain ⟨t, ht, hx⟩ := hx
  obtain ⟨⟨u1, u2⟩, ⟨v1, v2⟩⟩ := hshort t ht
  simp only [List.mem_cons, List.mem_singleton, List.not_mem_nil, or_false] at hx
  rcases hx with rfl | rfl | rfl
  · exact convert_f16_to_f32_isFloat32 _ u1 u2
  · exact convert_f16_to_f32_isFloat32 _ v1 v2
  · exact Float32.isFloat32_zero

/-- The icon state `SetGeometry` builds from the mesh `BuildMesh` produced, fed to
`BuildMesh` again: the same attribute vectors and faces come back. -/
theorem BuildMesh_SetGeometry_BuildMesh (self : Icon) (name : String) (mesh2 : OBJ_Mesh) (k : Nat)
    (hn : self.header.n_vertices = 3 * k) (h3 : 3 * self.header.n_vertices ≤ 2147483647)
    (hfn : self.fnormals.length = 3 * self.header.n_vertices)
    (hvt : self.vert_texture.length = self.header.n_vertices)
    (hshort : ∀ t ∈ self.vert_texture,
      (-32768 ≤ t.f16_u ∧ t.f16_u ≤ 32767) ∧ (-32768 ≤ t.f16_v ∧ t.f16_v ≤ 32767))
    (hfl : ∀ x ∈ self.fvertices, Float32.isFloat32 x)
    (hnfl : ∀ x ∈ self.fnormals, Float32.isFloat32 x) :
    BuildMesh (SetGeometry_default self
        { m_name := name
          m_geometry := shapePositions self 0
          m_normals := self.fnormals
          m_texcoords := textureTriples self
          m_faces := (List.range (self.header.n_vertices / 3)).map freshFace })
        mesh2
      = .ok
        { m_name := mesh2.m_name
          m_geometry := shapePositions self 0
          m_normals := self.fnormals
          m_texcoords := textureTriples self
          m_faces := (List.range (self.header.n_vertices / 3)).map freshFace } := by
  have hk : self.header.n_vertices / 3 = k := by omega
  have hP := shapePositions_length self 0
  have hT := textureTriples_length self
  rw [hvt] at hT
  set m : OBJ_Mesh :=
    { m_name := name
      m_geometry := shapePositions self 0
      m_normals := self.fnormals
      m_texcoords := textureTriples self
      m_faces := (List.range (self.header.n_vertices / 3)).map freshFace } with hm
  have hU : m.GetMeshGeometryUnindexed 1
      = (shapePositions self 0, self.fnormals, textureTriples self) :=
    unindexed_fresh m k (by omega) (by rw [hm, hk]) (by rw [hm]; simp only; omega)
      (by rw [hm]; simp only; omega) (by rw [hm]; simp only; omega)
      (shapePositions_isFloat32 self 0 hfl) hnfl (textureTriples_isFloat32 self hshort)
  have hF : (m.GetNFaces * 3).toNat = self.header.n_vertices := by
    unfold OBJ_Mesh.GetNFaces
    rw [hm]
    simp only [List.length_map, List.length_range, hk]
    omega
  have hF2 : GBCOLOR32.toU32 (m.GetNFaces * 3) = self.header.n_vertices := by
    unfold GBCOLOR32.toU32 OBJ_Mesh.GetNFaces
    rw [hm]
    simp only [List.length_map, List.length_range, hk]
    have h : ((k : Nat) : Int) * 3 % 4294967296 = ((self.header.n_vertices : Nat) : Int) := by
      omega
    rw [h, Int.toNat_ofNat]
  set ic := SetGeometry_default self m with hic
  have e_hdr_n : ic.header.n_vertices = self.header.n_vertices := by
    rw [hic]; unfold SetGeometry_default SetGeometry; exact hF2
  have e_hdr_s : ic.header.animation_shapes = 1 := rfl
  have e_fv : ic.fvertices = shapePositions self 0 := by
    rw [hic]; unfold SetGeometry_default SetGeometry; simp only [hU]
  have e_fn : ic.fnormals = self.fnormals := by
    rw [hic]; unfold SetGeometry_default SetGeometry; simp only [hU]
  have e_vt : ic.vert_texture = (List.range self.header.n_vertices).map (fun i =>
      ({ f16_u := convert_f32_to_f16 ((textureTriples self).getD (i * 3) 0),
         f16_v := convert_f32_to_f16 ((textureTriples self).getD (i * 3 + 1) 0),
         color := 0xFFFFFFFF } : Texture_Data)) := by
    rw [hic]; unfold SetGeometry_default SetGeometry; simp only [hU, hF]
  have hb := BuildMesh_eq ic mesh2
    (by rw [e_hdr_s]) (by rw [e_hdr_s]; omega) (by rw [e_hdr_n]; exact h3)
    (by rw [e_hdr_n, e_hdr_s]; omega) (by rw [e_fn, e_hdr_n]; exact hfn)
    (by rw [e_vt, e_hdr_n]; simp)
  rw [hb]
  have g1 : shapePositions ic 0 = shapePositions self 0 := by
    unfold shapePositions
    rw [e_hdr_n, e_hdr_s, e_fv]
    simp only [Nat.mul_one, Nat.add_zero]
    exact flatMap_triples _ _ hP
  have g2 : textureTriples ic = textureTriples self := by
    have hflat := flatMap_triples (textureTriples self) self.header.n_vertices hT
    have hstep : textureTriples ic = (List.range self.header.n_vertices).flatMap (fun i =>
        [(textureTriples self).getD (i * 3) 0, (textureTriples self).getD (i * 3 + 1) 0,
         (textureTriples self).getD (i * 3 + 2) 0]) := by
      conv_lhs => unfold textureTriples
      rw [e_vt, flatMap_map_eq]
      apply flatMap_congr_mem
      intro i hi
      have hi2 : i < self.vert_texture.length := by rw [hvt]; exact List.mem_range.1 hi
      obtain ⟨t0, t1, t2⟩ := textureTriples_getD self i hi2
      have hmem : self.vert_texture.getD i default ∈ self.vert_texture := by
        rw [List.getD_eq_getElem _ _ hi2]; exact List.getElem_mem hi2
      obtain ⟨⟨u1, u2⟩, ⟨v1, v2⟩⟩ := hshort _ hmem
      simp only [t0, t1, t2, convert_f16_roundtrip _ u1 u2, convert_f16_roundtrip _ v1 v2]
    rw [hstep, hflat]
  rw [g1, g2, e_fn, e_hdr_n]

/-- C5 (amended): for an icon with `3k` vertices whose header values fit in an `int`
(`1 ≤ animation_shapes ≤ INT_MAX`, `3 * n_vertices ≤ INT_MAX`), `BuildMesh` succeeds
and unindexing its mesh with scale 1 returns the icon's `9k` shape-0 position values,
its `9k` normal values and the texture triples `(u, v, 0)`, in order; feeding that mesh
to `SetGeometry` and building a mesh again unindexes to the same three vectors; and the
two triangles of `exampleQuad`, which share two vertices, unindex to 6 position
entries (18 values). The icon's `float` arrays hold `float` values. -/
theorem BuildMesh_then_unindexed (self : Icon) (mesh mesh2 : OBJ_Mesh) (k : Nat)
    (hn : self.header.n_vertices = 3 * k)
    (h1 : 1 ≤ self.header.animation_shapes) (h2 : self.header.animation_shapes ≤ 2147483647)
    (h3 : 3 * self.header.n_vertices ≤ 2147483647)
    (hw : self.header.n_vertices * self.header.animation_shapes * 3 < 4294967296)
    (_hfv : self.fvertices.length = self.header.n_vertices * self.header.animation_shapes * 3)
    (hfn : self.fnormals.length = 3 * self.header.n_vertices)
    (hvt : self.vert_texture.length = self.header.n_vertices)
    (hshort : ∀ t ∈ self.vert_texture,
      (-32768 ≤ t.f16_u ∧ t.f16_u ≤ 32767) ∧ (-32768 ≤ t.f16_v ∧ t.f16_v ≤ 32767))
    (hfl : ∀ x ∈ self.fvertices, Float32.isFloat32 x)
    (hnfl : ∀ x ∈ self.fnormals, Float32.isFloat32 x) :
    ∃ m, BuildMesh self mesh = .ok m ∧
      m.GetMeshGeometryUnindexed 1 = (shapePositions self 0, self.fnormals, textureTriples self) ∧
      (shapePositions self 0).length = 9 * k ∧ self.fnormals.length = 9 * k ∧
      (textureTriples self).length = 9 * k ∧
      (∃ m2, BuildMesh (SetGeometry_default self m) mesh2 = .ok m2 ∧
        m2.GetMeshGeometryUnindexed 1 = m.GetMeshGeometryUnindexed 1) ∧
      (exampleQuad.GetMeshGeometryUnindexed 1).1.length = 6 * 3 := by
  have hk : self.header.n_vertices / 3 = k := by omega
  have hP := shapePositions_length self 0
  have hT := textureTriples_length self
  rw [hvt] at hT
  have hU : ∀ name : String, OBJ_Mesh.GetMeshGeometryUnindexed
      { m_name := name
        m_geometry := shapePositions self 0
        m_normals := self.fnormals
        m_texcoords := textureTriples self
        m_faces := (List.range (self.header.n_vertices / 3)).map freshFace } 1
      = (shapePositions self 0, self.fnormals, textureTriples self) := fun name =>
    unindexed_fresh _ k (by omega) (by simp only [hk]) (by simp only; omega)
      (by simp only; omega) (by simp only; omega)
      (shapePositions_isFloat32 self 0 hfl) hnfl (textureTriples_isFloat32 self hshort)
  refine ⟨_, BuildMesh_eq self mesh h1 h2 h3 hw hfn hvt, hU _, by omega, by omega, by omega,
    ⟨_, BuildMesh_SetGeometry_BuildMesh self mesh.m_name mesh2 k hn h3 hfn hvt hshort hfl hnfl,
      ?_⟩, rfl⟩
  rw [hU, hU]

theorem exampleTriangleIcon_fvertices_isFloat32 :
    ∀ x ∈ exampleTriangleIcon.fvertices, Float32.isFloat32 x := by
  intro x hx
  simp only [exampleTriangleIcon, List.mem_cons, List.mem_singleton, List.not_mem_nil,
    or_false] at hx
  rcases hx with rfl | rfl | rfl | rfl | rfl | rfl | rfl | rfl | rfl <;>
    first | exact Float32.isFloat32_zero | exact Float32.isFloat32_one

theorem exampleTriangleIcon_fnormals_isFloat32 :
    ∀ x ∈ exampleTriangleIcon.fnormals, Float32.isFloat32 x := by
  intro x hx
  simp only [exampleTriangleIcon, List.mem_cons, List.mem_singleton, List.not_mem_nil,
    or_false] at hx
  rcases hx with rfl | rfl | rfl | rfl | rfl | rfl | rfl | rfl | rfl <;>
    first | exact Float32.isFloat32_zero | exact Float32.isFloat32_one

theorem BuildMesh_then_unindexed_witness :
    ∃ m, BuildMesh exampleTriangleIcon exampleQuad = .ok m ∧
      m.GetMeshGeometryUnindexed 1
        = (shapePositions exampleTriangleIcon 0, exampleTriangleIcon.fnormals,
            textureTriples exampleTriangleIcon) ∧
      (shapePositions exampleTriangleIcon 0).length = 9 * 1 ∧
      exampleTriangleIcon.fnormals.length = 9 * 1 ∧
      (textureTriples exampleTriangleIcon).length = 9 * 1 ∧
      (∃ m2, BuildMesh (SetGeometry_default exampleTriangleIcon m) exampleQuad = .ok m2 ∧
        m2.GetMeshGeometryUnindexed 1 = m.GetMeshGeometryUnindexed 1) ∧
      (exampleQuad.GetMeshGeometryUnindexed 1).1.length = 6 * 3 :=
  BuildMesh_then_unindexed exampleTriangleIcon exampleQuad exampleQuad 1 (by decide) (by decide)
    (by decide) (by decide) (by decide) (by decide) (by decide) (by decide) (by decide)
    exampleTriangleIcon_fvertices_isFloat32 exampleTriangleIcon_fnormals_isFloat32

/-- C5 as stated fails: an icon without vertices whose header announces `2^31`
animation shapes satisfies `animation_shapes >= 1`, yet `BuildMesh` raises
`GB_ILLEGALPARAMETER`, because `GetVertexData` compares the shape number 0 with
`animation_shapes` converted to `int`, which is negative. -/
theorem BuildMesh_many_shapes_throws :
    iconManyShapes.header.n_vertices = 3 * 0 ∧ 1 ≤ iconManyShapes.header.animation_shapes ∧
    BuildMesh iconManyShapes exampleQuad = .error .GB_ILLEGALPARAMETER := by
  refine ⟨rfl, by decide, ?_⟩
  rfl

end PS2Icon

/-! ### Mesh text reader: index-base correction -/

namespace OBJ_FileLoader

theorem AppendToVector_three (dest : List ℚ) (x y z : ℚ) :
    OBJ_Mesh.AppendToVector dest [x, y, z] 3 = dest ++ [x, y, z] := by
  simp [OBJ_Mesh.AppendToVector, List.range_succ]

/-- Reading vertex data lines while no group is pending appends their coordinates to
the current mesh and advances the counters. -/
theorem foldl_vertexData (ls : List Line) (hv : ∀ l ∈ ls, l.isVertexData = true) :
    ∀ st : ReadState, st.new_group_was_opened = false →
      ls.foldl readLine st =
        { st with
          mesh := { st.mesh with
            m_geometry := st.mesh.m_geometry ++ geometryOf ls
            m_normals := st.mesh.m_normals ++ normalsOf ls
            m_texcoords := st.mesh.m_texcoords ++ texcoordsOf ls }
          vert_counter := st.vert_counter + countV ls
          normal_counter := st.normal_counter + countVN ls
          texture_counter := st.texture_counter + countVT ls } := by
  induction ls with
  | nil => intro st _; simp [geometryOf, normalsOf, texcoordsOf, countV, countVN, countVT]
  | cons l ls ih =>
    intro st hst
    have hl := hv l (List.mem_cons_self l ls)
    have hls := fun l' h' => hv l' (List.mem_cons_of_mem l h')
    rw [List.foldl_cons]
    cases l with
    | v x y z =>
      rw [ih hls _ (by simp [readLine, openNewMesh, hst])]
      simp [readLine, openNewMesh, hst, OBJ_Mesh.AddGeometry, AppendToVector_three, geometryOf,
        normalsOf, texcoordsOf, countV, countVN, countVT, add_comm, add_left_comm]
    | vt x y z =>
      rw [ih hls _ (by simp [readLine, openNewMesh, hst])]
      simp [readLine, openNewMesh, hst, OBJ_Mesh.AddTextureData, AppendToVector_three, geometryOf,
        normalsOf, texcoordsOf, countV, countVN, countVT, add_comm, add_left_comm]
    | vn x y z =>
      rw [ih hls _ (by simp [readLine, openNewMesh, hst])]
      simp [readLine, openNewMesh, hst, OBJ_Mesh.AddNormals, AppendToVector_three, geometryOf,
        normalsOf, texcoordsOf, countV, countVN, countVT, add_comm, add_left_comm]
    | _ => simp [Line.isVertexData] at hl

/-- Reading face lines appends the adjusted faces to the current mesh. -/
theorem foldl_faces (rs : List FaceRef) :
    ∀ st : ReadState, (rs.map Line.f).foldl readLine st =
      { st with mesh := { st.mesh with m_faces := st.mesh.m_faces ++ rs.map (adjustFace st) } } := by
  induction rs with
  | nil => intro st; simp
  | cons r rs ih =>
    intro st
    rw [List.map_cons, List.foldl_cons, ih]
    simp [readLine, OBJ_Mesh.AddFaceData, adjustFace]

end OBJ_FileLoader

namespace OBJ_FileLoader

theorem group_from_fresh (L : List OBJ_Mesh) (bv bt bn : Int) (gname : String) (g : Group)
    (hv : ∀ l ∈ g.vlines, l.isVertexData = true) :
    (groupLines g).foldl readLine (freshState L bv bt bn gname) = pendingState L bv bt bn g := by
  unfold groupLines
  rw [List.foldl_append, List.foldl_append, foldl_vertexData g.vlines hv _ rfl, foldl_faces]
  have hmap : ∀ st : ReadState, st.vert_base = bv → st.texture_base = bt →
      st.normal_base = bn → st.smoothing_group = -1 →
      g.faces.map (adjustFace st) = g.faces.map (groupFace bv bt bn) := by
    intro st h1 h2 h3 h4
    apply List.map_congr_left
    intro r _
    simp only [adjustFace, groupFace, h1, h2, h3, h4, Face.mk.injEq, and_true]
    refine ⟨?_, ?_, ?_, ?_, ?_, ?_, ?_, ?_, ?_⟩ <;> omega
  rw [hmap _ rfl rfl rfl rfl]
  simp only [List.foldl_cons, List.foldl_nil, readLine, freshState, pendingState, groupMesh,
    OBJ_Mesh.SetName, List.nil_append]

theorem openNewMesh_pending (L : List OBJ_Mesh) (bv bt bn : Int) (g : Group) :
    openNewMesh (pendingState L bv bt bn g)
      = freshState (L ++ [groupMesh bv bt bn g]) (bv + countV g.vlines) (bt + countVT g.vlines)
          (bn + countVN g.vlines) g.name := by
  simp [openNewMesh, pendingState, freshState, groupMesh, OBJ_Mesh.SetName]

theorem openNewMesh_idem (st : ReadState) : openNewMesh (openNewMesh st) = openNewMesh st := by
  unfold openNewMesh
  by_cases h : st.new_group_was_opened = true
  · simp [h]
  · simp [h]

theorem readLine_vertexData_open (st : ReadState) (l : Line) (hl : l.isVertexData = true) :
    readLine st l = readLine (openNewMesh st) l := by
  cases l <;> simp [Line.isVertexData] at hl <;> simp [readLine, openNewMesh_idem]

theorem finish_pending (L : List OBJ_Mesh) (bv bt bn : Int) (g : Group) (hf : g.faces ≠ []) :
    finish (pendingState L bv bt bn g) = L ++ [groupMesh bv bt bn g] := by
  have hpos : ((pendingState L bv bt bn g).mesh.GetNFaces > 0) := by
    cases hfs : g.faces with
    | nil => exact absurd hfs hf
    | cons r rs =>
      simp [pendingState, groupMesh, OBJ_Mesh.SetName, OBJ_Mesh.GetNFaces, hfs]
  unfold finish
  rw [if_pos hpos]
  simp [pendingState, groupMesh, OBJ_Mesh.SetName]

/-- Reading a file of consecutive groups from the start of the first group's vertex
data yields the expected mesh of every group, in order. -/
theorem read_groups :
    ∀ (gs : List Group) (g : Group) (L : List OBJ_Mesh) (bv bt bn : Int) (gname : String),
      (∀ g' ∈ g :: gs, g'.vlines ≠ [] ∧ (∀ l ∈ g'.vlines, l.isVertexData = true) ∧
        g'.faces ≠ []) →
      finish ((fileLines (g :: gs)).foldl readLine (freshState L bv bt bn gname))
        = L ++ expectedMeshes bv bt bn (g :: gs) := by
  intro gs
  induction gs with
  | nil =>
    intro g L bv bt bn gname h
    obtain ⟨_, hv, hf⟩ := h g (List.mem_cons_self g [])
    simp only [fileLines, List.flatMap_cons, List.flatMap_nil, List.append_nil]
    rw [group_from_fresh L bv bt bn gname g hv, finish_pending L bv bt bn g hf]
    rfl
  | cons g' gs ih =>
    intro g L bv bt bn gname h
    obtain ⟨_, hv, _⟩ := h g (List.mem_cons_self g _)
    obtain ⟨hne', hv', _⟩ := h g' (List.mem_cons_of_mem g (List.mem_cons_self g' gs))
    have hrest : ∀ g'' ∈ g' :: gs, g''.vlines ≠ [] ∧
        (∀ l ∈ g''.vlines, l.isVertexData = true) ∧ g''.faces ≠ [] :=
      fun g'' hg'' => h g'' (List.mem_cons_of_mem g hg'')
    have hsplit : fileLines (g :: g' :: gs) = groupLines g ++ fileLines (g' :: gs) := by
      simp [fileLines]
    rw [hsplit, List.foldl_append, group_from_fresh L bv bt bn gname g hv]
    have hopen : (fileLines (g' :: gs)).foldl readLine (pendingState L bv bt bn g)
        = (fileLines (g' :: gs)).foldl readLine (openNewMesh (pendingState L bv bt bn g)) := by
      cases hvl : g'.vlines with
      | nil => exact absurd hvl hne'
      | cons l ls =>
        have hl : l.isVertexData = true := hv' l (by rw [hvl]; exact List.mem_cons_self l ls)
        have hlines : fileLines (g' :: gs)
            = l :: (ls ++ [Line.g (some g'.name)] ++ g'.faces.map Line.f ++ fileLines gs) := by
          simp [fileLines, groupLines, hvl]
        rw [hlines, List.foldl_cons, List.foldl_cons, readLine_vertexData_open _ l hl]
    rw [hopen, openNewMesh_pending, ih g' _ _ _ _ _ hrest]
    simp [expectedMeshes]

theorem geometryOf_length (ls : List Line) : ((geometryOf ls).length : Int) = 3 * countV ls := by
  induction ls with
  | nil => rfl
  | cons l ls ih =>
    cases l <;> simp only [geometryOf, countV, List.length_cons] <;> first | exact ih | (push_cast; omega)

theorem texcoordsOf_length (ls : List Line) :
    ((texcoordsOf ls).length : Int) = 3 * countVT ls := by
  induction ls with
  | nil => rfl
  | cons l ls ih =>
    cases l <;> simp only [texcoordsOf, countVT, List.length_cons] <;> first | exact ih | (push_cast; omega)

theorem normalsOf_length (ls : List Line) : ((normalsOf ls).length : Int) = 3 * countVN ls := by
  induction ls with
  | nil => rfl
  | cons l ls ih =>
    cases l <;> simp only [normalsOf, countVN, List.length_cons] <;> first | exact ih | (push_cast; omega)

end OBJ_FileLoader

namespace OBJ_FileLoader

theorem expectedMeshes_length (gs : List Group) :
    ∀ bv bt bn : Int, (expectedMeshes bv bt bn gs).length = gs.length := by
  induction gs with
  | nil => intro _ _ _; rfl
  | cons g gs ih => intro bv bt bn; simp [expectedMeshes, ih]

theorem groupMesh_counts (bv bt bn : Int) (g : Group) :
    (groupMesh bv bt bn g).GetNVertices = countV g.vlines ∧
    (groupMesh bv bt bn g).GetNTexture = countVT g.vlines ∧
    (groupMesh bv bt bn g).GetNNormals = countVN g.vlines := by
  have h1 := geometryOf_length g.vlines
  have h2 := texcoordsOf_length g.vlines
  have h3 := normalsOf_length g.vlines
  unfold OBJ_Mesh.GetNVertices OBJ_Mesh.GetNTexture OBJ_Mesh.GetNNormals groupMesh
  simp only
  refine ⟨?_, ?_, ?_⟩ <;> omega

/-- When every face refers to entries of its own group, every index of every expected
mesh is a valid 0-based index into that mesh's own attribute vectors. -/
theorem expectedMeshes_valid (gs : List Group) :
    ∀ bv bt bn : Int, ownReferences bv bt bn gs →
      ∀ m ∈ expectedMeshes bv bt bn gs, validIndices m := by
  induction gs with
  | nil => intro _ _ _ _ m hm; simp [expectedMeshes] at hm
  | cons g gs ih =>
    intro bv bt bn href m hm
    obtain ⟨hown, hrest⟩ := href
    simp only [expectedMeshes, List.mem_cons] at hm
    rcases hm with rfl | hm
    · obtain ⟨c1, c2, c3⟩ := groupMesh_counts bv bt bn g
      intro f hf j hj
      rw [c1, c2, c3]
      simp only [groupMesh, List.mem_map] at hf
      obtain ⟨r, hr, rfl⟩ := hf
      obtain ⟨a1, a2, a3, b1, b2, b3, d1, d2, d3⟩ := hown r hr
      have hj3 : j = 0 ∨ j = 1 ∨ j = 2 := by omega
      rcases hj3 with rfl | rfl | rfl <;>
        simp only [groupFace, Face.vert, Face.texture, Face.normal] <;>
        refine ⟨⟨?_, ?_⟩, ⟨?_, ?_⟩, ⟨?_, ?_⟩⟩ <;> omega
    · exact ih _ _ _ hrest m hm

/-- C6: for a file made of consecutive groups, each with its own vertex data lines,
a named group marker and at least one face referring only to the group's own entries
by 1-based file-global indices, `ReadFile` yields one mesh per group, in order; every
face index is the file index minus 1 minus the number of entries of that attribute
in all preceding groups, hence a valid 0-based index into the mesh's own vectors. -/
theorem ReadFile_groups (gs : List Group) (group_name : String) (hne : gs ≠ [])
    (hg : ∀ g ∈ gs, g.vlines ≠ [] ∧ (∀ l ∈ g.vlines, l.isVertexData = true) ∧ g.faces ≠ [])
    (href : ownReferences 0 0 0 gs) :
    ReadFile [] group_name (fileLines gs) = .ok (expectedMeshes 0 0 0 gs) ∧
    (expectedMeshes 0 0 0 gs).length = gs.length ∧
    ∀ m ∈ expectedMeshes 0 0 0 gs, validIndices m := by
  refine ⟨?_, expectedMeshes_length gs 0 0 0, expectedMeshes_valid gs 0 0 0 href⟩
  cases gs with
  | nil => exact absurd rfl hne
  | cons g gs =>
    unfold ReadFile
    rw [if_neg (by simp)]
    have h := read_groups gs g [] 0 0 0 group_name hg
    rw [List.nil_append] at h
    rw [← h]
    rfl

theorem ReadFile_groups_witness :
    ReadFile [] "" (fileLines exampleGroups) = .ok (expectedMeshes 0 0 0 exampleGroups) ∧
    (expectedMeshes 0 0 0 exampleGroups).length = exampleGroups.length ∧
    ∀ m ∈ expectedMeshes 0 0 0 exampleGroups, validIndices m :=
  ReadFile_groups exampleGroups "" (by simp [exampleGroups])
    (by simp [exampleGroups, Line.isVertexData])
    (by simp [exampleGroups, ownReferences, countV, countVT, countVN])

end OBJ_FileLoader

/-! ### Binary round trip of header, vertex segment and animation segment -/

namespace PS2Icon

theorem getU32_bytes (n : Nat) (h : n < 4294967296) :
    getU32 (n % 256) (n / 256 % 256) (n / 65536 % 256) (n / 16777216 % 256) = n := by
  unfold getU32
  omega

theorem readU32_putU32 (n : Nat) (h : n < 4294967296) (rest : List Nat) :
    readU32 (putU32 n ++ rest) = some (n, rest) := by
  show some (getU32 (n % 256) (n / 256 % 256) (n / 65536 % 256) (n / 16777216 % 256), rest) = _
  rw [getU32_bytes n h]

end PS2Icon

namespace PS2Icon

end PS2Icon

section RangeLemmas

theorem range_flatMap_succ {β : Type} (f : Nat → List β) (k : Nat) :
    (List.range (k + 1)).flatMap f = f 0 ++ (List.range k).flatMap (fun i => f (i + 1)) := by
  rw [List.range_succ_eq_map, List.flatMap_cons, flatMap_map_eq]

end RangeLemmas

namespace PS2Icon

end PS2Icon

namespace PS2Icon

end PS2Icon

namespace PS2Icon

theorem ReadFile_geometry_gbFailed (s : List Nat) (msg : String)
    (h : ReadFile_geometry s = .gbFailed msg) :
    ∃ p rest, readHeader s = some (p, rest) ∧ CheckValidity p = false := by
  unfold ReadFile_geometry at h
  split at h
  · exact absurd h (by simp)
  · rename_i header rest hh
    refine ⟨header, rest, hh, ?_⟩
    split at h
    · cases hc : CheckValidity header
      · rfl
      · simp [hc] at *
    · split at h
      · exact absurd h (by simp)
      · split at h
        · exact absurd h (by simp)
        · split at h
          · exact absurd h (by simp)
          · exact absurd h (by simp)

theorem readTexture_gbFailed (texture_type pos : Nat) (s : List Nat) (msg : String)
    (h : readTexture texture_type pos s = .gbFailed msg) :
    msg = "File size is bigger than INT_MAX" ∨ msg = "File read error" := by
  unfold readTexture at h
  split at h
  · split at h
    · right
      simpa using h.symm
    · exact absurd h (by simp)
  · split at h
    · exact absurd h (by simp)
    · simp only at h
      split at h
      · left
        simpa using h.symm
      · split at h <;> exact absurd h (by simp)

/-- C8 (amended): `CheckValidity` returns true exactly when `n_vertices mod 3 = 0`,
whatever the other header fields are; on a stream that holds a header, `ReadFile` raises
`GB_FAILED` with the message "Icon Header seems to be corrupted" exactly when
`CheckValidity` returns false on it; and a `GB_FAILED` it raises for an accepted header
carries the message "File size is bigger than INT_MAX" (line 150) or "File read error"
(lines 184-185). -/
theorem CheckValidity_ReadFile (p : Icon_Header) (bytes rest : List Nat)
    (hread : readHeader bytes = some (p, rest)) :
    (CheckValidity p = true ↔ p.n_vertices % 3 = 0) ∧
    (∀ file_id reserved animation_shapes texture_type,
      CheckValidity { p with file_id := file_id, reserved := reserved,
                             animation_shapes := animation_shapes,
                             texture_type := texture_type } = CheckValidity p) ∧
    (CheckValidity p = false → ReadFile bytes = .gbFailed "Icon Header seems to be corrupted") ∧
    (ReadFile bytes = .gbFailed "Icon Header seems to be corrupted" → CheckValidity p = false) ∧
    (∀ msg, CheckValidity p = true → ReadFile bytes = .gbFailed msg →
      msg = "File size is bigger than INT_MAX" ∨ msg = "File read error") := by
  have hother : ∀ msg, CheckValidity p = true → ReadFile bytes = .gbFailed msg →
      msg = "File size is bigger than INT_MAX" ∨ msg = "File read error" := by
    intro msg hc hr
    unfold ReadFile at hr
    split at hr
    · exact absurd hr (by simp)
    · rename_i msg2 hg
      obtain ⟨q, rest2, hq, hqf⟩ := ReadFile_geometry_gbFailed bytes msg2 hg
      rw [hread] at hq
      simp only [Option.some.injEq, Prod.mk.injEq] at hq
      rw [hq.1, hqf] at hc
      exact absurd hc (by simp)
    · split at hr
      · exact absurd hr (by simp)
      · rename_i msg2 ht
        have h := readTexture_gbFailed _ _ _ _ ht
        have e : msg2 = msg := by simpa using hr
        rw [← e]
        exact h
      · exact absurd hr (by simp)
  refine ⟨CheckValidity_iff p, fun _ _ _ _ => rfl, ?_, ?_, hother⟩
  · intro hc
    unfold ReadFile ReadFile_geometry
    simp only [hread, hc, Bool.not_false, if_true]
  · intro hr
    by_contra hne
    have hc : CheckValidity p = true := by
      cases h : CheckValidity p
      · exact absurd h hne
      · rfl
    rcases hother _ hc hr with h | h <;> exact absurd h (by decide)

theorem CheckValidity_ReadFile_witness :
    readHeader (writeHeader exampleBadHeader ++ [0, 0]) = some (exampleBadHeader, [0, 0]) ∧
    ReadFile (writeHeader exampleBadHeader ++ [0, 0])
      = .gbFailed "Icon Header seems to be corrupted" :=
  ⟨by rfl, (CheckValidity_ReadFile exampleBadHeader (writeHeader exampleBadHeader ++ [0, 0]) [0, 0]
    (by rfl)).2.2.1 (by rfl)⟩

/-- C8 as stated fails: `ReadFile` raises `GB_FAILED` on headers that `CheckValidity`
accepts. `fileHugeRle` holds an accepted header (no vertices), a complete animation
header and the RLE size field `0x7FFFFFFF`: the segment limit exceeds `INT_MAX` and
`ReadFile` raises `GB_FAILED` "File size is bigger than INT_MAX". `fileShortTexture`
holds an accepted header announcing an uncompressed texture, a complete animation header
and one texture word: the stream fails while the texture is read and `ReadFile` raises
`GB_FAILED` "File read error". -/
theorem ReadFile_gbFailed_on_valid_header :
    (∃ rest, readHeader fileHugeRle = some (exampleRleIcon.header, rest)) ∧
    CheckValidity exampleRleIcon.header = true ∧
    ReadFile fileHugeRle = .gbFailed "File size is bigger than INT_MAX" ∧
    (∃ rest, readHeader fileShortTexture = some (iconUncompressed.header, rest)) ∧
    CheckValidity iconUncompressed.header = true ∧
    ReadFile fileShortTexture = .gbFailed "File read error" :=
  ⟨⟨_, rfl⟩, rfl, rfl, ⟨_, rfl⟩, rfl, rfl⟩

end PS2Icon

/-! ### RLE texture codec -/

namespace PS2Icon

set_option maxRecDepth 100000 in
theorem xor_ffff_small : ∀ q, q < 256 → 65535 ^^^ q = 65535 - q := by
  decide

set_option maxRecDepth 100000 in
theorem mask_green : ∀ g, g < 256 → (g <<< 2) &&& 0x03e0 = g / 8 * 32 := by
  decide

set_option maxRecDepth 100000 in
theorem mask_blue : ∀ b, b < 256 → (b <<< 7) &&& 0x7c00 = b / 8 * 1024 := by
  decide

set_option maxRecDepth 100000 in
theorem mask_red : ∀ r, r < 256 → (r >>> 3) &&& 0x001f = r / 8 := by
  decide

end PS2Icon

namespace PS2Icon

theorem or3_eq_add (x y z : Nat) (hx : x < 32) (hy : y < 32) :
    x ||| y * 32 ||| z * 1024 = x + y * 32 + z * 1024 := by
  have h1 : x ||| y * 32 = x + y * 32 := by
    have h := @Nat.mul_add_lt_is_or 5 x (by omega) y
    rw [Nat.lor_comm, show 2 ^ 5 * y = y * 32 by ring] at h
    omega
  have h2 : (x + y * 32) ||| z * 1024 = x + y * 32 + z * 1024 := by
    have h := @Nat.mul_add_lt_is_or 10 (x + y * 32) (by omega) z
    rw [Nat.lor_comm, show 2 ^ 10 * z = z * 1024 by ring] at h
    omega
  rw [h1, h2]

theorem channels_eq (t : Nat) :
    ((t >>> 16) &&& 0xff) % 256 = t / 65536 % 256 ∧
    ((t >>> 8) &&& 0xff) % 256 = t / 256 % 256 ∧
    (t &&& 0xff) % 256 = t % 256 := by
  simp only [show (0xff : Nat) = 255 from rfl, and_255_eq_mod, Nat.shiftRight_eq_div_pow]
  refine ⟨?_, ?_, ?_⟩ <;> omega

theorem pixelWord_lt (t : Nat) : pixelWord t < 32768 := by
  unfold pixelWord
  omega

/-- The uncompressed branch writes the 15-bit word of the entry, for every entry. -/
theorem encodeWord_uncompressed_eq (t : Nat) : encodeWord_uncompressed t = pixelWord t := by
  obtain ⟨hr, hg, hb⟩ := channels_eq t
  unfold encodeWord_uncompressed
  simp only [hr, hg, hb]
  rw [mask_red _ (Nat.mod_lt _ (by norm_num)), mask_green _ (Nat.mod_lt _ (by norm_num)),
    mask_blue _ (Nat.mod_lt _ (by norm_num)), or3_eq_add _ _ _ (by omega) (by omega)]
  have := pixelWord_lt t
  unfold pixelWord at this ⊢
  omega

/-- The RLE branches write the 15-bit word of the entry when every channel is a
multiple of 8. -/
theorem encodeWord_repeat_eq (t : Nat) (hv : validPixel t) : encodeWord_repeat t = pixelWord t := by
  obtain ⟨hr, hg, hb⟩ := channels_eq t
  obtain ⟨_, vr, vg, vb⟩ := hv
  unfold encodeWord_repeat
  simp only [hr, hg, hb]
  simp only [Nat.shiftLeft_eq, Nat.shiftRight_eq_div_pow]
  have e1 : t / 65536 % 256 / 2 ^ 3 % 65536 = t / 65536 % 256 / 8 := by omega
  have e2 : t / 256 % 256 * 2 ^ 2 = t / 256 % 256 / 8 * 32 := by omega
  have e3 : t % 256 * 2 ^ 7 = t % 256 / 8 * 1024 := by omega
  rw [e1, e2, e3, or3_eq_add _ _ _ (by omega) (by omega)]
  have := pixelWord_lt t
  unfold pixelWord at this ⊢
  omega

theorem encodeWord_literal_eq (t : Nat) (hv : validPixel t) :
    encodeWord_literal t = pixelWord t :=
  encodeWord_repeat_eq t hv

/-- Decoding the 15-bit word of a valid entry gives the entry back. -/
theorem decodeWord_pixelWord (t : Nat) (hv : validPixel t) :
    decodeWord_uncompressed (pixelWord t) = t := by
  obtain ⟨va, vr, vg, vb⟩ := hv
  rw [decodeWord_uncompressed_eq_add]
  unfold pixelWord
  generalize hx : t / 65536 % 256 / 8 = x
  generalize hy : t / 256 % 256 / 8 = y
  generalize hz : t % 256 / 8 = z
  have bx : x < 32 := by omega
  have bz : z < 32 := by omega
  have by' : y < 32 := by omega
  have c1 : (x + y * 32 + z * 1024) % 32 = x := by omega
  have c2 : (x + y * 32 + z * 1024) / 32 % 32 = y := by omega
  have c3 : (x + y * 32 + z * 1024) / 1024 % 32 = z := by omega
  rw [c1, c2, c3]
  have r8 : t / 65536 % 256 = x * 8 := by omega
  have g8 : t / 256 % 256 = y * 8 := by omega
  have b8 : t % 256 = z * 8 := by omega
  clear c1 c2 c3 hx hy hz vr vg vb
  have d1 : t = t / 256 * 256 + t % 256 := by omega
  have d2 : t / 256 = t / 65536 * 256 + t / 256 % 256 := by omega
  have d3 : t / 65536 = t / 16777216 * 256 + t / 65536 % 256 := by omega
  omega

theorem readU16_putU16 (w : Nat) (h : w < 65536) (s : List Nat) :
    readU16 (putU16 w ++ s) = some (w, s) := by
  show some (getU16 (w % 256) (w / 256 % 256), s) = _
  unfold getU16
  congr 2
  omega

end PS2Icon

namespace PS2Icon

theorem getElem?_eq_some_getD (mem : List Nat) (k : Nat) (h : k < mem.length) :
    mem[k]? = some (mem.getD k 0) := by
  rw [List.getD_eq_getElem?_getD, List.getElem?_eq_getElem h]
  rfl

/-- The repeat scan stops at the first entry that differs from entry `i`, when there
is one inside the readable memory. -/
theorem countRep_stops (mem : List Nat) (i : Nat) :
    ∀ (n rep fuel : Nat), i + rep + n < mem.length →
      mem.getD (i + rep + n) 0 ≠ mem.getD i 0 → n + 1 ≤ fuel →
      ∃ r, countRep mem i fuel rep = some r ∧ rep ≤ r ∧ r ≤ rep + n ∧
        (∀ k, rep ≤ k → k < r → mem.getD (i + k) 0 = mem.getD i 0) ∧
        mem.getD (i + r) 0 ≠ mem.getD i 0 := by
  intro n
  induction n with
  | zero =>
    intro rep fuel hlen hne hfuel
    obtain ⟨fuel, rfl⟩ : ∃ f, fuel = f + 1 := ⟨fuel - 1, by omega⟩
    refine ⟨rep, ?_, le_refl _, by omega, fun k h1 h2 => by omega, hne⟩
    rw [countRep, getElem?_eq_some_getD mem i (by omega),
      getElem?_eq_some_getD mem (i + rep) (by omega)]
    simp only
    rw [if_neg (fun h => hne h.symm)]
  | succ n ih =>
    intro rep fuel hlen hne hfuel
    obtain ⟨fuel, rfl⟩ : ∃ f, fuel = f + 1 := ⟨fuel - 1, by omega⟩
    rw [countRep, getElem?_eq_some_getD mem i (by omega),
      getElem?_eq_some_getD mem (i + rep) (by omega)]
    simp only
    by_cases heq : mem.getD i 0 = mem.getD (i + rep) 0
    · rw [if_pos heq]
      obtain ⟨r, h1, h2, h3, h4, h5⟩ := ih (rep + 1) fuel (by omega)
        (by rw [show i + (rep + 1) + n = i + rep + (n + 1) by omega]; exact hne) (by omega)
      refine ⟨r, h1, by omega, by omega, ?_, h5⟩
      intro k hk1 hk2
      by_cases hk : k = rep
      · rw [hk]; exact heq.symm
      · exact h4 k (by omega) hk2
    · rw [if_neg heq]
      exact ⟨rep, rfl, le_refl _, by omega, fun k h1 h2 => by omega, fun h => heq h.symm⟩

/-- The literal scan stops at the first pair of equal neighbours or at 255, when such
a pair lies inside the readable memory. -/
theorem countLiteral_stops (mem : List Nat) (i stop : Nat) (hstop : i + stop + 1 < mem.length)
    (heq : mem.getD (i + stop) 0 = mem.getD (i + stop + 1) 0) :
    ∀ (fuel pix : Nat), 256 ≤ fuel + pix → pix ≤ 255 → pix ≤ stop →
      ∃ p, countLiteral mem i fuel pix = some p ∧ pix ≤ p ∧ p ≤ 255 ∧ p ≤ stop ∧
        (p < 255 → mem.getD (i + p) 0 = mem.getD (i + p + 1) 0) := by
  intro fuel
  induction fuel with
  | zero => intro pix h1 h2 _; omega
  | succ fuel ih =>
    intro pix h1 h2 h3
    rw [countLiteral, getElem?_eq_some_getD mem (i + pix) (by omega),
      getElem?_eq_some_getD mem (i + pix + 1) (by omega)]
    simp only
    by_cases hc : mem.getD (i + pix) 0 ≠ mem.getD (i + pix + 1) 0 ∧ pix < 255
    · rw [if_pos hc]
      have hne : pix ≠ stop := by
        intro h
        rw [h] at hc
        exact hc.1 heq
      obtain ⟨p, q1, q2, q3, q4, q5⟩ := ih (pix + 1) (by omega) (by omega) (by omega)
      exact ⟨p, q1, by omega, q3, q4, q5⟩
    · rw [if_neg hc]
      refine ⟨pix, rfl, le_refl _, h2, h3, ?_⟩
      intro hlt
      by_contra hne
      exact hc ⟨hne, hlt⟩

theorem literalPixels_eq (mem : List Nat) :
    ∀ (n i : Nat), i + n ≤ mem.length →
      literalPixels mem i n = some ((List.range n).flatMap (fun k =>
        putU16 (encodeWord_literal (mem.getD (i + k) 0)))) := by
  intro n
  induction n with
  | zero => intro i _; rfl
  | succ n ih =>
    intro i h
    rw [literalPixels, getElem?_eq_some_getD mem i (by omega)]
    simp only
    rw [ih (i + 1) (by omega), range_flatMap_succ]
    simp only [Nat.add_zero]
    congr 2
    apply flatMap_congr_mem
    intro k _
    rw [show i + 1 + k = i + (k + 1) by omega]

theorem readLiteral_words (ws : List Nat) (hw : ∀ w ∈ ws, w < 65536) (s : List Nat) :
    readLiteral ws.length (ws.flatMap putU16 ++ s) = some (ws.map decodeWord_literal, s) := by
  induction ws with
  | nil => rfl
  | cons w ws ih =>
    rw [List.flatMap_cons, List.append_assoc, List.length_cons, readLiteral,
      readU16_putU16 w (hw w (List.mem_cons_self w ws))]
    simp only
    rw [ih (fun v hv => hw v (List.mem_cons_of_mem w hv))]
    rfl

theorem readTexture_uncompressed_words (ws : List Nat) (hw : ∀ w ∈ ws, w < 65536)
    (s : List Nat) :
    readTexture_uncompressed ws.length (ws.flatMap putU16 ++ s)
      = some (ws.map decodeWord_uncompressed, s) := by
  induction ws with
  | nil => rfl
  | cons w ws ih =>
    rw [List.flatMap_cons, List.append_assoc, List.length_cons, readTexture_uncompressed,
      readU16_putU16 w (hw w (List.mem_cons_self w ws))]
    simp only
    rw [ih (fun v hv => hw v (List.mem_cons_of_mem w hv))]
    rfl

/-- A list from index `i` on: its next `p` entries, then the rest. -/
theorem drop_eq_range_append (l : List Nat) (p : Nat) :
    ∀ i, i + p ≤ l.length →
      l.drop i = (List.range p).map (fun k => l.getD (i + k) 0) ++ l.drop (i + p) := by
  induction p with
  | zero => intro i _; simp
  | succ p ih =>
    intro i h
    rw [List.range_succ, List.map_append, List.append_assoc, ih i (by omega)]
    congr 1
    rw [List.map_cons, List.map_nil, List.singleton_append,
      List.drop_eq_getElem_cons (show i + p < l.length by omega),
      List.getD_eq_getElem _ _ (show i + p < l.length by omega)]
    rfl

end PS2Icon

namespace PS2Icon

set_option maxRecDepth 100000 in
theorem xor_token_back : ∀ q, q < 256 →
    ((65535 - q) ^^^ 65535) % 65536 = q ∧ 65535 ^^^ (65535 - q) = q := by
  decide

/-- The literal token for a run of `p` pixels, `1 ≤ p ≤ 255`, is `0x10000 - p`, and
both complements of it give `p - 1` back. -/
theorem literal_token (p : Nat) (h1 : 1 ≤ p) (h2 : p ≤ 255) :
    (0xFFFF ^^^ GBCOLOR32.toU32 ((p : Int) - 1)) % 65536 = 65536 - p ∧
    ((65536 - p) ^^^ 0xFFFF) % 65536 = p - 1 ∧ (0xFFFF ^^^ (65536 - p)) + 1 = p := by
  have hu : GBCOLOR32.toU32 ((p : Int) - 1) = p - 1 := by
    unfold GBCOLOR32.toU32
    have e : ((p : Int) - 1) % 4294967296 = ((p - 1 : Nat) : Int) := by omega
    rw [e, Int.toNat_ofNat]
  have hx := xor_ffff_small (p - 1) (by omega)
  obtain ⟨hb1, hb2⟩ := xor_token_back (p - 1) (by omega)
  have e2 : 65536 - p = 65535 - (p - 1) := by omega
  refine ⟨?_, ?_, ?_⟩
  · rw [hu, show (0xFFFF : Nat) = 65535 from rfl, hx]
    omega
  · rw [e2, show (0xFFFF : Nat) = 65535 from rfl, hb1]
  · rw [e2, show (0xFFFF : Nat) = 65535 from rfl, hb2]
    omega

theorem length_flatMap_putU16 (ws : List Nat) : (ws.flatMap putU16).length = 2 * ws.length := by
  induction ws with
  | nil => rfl
  | cons w ws ih =>
    rw [List.flatMap_cons, List.length_append, ih, List.length_cons]
    show 2 + 2 * ws.length = 2 * (ws.length + 1)
    omega

theorem map_range_const (r i : Nat) (t : Nat) (l : List Nat)
    (h : ∀ k, k < r → l.getD (i + k) 0 = t) :
    (List.range r).map (fun k => l.getD (i + k) 0) = List.replicate r t := by
  apply List.ext_getElem
  · simp
  · intro k h1 h2
    simp only [List.getElem_map, List.getElem_range, List.getElem_replicate]
    exact h k (by simpa using h1)

end PS2Icon

namespace PS2Icon

/-- The RLE encoder and decoder loops on a texture followed by two equal words that
differ from its last entry: from every index `i` the encoder emits records that the
decoder turns back into the entries `i .. 16383`. -/
theorem rle_loop_roundtrip (texture : List Nat) (x : Nat) (rest : List Nat)
    (hlen : texture.length = 16384) (hvalid : ∀ t ∈ texture, validPixel t)
    (hx : x ≠ texture.getD 16383 0) :
    ∀ (d i fuelE : Nat), i + d = 16384 → d ≤ fuelE →
      ∃ bytes, rleEncodeLoop (texture ++ x :: x :: rest) fuelE i = some bytes ∧
        bytes.length ≤ 4 * d ∧
        ∀ (pos fuelD : Nat) (tail : List Nat), bytes.length ≤ fuelD →
          rleDecodeLoop ((pos + bytes.length : Nat) : Int) fuelD pos (bytes ++ tail)
            = some (texture.drop i, tail) := by
  have hmlen : (texture ++ x :: x :: rest).length = 16386 + rest.length := by
    simp [hlen]
    omega
  have hm : ∀ k, k < 16384 → (texture ++ x :: x :: rest).getD k 0 = texture.getD k 0 := by
    intro k hk
    rw [List.getD_append _ _ _ _ (by omega)]
  have h84 : (texture ++ x :: x :: rest).getD 16384 0 = x := by
    rw [List.getD_append_right _ _ _ _ (by omega), hlen]
    rfl
  have h85 : (texture ++ x :: x :: rest).getD 16385 0 = x := by
    rw [List.getD_append_right _ _ _ _ (by omega), hlen]
    rfl
  have hval : ∀ k, k < 16384 → validPixel (texture.getD k 0) := by
    intro k hk
    rw [List.getD_eq_getElem _ _ (by omega)]
    exact hvalid _ (List.getElem_mem _)
  generalize hmem : texture ++ x :: x :: rest = mem at hmlen hm h84 h85
  intro d
  induction d using Nat.strong_induction_on with
  | _ d ih =>
    intro i fuelE hid hfuel
    by_cases hd : d = 0
    · -- the loop is over
      have hi : i = 16384 := by omega
      have henc : rleEncodeLoop mem fuelE i = some [] := by
        cases fuelE with
        | zero => rw [rleEncodeLoop, if_neg (by omega)]
        | succ f => rw [rleEncodeLoop, if_neg (by omega)]
      refine ⟨[], henc, by simp, ?_⟩
      intro pos fuelD tail _
      have hdrop : texture.drop i = [] := List.drop_eq_nil_of_le (by omega)
      rw [hdrop]
      cases fuelD with
      | zero => rw [rleDecodeLoop, if_neg (by simp)]; rfl
      | succ f => rw [rleDecodeLoop, if_neg (by simp)]; rfl
    · have hi : i < 16384 := by omega
      obtain ⟨f, rfl⟩ : ∃ f, fuelE = f + 1 := ⟨fuelE - 1, by omega⟩
      -- the repeat scan
      have hrep : ∃ r, countRep mem i mem.length 1 = some r ∧ 1 ≤ r ∧ i + r ≤ 16384 ∧
          (∀ k, k < r → mem.getD (i + k) 0 = mem.getD i 0) ∧
          mem.getD (i + r) 0 ≠ mem.getD i 0 := by
        by_cases hix : mem.getD i 0 = x
        · have hi2 : i ≤ 16382 := by
            by_contra hc
            have : i = 16383 := by omega
            rw [this, hm 16383 (by omega)] at hix
            exact hx hix.symm
          obtain ⟨r, h1, h2, h3, h4, h5⟩ := countRep_stops mem i (16382 - i) 1 mem.length
            (by omega)
            (by rw [show i + 1 + (16382 - i) = 16383 by omega, hm 16383 (by omega), hix]
                exact fun h => hx h.symm)
            (by omega)
          refine ⟨r, h1, h2, by omega, ?_, h5⟩
          intro k hk
          by_cases hk0 : k = 0
          · rw [hk0]; rfl
          · exact h4 k (by omega) hk
        · obtain ⟨r, h1, h2, h3, h4, h5⟩ := countRep_stops mem i (16383 - i) 1 mem.length
            (by omega)
            (by rw [show i + 1 + (16383 - i) = 16384 by omega, h84]
                exact fun h => hix h.symm)
            (by omega)
          refine ⟨r, h1, h2, by omega, ?_, h5⟩
          intro k hk
          by_cases hk0 : k = 0
          · rw [hk0]; rfl
          · exact h4 k (by omega) hk
      obtain ⟨r, hr, hr1, hr2, hr3, hr4⟩ := hrep
      have hti : mem[i]? = some (texture.getD i 0) := by
        rw [getElem?_eq_some_getD mem i (by omega), hm i hi]
      rw [rleEncodeLoop, if_pos hi, hr]
      simp only
      by_cases hrgt : r > 1
      · -- a repeat record
        rw [if_pos hrgt, hti]
        simp only
        obtain ⟨bytes', he', hl', hd'⟩ := ih (d - r) (by omega) (i + r) f (by omega) (by omega)
        rw [he']
        simp only
        have hw : encodeWord_repeat (texture.getD i 0) = pixelWord (texture.getD i 0) :=
          encodeWord_repeat_eq _ (hval i hi)
        have hwlt : pixelWord (texture.getD i 0) < 65536 :=
          lt_trans (pixelWord_lt _) (by norm_num)
        have hrmod : r % 65536 = r := Nat.mod_eq_of_lt (by omega)
        refine ⟨_, rfl, ?_, ?_⟩
        · simp only [List.length_append, putU16, List.length_cons, List.length_nil]
          omega
        · intro pos fuelD tail hfd
          have hlen4 : (putU16 (r % 65536) ++ putU16 (encodeWord_repeat (texture.getD i 0))
              ++ bytes').length = 4 + bytes'.length := by
            simp only [List.length_append, putU16, List.length_cons, List.length_nil]
          rw [hlen4] at hfd ⊢
          obtain ⟨fd, rfl⟩ : ∃ fd, fuelD = fd + 1 := ⟨fuelD - 1, by omega⟩
          rw [rleDecodeLoop, if_pos (by push_cast; omega), List.append_assoc, List.append_assoc,
            hrmod, readU16_putU16 r (by omega)]
          simp only
          rw [if_pos (by omega), hw, readU16_putU16 _ hwlt]
          simp only
          have hlim : ((pos + (4 + bytes'.length) : Nat) : Int)
              = ((pos + 4 + bytes'.length : Nat) : Int) := by
            push_cast; ring
          rw [hlim, hd' (pos + 4) fd tail (by omega)]
          simp only
          rw [decodeWord_repeat_eq, decodeWord_pixelWord _ (hval i hi),
            drop_eq_range_append texture r i (by omega),
            map_range_const r i (texture.getD i 0) texture
              (fun k hk => by
                rw [← hm (i + k) (by omega), ← hm i hi]
                exact hr3 k hk)]
      · -- a literal record
        have hr1' : r = 1 := by omega
        subst hr1'
        rw [if_neg hrgt]
        have hne : mem.getD i 0 ≠ mem.getD (i + 1) 0 := fun h => hr4 h.symm
        have hstep : countLiteral mem i 256 0 = countLiteral mem i 255 1 := by
          rw [countLiteral, getElem?_eq_some_getD mem (i + 0) (by omega),
            getElem?_eq_some_getD mem (i + 0 + 1) (by omega)]
          simp only
          rw [if_pos ⟨hne, by omega⟩]
        have hstopeq : mem.getD (i + (16384 - i)) 0 = mem.getD (i + (16384 - i) + 1) 0 := by
          rw [show i + (16384 - i) = 16384 by omega, h84, h85]
        obtain ⟨p, hp, hp1, hp2, hp3, _⟩ := countLiteral_stops mem i (16384 - i) (by omega)
          hstopeq 255 1 (by omega) (by omega) (by omega)
        obtain ⟨ht1, ht2, ht3⟩ := literal_token p hp1 hp2
        rw [hstep, hp]
        simp only
        rw [ht1, ht2, show p - 1 + 1 = p by omega, literalPixels_eq mem p i (by omega)]
        simp only
        obtain ⟨bytes', he', hl', hd'⟩ := ih (d - p) (by omega) (i + p) f (by omega) (by omega)
        rw [he']
        simp only
        have hpix : ((List.range p).flatMap (fun k =>
            putU16 (encodeWord_literal (mem.getD (i + k) 0))))
            = ((List.range p).map (fun k => pixelWord (texture.getD (i + k) 0))).flatMap
                putU16 := by
          rw [flatMap_map_eq]
          apply flatMap_congr_mem
          intro k hk
          have hk' : k < p := List.mem_range.mp hk
          rw [hm (i + k) (by omega), encodeWord_literal_eq _ (hval (i + k) (by omega))]
        have hplen : ((List.range p).map (fun k => pixelWord (texture.getD (i + k) 0))).length
            = p := by simp
        have hlen2 : (putU16 (65536 - p) ++ (List.range p).flatMap (fun k =>
            putU16 (encodeWord_literal (mem.getD (i + k) 0))) ++ bytes').length
            = 2 + 2 * p + bytes'.length := by
          rw [hpix, List.length_append, List.length_append, length_flatMap_putU16, hplen]
          rfl
        refine ⟨_, rfl, by rw [hlen2]; omega, ?_⟩
        intro pos fuelD tail hfd
        rw [hlen2] at hfd ⊢
        obtain ⟨fd, rfl⟩ : ∃ fd, fuelD = fd + 1 := ⟨fuelD - 1, by omega⟩
        rw [rleDecodeLoop, if_pos (by push_cast; omega), List.append_assoc, List.append_assoc,
          readU16_putU16 (65536 - p) (by omega)]
        simp only
        rw [if_neg (by omega), ht3, hpix]
        nth_rewrite 1 [← hplen]
        rw [readLiteral_words _ (fun w hw => by
          obtain ⟨k, _, rfl⟩ := List.mem_map.mp hw
          exact lt_trans (pixelWord_lt _) (by norm_num))]
        simp only
        have hlim : ((pos + (2 + 2 * p + bytes'.length) : Nat) : Int)
            = ((pos + 2 + 2 * p + bytes'.length : Nat) : Int) := by
          push_cast; ring
        rw [hlim, hd' (pos + 2 + 2 * p) fd tail (by omega)]
        simp only
        rw [drop_eq_range_append texture p i (by omega), List.map_map]
        congr 2
        congr 1
        apply List.map_congr_left
        intro k hk
        have hk' : k < p := List.mem_range.mp hk
        show decodeWord_literal (pixelWord (texture.getD (i + k) 0)) = _
        rw [decodeWord_literal_eq, decodeWord_pixelWord _ (hval (i + k) (by omega))]

end PS2Icon

namespace PS2Icon

theorem readTexture_uncompressed_roundtrip (texture : List Nat)
    (hlen : texture.length = 16384) (hvalid : ∀ t ∈ texture, validPixel t)
    (utype pos : Nat) (hu : utype ≤ 0x07) :
    readTexture utype pos (writeTexture_uncompressed texture) = .ok texture := by
  have hws : writeTexture_uncompressed texture
      = (texture.map pixelWord).flatMap putU16 ++ [] := by
    rw [List.append_nil, flatMap_map_eq, writeTexture_uncompressed]
    have ht : texture = (List.range 16384).map (fun i => texture.getD i 0) := by
      have h := drop_eq_range_append texture 16384 0 (by omega)
      rw [List.drop_zero, List.drop_eq_nil_of_le (by omega), List.append_nil] at h
      simpa using h
    conv_rhs => rw [ht, flatMap_map_eq]
    apply flatMap_congr_mem
    intro i _
    rw [encodeWord_uncompressed_eq]
  have hl : (texture.map pixelWord).length = 16384 := by rw [List.length_map, hlen]
  have key : (texture.map pixelWord).map decodeWord_uncompressed = texture := by
    rw [List.map_map]
    conv_rhs => rw [← List.map_id texture]
    apply List.map_congr_left
    intro t ht
    exact decodeWord_pixelWord t (hvalid t ht)
  unfold readTexture
  rw [if_pos hu, hws, ← hl, readTexture_uncompressed_words _ (fun w hw => by
    obtain ⟨t, _, rfl⟩ := List.mem_map.mp hw
    exact lt_trans (pixelWord_lt _) (by norm_num)), key]

/-- When the 16384 entries of the array and the word behind it are all equal and the
next word differs, the encoder emits one repeat record of 16385 pixels. -/
theorem rleEncodeLoop_overrun (mem : List Nat) (c : Nat) (hlen : mem.length = 16386)
    (hg : ∀ k, k < 16385 → mem.getD k 0 = c) (hlast : mem.getD 16385 0 ≠ c) :
    rleEncodeLoop mem 16384 0
      = some (putU16 (16385 % 65536) ++ putU16 (encodeWord_repeat c) ++ []) := by
  obtain ⟨r, hr, hr1, hr2, hr3, hr4⟩ :=
    countRep_stops mem 0 16384 1 16386 (by omega)
      (by rw [show 0 + 1 + 16384 = 16385 from rfl, hg 0 (by omega)]; exact hlast)
      (by omega)
  have hr5 : r = 16385 := by
    by_contra hne
    apply hr4
    rw [hg (0 + r) (by omega), hg 0 (by omega)]
  subst hr5
  have h0 : mem[0]? = some c := by
    rw [getElem?_eq_some_getD mem 0 (by omega), hg 0 (by omega)]
  rw [rleEncodeLoop, if_pos (by omega), hlen, hr]
  simp only
  rw [if_pos (by omega), h0]
  simp only
  rw [rleEncodeLoop, if_neg (by omega)]

/-- C1 (conditional form). Let `texture` hold 16384 entries that are decodings of 5-5-5
pixel words (alpha `0xFF`, each colour channel a multiple of 8), and let the two words
behind the array be equal to each other and different from `texture[16383]`. Then the RLE
encoder of `WriteFile` terminates, the RLE decoder of `ReadFile` reads the identical
16384 entries from the produced stream (segment at a position `pos` with
`pos + 65540 ≤ INT_MAX`), and the uncompressed path gives the same entries. -/
theorem rle_roundtrip (texture : List Nat) (x : Nat) (rest : List Nat)
    (texture_type utype pos : Nat)
    (hlen : texture.length = 16384) (hvalid : ∀ t ∈ texture, validPixel t)
    (hx : x ≠ texture.getD 16383 0) (htype : texture_type > 0x07) (hu : utype ≤ 0x07)
    (hpos : pos + 65540 ≤ 2147483647) :
    ∃ bytes, writeTexture_rle texture (x :: x :: rest) = some bytes ∧
      readTexture texture_type pos bytes = .ok texture ∧
      readTexture utype pos (writeTexture_uncompressed texture) = .ok texture := by
  obtain ⟨records, henc, hl, hdec⟩ :=
    rle_loop_roundtrip texture x rest hlen hvalid hx 16384 0 16384 (by omega) (by omega)
  refine ⟨putU32 (u32 records.length) ++ records, ?_, ?_,
    readTexture_uncompressed_roundtrip texture hlen hvalid utype pos hu⟩
  · rw [writeTexture_rle, henc]
  · have hsz : u32 records.length = records.length := by
      unfold u32; omega
    have hlimit : u32 (u32 (pos + 4) + records.length) = pos + 4 + records.length := by
      unfold u32; omega
    have hint : toInt32 (pos + 4 + records.length) = ((pos + 4 + records.length : Nat) : Int) := by
      unfold toInt32
      rw [if_pos (by omega)]
      congr 1
      omega
    have h := hdec (pos + 4) records.length [] (le_refl _)
    rw [List.append_nil, List.drop_zero] at h
    unfold readTexture
    rw [if_neg (by omega), hsz, readU32_putU32 _ (by omega)]
    simp only
    rw [hlimit, if_neg (by omega), hint, h]

/-- C1 (instance). The conditional round trip holds for the all-black texture followed
by two zero words. -/
theorem rle_roundtrip_witness :
    (List.replicate 16384 0xFF000000).length = 16384 ∧
    (∀ t ∈ List.replicate 16384 0xFF000000, validPixel t) ∧
    (0 ≠ (List.replicate 16384 0xFF000000).getD 16383 0) ∧
    ∃ bytes, writeTexture_rle (List.replicate 16384 0xFF000000) (0 :: 0 :: []) = some bytes ∧
      readTexture 0x0F 0 bytes = .ok (List.replicate 16384 0xFF000000) ∧
      readTexture 0x07 0 (writeTexture_uncompressed (List.replicate 16384 0xFF000000))
        = .ok (List.replicate 16384 0xFF000000) :=
  have h1 : (List.replicate 16384 0xFF000000).length = 16384 := List.length_replicate _ _
  have h2 : ∀ t ∈ List.replicate 16384 0xFF000000, validPixel t := fun t ht => by
    rw [List.eq_of_mem_replicate ht]
    decide
  have h3 : 0 ≠ (List.replicate 16384 0xFF000000).getD 16383 0 := by
    rw [List.getD_eq_getElem _ _ (by rw [h1]; omega), List.getElem_replicate]
    decide
  ⟨h1, h2, h3, rle_roundtrip _ 0 [] 0x0F 0x07 0 h1 h2 h3 (by decide) (by decide) (by decide)⟩

/-- C1 (failing input). The texture holds 16384 times `0xFF000000` and the word behind
the array is `0xFF000000` too, followed by a zero word. The repeat scan of the encoder
runs past the array and counts 16385 equal words; the stream holds the one record
`(16385, 0)`, and the decoder writes 16385 entries from it, one more than the array
holds. -/
theorem rle_roundtrip_overrun :
    writeTexture_rle (List.replicate 16384 0xFF000000) [0xFF000000, 0]
      = some [4, 0, 0, 0, 1, 64, 0, 0] ∧
    readTexture 0x0F 0 [4, 0, 0, 0, 1, 64, 0, 0]
      = .ok (List.replicate 16385 0xFF000000) := by
  constructor
  · have hg : ∀ k, k < 16385 →
        (List.replicate 16384 0xFF000000 ++ [0xFF000000, 0]).getD k 0 = 0xFF000000 := by
      intro k hk
      by_cases h : k < 16384
      · rw [List.getD_append _ _ _ _ (by rw [List.length_replicate]; exact h),
          List.getD_eq_getElem _ _ (by rw [List.length_replicate]; exact h),
          List.getElem_replicate]
      · rw [List.getD_append_right _ _ _ _ (by rw [List.length_replicate]; omega),
          List.length_replicate, show k - 16384 = 0 by omega]
        rfl
    have hlast : (List.replicate 16384 0xFF000000 ++ [0xFF000000, 0]).getD 16385 0
        ≠ 0xFF000000 := by
      rw [List.getD_append_right _ _ _ _ (by rw [List.length_replicate]; omega),
        List.length_replicate]
      decide
    rw [writeTexture_rle, rleEncodeLoop_overrun _ 0xFF000000
      (by rw [List.length_append, List.length_replicate]; rfl) hg hlast]
    decide
  · have hr : readU32 [4, 0, 0, 0, 1, 64, 0, 0] = some (4, [1, 64, 0, 0]) := rfl
    have hl : u32 (u32 (0 + 4) + 4) = 8 := rfl
    have hi : toInt32 8 = 8 := rfl
    have h1 : readU16 [1, 64, 0, 0] = some (16385, [0, 0]) := rfl
    have h2 : readU16 [0, 0] = some (0, []) := rfl
    have h3 : decodeWord_repeat 0 = 0xFF000000 := by decide
    unfold readTexture
    rw [if_neg (by omega), hr]
    simp only
    rw [hl, if_neg (by omega), hi]
    show (match rleDecodeLoop 8 4 4 [1, 64, 0, 0] with
      | none => ReadOutcome.streamFailed
      | some (ts, _) => ReadOutcome.ok ts) = _
    rw [rleDecodeLoop, if_pos (by omega), h1]
    simp only
    rw [if_pos (by omega), h2]
    simp only
    rw [rleDecodeLoop, if_neg (by omega), h3]
    show ReadOutcome.ok (List.replicate 16385 4278190080 ++ []) = _
    rw [List.append_nil]

end PS2Icon

/-! ### RLE records, texture dispatch and the size limit -/

namespace PS2Icon

/-- At or past the limit the RLE loop of `ReadFile` stops and decodes nothing. -/
theorem rleDecodeLoop_past_limit (limit : Int) (fuel pos : Nat) (s : List Nat)
    (h : ¬ (pos : Int) < limit) : rleDecodeLoop limit fuel pos s = some ([], s) := by
  cases fuel with
  | zero => rw [rleDecodeLoop, if_neg h]
  | succ n => rw [rleDecodeLoop, if_neg h]

/-- C11: one record of the RLE decoder of `ReadFile`. For a 16-bit token `t` read at a
position before the limit: if `t < 0xFF00` the decoder reads one 16-bit word `c` and
appends `t` copies of its decoding (none for `t = 0`) before it goes on 4 bytes
further; otherwise it appends the decodings of the next `(0xFFFF - t) + 1` words, a
number between 1 and 256 that equals the code's `(0xFFFF XOR t) + 1`, and goes on
`2 + 2 * ((0xFFFF - t) + 1)` bytes further. When the record ends the segment, the
decoder returns exactly the `t` copies, resp. the decoded words, and the rest of the
stream. -/
theorem rle_record_semantics (t : Nat) (ht : t < 65536) (limit : Int) (fuel pos : Nat)
    (hpos : (pos : Int) < limit) :
    (t < 0xFF00 → ∀ (c : Nat) (rest : List Nat), c < 65536 →
      rleDecodeLoop limit (fuel + 1) pos (putU16 t ++ putU16 c ++ rest)
        = (rleDecodeLoop limit fuel (pos + 4) rest).map
            (fun r => (List.replicate t (decodeWord_repeat c) ++ r.1, r.2))) ∧
    (0xFF00 ≤ t →
      (0xFFFF ^^^ t) = 0xFFFF - t ∧ 1 ≤ (0xFFFF - t) + 1 ∧ (0xFFFF - t) + 1 ≤ 256 ∧
      ∀ (ws rest : List Nat), ws.length = (0xFFFF - t) + 1 → (∀ w ∈ ws, w < 65536) →
        rleDecodeLoop limit (fuel + 1) pos (putU16 t ++ ws.flatMap putU16 ++ rest)
          = (rleDecodeLoop limit fuel (pos + 2 + 2 * ((0xFFFF - t) + 1)) rest).map
              (fun r => (ws.map decodeWord_literal ++ r.1, r.2))) ∧
    (t < 0xFF00 → limit ≤ ((pos + 4 : Nat) : Int) →
      ∀ (c : Nat) (rest : List Nat), c < 65536 →
        rleDecodeLoop limit (fuel + 1) pos (putU16 t ++ putU16 c ++ rest)
          = some (List.replicate t (decodeWord_repeat c), rest) ∧
        (List.replicate t (decodeWord_repeat c)).length = t) ∧
    (0xFF00 ≤ t → limit ≤ ((pos + 2 + 2 * ((0xFFFF - t) + 1) : Nat) : Int) →
      ∀ (ws rest : List Nat), ws.length = (0xFFFF - t) + 1 → (∀ w ∈ ws, w < 65536) →
        rleDecodeLoop limit (fuel + 1) pos (putU16 t ++ ws.flatMap putU16 ++ rest)
          = some (ws.map decodeWord_literal, rest) ∧
        (ws.map decodeWord_literal).length = (0xFFFF - t) + 1) := by
  have hrep : t < 0xFF00 → ∀ (c : Nat) (rest : List Nat), c < 65536 →
      rleDecodeLoop limit (fuel + 1) pos (putU16 t ++ putU16 c ++ rest)
        = (rleDecodeLoop limit fuel (pos + 4) rest).map
            (fun r => (List.replicate t (decodeWord_repeat c) ++ r.1, r.2)) := by
    intro hlt c rest hc
    rw [rleDecodeLoop, if_pos hpos, List.append_assoc, readU16_putU16 t ht]
    simp only
    rw [if_pos hlt, readU16_putU16 c hc]
    simp only
    cases rleDecodeLoop limit fuel (pos + 4) rest with
    | none => rfl
    | some r => rfl
  have hx : 0xFF00 ≤ t → (0xFFFF ^^^ t) = 0xFFFF - t := by
    intro hge
    have h := (xor_token_back (65535 - t) (by omega)).2
    rw [show 65535 - (65535 - t) = t by omega] at h
    exact h
  have hlit : 0xFF00 ≤ t → ∀ (ws rest : List Nat), ws.length = (0xFFFF - t) + 1 →
      (∀ w ∈ ws, w < 65536) →
      rleDecodeLoop limit (fuel + 1) pos (putU16 t ++ ws.flatMap putU16 ++ rest)
        = (rleDecodeLoop limit fuel (pos + 2 + 2 * ((0xFFFF - t) + 1)) rest).map
            (fun r => (ws.map decodeWord_literal ++ r.1, r.2)) := by
    intro hge ws rest hlen hws
    rw [rleDecodeLoop, if_pos hpos, List.append_assoc, readU16_putU16 t ht]
    simp only
    rw [if_neg (by omega), hx hge, ← hlen, readLiteral_words ws hws]
    simp only
    cases rleDecodeLoop limit fuel (pos + 2 + 2 * ws.length) rest with
    | none => rfl
    | some r => rfl
  refine ⟨hrep, fun hge => ⟨hx hge, by omega, by omega, hlit hge⟩, ?_, ?_⟩
  · intro hlt hend c rest hc
    rw [hrep hlt c rest hc, rleDecodeLoop_past_limit limit fuel (pos + 4) rest (not_lt.2 hend)]
    exact ⟨by simp, List.length_replicate _ _⟩
  · intro hge hend ws rest hlen hws
    rw [hlit hge ws rest hlen hws,
      rleDecodeLoop_past_limit limit fuel _ rest (not_lt.2 hend)]
    exact ⟨by simp, by rw [List.length_map, hlen]⟩

/-- C11 (instance): the token 3 followed by the word `0x7FFF` decodes to three copies of
the decoding of `0x7FFF`, and the token `0xFFFE` followed by the two words 1 and 2
decodes to the decodings of 1 and 2. -/
theorem rle_record_semantics_witness :
    (rleDecodeLoop 4 1 0 (putU16 3 ++ putU16 0x7FFF ++ [])
        = some (List.replicate 3 (decodeWord_repeat 0x7FFF), []) ∧
      (List.replicate 3 (decodeWord_repeat 0x7FFF)).length = 3) ∧
    (rleDecodeLoop 6 1 0 (putU16 0xFFFE ++ [1, 2].flatMap putU16 ++ [])
        = some ([1, 2].map decodeWord_literal, []) ∧
      ([1, 2].map decodeWord_literal).length = (0xFFFF - 0xFFFE) + 1) :=
  ⟨(rle_record_semantics 3 (by decide) 4 0 0 (by decide)).2.2.1 (by decide) (by decide)
      0x7FFF [] (by decide),
   (rle_record_semantics 0xFFFE (by decide) 6 0 0 (by decide)).2.2.2 (by decide) (by decide)
      [1, 2] [] rfl (by decide)⟩

theorem writeTexture_uncompressed_words (texture : List Nat) :
    writeTexture_uncompressed texture
      = ((List.range 16384).map
          (fun i => encodeWord_uncompressed (texture.getD i 0))).flatMap putU16 := by
  rw [flatMap_map_eq]
  rfl

theorem encodeWord_uncompressed_lt (t : Nat) : encodeWord_uncompressed t < 65536 := by
  rw [encodeWord_uncompressed_eq]
  exact lt_trans (pixelWord_lt t) (by norm_num)

/-- C12: `WriteFile` and `ReadFile` choose the texture layout by the same test of
`header.texture_type`. For every value up to `0x07` the writer emits 16384 raw 16-bit
words and nothing else, and the reader takes 16384 raw words from the stream, whatever
follows them. For every value above `0x07` the writer emits the 32-bit size of the
records followed by the records of the RLE encoder, and the reader takes the first
four bytes as that size and runs the RLE loop up to the limit computed from it. -/
theorem texture_layout_dispatch (self : Icon) (after : List Nat) (pos : Nat) :
    (self.header.texture_type ≤ 0x07 →
      WriteFile self after
        = some (WriteFile_geometry self ++ writeTexture_uncompressed self.texture) ∧
      (writeTexture_uncompressed self.texture).length = 2 * 16384 ∧
      ∀ (ws rest : List Nat), ws.length = 16384 → (∀ w ∈ ws, w < 65536) →
        readTexture self.header.texture_type pos (ws.flatMap putU16 ++ rest)
          = .ok (ws.map decodeWord_uncompressed)) ∧
    (0x07 < self.header.texture_type →
      WriteFile self after
        = (rleEncodeLoop (self.texture ++ after) 16384 0).map
            (fun records => WriteFile_geometry self ++ (putU32 (u32 records.length) ++ records)) ∧
      ∀ (n : Nat) (s : List Nat), n < 4294967296 →
        readTexture self.header.texture_type pos (putU32 n ++ s)
          = if u32 (u32 (pos + 4) + n) > 2147483647 then
              .gbFailed "File size is bigger than INT_MAX"
            else
              match rleDecodeLoop (toInt32 (u32 (u32 (pos + 4) + n))) s.length (pos + 4) s with
              | none => .streamFailed
              | some (ts, _) => .ok ts) := by
  constructor
  · intro hle
    refine ⟨?_, ?_, ?_⟩
    · rw [WriteFile, if_pos hle]
    · rw [writeTexture_uncompressed_words, length_flatMap_putU16, List.length_map,
        List.length_range]
    · intro ws rest hlen hws
      unfold readTexture
      rw [if_pos hle, ← hlen, readTexture_uncompressed_words ws hws]
  · intro hgt
    constructor
    · rw [WriteFile, if_neg (by omega), writeTexture_rle]
      cases rleEncodeLoop (self.texture ++ after) 16384 0 with
      | none => rfl
      | some records => rfl
    · intro n s hn
      unfold readTexture
      rw [if_neg (by omega), readU32_putU32 n hn]

/-- C12 (instance): the default icon (type `0x07`) and the same icon with type `0x0F`. -/
theorem texture_layout_dispatch_witness :
    (WriteFile PS2Icon_default []
        = some (WriteFile_geometry PS2Icon_default
            ++ writeTexture_uncompressed PS2Icon_default.texture) ∧
      (writeTexture_uncompressed PS2Icon_default.texture).length = 2 * 16384) ∧
    WriteFile exampleRleIcon [1, 1]
      = (rleEncodeLoop (exampleRleIcon.texture ++ [1, 1]) 16384 0).map
          (fun records =>
            WriteFile_geometry exampleRleIcon ++ (putU32 (u32 records.length) ++ records)) :=
  have h1 := (texture_layout_dispatch PS2Icon_default [] 0).1 (by decide)
  ⟨⟨h1.1, h1.2.1⟩, ((texture_layout_dispatch exampleRleIcon [1, 1] 0).2 (by decide)).1⟩

end PS2Icon

namespace PS2Icon

theorem ReadFile_geometry_ok_valid (s : List Nat) (g : GeometryAndAnimation) (rest : List Nat)
    (h : ReadFile_geometry s = .ok (g, rest)) : CheckValidity g.header = true := by
  unfold ReadFile_geometry at h
  split at h
  · exact absurd h (by simp)
  · rename_i header s1 _
    split at h
    · exact absurd h (by simp)
    · rename_i hc
      split at h
      · exact absurd h (by simp)
      · split at h
        · exact absurd h (by simp)
        · split at h
          · exact absurd h (by simp)
          · simp only [ReadOutcome.ok.injEq, Prod.mk.injEq] at h
            rw [← h.1]
            simpa using hc

theorem ReadFile_ok_header (bytes : List Nat) (icon : Icon) (h : ReadFile bytes = .ok icon) :
    CheckValidity icon.header = true := by
  unfold ReadFile at h
  split at h
  · exact absurd h (by simp)
  · exact absurd h (by simp)
  · rename_i g s hg
    split at h
    · exact absurd h (by simp)
    · exact absurd h (by simp)
    · simp only [ReadOutcome.ok.injEq] at h
      rw [← h]
      exact ReadFile_geometry_ok_valid bytes g s hg

/-- C19 (conditional form): in the RLE branch of `ReadFile`, let `p` be the stream
position just after the 4-byte size field and `data_size` the value of the field. When
`p + data_size` exceeds `INT_MAX` and is still below `2^32`, so that the `unsigned int`
sum of the code does not wrap around, the texture segment raises `GB_FAILED` with the
message about `INT_MAX`, and so does `ReadFile` on a file whose geometry and animation
segments end at the size field. -/
theorem rle_limit_checked (texture_type pos data_size : Nat) (rest : List Nat)
    (htype : 0x07 < texture_type) (hsize : data_size < 4294967296)
    (hbig : 2147483647 < pos + 4 + data_size) (hwrap : pos + 4 + data_size < 4294967296) :
    readTexture texture_type pos (putU32 data_size ++ rest)
      = .gbFailed "File size is bigger than INT_MAX" ∧
    ∀ (bytes : List Nat) (g : GeometryAndAnimation),
      ReadFile_geometry bytes = .ok (g, putU32 data_size ++ rest) →
      g.header.texture_type = texture_type →
      bytes.length - (putU32 data_size ++ rest).length = pos →
      ReadFile bytes = .gbFailed "File size is bigger than INT_MAX" := by
  have hseg : readTexture texture_type pos (putU32 data_size ++ rest)
      = .gbFailed "File size is bigger than INT_MAX" := by
    have hl : u32 (u32 (pos + 4) + data_size) = pos + 4 + data_size := by
      unfold u32
      omega
    unfold readTexture
    rw [if_neg (by omega), readU32_putU32 data_size hsize]
    simp only
    rw [hl, if_pos (by omega)]
  refine ⟨hseg, ?_⟩
  intro bytes g hg ht hp
  unfold ReadFile
  rw [hg]
  simp only
  rw [ht, hp, hseg]

/-- C19 (instance): the size field `0x7FFFFFFC` read at position 0. -/
theorem rle_limit_checked_witness :
    readTexture 0x0F 0 (putU32 0x7FFFFFFC ++ [1, 2])
      = .gbFailed "File size is bigger than INT_MAX" :=
  (rle_limit_checked 0x0F 0 0x7FFFFFFC [1, 2] (by decide) (by decide) (by decide)
    (by decide)).1

/-- C19 (failing input): a file of 44 bytes, the header (texture type `0x0F`, no
vertices) and the animation header (no frames) followed by the size field
`0xFFFFFFFF`. The position after the size field is 44, and `44 + 0xFFFFFFFF` exceeds
`INT_MAX`; the `unsigned int` sum of the code is 43, the test against `INT_MAX` passes,
the loop does not run, and `ReadFile` returns without an exception and without having
written a texture entry. -/
theorem rle_limit_wraps :
    WriteFile_geometry exampleRleIcon ++ [0xFF, 0xFF, 0xFF, 0xFF]
      = [0, 0, 1, 0, 1, 0, 0, 0, 0x0F, 0, 0, 0, 0, 0, 0x80, 0x3F, 0, 0, 0, 0,
         1, 0, 0, 0, 31, 0, 0, 0, 0, 0, 0x80, 0x3F, 0, 0, 0, 0, 0, 0, 0, 0,
         0xFF, 0xFF, 0xFF, 0xFF] ∧
    2147483647 < 44 + 0xFFFFFFFF ∧
    u32 (u32 (40 + 4) + 0xFFFFFFFF) = 43 ∧
    readTexture 0x0F 40 [0xFF, 0xFF, 0xFF, 0xFF] = .ok [] ∧
    ReadFile (WriteFile_geometry exampleRleIcon ++ [0xFF, 0xFF, 0xFF, 0xFF])
      = .ok { exampleRleIcon with texture := [] } := by
  refine ⟨by decide, by decide, by decide, by decide, ?_⟩
  rfl

/-- C16 (conditional form): `header.n_vertices` is a multiple of 3 after the default
construction, after a successful `ReadFile`, after `SetGeometry` from a mesh with or
without a scale factor (the `int` product `GetNFaces()*3` not overflowing), and after
`SetGeometry` from raw arrays when the argument `n_vertices` is a non-negative
multiple of 3; `SetTextureData` leaves the header as it is. -/
theorem n_vertices_multiple_of_3 :
    PS2Icon_default.header.n_vertices % 3 = 0 ∧
    (∀ (bytes : List Nat) (icon : Icon), ReadFile bytes = .ok icon →
      icon.header.n_vertices % 3 = 0) ∧
    (∀ (self : Icon) (mesh : OBJ_Mesh) (scale_factor : ℚ),
      3 * mesh.m_faces.length < 2147483648 →
      (SetGeometry self mesh scale_factor).header.n_vertices % 3 = 0 ∧
      (SetGeometry_default self mesh).header.n_vertices % 3 = 0) ∧
    (∀ (self : Icon) (pverts pnormals ptexture tmptexture : List ℚ) (n_vertices : Int),
      0 ≤ n_vertices → n_vertices ≤ 2147483647 → n_vertices % 3 = 0 →
      (SetGeometry_raw self pverts pnormals ptexture tmptexture n_vertices).header.n_vertices
        % 3 = 0) ∧
    (∀ (self : Icon) (data : List Nat), (SetTextureData self data).header = self.header) := by
  refine ⟨by decide, ?_, ?_, ?_, fun self data => by simp only [SetTextureData]⟩
  · intro bytes icon h
    exact (CheckValidity_iff icon.header).mp (ReadFile_ok_header bytes icon h)
  · intro self mesh scale_factor hF
    have hn : GBCOLOR32.toU32 (mesh.GetNFaces * 3) = 3 * mesh.m_faces.length := by
      unfold GBCOLOR32.toU32 OBJ_Mesh.GetNFaces
      have e : ((mesh.m_faces.length : Nat) : Int) * 3 % 4294967296
          = ((3 * mesh.m_faces.length : Nat) : Int) := by
        push_cast
        omega
      rw [e, Int.toNat_ofNat]
    have h1 : (SetGeometry self mesh scale_factor).header.n_vertices
        = 3 * mesh.m_faces.length := hn
    have h2 : (SetGeometry_default self mesh).header.n_vertices
        = 3 * mesh.m_faces.length := hn
    rw [h1, h2]
    omega
  · intro self pverts pnormals ptexture tmptexture n h0 h1 h3
    have hn : GBCOLOR32.toU32 n = n.toNat := by
      unfold GBCOLOR32.toU32
      rw [Int.emod_eq_of_lt h0 (by omega)]
    have hh : (SetGeometry_raw self pverts pnormals ptexture tmptexture n).header.n_vertices
        = n.toNat := hn
    rw [hh]
    omega

/-- C16 (failing input): `SetGeometry` from raw arrays with `n_vertices = 4` on the
default icon stores 4 in the header, which is not a multiple of 3; `CheckValidity`
rejects that header. -/
theorem SetGeometry_raw_four :
    (SetGeometry_raw PS2Icon_default [0, 0, 0, 1, 0, 0, 0, 1, 0, 0, 0, 1]
        [0, 0, 1, 0, 0, 1, 0, 0, 1, 0, 0, 1] [0, 0, 1, 0, 0, 1, 1, 1] [] 4).header.n_vertices
      = 4 ∧
    ¬ (4 % 3 = 0) ∧
    CheckValidity (SetGeometry_raw PS2Icon_default [0, 0, 0, 1, 0, 0, 0, 1, 0, 0, 0, 1]
        [0, 0, 1, 0, 0, 1, 0, 0, 1, 0, 0, 1] [0, 0, 1, 0, 0, 1, 1, 1] [] 4).header = false := by
  refine ⟨?_, by decide, ?_⟩ <;> rfl

end PS2Icon

/-! ### Mesh accessors and the single use of the reader -/

namespace OBJ_Mesh

theorem addressOf_inRange {α : Type} (v : List α) (i : Int) (k : Nat) (h0 : 0 ≤ i)
    (hk : k < 3) (h : i < ((v.length / 3 : Nat) : Int)) :
    ∃ x, v[i.toNat * 3 + k]? = some x ∧ addressOf v (i * 3 + k) = some x := by
  have hlt : i.toNat * 3 + k < v.length := by omega
  refine ⟨v[i.toNat * 3 + k], List.getElem?_eq_getElem hlt, ?_⟩
  unfold addressOf
  rw [if_neg (by omega), show (i * 3 + (k : Int)).toNat = i.toNat * 3 + k by omega]
  exact List.getElem?_eq_getElem hlt

/-- C14 (conditional form): for every mesh and every index at or above the count,
each of the ten accessors raises `GB_ILLEGALPARAMETER`; for every index from 0 up to
the count it returns the address of the element `3*index` (`+1`, `+2`) of its vector,
resp. of the face `index`. -/
theorem accessors_checked (m : OBJ_Mesh) (index : Int) :
    (m.GetNVertices ≤ index →
      m.GetVertexX index = .error .GB_ILLEGALPARAMETER ∧
      m.GetVertexY index = .error .GB_ILLEGALPARAMETER ∧
      m.GetVertexZ index = .error .GB_ILLEGALPARAMETER) ∧
    (m.GetNNormals ≤ index →
      m.GetNormalX index = .error .GB_ILLEGALPARAMETER ∧
      m.GetNormalY index = .error .GB_ILLEGALPARAMETER ∧
      m.GetNormalZ index = .error .GB_ILLEGALPARAMETER) ∧
    (m.GetNTexture ≤ index →
      m.GetTextureX index = .error .GB_ILLEGALPARAMETER ∧
      m.GetTextureY index = .error .GB_ILLEGALPARAMETER ∧
      m.GetTextureZ index = .error .GB_ILLEGALPARAMETER) ∧
    (m.GetNFaces ≤ index → m.GetFace index = .error .GB_ILLEGALPARAMETER) ∧
    (0 ≤ index → index < m.GetNVertices →
      ∃ x y z, m.m_geometry[index.toNat * 3]? = some x ∧
        m.m_geometry[index.toNat * 3 + 1]? = some y ∧
        m.m_geometry[index.toNat * 3 + 2]? = some z ∧
        m.GetVertexX index = .ok (some x) ∧ m.GetVertexY index = .ok (some y) ∧
        m.GetVertexZ index = .ok (some z)) ∧
    (0 ≤ index → index < m.GetNNormals →
      ∃ x y z, m.m_normals[index.toNat * 3]? = some x ∧
        m.m_normals[index.toNat * 3 + 1]? = some y ∧
        m.m_normals[index.toNat * 3 + 2]? = some z ∧
        m.GetNormalX index = .ok (some x) ∧ m.GetNormalY index = .ok (some y) ∧
        m.GetNormalZ index = .ok (some z)) ∧
    (0 ≤ index → index < m.GetNTexture →
      ∃ x y z, m.m_texcoords[index.toNat * 3]? = some x ∧
        m.m_texcoords[index.toNat * 3 + 1]? = some y ∧
        m.m_texcoords[index.toNat * 3 + 2]? = some z ∧
        m.GetTextureX index = .ok (some x) ∧ m.GetTextureY index = .ok (some y) ∧
        m.GetTextureZ index = .ok (some z)) ∧
    (0 ≤ index → index < m.GetNFaces →
      ∃ f, m.m_faces[index.toNat]? = some f ∧ m.GetFace index = .ok (some f)) := by
  have key : ∀ (v : List ℚ), 0 ≤ index → index < ((v.length / 3 : Nat) : Int) →
      ∃ x y z, v[index.toNat * 3]? = some x ∧ v[index.toNat * 3 + 1]? = some y ∧
        v[index.toNat * 3 + 2]? = some z ∧ addressOf v (index * 3) = some x ∧
        addressOf v (index * 3 + 1) = some y ∧ addressOf v (index * 3 + 2) = some z := by
    intro v h0 h
    obtain ⟨x, hx, ax⟩ := addressOf_inRange v index 0 h0 (by omega) h
    obtain ⟨y, hy, ay⟩ := addressOf_inRange v index 1 h0 (by omega) h
    obtain ⟨z, hz, az⟩ := addressOf_inRange v index 2 h0 (by omega) h
    exact ⟨x, y, z, hx, hy, hz, by simpa using ax, by simpa using ay, by simpa using az⟩
  refine ⟨?_, ?_, ?_, ?_, ?_, ?_, ?_, ?_⟩
  · intro h
    unfold GetNVertices at h
    simp only [GetVertexX, GetVertexY, GetVertexZ, ge_iff_le, if_pos h, and_self]
  · intro h
    unfold GetNNormals at h
    simp only [GetNormalX, GetNormalY, GetNormalZ, ge_iff_le, if_pos h, and_self]
  · intro h
    unfold GetNTexture at h
    simp only [GetTextureX, GetTextureY, GetTextureZ, ge_iff_le, if_pos h, and_self]
  · intro h
    unfold GetNFaces at h
    simp only [GetFace, ge_iff_le, if_pos h]
  · intro h0 h
    unfold GetNVertices at h
    obtain ⟨x, y, z, hx, hy, hz, ax, ay, az⟩ := key m.m_geometry h0 h
    refine ⟨x, y, z, hx, hy, hz, ?_, ?_, ?_⟩
    · simp only [GetVertexX, ge_iff_le, if_neg (not_le.mpr h), ax]
    · simp only [GetVertexY, ge_iff_le, if_neg (not_le.mpr h), ay]
    · simp only [GetVertexZ, ge_iff_le, if_neg (not_le.mpr h), az]
  · intro h0 h
    unfold GetNNormals at h
    obtain ⟨x, y, z, hx, hy, hz, ax, ay, az⟩ := key m.m_normals h0 h
    refine ⟨x, y, z, hx, hy, hz, ?_, ?_, ?_⟩
    · simp only [GetNormalX, ge_iff_le, if_neg (not_le.mpr h), ax]
    · simp only [GetNormalY, ge_iff_le, if_neg (not_le.mpr h), ay]
    · simp only [GetNormalZ, ge_iff_le, if_neg (not_le.mpr h), az]
  · intro h0 h
    unfold GetNTexture at h
    obtain ⟨x, y, z, hx, hy, hz, ax, ay, az⟩ := key m.m_texcoords h0 h
    refine ⟨x, y, z, hx, hy, hz, ?_, ?_, ?_⟩
    · simp only [GetTextureX, ge_iff_le, if_neg (not_le.mpr h), ax]
    · simp only [GetTextureY, ge_iff_le, if_neg (not_le.mpr h), ay]
    · simp only [GetTextureZ, ge_iff_le, if_neg (not_le.mpr h), az]
  · intro h0 h
    unfold GetNFaces at h
    have hlt : index.toNat < m.m_faces.length := by omega
    refine ⟨m.m_faces[index.toNat], List.getElem?_eq_getElem hlt, ?_⟩
    simp only [GetFace, ge_iff_le, if_neg (not_le.mpr h), addressOf, if_neg (not_lt.mpr h0)]
    rw [List.getElem?_eq_getElem hlt]

/-- C14 (failing input): the index `-1` on the unit square mesh (4 positions, 1 normal,
4 texture coordinates, 2 faces). No accessor raises an exception: the test
`index >= count` is false, and the address returned lies before the vector. -/
theorem accessors_negative_index :
    PS2Icon.exampleQuad.GetVertexX (-1) = .ok none ∧
    PS2Icon.exampleQuad.GetVertexY (-1) = .ok none ∧
    PS2Icon.exampleQuad.GetVertexZ (-1) = .ok none ∧
    PS2Icon.exampleQuad.GetNormalX (-1) = .ok none ∧
    PS2Icon.exampleQuad.GetNormalY (-1) = .ok none ∧
    PS2Icon.exampleQuad.GetNormalZ (-1) = .ok none ∧
    PS2Icon.exampleQuad.GetTextureX (-1) = .ok none ∧
    PS2Icon.exampleQuad.GetTextureY (-1) = .ok none ∧
    PS2Icon.exampleQuad.GetTextureZ (-1) = .ok none ∧
    PS2Icon.exampleQuad.GetFace (-1) = .ok none := by
  refine ⟨?_, ?_, ?_, ?_, ?_, ?_, ?_, ?_, ?_, ?_⟩ <;> rfl

end OBJ_Mesh

namespace OBJ_FileLoader

/-- C15: `ReadFile` on a loader whose mesh list holds at least one mesh raises
`GB_INVALIDCONTEXT`, takes no line from the stream and leaves the mesh list as it
was. -/
theorem ReadFile_single_use (m_MeshList : List OBJ_Mesh) (group_name : String)
    (lines : List Line) (h : m_MeshList ≠ []) :
    ReadFile m_MeshList group_name lines
      = .error (.GB_INVALIDCONTEXT "The mesh list is not empty") ∧
    (ReadFile_effect m_MeshList group_name lines).raised
      = some (.GB_INVALIDCONTEXT "The mesh list is not empty") ∧
    (ReadFile_effect m_MeshList group_name lines).unread = lines ∧
    (ReadFile_effect m_MeshList group_name lines).m_MeshList = m_MeshList := by
  have hpos : m_MeshList.length > 0 := List.length_pos.mpr h
  unfold ReadFile ReadFile_effect
  simp only [if_pos hpos, and_self]

/-- C15 (instance): a loader that holds the unit square mesh, and a stream of two
lines. -/
theorem ReadFile_single_use_witness :
    ReadFile [PS2Icon.exampleQuad] "" [Line.comment, Line.v 0 0 0]
      = .error (.GB_INVALIDCONTEXT "The mesh list is not empty") ∧
    (ReadFile_effect [PS2Icon.exampleQuad] "" [Line.comment, Line.v 0 0 0]).raised
      = some (.GB_INVALIDCONTEXT "The mesh list is not empty") ∧
    (ReadFile_effect [PS2Icon.exampleQuad] "" [Line.comment, Line.v 0 0 0]).unread
      = [Line.comment, Line.v 0 0 0] ∧
    (ReadFile_effect [PS2Icon.exampleQuad] "" [Line.comment, Line.v 0 0 0]).m_MeshList
      = [PS2Icon.exampleQuad] :=
  ReadFile_single_use [PS2Icon.exampleQuad] "" [Line.comment, Line.v 0 0 0] (by simp)

end OBJ_FileLoader

/-! ### Text round trip of the mesh writer and reader -/

namespace OBJ_FileLoader

/-- Reading vertex data lines, comment lines and empty lines while no group is pending
appends the coordinates to the current mesh and advances the counters. -/
theorem foldl_dataLines (ls : List Line)
    (hv : ∀ l ∈ ls, l.isVertexData = true ∨ l = Line.comment ∨ l = Line.other) :
    ∀ st : ReadState, st.new_group_was_opened = false →
      ls.foldl readLine st =
        { st with
          mesh := { st.mesh with
            m_geometry := st.mesh.m_geometry ++ geometryOf ls
            m_normals := st.mesh.m_normals ++ normalsOf ls
            m_texcoords := st.mesh.m_texcoords ++ texcoordsOf ls }
          vert_counter := st.vert_counter + countV ls
          normal_counter := st.normal_counter + countVN ls
          texture_counter := st.texture_counter + countVT ls } := by
  induction ls with
  | nil => intro st _; simp [geometryOf, normalsOf, texcoordsOf, countV, countVN, countVT]
  | cons l ls ih =>
    intro st hst
    have hl := hv l (List.mem_cons_self l ls)
    have hls := fun l' h' => hv l' (List.mem_cons_of_mem l h')
    rw [List.foldl_cons]
    cases l with
    | v x y z =>
      rw [ih hls _ (by simp [readLine, openNewMesh, hst])]
      simp [readLine, openNewMesh, hst, OBJ_Mesh.AddGeometry, AppendToVector_three, geometryOf,
        normalsOf, texcoordsOf, countV, countVN, countVT, add_comm, add_left_comm]
    | vt x y z =>
      rw [ih hls _ (by simp [readLine, openNewMesh, hst])]
      simp [readLine, openNewMesh, hst, OBJ_Mesh.AddTextureData, AppendToVector_three, geometryOf,
        normalsOf, texcoordsOf, countV, countVN, countVT, add_comm, add_left_comm]
    | vn x y z =>
      rw [ih hls _ (by simp [readLine, openNewMesh, hst])]
      simp [readLine, openNewMesh, hst, OBJ_Mesh.AddNormals, AppendToVector_three, geometryOf,
        normalsOf, texcoordsOf, countV, countVN, countVT, add_comm, add_left_comm]
    | comment =>
      rw [show readLine st Line.comment = st from rfl, ih hls st hst]
      simp [geometryOf, normalsOf, texcoordsOf, countV, countVN, countVT]
    | other =>
      rw [show readLine st Line.other = st from rfl, ih hls st hst]
      simp [geometryOf, normalsOf, texcoordsOf, countV, countVN, countVT]
    | _ => simp [Line.isVertexData] at hl

theorem dataLines_kinds (reread : ℚ → ℚ) (m : OBJ_Mesh) :
    ∀ l ∈ dataLines reread m, l.isVertexData = true ∨ l = Line.comment ∨ l = Line.other := by
  intro l hl
  simp only [dataLines, List.mem_append, List.mem_map, List.mem_cons, List.mem_singleton,
    List.not_mem_nil, or_false] at hl
  rcases hl with ((((((h | h) | h) | h) | h) | h) | h)
  · rcases h with h | h <;> simp [h]
  · obtain ⟨j, _, rfl⟩ := h; simp [Line.isVertexData]
  · rcases h with h | h <;> simp [h]
  · obtain ⟨j, _, rfl⟩ := h; simp [Line.isVertexData]
  · rcases h with h | h <;> simp [h]
  · obtain ⟨j, _, rfl⟩ := h; simp [Line.isVertexData]
  · rcases h with h | h <;> simp [h]

/-- Reading the face lines written with the bases of the reader appends the faces as
they are. -/
theorem foldl_faceLines (vb tb nb : Int) (fs : List Face) :
    ∀ (cur : Int) (st : ReadState), st.vert_base = vb → st.texture_base = tb →
      st.normal_base = nb → st.smoothing_group = cur →
      ∃ sg, (faceLines vb tb nb cur fs).foldl readLine st =
        { st with mesh := { st.mesh with m_faces := st.mesh.m_faces ++ fs },
                  smoothing_group := sg } := by
  induction fs with
  | nil =>
    intro cur st _ _ _ _
    exact ⟨st.smoothing_group, by simp [faceLines]⟩
  | cons f fs ih =>
    intro cur st h1 h2 h3 h4
    have hface : ∀ st' : ReadState, st'.vert_base = vb → st'.texture_base = tb →
        st'.normal_base = nb → st'.smoothing_group = f.smoothing_group →
        adjustFace st' (faceRef vb tb nb f) = f := by
      intro st' e1 e2 e3 e4
      cases f
      simp only [adjustFace, faceRef, e1, e2, e3, e4, Face.mk.injEq, and_true]
      refine ⟨?_, ?_, ?_, ?_, ?_, ?_, ?_, ?_, ?_⟩ <;> omega
    unfold faceLines
    by_cases hc : f.smoothing_group ≠ cur
    · rw [if_pos hc, List.foldl_cons, List.foldl_cons]
      have hstep : readLine (readLine st (Line.s f.smoothing_group))
          (Line.f (faceRef vb tb nb f))
          = { st with mesh := { st.mesh with m_faces := st.mesh.m_faces ++ [f] },
                      smoothing_group := f.smoothing_group } := by
        have hf := hface { st with smoothing_group := f.smoothing_group } h1 h2 h3 rfl
        simp only [readLine, OBJ_Mesh.AddFaceData]
        rw [hf]
      rw [hstep]
      obtain ⟨sg, hsg⟩ := ih f.smoothing_group
        { st with mesh := { st.mesh with m_faces := st.mesh.m_faces ++ [f] },
                  smoothing_group := f.smoothing_group } h1 h2 h3 rfl
      exact ⟨sg, by rw [hsg]; simp only [List.append_assoc, List.singleton_append]⟩
    · have hcur : st.smoothing_group = f.smoothing_group := by
        rw [h4]
        exact (not_not.mp hc).symm
      rw [if_neg hc, List.foldl_cons]
      have hstep : readLine st (Line.f (faceRef vb tb nb f))
          = { st with mesh := { st.mesh with m_faces := st.mesh.m_faces ++ [f] } } := by
        have hf := hface st h1 h2 h3 hcur
        simp only [readLine, OBJ_Mesh.AddFaceData]
        rw [hf]
      rw [hstep]
      obtain ⟨sg, hsg⟩ := ih cur
        { st with mesh := { st.mesh with m_faces := st.mesh.m_faces ++ [f] } } h1 h2 h3 h4
      exact ⟨sg, by rw [hsg]; simp only [List.append_assoc, List.singleton_append]⟩

theorem countV_append (a b : List Line) : countV (a ++ b) = countV a + countV b := by
  induction a with
  | nil => simp [countV]
  | cons l a ih =>
    rw [List.cons_append]
    cases l <;> simp only [countV] <;> omega

theorem countVT_append (a b : List Line) : countVT (a ++ b) = countVT a + countVT b := by
  induction a with
  | nil => simp [countVT]
  | cons l a ih =>
    rw [List.cons_append]
    cases l <;> simp only [countVT] <;> omega

theorem countVN_append (a b : List Line) : countVN (a ++ b) = countVN a + countVN b := by
  induction a with
  | nil => simp [countVN]
  | cons l a ih =>
    rw [List.cons_append]
    cases l <;> simp only [countVN] <;> omega

theorem counts_map_v (l : List Nat) (a b c : Nat → ℚ) :
    countV (l.map (fun j => Line.v (a j) (b j) (c j))) = l.length ∧
    countVT (l.map (fun j => Line.v (a j) (b j) (c j))) = 0 ∧
    countVN (l.map (fun j => Line.v (a j) (b j) (c j))) = 0 := by
  induction l with
  | nil => simp [countV, countVT, countVN]
  | cons j l ih =>
    simp only [List.map_cons, countV, countVT, countVN, ih.1, ih.2.1, ih.2.2, List.length_cons]
    push_cast
    simp

theorem counts_map_vt (l : List Nat) (a b c : Nat → ℚ) :
    countV (l.map (fun j => Line.vt (a j) (b j) (c j))) = 0 ∧
    countVT (l.map (fun j => Line.vt (a j) (b j) (c j))) = l.length ∧
    countVN (l.map (fun j => Line.vt (a j) (b j) (c j))) = 0 := by
  induction l with
  | nil => simp [countV, countVT, countVN]
  | cons j l ih =>
    simp only [List.map_cons, countV, countVT, countVN, ih.1, ih.2.1, ih.2.2, List.length_cons]
    push_cast
    simp

theorem counts_map_vn (l : List Nat) (a b c : Nat → ℚ) :
    countV (l.map (fun j => Line.vn (a j) (b j) (c j))) = 0 ∧
    countVT (l.map (fun j => Line.vn (a j) (b j) (c j))) = 0 ∧
    countVN (l.map (fun j => Line.vn (a j) (b j) (c j))) = l.length := by
  induction l with
  | nil => simp [countV, countVT, countVN]
  | cons j l ih =>
    simp only [List.map_cons, countV, countVT, countVN, ih.1, ih.2.1, ih.2.2, List.length_cons]
    push_cast
    simp

/-- The data lines written for a mesh hold as many `v`, `vt` and `vn` lines as the
mesh has positions, texture coordinates and normals. -/
theorem dataLines_counts (reread : ℚ → ℚ) (m : OBJ_Mesh) :
    countV (dataLines reread m) = m.GetNVertices ∧
    countVT (dataLines reread m) = m.GetNTexture ∧
    countVN (dataLines reread m) = m.GetNNormals := by
  have hv : ((m.GetNVertices.toNat : Nat) : Int) = m.GetNVertices :=
    Int.toNat_of_nonneg (by unfold OBJ_Mesh.GetNVertices; omega)
  have ht : ((m.GetNTexture.toNat : Nat) : Int) = m.GetNTexture :=
    Int.toNat_of_nonneg (by unfold OBJ_Mesh.GetNTexture; omega)
  have hn : ((m.GetNNormals.toNat : Nat) : Int) = m.GetNNormals :=
    Int.toNat_of_nonneg (by unfold OBJ_Mesh.GetNNormals; omega)
  have a1 : countV [Line.comment, Line.comment] = 0 := rfl
  have a2 : countVT [Line.comment, Line.comment] = 0 := rfl
  have a3 : countVN [Line.comment, Line.comment] = 0 := rfl
  have b1 : countV [Line.comment, Line.other] = 0 := rfl
  have b2 : countVT [Line.comment, Line.other] = 0 := rfl
  have b3 : countVN [Line.comment, Line.other] = 0 := rfl
  unfold dataLines
  simp only [countV_append, countVT_append, countVN_append, counts_map_v, counts_map_vt,
    counts_map_vn, List.length_range, a1, a2, a3, b1, b2, b3, hv, ht, hn]
  omega

theorem rereadMesh_sameShape (reread : ℚ → ℚ) (m : OBJ_Mesh) :
    sameShape m (rereadMesh reread m) := by
  obtain ⟨c1, c2, c3⟩ := dataLines_counts reread m
  have h1 := geometryOf_length (dataLines reread m)
  have h2 := texcoordsOf_length (dataLines reread m)
  have h3 := normalsOf_length (dataLines reread m)
  refine ⟨rfl, ?_, ?_, ?_, rfl⟩
  · rw [← c1]
    unfold OBJ_Mesh.GetNVertices rereadMesh
    simp only
    omega
  · rw [← c2]
    unfold OBJ_Mesh.GetNTexture rereadMesh
    simp only
    omega
  · rw [← c3]
    unfold OBJ_Mesh.GetNNormals rereadMesh
    simp only
    omega

theorem scanGroupName_name (name : String) (hne : name ≠ "")
    (hws : ∀ c ∈ name.data, isspace c = false) :
    scanGroupName (" " ++ name) = some name := by
  have hdata : (" " ++ name).data = ' ' :: name.data := rfl
  have hnil : name.data ≠ [] := by
    intro h
    apply hne
    cases name
    simp_all
  have hdrop : (' ' :: name.data).dropWhile isspace = name.data := by
    rw [List.dropWhile_cons_of_pos (by decide)]
    cases hd : name.data with
    | nil => exact absurd hd hnil
    | cons c cs =>
      rw [List.dropWhile_cons_of_neg]
      rw [hws c (by rw [hd]; exact List.mem_cons_self c cs)]
      simp
  have htake : name.data.takeWhile (fun c => !isspace c) = name.data := by
    rw [List.takeWhile_eq_self_iff]
    intro c hc
    rw [hws c hc]
    rfl
  unfold scanGroupName
  simp only [hdata, hdrop, htake, if_neg hnil]

end OBJ_FileLoader

namespace OBJ_FileLoader

/-- Reading the lines written for one mesh, from the state in which no group is
pending and the bases of the reader are the bases of the writer. -/
theorem meshLines_from_ready (reread : ℚ → ℚ) (L : List OBJ_Mesh) (bv bt bn : Int)
    (gname : String) (sg : Int) (m : OBJ_Mesh) (first : Face)
    (hname : scanGroupName (" " ++ m.m_name) = some m.m_name) :
    ∃ sg', (meshLines reread bv bt bn m first).foldl readLine (readyState L bv bt bn gname sg)
      = writtenState L bv bt bn (rereadMesh reread m) sg' := by
  obtain ⟨c1, c2, c3⟩ := dataLines_counts reread m
  obtain ⟨_, s1, s2, s3, _⟩ := rereadMesh_sameShape reread m
  unfold meshLines
  rw [List.foldl_append, List.foldl_append, List.foldl_append,
    foldl_dataLines _ (dataLines_kinds reread m) _ rfl, hname]
  simp only [List.foldl_cons, List.foldl_nil, readLine, readyState, List.nil_append]
  obtain ⟨sg', hsg⟩ := foldl_faceLines bv bt bn m.m_faces first.smoothing_group
    { m_MeshList := L
      mesh := { m_name := "", m_geometry := geometryOf (dataLines reread m),
                m_normals := normalsOf (dataLines reread m),
                m_texcoords := texcoordsOf (dataLines reread m), m_faces := [] }
      group_name := m.m_name
      new_group_was_opened := true
      smoothing_group := first.smoothing_group
      vert_counter := bv + countV (dataLines reread m)
      normal_counter := bn + countVN (dataLines reread m)
      texture_counter := bt + countVT (dataLines reread m)
      vert_base := bv, normal_base := bn, texture_base := bt } rfl rfl rfl rfl
  refine ⟨sg', ?_⟩
  rw [hsg]
  have hg : scanGroupName "" = none := rfl
  simp only [hg, List.nil_append, writtenState, rereadMesh, OBJ_Mesh.SetName, c1, c2, c3,
    ← s1, ← s2, ← s3]

theorem openNewMesh_written (L : List OBJ_Mesh) (bv bt bn : Int) (m' : OBJ_Mesh) (sg : Int) :
    openNewMesh (writtenState L bv bt bn m' sg)
      = readyState (L ++ [m']) (bv + m'.GetNVertices) (bt + m'.GetNTexture)
          (bn + m'.GetNNormals) m'.m_name sg := by
  simp [openNewMesh, writtenState, readyState, OBJ_Mesh.SetName]

theorem finish_written (L : List OBJ_Mesh) (bv bt bn : Int) (m' : OBJ_Mesh) (sg : Int)
    (hf : m'.m_faces ≠ []) :
    finish (writtenState L bv bt bn m' sg) = L ++ [m'] := by
  have hpos : ((writtenState L bv bt bn m' sg).mesh.GetNFaces > 0) := by
    cases hfs : m'.m_faces with
    | nil => exact absurd hfs hf
    | cons r rs => simp [writtenState, OBJ_Mesh.SetName, OBJ_Mesh.GetNFaces, hfs]
  unfold finish
  rw [if_pos hpos]
  simp [writtenState, OBJ_Mesh.SetName]

/-- The lines written for a mesh with at least one position start with two comment
lines and a `v` line, so a pending group is closed before anything is stored. -/
theorem meshLines_open (reread : ℚ → ℚ) (bv bt bn : Int) (m : OBJ_Mesh) (first : Face)
    (hv : 0 < m.GetNVertices) (st : ReadState) :
    (meshLines reread bv bt bn m first).foldl readLine st
      = (meshLines reread bv bt bn m first).foldl readLine (openNewMesh st) := by
  obtain ⟨n, hn⟩ : ∃ n, m.GetNVertices.toNat = n + 1 := ⟨m.GetNVertices.toNat - 1, by omega⟩
  have hform : ∃ x y z tail, meshLines reread bv bt bn m first
      = Line.comment :: Line.comment :: Line.v x y z :: tail := by
    unfold meshLines dataLines
    rw [hn, List.range_succ_eq_map]
    simp only [List.map_cons, List.cons_append, List.nil_append]
    exact ⟨_, _, _, _, rfl⟩
  obtain ⟨x, y, z, tail, hform⟩ := hform
  rw [hform]
  show List.foldl readLine (readLine st (Line.v x y z)) tail
    = List.foldl readLine (readLine (openNewMesh st) (Line.v x y z)) tail
  rw [readLine_vertexData_open st (Line.v x y z) rfl]

theorem writable_has_vertex (m : OBJ_Mesh) (h : writable m) : 0 < m.GetNVertices := by
  obtain ⟨hf, hvalid, _⟩ := h
  cases hfs : m.m_faces with
  | nil => exact absurd hfs hf
  | cons f fs =>
    have := (hvalid f (by rw [hfs]; exact List.mem_cons_self f fs) 0 (by omega)).1
    omega

/-- Writing a non-empty list of writable meshes and reading the lines, from a state
that a `v` line turns into the state without a pending group. -/
theorem read_written (reread : ℚ → ℚ) :
    ∀ (ms : List OBJ_Mesh) (m : OBJ_Mesh) (st : ReadState) (L : List OBJ_Mesh)
      (bv bt bn : Int) (gname : String) (sg : Int),
      openNewMesh st = readyState L bv bt bn gname sg →
      (∀ m' ∈ m :: ms, writable m') →
      ∃ ls, writeMeshes reread bv bt bn (m :: ms) = .ok ls ∧
        finish (ls.foldl readLine st) = L ++ (m :: ms).map (rereadMesh reread) := by
  intro ms
  induction ms with
  | nil =>
    intro m st L bv bt bn gname sg hst h
    have hm := h m (List.mem_cons_self m [])
    obtain ⟨hf, _, hne, hws, _⟩ := hm
    cases hfs : m.m_faces with
    | nil => exact absurd hfs hf
    | cons first rest =>
      refine ⟨meshLines reread bv bt bn m first ++ [], ?_, ?_⟩
      · simp only [writeMeshes, hfs]
      · obtain ⟨sg', hsg⟩ := meshLines_from_ready reread L bv bt bn gname sg m first
          (scanGroupName_name m.m_name hne hws)
        rw [List.append_nil, meshLines_open reread bv bt bn m first
          (writable_has_vertex m (h m (List.mem_cons_self m []))), hst, hsg,
          finish_written L bv bt bn (rereadMesh reread m) sg' hf]
        rfl
  | cons m2 ms ih =>
    intro m st L bv bt bn gname sg hst h
    have hm := h m (List.mem_cons_self m _)
    obtain ⟨hf, _, hne, hws, _⟩ := hm
    have hrest : ∀ m' ∈ m2 :: ms, writable m' := fun m' hm' => h m' (List.mem_cons_of_mem m hm')
    obtain ⟨_, s1, s2, s3, _⟩ := rereadMesh_sameShape reread m
    cases hfs : m.m_faces with
    | nil => exact absurd hfs hf
    | cons first rest =>
      obtain ⟨sg', hsg⟩ := meshLines_from_ready reread L bv bt bn gname sg m first
        (scanGroupName_name m.m_name hne hws)
      obtain ⟨ls, hw, hr⟩ := ih m2 (writtenState L bv bt bn (rereadMesh reread m) sg')
        (L ++ [rereadMesh reread m]) (bv + m.GetNVertices) (bt + m.GetNTexture)
        (bn + m.GetNNormals) m.m_name sg'
        (by rw [openNewMesh_written, s1, s2, s3]; rfl) hrest
      refine ⟨meshLines reread bv bt bn m first ++ ls, ?_, ?_⟩
      · rw [writeMeshes]
        simp only [hfs, hw]
      · rw [List.foldl_append, meshLines_open reread bv bt bn m first
          (writable_has_vertex m (h m (List.mem_cons_self m _))), hst, hsg, hr]
        simp

/-- C13: for every list of meshes in which each mesh has at least one face, in-range
indices and a name that is not empty, holds no white space and is shorter than 256
bytes, `WriteFile` writes a file from which `ReadFile` (on an empty loader) builds as
many meshes, in the same order, each with the name, the numbers of positions, texture
coordinates and normals, and the faces (all nine indices and the smoothing group) of
the mesh it was written for. `reread` stands for the rounding of a coordinate by the
six-decimals text. -/
theorem WriteFile_ReadFile_sameShape (reread : ℚ → ℚ) (meshes : List OBJ_Mesh)
    (group_name : String) (h : ∀ m ∈ meshes, writable m) :
    ∃ lines meshes', WriteFile reread meshes = .ok lines ∧
      ReadFile [] group_name lines = .ok meshes' ∧
      meshes'.length = meshes.length ∧
      List.Forall₂ sameShape meshes meshes' := by
  have hshape : List.Forall₂ sameShape meshes (meshes.map (rereadMesh reread)) := by
    rw [List.forall₂_map_right_iff]
    exact List.forall₂_same.mpr (fun m _ => rereadMesh_sameShape reread m)
  cases meshes with
  | nil =>
    exact ⟨[Line.comment, Line.comment, Line.comment] ++ [], [], rfl, rfl, rfl, List.Forall₂.nil⟩
  | cons m ms =>
    obtain ⟨ls, hw, hr⟩ := read_written reread ms m (initialState group_name) [] 0 0 0
      group_name (-1) rfl h
    refine ⟨[Line.comment, Line.comment, Line.comment] ++ ls, (m :: ms).map (rereadMesh reread),
      ?_, ?_, by simp, hshape⟩
    · simp only [WriteFile, hw]
    · have hskip : ([Line.comment, Line.comment, Line.comment] ++ ls).foldl readLine
          (initialState group_name) = ls.foldl readLine (initialState group_name) := rfl
      unfold ReadFile
      rw [if_neg (by simp), hskip, hr]
      rfl

/-- C13 (instance): the unit square mesh followed by a one-triangle mesh. -/
theorem WriteFile_ReadFile_sameShape_witness :
    (∀ m ∈ [PS2Icon.exampleQuad, exampleTriangle], writable m) ∧
    ∃ lines meshes', WriteFile id [PS2Icon.exampleQuad, exampleTriangle] = .ok lines ∧
      ReadFile [] "" lines = .ok meshes' ∧
      meshes'.length = [PS2Icon.exampleQuad, exampleTriangle].length ∧
      List.Forall₂ sameShape [PS2Icon.exampleQuad, exampleTriangle] meshes' :=
  have hw : ∀ m ∈ [PS2Icon.exampleQuad, exampleTriangle], writable m := by
    intro m hm
    simp only [List.mem_cons, List.mem_singleton, List.not_mem_nil, or_false] at hm
    rcases hm with rfl | rfl
    · exact ⟨by decide, by unfold validIndices; decide, by decide, by decide, by decide⟩
    · exact ⟨by decide, by unfold validIndices; decide, by decide, by decide, by decide⟩
  ⟨hw, WriteFile_ReadFile_sameShape id [PS2Icon.exampleQuad, exampleTriangle] "" hw⟩

end OBJ_FileLoader

/-! ### Raster readers -/

namespace GhulbusUtil

/-- When the dispatch of the bitmap reader returns, the palette is non-null exactly
for the bit depths 1, 4 and 8, and the bit depth is one of 1, 4, 8, 24 and 32. -/
theorem dispatch_ok (file : FileStream) (iheader : BITMAPINFOHEADER)
    (fheader : BITMAPFILEHEADER) (palette : Bool) (file' : FileStream)
    (h : gbImageType_BMP_T.dispatch file iheader fheader = .ok (palette, file')) :
    (palette = true ∧ (iheader.biBitCount = 1 ∨ iheader.biBitCount = 4 ∨
      iheader.biBitCount = 8)) ∨
    (palette = false ∧ (iheader.biBitCount = 24 ∨ iheader.biBitCount = 32)) := by
  unfold gbImageType_BMP_T.dispatch at h
  split_ifs at h with h1 h4 h8 h16 h24 h32
  · unfold ReadData1Bit at h
    split_ifs at h
    simp only [Except.ok.injEq, Prod.mk.injEq] at h
    exact Or.inl ⟨h.1.symm, Or.inl h1⟩
  · unfold ReadData4Bit at h
    split_ifs at h
    simp only [Except.ok.injEq, Prod.mk.injEq] at h
    exact Or.inl ⟨h.1.symm, Or.inr (Or.inl h4)⟩
  · unfold ReadData8Bit at h
    split_ifs at h
    simp only [Except.ok.injEq, Prod.mk.injEq] at h
    exact Or.inl ⟨h.1.symm, Or.inr (Or.inr h8)⟩
  · exact absurd h (by simp [ReadData16Bit])
  · unfold ReadData24Bit at h
    simp only at h
    split_ifs at h
    simp only [Except.ok.injEq, Prod.mk.injEq] at h
    exact Or.inr ⟨h.1.symm, Or.inl h24⟩
  · unfold ReadData32Bit at h
    simp only at h
    split_ifs at h <;> simp only [Except.ok.injEq, Prod.mk.injEq] at h <;>
      exact Or.inr ⟨h.1.symm, Or.inr h32⟩

/-- The dispatch of the bitmap reader raises `GB_NOTIMPLEMENTED` for the bit depth 16,
for the bit depths 1, 4, 8 and 24 with a compression other than 0, and for the bit
depth 32 with a compression other than 0 and 3. -/
theorem dispatch_not_implemented (file : FileStream) (iheader : BITMAPINFOHEADER)
    (fheader : BITMAPFILEHEADER)
    (h : iheader.biBitCount = 16 ∨
      ((iheader.biBitCount = 1 ∨ iheader.biBitCount = 4 ∨ iheader.biBitCount = 8 ∨
          iheader.biBitCount = 24) ∧ iheader.biCompression ≠ 0) ∨
      (iheader.biBitCount = 32 ∧ iheader.biCompression ≠ 0 ∧ iheader.biCompression ≠ 3)) :
    gbImageType_BMP_T.dispatch file iheader fheader = .error (.raised .GB_NOTIMPLEMENTED) := by
  unfold gbImageType_BMP_T.dispatch
  rcases h with h | ⟨h | h | h | h, hc⟩ | ⟨h, hc0, hc3⟩
  · simp [h, ReadData16Bit]
  · simp [h, ReadData1Bit, hc]
  · simp [h, ReadData4Bit, hc]
  · simp [h, ReadData8Bit, hc]
  · simp [h, ReadData24Bit, hc]
  · simp [h, ReadData32Bit, hc0, hc3]

/-- C17 (with the proviso on the buffer size): the bitmap reader raises
`GB_NOTIMPLEMENTED` when `biClrUsed` is not 0 or `biHeight` is negative; and, when the
size of the pixel buffer it allocates before the dispatch lies between 0 and
`INT_MAX`, for the bit depth 16, for the bit depths 1, 4, 8 and 24 with a compression
other than 0, and for the bit depth 32 with a compression other than 0 and 3. The TGA
reader raises `GB_NOTIMPLEMENTED` for every image type code other than 2 when the
`int` products for the size of its pixel buffer are at most `INT_MAX`. In each case no
image is returned. -/
theorem raster_not_implemented (bytes prior : List Nat) :
    ((gbImageType_BMP_T.headers bytes prior).2.1.biClrUsed ≠ 0 ∨
        (gbImageType_BMP_T.headers bytes prior).2.1.biHeight < 0 →
      gbImageType_BMP_T.ReadFile bytes prior = .error (.raised .GB_NOTIMPLEMENTED)) ∧
    (0 ≤ gbImageType_BMP_T.capacity (gbImageType_BMP_T.headers bytes prior).2.1 →
      gbImageType_BMP_T.capacity (gbImageType_BMP_T.headers bytes prior).2.1 ≤ 2147483647 →
      ((gbImageType_BMP_T.headers bytes prior).2.1.biBitCount = 16 ∨
        (((gbImageType_BMP_T.headers bytes prior).2.1.biBitCount = 1 ∨
            (gbImageType_BMP_T.headers bytes prior).2.1.biBitCount = 4 ∨
            (gbImageType_BMP_T.headers bytes prior).2.1.biBitCount = 8 ∨
            (gbImageType_BMP_T.headers bytes prior).2.1.biBitCount = 24) ∧
          (gbImageType_BMP_T.headers bytes prior).2.1.biCompression ≠ 0) ∨
        ((gbImageType_BMP_T.headers bytes prior).2.1.biBitCount = 32 ∧
          (gbImageType_BMP_T.headers bytes prior).2.1.biCompression ≠ 0 ∧
          (gbImageType_BMP_T.headers bytes prior).2.1.biCompression ≠ 3)) →
      gbImageType_BMP_T.ReadFile bytes prior = .error (.raised .GB_NOTIMPLEMENTED)) ∧
    ((gbImageType_TGA_T.header bytes prior).1.ImageTypeCode ≠ 2 →
      (gbImageType_TGA_T.header bytes prior).1.Width *
        (gbImageType_TGA_T.header bytes prior).1.Height ≤ 2147483647 →
      (gbImageType_TGA_T.header bytes prior).1.Width *
        (gbImageType_TGA_T.header bytes prior).1.Height *
        (gbImageType_TGA_T.header bytes prior).1.ImagePixelSize ≤ 2147483647 →
      gbImageType_TGA_T.ReadFile bytes prior = .error (.raised .GB_NOTIMPLEMENTED)) := by
  refine ⟨?_, ?_, ?_⟩
  · intro h
    unfold gbImageType_BMP_T.ReadFile
    simp only [if_pos h]
  · intro h0 h1 hcase
    unfold gbImageType_BMP_T.ReadFile
    simp only
    by_cases hfirst : (gbImageType_BMP_T.headers bytes prior).2.1.biClrUsed ≠ 0 ∨
        (gbImageType_BMP_T.headers bytes prior).2.1.biHeight < 0
    · rw [if_pos hfirst]
    · rw [if_neg hfirst, if_neg (by omega), if_neg (by omega),
        dispatch_not_implemented _ _ _ hcase]
  · intro ht h1 h2
    unfold gbImageType_TGA_T.ReadFile
    simp only
    rw [if_neg (by omega), if_neg ht]

/-- C17 (instance): a bitmap header for 2x2 pixels of 16 bits, and a TGA header with
the image type code 1. -/
theorem raster_not_implemented_witness :
    gbImageType_BMP_T.ReadFile (exampleBmpHeader 2 2 16 0 0) []
      = .error (.raised .GB_NOTIMPLEMENTED) ∧
    gbImageType_TGA_T.ReadFile (exampleTgaHeader 1 2 2 24 0) []
      = .error (.raised .GB_NOTIMPLEMENTED) :=
  ⟨(raster_not_implemented (exampleBmpHeader 2 2 16 0 0) []).2.1 (by decide) (by decide)
      (Or.inl (by rfl)),
   (raster_not_implemented (exampleTgaHeader 1 2 2 24 0) []).2.2 (by decide) (by decide)
      (by decide)⟩

/-- C17 (counterexample): a bitmap header with `biClrUsed = 0`, `biWidth = -1`,
`biHeight = 1` and the bit depth 16. The size of the pixel buffer is `-1*1*2 = -2`;
`new[]` raises `std::bad_alloc` before the dispatch is reached, so the reader does not
raise `GB_NOTIMPLEMENTED`. -/
theorem bmp_negative_width_bad_alloc :
    (gbImageType_BMP_T.headers (exampleBmpHeader (-1) 1 16 0 0) []).2.1.biClrUsed = 0 ∧
    (gbImageType_BMP_T.headers (exampleBmpHeader (-1) 1 16 0 0) []).2.1.biWidth = -1 ∧
    (gbImageType_BMP_T.headers (exampleBmpHeader (-1) 1 16 0 0) []).2.1.biHeight = 1 ∧
    (gbImageType_BMP_T.headers (exampleBmpHeader (-1) 1 16 0 0) []).2.1.biBitCount = 16 ∧
    gbImageType_BMP_T.capacity
      (gbImageType_BMP_T.headers (exampleBmpHeader (-1) 1 16 0 0) []).2.1 = -2 ∧
    gbImageType_BMP_T.ReadFile (exampleBmpHeader (-1) 1 16 0 0) [] = .error .bad_alloc := by
  refine ⟨?_, ?_, ?_, ?_, ?_, ?_⟩ <;> rfl

theorem FileStream.read_failed (f : FileStream) (n : Nat) (h : f.failed = true) :
    (f.read n).failed = true := by
  unfold FileStream.read
  rw [if_pos h]
  exact h

theorem FileStream.seekg_failed (f : FileStream) (p : Nat) : (f.seekg p).failed = f.failed := by
  unfold FileStream.seekg
  split_ifs <;> rfl

theorem FileStream.read_short (f : FileStream) (n : Nat) (hn : 0 < n)
    (h : f.bytes.length < f.pos + n) : (f.read n).failed = true := by
  unfold FileStream.read
  by_cases hf : f.failed = true
  · rw [if_pos hf]
    exact hf
  · rw [if_neg hf, if_neg (by omega), if_neg (by omega)]

/-- C18 (the part that holds): the TGA reader raises `GB_FAILED` when the header in
memory has the image type code 2, the `int` products for the buffer size are at most
`INT_MAX`, and the stream ends before the 18 header bytes or before the
`(Width*Height*ImagePixelSize)/8` pixel bytes behind the header and the ID field. -/
theorem tga_short_stream_fails (bytes prior : List Nat)
    (htype : (gbImageType_TGA_T.header bytes prior).1.ImageTypeCode = 2)
    (h1 : (gbImageType_TGA_T.header bytes prior).1.Width *
      (gbImageType_TGA_T.header bytes prior).1.Height ≤ 2147483647)
    (h2 : (gbImageType_TGA_T.header bytes prior).1.Width *
      (gbImageType_TGA_T.header bytes prior).1.Height *
      (gbImageType_TGA_T.header bytes prior).1.ImagePixelSize ≤ 2147483647)
    (hshort : bytes.length < 18 ∨
      (0 < (gbImageType_TGA_T.header bytes prior).1.Width *
          (gbImageType_TGA_T.header bytes prior).1.Height *
          (gbImageType_TGA_T.header bytes prior).1.ImagePixelSize / 8 ∧
        bytes.length < 18 + (gbImageType_TGA_T.header bytes prior).1.nCharIDField +
          (gbImageType_TGA_T.header bytes prior).1.Width *
          (gbImageType_TGA_T.header bytes prior).1.Height *
          (gbImageType_TGA_T.header bytes prior).1.ImagePixelSize / 8)) :
    gbImageType_TGA_T.ReadFile bytes prior
      = .error (.raised (.GB_FAILED "Error while reading TGA image file")) := by
  have hfail : (ReadUnmappedRBG (gbImageType_TGA_T.header bytes prior).2
      (gbImageType_TGA_T.header bytes prior).1 0).failed = true := by
    generalize (gbImageType_TGA_T.header bytes prior).1 = hdr at hshort ⊢
    have hfile : (gbImageType_TGA_T.header bytes prior).2
        = (FileStream.ofBytes bytes).read 18 := rfl
    rw [hfile]
    unfold ReadUnmappedRBG
    by_cases h18 : 18 ≤ bytes.length
    · have hread : (FileStream.ofBytes bytes).read 18
          = { bytes := bytes, pos := 18, failed := false } := by
        unfold FileStream.read FileStream.ofBytes
        simp only [Bool.false_eq_true, if_false, zero_add, if_pos h18]
      rw [hread]
      rcases hshort with hs | ⟨hpos, hs⟩
      · omega
      · apply FileStream.read_short _ _ hpos
        show bytes.length < 0 + 18 + hdr.nCharIDField
          + hdr.Width * hdr.Height * hdr.ImagePixelSize / 8
        omega
    · apply FileStream.read_failed
      rw [FileStream.seekg_failed]
      exact FileStream.read_short _ 18 (by omega) (by
        show bytes.length < 0 + 18
        omega)
  unfold gbImageType_TGA_T.ReadFile
  simp only
  rw [if_neg (by omega), if_pos htype, if_pos hfail]

/-- C18 (instance of the part that holds): a TGA header of type 2 for 2x2 pixels of
32 bits, followed by 3 of the 16 pixel bytes. -/
theorem tga_short_stream_fails_witness :
    gbImageType_TGA_T.ReadFile (exampleTgaHeader 2 2 2 32 0 ++ [1, 2, 3]) []
      = .error (.raised (.GB_FAILED "Error while reading TGA image file")) :=
  tga_short_stream_fails (exampleTgaHeader 2 2 2 32 0 ++ [1, 2, 3]) [] (by rfl) (by decide)
    (by decide) (Or.inr ⟨by decide, by decide⟩)

/-- C18 (failing inputs): a bitmap file that ends after its 54 header bytes, with a
header for 1x1 pixels of 32 bits whose 4 pixel bytes are declared at offset 54: the
read of the pixels fails, the stream is in the fail state, and `ReadFile` returns an
image. And a TGA file of 17 bytes, one byte short of the header, with the image type
code 1: whatever the last header byte in memory is, the reader raises
`GB_NOTIMPLEMENTED`, not `GB_FAILED`. -/
theorem raster_short_stream_no_failure :
    (exampleBmpHeader 1 1 32 0 0).length = 54 ∧
    (gbImageType_BMP_T.headers (exampleBmpHeader 1 1 32 0 0) []).1.bfOffBits = 54 ∧
    gbImageType_BMP_T.ReadFile (exampleBmpHeader 1 1 32 0 0) []
      = .ok ({ m_width := 1, m_height := 1, m_bpp := 32, m_palette := false },
             { bytes := exampleBmpHeader 1 1 32 0 0, pos := 54, failed := true }) ∧
    ((exampleTgaHeader 1 1 1 24 0).take 17).length = 17 ∧
    ∀ prior : List Nat,
      gbImageType_TGA_T.ReadFile ((exampleTgaHeader 1 1 1 24 0).take 17) prior
        = .error (.raised .GB_NOTIMPLEMENTED) := by
  refine ⟨by rfl, by rfl, by rfl, by rfl, ?_⟩
  intro prior
  rfl

/-- C20 (the part that holds): for every image the bitmap reader returns, the palette
is present exactly when the bit depth is at most 8. For every image the TGA reader
returns the palette is absent, so the equivalence holds for it exactly when its bit
depth is above 8. -/
theorem palette_iff_bpp (bytes prior : List Nat) (img : gbImageLoader) (file : FileStream) :
    (gbImageType_BMP_T.ReadFile bytes prior = .ok (img, file) →
      (img.HasPalette = true ↔ img.GetBpp ≤ 8)) ∧
    (gbImageType_TGA_T.ReadFile bytes prior = .ok (img, file) →
      img.HasPalette = false ∧ ((img.HasPalette = true ↔ img.GetBpp ≤ 8) ↔ 8 < img.GetBpp)) := by
  constructor
  · intro h
    unfold gbImageType_BMP_T.ReadFile at h
    simp only at h
    split_ifs at h
    split at h
    · exact absurd h (by simp)
    · rename_i palette file' hd
      simp only [Except.ok.injEq, Prod.mk.injEq] at h
      rw [← h.1]
      simp only [gbImageLoader.HasPalette, gbImageLoader.GetBpp]
      rcases dispatch_ok _ _ _ _ _ hd with ⟨hp, hb⟩ | ⟨hp, hb⟩
      · rw [hp]
        rcases hb with hb | hb | hb <;> rw [hb] <;> simp
      · rw [hp]
        rcases hb with hb | hb <;> rw [hb] <;> simp
  · intro h
    unfold gbImageType_TGA_T.ReadFile at h
    simp only at h
    split_ifs at h
    simp only [Except.ok.injEq, Prod.mk.injEq] at h
    rw [← h.1]
    simp only [gbImageLoader.HasPalette, gbImageLoader.GetBpp, Bool.false_eq_true, false_iff,
      not_le, true_and]

/-- C20 (failing input): a TGA file of type 2 with 1x1 pixels of 8 bits and its one
pixel byte. The reader returns an image with 8 bits per pixel and no palette. -/
theorem tga_8bit_no_palette :
    gbImageType_TGA_T.ReadFile (exampleTgaHeader 2 1 1 8 0 ++ [7]) []
      = .ok ({ m_width := 1, m_height := 1, m_bpp := 8, m_palette := false },
             { bytes := exampleTgaHeader 2 1 1 8 0 ++ [7], pos := 19, failed := false }) ∧
    gbImageLoader.HasPalette { m_width := 1, m_height := 1, m_bpp := 8, m_palette := false }
      = false ∧
    gbImageLoader.GetBpp { m_width := 1, m_height := 1, m_bpp := 8, m_palette := false } ≤ 8 := by
  refine ⟨by rfl, by rfl, by decide⟩

end GhulbusUtil

/-! ### Unindexed geometry, mesh building and the collapsed animation -/

namespace OBJ_Mesh

end OBJ_Mesh

namespace PS2Icon

theorem GetVertexData_zero_length (self : Icon) (h1 : 1 ≤ self.header.animation_shapes)
    (h2 : self.header.animation_shapes ≤ 2147483647) :
    ∃ tf, GetVertexData self 0 = .ok tf ∧ tf.length = 3 * self.header.n_vertices := by
  have hs : toInt32 self.header.animation_shapes = (self.header.animation_shapes : Int) := by
    unfold toInt32
    have e : self.header.animation_shapes % 4294967296 = self.header.animation_shapes := by omega
    rw [e, if_pos (by omega)]
  unfold GetVertexData
  rw [hs, if_neg (by omega), if_pos (le_refl _)]
  refine ⟨_, rfl, ?_⟩
  refine (length_flatMap_block _ 3 _ ?_).trans ?_
  · intro _ _; rfl
  · rw [List.length_range]

theorem FillVector_length (data : List ℚ) (n : Nat) :
    (OBJ_Mesh.FillVector data (n : Int)).length = n := by
  unfold OBJ_Mesh.FillVector
  rw [Int.toNat_ofNat, List.length_map, List.length_range]

theorem freshFace_small (i : Nat) (h : i * 3 + 2 ≤ 2147483647) :
    freshFace i = { vert1 := (3 * i : Nat), texture1 := (3 * i : Nat), normal1 := (3 * i : Nat),
                    vert2 := (3 * i + 1 : Nat), texture2 := (3 * i + 1 : Nat),
                    normal2 := (3 * i + 1 : Nat),
                    vert3 := (3 * i + 2 : Nat), texture3 := (3 * i + 2 : Nat),
                    normal3 := (3 * i + 2 : Nat), smoothing_group := 1 } := by
  unfold freshFace
  rw [toInt32_u32_small (i * 3) (by omega), toInt32_u32_small (i * 3 + 1) (by omega),
    toInt32_u32_small (i * 3 + 2) (by omega)]
  simp only [Face.mk.injEq, and_true]
  refine ⟨?_, ?_, ?_, ?_, ?_, ?_, ?_, ?_, ?_⟩ <;> (push_cast; ring)

/-- C25 (with the bounds of `int`): for an icon with `n_vertices = 3k`,
`1 ≤ animation_shapes ≤ INT_MAX` and `3 * n_vertices ≤ INT_MAX`, and whatever the
target mesh held, `BuildMesh` returns a mesh with the old name, `3k` positions, `3k`
normals, `3k` texture coordinates whose third component is 0 and whose first two are
the decoded `u` and `v` of the vertex, and `k` faces; face `i` has smoothing group 1
and uses the indices `3i`, `3i+1`, `3i+2` for position, texture and normal, so every
index is below its attribute count and no index is used by two corners. -/
theorem BuildMesh_fresh_faces (self : Icon) (mesh : OBJ_Mesh) (k : Nat)
    (hn : self.header.n_vertices = 3 * k)
    (h1 : 1 ≤ self.header.animation_shapes) (h2 : self.header.animation_shapes ≤ 2147483647)
    (h3 : 3 * self.header.n_vertices ≤ 2147483647) :
    ∃ m, BuildMesh self mesh = .ok m ∧ m.m_name = mesh.m_name ∧
      m.GetNVertices = (3 * k : Nat) ∧ m.GetNNormals = (3 * k : Nat) ∧
      m.GetNTexture = (3 * k : Nat) ∧ m.m_texcoords.length = 9 * k ∧
      (∀ i, i < 3 * k →
        m.m_texcoords.getD (3 * i) 0
          = convert_f16_to_f32 (self.vert_texture.getD i default).f16_u ∧
        m.m_texcoords.getD (3 * i + 1) 0
          = convert_f16_to_f32 (self.vert_texture.getD i default).f16_v ∧
        m.m_texcoords.getD (3 * i + 2) 0 = 0) ∧
      m.m_faces.length = k ∧
      (∀ i, i < k → m.m_faces.getD i default
        = { vert1 := (3 * i : Nat), texture1 := (3 * i : Nat), normal1 := (3 * i : Nat),
            vert2 := (3 * i + 1 : Nat), texture2 := (3 * i + 1 : Nat),
            normal2 := (3 * i + 1 : Nat),
            vert3 := (3 * i + 2 : Nat), texture3 := (3 * i + 2 : Nat),
            normal3 := (3 * i + 2 : Nat), smoothing_group := 1 }) ∧
      OBJ_FileLoader.validIndices m ∧
      (∀ i i' j j' : Nat, i < k → i' < k → j < 3 → j' < 3 →
        (m.m_faces.getD i default).vert j = (m.m_faces.getD i' default).vert j' →
        i = i' ∧ j = j') := by
  obtain ⟨tf, htf, hlen⟩ := GetVertexData_zero_length self h1 h2
  have hcast : toInt32 (u32 (self.header.n_vertices * 3))
      = ((3 * self.header.n_vertices : Nat) : Int) := by
    rw [toInt32_u32_small _ (by omega)]
    push_cast
    ring
  have hdiv : self.header.n_vertices / 3 = k := by omega
  have hfaces : ∀ i, i < k → ((List.range k).map freshFace).getD i default
      = { vert1 := (3 * i : Nat), texture1 := (3 * i : Nat), normal1 := (3 * i : Nat),
          vert2 := (3 * i + 1 : Nat), texture2 := (3 * i + 1 : Nat),
          normal2 := (3 * i + 1 : Nat),
          vert3 := (3 * i + 2 : Nat), texture3 := (3 * i + 2 : Nat),
          normal3 := (3 * i + 2 : Nat), smoothing_group := 1 } := by
    intro i hi
    rw [getD_map_range freshFace default k i hi, freshFace_small i (by omega)]
  have htex : ((List.range self.header.n_vertices).flatMap (fun i =>
      [convert_f16_to_f32 (self.vert_texture.getD i default).f16_u,
       convert_f16_to_f32 (self.vert_texture.getD i default).f16_v, (0 : ℚ)])).length
      = 3 * self.header.n_vertices := by
    refine (length_flatMap_block _ 3 _ ?_).trans ?_
    · intro _ _; rfl
    · rw [List.length_range]
  refine ⟨{ m_name := mesh.m_name
            m_geometry := OBJ_Mesh.FillVector tf ((3 * self.header.n_vertices : Nat) : Int)
            m_normals := OBJ_Mesh.FillVector self.fnormals
              ((3 * self.header.n_vertices : Nat) : Int)
            m_texcoords := (List.range self.header.n_vertices).flatMap (fun i =>
              [convert_f16_to_f32 (self.vert_texture.getD i default).f16_u,
               convert_f16_to_f32 (self.vert_texture.getD i default).f16_v, 0])
            m_faces := (List.range k).map freshFace }, ?_, rfl, ?_, ?_, ?_, ?_, ?_, ?_,
          hfaces, ?_, ?_⟩
  · unfold BuildMesh
    rw [htf]
    simp only
    rw [hcast, foldl_AddFaceData, foldl_addVertexTexture, hdiv]
    simp [OBJ_Mesh.SetGeometry, OBJ_Mesh.SetNormals, OBJ_Mesh.ClearTextureData,
      OBJ_Mesh.ClearFaceData]
  · unfold OBJ_Mesh.GetNVertices
    simp only [FillVector_length]
    congr 1
    omega
  · unfold OBJ_Mesh.GetNNormals
    simp only [FillVector_length]
    congr 1
    omega
  · unfold OBJ_Mesh.GetNTexture
    simp only [htex]
    congr 1
    omega
  · simp only [htex]
    omega
  · intro i hi
    have hi' : i < (List.range self.header.n_vertices).length := by
      rw [List.length_range]; omega
    have k0 := getD_flatMap_block (fun i =>
      [convert_f16_to_f32 (self.vert_texture.getD i default).f16_u,
       convert_f16_to_f32 (self.vert_texture.getD i default).f16_v, (0 : ℚ)]) 3
      (List.range self.header.n_vertices) (fun _ _ => rfl) i 0 hi' (by omega)
    have k1 := getD_flatMap_block (fun i =>
      [convert_f16_to_f32 (self.vert_texture.getD i default).f16_u,
       convert_f16_to_f32 (self.vert_texture.getD i default).f16_v, (0 : ℚ)]) 3
      (List.range self.header.n_vertices) (fun _ _ => rfl) i 1 hi' (by omega)
    have k2 := getD_flatMap_block (fun i =>
      [convert_f16_to_f32 (self.vert_texture.getD i default).f16_u,
       convert_f16_to_f32 (self.vert_texture.getD i default).f16_v, (0 : ℚ)]) 3
      (List.range self.header.n_vertices) (fun _ _ => rfl) i 2 hi' (by omega)
    have hr : (List.range self.header.n_vertices).getD i default = i := by
      rw [List.getD_eq_getElem _ _ hi', List.getElem_range]
    rw [hr] at k0 k1 k2
    exact ⟨k0, k1, k2⟩
  · rw [List.length_map, List.length_range]
  · intro f hf j hj
    simp only [List.mem_map, List.mem_range] at hf
    obtain ⟨i, hi, rfl⟩ := hf
    rw [freshFace_small i (by omega)]
    unfold OBJ_Mesh.GetNVertices OBJ_Mesh.GetNTexture OBJ_Mesh.GetNNormals
    simp only [FillVector_length, htex]
    have hj3 : j = 0 ∨ j = 1 ∨ j = 2 := by omega
    rcases hj3 with rfl | rfl | rfl <;>
      simp only [Face.vert, Face.texture, Face.normal] <;>
      refine ⟨⟨?_, ?_⟩, ⟨?_, ?_⟩, ⟨?_, ?_⟩⟩ <;> omega
  · intro i i' j j' hi hi' hj hj' heq
    simp only [] at heq
    rw [hfaces i hi, hfaces i' hi'] at heq
    have hj3 : j = 0 ∨ j = 1 ∨ j = 2 := by omega
    have hj3' : j' = 0 ∨ j' = 1 ∨ j' = 2 := by omega
    rcases hj3 with rfl | rfl | rfl <;> rcases hj3' with rfl | rfl | rfl <;>
      simp only [Face.vert] at heq <;> omega

/-- C25 (instance): the one-triangle icon, built into the unit square mesh. -/
theorem BuildMesh_fresh_faces_witness :
    ∃ m, BuildMesh exampleTriangleIcon exampleQuad = .ok m ∧ m.m_name = exampleQuad.m_name ∧
      m.GetNVertices = (3 * 1 : Nat) ∧ m.GetNNormals = (3 * 1 : Nat) ∧
      m.GetNTexture = (3 * 1 : Nat) ∧ m.m_faces.length = 1 :=
  have h := BuildMesh_fresh_faces exampleTriangleIcon exampleQuad 1 (by decide) (by decide)
    (by decide) (by decide)
  ⟨h.choose, h.choose_spec.1, h.choose_spec.2.1, h.choose_spec.2.2.1, h.choose_spec.2.2.2.1,
    h.choose_spec.2.2.2.2.1, h.choose_spec.2.2.2.2.2.2.2.1⟩

/-- C25 (counterexample): the file `fileWideShapes` holds a header without vertices
that announces `2^32 - 1` animation shapes, an animation header without frames and an
empty RLE texture segment. `ReadFile` accepts it and builds the icon `iconWideShapes`,
whose arrays have the lengths of its header. The header has `n_vertices = 3 * 0` and
`animation_shapes ≥ 1`, but `GetVertexData` compares the shape 0 with
`static_cast<int>(animation_shapes) = -1` and raises `GB_ILLEGALPARAMETER`; `BuildMesh`
builds no mesh. -/
theorem BuildMesh_wide_shapes_throws :
    fileWideShapes.length = 44 ∧
    ReadFile fileWideShapes = .ok iconWideShapes ∧ iconWideShapes.WellFormed ∧
    iconWideShapes.header.n_vertices = 3 * 0 ∧ 1 ≤ iconWideShapes.header.animation_shapes ∧
    toInt32 iconWideShapes.header.animation_shapes = -1 ∧
    BuildMesh iconWideShapes exampleQuad = .error .GB_ILLEGALPARAMETER := by
  refine ⟨rfl, rfl, by decide, rfl, by decide, by decide, ?_⟩
  rfl

/-- C26: after `SetGeometry` from a mesh, with or without a scale factor, and after
`SetGeometry` from raw arrays, whatever the icon held and whatever the arguments,
`animation_shapes` is 1 and the animation has one frame with `shape_id` 0 and one key
with the time `0.0f` (bits 0) and the value `1.0f` (bits `0x3F800000`). -/
theorem SetGeometry_collapses_animation (self : Icon) :
    (∀ (mesh : OBJ_Mesh) (scale_factor : ℚ),
      ((SetGeometry self mesh scale_factor).header.animation_shapes = 1 ∧
        (SetGeometry self mesh scale_factor).anim_header.n_frames = 1 ∧
        (SetGeometry self mesh scale_factor).animation = [{ shape_id := 0, n_keys := 1 }] ∧
        (SetGeometry self mesh scale_factor).anim_keys
          = [[{ time := floatBits_zero, value := floatBits_one }]]) ∧
      ((SetGeometry_default self mesh).header.animation_shapes = 1 ∧
        (SetGeometry_default self mesh).anim_header.n_frames = 1 ∧
        (SetGeometry_default self mesh).animation = [{ shape_id := 0, n_keys := 1 }] ∧
        (SetGeometry_default self mesh).anim_keys
          = [[{ time := floatBits_zero, value := floatBits_one }]])) ∧
    (∀ (pverts pnormals ptexture tmptexture : List ℚ) (n_vertices : Int),
      (SetGeometry_raw self pverts pnormals ptexture tmptexture n_vertices).header.animation_shapes
        = 1 ∧
      (SetGeometry_raw self pverts pnormals ptexture tmptexture n_vertices).anim_header.n_frames
        = 1 ∧
      (SetGeometry_raw self pverts pnormals ptexture tmptexture n_vertices).animation
        = [{ shape_id := 0, n_keys := 1 }] ∧
      (SetGeometry_raw self pverts pnormals ptexture tmptexture n_vertices).anim_keys
        = [[{ time := floatBits_zero, value := floatBits_one }]]) ∧
    floatBits_zero = 0 ∧ floatBits_one = 0x3F800000 := by
  refine ⟨fun _ _ => ⟨⟨rfl, rfl, rfl, rfl⟩, ⟨rfl, rfl, rfl, rfl⟩⟩,
    fun _ _ _ _ _ => ⟨rfl, rfl, rfl, rfl⟩, rfl, rfl⟩

/-- C26 (instance): the icon with two shapes and two frames, given the unit square. -/
theorem SetGeometry_collapses_animation_witness :
    exampleAnimatedIcon.header.animation_shapes = 2 ∧
    exampleAnimatedIcon.anim_header.n_frames = 2 ∧
    (SetGeometry exampleAnimatedIcon exampleQuad 1).header.animation_shapes = 1 ∧
    (SetGeometry exampleAnimatedIcon exampleQuad 1).animation = [{ shape_id := 0, n_keys := 1 }] ∧
    (SetGeometry_raw exampleAnimatedIcon [] [] [] [] 0).anim_keys
      = [[{ time := floatBits_zero, value := floatBits_one }]] :=
  ⟨rfl, rfl,
   ((SetGeometry_collapses_animation exampleAnimatedIcon).1 exampleQuad 1).1.1,
   ((SetGeometry_collapses_animation exampleAnimatedIcon).1 exampleQuad 1).1.2.2.1,
   ((SetGeometry_collapses_animation exampleAnimatedIcon).2.1 [] [] [] [] 0).2.2.2⟩

end PS2Icon

/-! ### Colour masks of the 32-bit bitmap decoder -/

namespace GhulbusUtil

/-- Masking with `w` ones at bit offset `s` selects the `w`-bit field at that offset. -/
theorem and_shift_mask (x w s : Nat) :
    x &&& ((2 ^ w - 1) <<< s) = (x / 2 ^ s % 2 ^ w) * 2 ^ s := by
  rw [← Nat.shiftRight_eq_div_pow, ← Nat.shiftLeft_eq]
  apply Nat.eq_of_testBit_eq
  intro i
  rw [Nat.testBit_and, Nat.testBit_shiftLeft, Nat.testBit_shiftLeft, Nat.testBit_two_pow_sub_one,
    Nat.testBit_mod_two_pow, Nat.testBit_shiftRight]
  by_cases h : s ≤ i
  · rw [show s + (i - s) = i by omega]
    simp only [ge_iff_le, h, decide_True, Bool.true_and]
    exact Bool.and_comm _ _
  · simp [h]

theorem and_byte_masks (t : Nat) :
    t &&& 0x000000FF = t % 256 ∧ t &&& 0x0000FF00 = (t / 256 % 256) * 256 ∧
    t &&& 0x00FF0000 = (t / 65536 % 256) * 65536 ∧
    t &&& 0xFF000000 = (t / 16777216 % 256) * 16777216 ∧
    t &&& 0x00FFFFFF = t % 16777216 := by
  have h0 := and_shift_mask t 8 0
  have h1 := and_shift_mask t 8 8
  have h2 := and_shift_mask t 8 16
  have h3 := and_shift_mask t 8 24
  have h4 := and_shift_mask t 24 0
  norm_num at h0 h1 h2 h3 h4
  exact ⟨h0, h1, h2, h3, h4⟩

theorem div_near (b c e : Nat) (h : b * e < c) : b * (c + e) / c = b := by
  have hc : 0 < c := by omega
  rw [show b * (c + e) = b * e + c * b by ring, Nat.add_mul_div_left _ _ hc,
    Nat.div_eq_of_lt h, Nat.zero_add]

theorem maskChannel_byte (t k : Nat) (hk : k < 4) :
    maskChannel t (0xFF <<< (8 * k)) = t / 256 ^ k % 256 := by
  obtain ⟨h0, h1, h2, h3, -⟩ := and_byte_masks t
  unfold maskChannel
  rw [show (0xff : Nat) = 255 from rfl, and_255_eq_mod]
  interval_cases k
  · rw [show (0xFF : Nat) <<< (8 * 0) = 0x000000FF from rfl, h0,
      show (0x000000FF : Nat) >>> 8 + 1 = 1 from rfl]
    norm_num
  · rw [show (0xFF : Nat) <<< (8 * 1) = 0x0000FF00 from rfl, h1,
      show (0x0000FF00 : Nat) >>> 8 + 1 = 256 from rfl]
    norm_num
  · rw [show (0xFF : Nat) <<< (8 * 2) = 0x00FF0000 from rfl, h2,
      show (0x00FF0000 : Nat) >>> 8 + 1 = 65281 from rfl]
    have hb : t / 65536 % 256 < 256 := Nat.mod_lt _ (by norm_num)
    rw [show (65536 : Nat) = 65281 + 255 from rfl, div_near _ 65281 255 (by omega)]
    norm_num
  · rw [show (0xFF : Nat) <<< (8 * 3) = 0xFF000000 from rfl, h3,
      show (0xFF000000 : Nat) >>> 8 + 1 = 16711681 from rfl]
    have hb : t / 16777216 % 256 < 256 := Nat.mod_lt _ (by norm_num)
    rw [show (16777216 : Nat) = 16711681 + 65535 from rfl, div_near _ 16711681 65535 (by omega)]
    norm_num

theorem applyColorMasks_fixed (t : Nat) :
    applyColorMasks t [0x00FF0000, 0x0000FF00, 0x000000FF] = t &&& 0x00FFFFFF := by
  have c2 := maskChannel_byte t 2 (by omega)
  have c1 := maskChannel_byte t 1 (by omega)
  have c0 := maskChannel_byte t 0 (by omega)
  rw [show (0xFF : Nat) <<< (8 * 2) = 0x00FF0000 from rfl] at c2
  rw [show (0xFF : Nat) <<< (8 * 1) = 0x0000FF00 from rfl] at c1
  rw [show (0xFF : Nat) <<< (8 * 0) = 0x000000FF from rfl] at c0
  unfold applyColorMasks
  simp only [List.getD_cons_zero, List.getD_cons_succ]
  rw [c2, c1, c0, (and_byte_masks t).2.2.2.2]
  have h := pack4_eq_add 0 (t / 256 ^ 2 % 256) (t / 256 ^ 1 % 256) (t / 256 ^ 0 % 256)
    (Nat.mod_lt _ (by norm_num)) (Nat.mod_lt _ (by norm_num)) (Nat.mod_lt _ (by norm_num))
  simp only [Nat.zero_shiftLeft, Nat.zero_or, Nat.zero_mul, Nat.zero_add] at h
  rw [h]
  norm_num
  omega

theorem storeU32_length (d : List Nat) (o w : Nat) : (storeU32 d o w).length = d.length := by
  simp [storeU32]

theorem storeU32_getD (d : List Nat) (o w j : Nat) (ho : o + 3 < d.length) :
    (storeU32 d o w).getD j 0
      = if j = o then w % 256 else if j = o + 1 then w / 256 % 256
        else if j = o + 2 then w / 65536 % 256
        else if j = o + 3 then w / 16777216 % 256 else d.getD j 0 := by
  unfold storeU32
  rw [getD_set _ _ _ _ (by simp; omega), getD_set _ _ _ _ (by simp; omega),
    getD_set _ _ _ _ (by simp; omega), getD_set _ _ _ _ (by omega)]
  split_ifs <;> first | rfl | omega

theorem storeU32_getD_other (d : List Nat) (o w j : Nat) (ho : o + 3 < d.length)
    (hj : j < o ∨ o + 4 ≤ j) : (storeU32 d o w).getD j 0 = d.getD j 0 := by
  rw [storeU32_getD d o w j ho]
  split_ifs <;> first | rfl | omega

theorem storeU32_getD_bytes (d : List Nat) (o w : Nat) (ho : o + 3 < d.length) :
    (storeU32 d o w).getD o 0 = w % 256 ∧ (storeU32 d o w).getD (o + 1) 0 = w / 256 % 256 ∧
    (storeU32 d o w).getD (o + 2) 0 = w / 65536 % 256 ∧
    (storeU32 d o w).getD (o + 3) 0 = w / 16777216 % 256 := by
  refine ⟨?_, ?_, ?_, ?_⟩ <;> rw [storeU32_getD d o w _ ho] <;> split_ifs <;>
    first | rfl | omega

theorem u32At_storeU32_same (d : List Nat) (o w : Nat) (ho : o + 3 < d.length)
    (hw : w < 4294967296) : u32At (storeU32 d o w) o = w := by
  obtain ⟨b0, b1, b2, b3⟩ := storeU32_getD_bytes d o w ho
  unfold u32At PS2Icon.getU32
  rw [b0, b1, b2, b3]
  omega

theorem applyColorMasks_lt (t : Nat) (colormasks : List Nat) :
    applyColorMasks t colormasks < 16777216 := by
  unfold applyColorMasks maskChannel
  simp only [show (0xff : Nat) = 255 from rfl, and_255_eq_mod]
  have h := pack4_eq_add 0 ((t &&& colormasks.getD 0 0) / (colormasks.getD 0 0 >>> 8 + 1) % 256)
    ((t &&& colormasks.getD 1 0) / (colormasks.getD 1 0 >>> 8 + 1) % 256)
    ((t &&& colormasks.getD 2 0) / (colormasks.getD 2 0 >>> 8 + 1) % 256)
    (Nat.mod_lt _ (by norm_num)) (Nat.mod_lt _ (by norm_num)) (Nat.mod_lt _ (by norm_num))
  simp only [Nat.zero_shiftLeft, Nat.zero_or, Nat.zero_mul, Nat.zero_add] at h
  rw [h]
  omega

/-- Loop invariant of the colour-mask loop: after `n` iterations the first `n` words
are rewritten and every byte behind them is untouched. -/
theorem colorMaskLoop_inv (colormasks : List Nat) (data : List Nat) :
    ∀ n, 4 * n ≤ data.length →
      (colorMaskLoop colormasks n data).length = data.length ∧
      (∀ i, i < n → u32At (colorMaskLoop colormasks n data) (i * 4)
          = applyColorMasks (u32At data (i * 4)) colormasks) ∧
      (∀ j, 4 * n ≤ j → (colorMaskLoop colormasks n data).getD j 0 = data.getD j 0) := by
  intro n
  induction n with
  | zero => intro _; exact ⟨rfl, fun i hi => absurd hi (by omega), fun _ _ => rfl⟩
  | succ n ih =>
    intro hlen
    obtain ⟨il, iw, ib⟩ := ih (by omega)
    have hstep : colorMaskLoop colormasks (n + 1) data
        = storeU32 (colorMaskLoop colormasks n data) (n * 4)
            (applyColorMasks (u32At (colorMaskLoop colormasks n data) (n * 4)) colormasks) := by
      unfold colorMaskLoop
      rw [List.range_succ, List.foldl_append]
      rfl
    have ho : n * 4 + 3 < (colorMaskLoop colormasks n data).length := by rw [il]; omega
    have hsame : u32At (colorMaskLoop colormasks n data) (n * 4) = u32At data (n * 4) := by
      unfold u32At
      rw [ib _ (by omega), ib _ (by omega), ib _ (by omega), ib _ (by omega)]
    rw [hstep]
    refine ⟨by rw [storeU32_length]; exact il, ?_, ?_⟩
    · intro i hi
      by_cases hin : i = n
      · subst hin
        rw [u32At_storeU32_same _ _ _ ho
          (lt_trans (applyColorMasks_lt _ _) (by norm_num)), hsame]
      · rw [← iw i (by omega)]
        have hi' : i < n := by omega
        unfold u32At
        rw [storeU32_getD_other _ _ _ (i * 4) ho (by omega),
          storeU32_getD_other _ _ _ (i * 4 + 1) ho (by omega),
          storeU32_getD_other _ _ _ (i * 4 + 2) ho (by omega),
          storeU32_getD_other _ _ _ (i * 4 + 3) ho (by omega)]
    · intro j hj
      rw [storeU32_getD_other _ _ _ j ho (by omega)]
      exact ib j (by omega)

/-- C23: for every pixel word `t` and every byte-aligned mask `m = 0xFF << 8k`,
`k < 4`, the channel expression `((t & m) / ((m >> 8) + 1)) & 0xFF` of `ReadData32Bit`
is byte `k` of `t`; with the fixed masks of compression 0 the stored word is
`t & 0x00FFFFFF`; and `ReadData32Bit` with compression 0, on a buffer that holds the
`width*height` words, returns the buffer in which every pixel word `t` that was read
is replaced by `t & 0x00FFFFFF`. -/
theorem ReadData32Bit_masks :
    (∀ t k : Nat, k < 4 → maskChannel t (0xFF <<< (8 * k)) = t / 256 ^ k % 256) ∧
    (∀ t : Nat, applyColorMasks t [0x00FF0000, 0x0000FF00, 0x000000FF] = t &&& 0x00FFFFFF) ∧
    (∀ (file : FileStream) (iheader : BITMAPINFOHEADER) (fheader : BITMAPFILEHEADER)
        (prior_masks data : List Nat),
      iheader.biCompression = 0 →
      4 * (iheader.biWidth * iheader.biHeight).toNat ≤ data.length →
      ∃ out, ReadData32Bit_data file iheader fheader 0 prior_masks data = .ok out ∧
        out.length = data.length ∧
        ∀ i, i < (iheader.biWidth * iheader.biHeight).toNat →
          u32At out (i * 4)
            = u32At (readInto (seekToBits file fheader 0)
                (iheader.biWidth * iheader.biHeight * 4).toNat data) (i * 4) &&& 0x00FFFFFF) := by
  refine ⟨maskChannel_byte, applyColorMasks_fixed, ?_⟩
  intro file iheader fheader prior_masks data hc hlen
  have hl : (readInto (seekToBits file fheader 0)
      (iheader.biWidth * iheader.biHeight * 4).toNat data).length = data.length := by
    simp [readInto, overlay]
  obtain ⟨il, iw, -⟩ := colorMaskLoop_inv [0x00FF0000, 0x0000FF00, 0x000000FF]
    (readInto (seekToBits file fheader 0) (iheader.biWidth * iheader.biHeight * 4).toNat data)
    (iheader.biWidth * iheader.biHeight).toNat (by rw [hl]; exact hlen)
  refine ⟨_, ?_, il.trans hl, ?_⟩
  · unfold ReadData32Bit_data colorMasks
    rw [if_pos (Or.inl hc)]
    simp only [hc, if_true]
  · intro i hi
    rw [iw i hi, applyColorMasks_fixed]

/-- C23 (instance): the word `0x44332211`, and the bitmap of one pixel with the bytes
`11 22 33 44`. -/
theorem ReadData32Bit_masks_witness :
    maskChannel 0x44332211 (0xFF <<< (8 * 2)) = 0x44332211 / 256 ^ 2 % 256 ∧
    maskChannel 0x44332211 (0xFF <<< (8 * 2)) = 0x33 ∧
    ReadData32Bit_data (gbImageType_BMP_T.headers exampleBmp32 []).2.2
      (gbImageType_BMP_T.headers exampleBmp32 []).2.1
      (gbImageType_BMP_T.headers exampleBmp32 []).1 0 [] [0, 0, 0, 0]
      = .ok [0x11, 0x22, 0x33, 0] :=
  ⟨ReadData32Bit_masks.1 0x44332211 2 (by decide), by decide, rfl⟩

/-! ### 4-bit unpacking of the bitmap decoder -/

theorem nibbles (x : Nat) :
    (x &&& 0xF) >>> 0 = x % 16 ∧ (x &&& 0xF0) >>> 4 = x / 16 % 16 := by
  have h0 := and_shift_mask x 4 0
  have h1 := and_shift_mask x 4 4
  norm_num at h0 h1
  refine ⟨h0, ?_⟩
  rw [show (0xF0 : Nat) = 15 <<< 4 from rfl, h1, Nat.shiftRight_eq_div_pow]
  norm_num

theorem unpack4BitBody_length (data : List Nat) (i : Nat) :
    (unpack4BitBody data i).length = data.length := by
  simp [unpack4BitBody, assignBit_length]

theorem unpack4BitBody_getD (data : List Nat) (m j : Nat) (hL : 2 * m + 1 < data.length) :
    (unpack4BitBody data (2 * m + 1)).getD j 0
      = if j = 2 * m then data.getD m 0 / 16 % 16
        else if j = 2 * m + 1 then data.getD m 0 % 16 else data.getD j 0 := by
  have hs : (2 * m + 1) >>> 1 = m := by
    rw [Nat.shiftRight_eq_div_pow]; omega
  obtain ⟨n0, n1⟩ := nibbles (data.getD m 0)
  unfold unpack4BitBody
  simp only [hs]
  have s1 := assignBit_chain data data m (2 * m + 1) 0xF 0 (fun j => data.getD j 0) rfl rfl
    (fun _ => rfl) (by omega)
  have s2 := assignBit_chain data _ m (2 * m + 1 - 1) 0xF0 4 _ s1.1 (s1.2.1 (by omega)) s1.2.2
    (by omega)
  rw [s2.2.2 j, n0, n1]
  split_ifs <;> first | rfl | omega

theorem unpack4BitLoop_stop (i : Int) (data : List Nat) (h : i ≤ 0) :
    unpack4BitLoop i data = data := by
  rw [unpack4BitLoop, if_neg (by omega)]

theorem unpack4BitLoop_step (i : Int) (data : List Nat) (h : 0 < i) :
    unpack4BitLoop i data = unpack4BitLoop (i - 2) (unpack4BitBody data i.toNat) := by
  rw [unpack4BitLoop, if_pos h]

/-- Loop invariant: once the pixels above `2 m + 1` are unpacked and the bytes up to
`m` are still intact, running the loop from index `2 m + 1` unpacks everything. -/
theorem unpack4BitLoop_correct (packed : List Nat) :
    ∀ (m : Nat) (data : List Nat), 2 * m + 2 ≤ data.length →
      (∀ k, k ≤ m → data.getD k 0 = packed.getD k 0) →
      (∀ j, 2 * m + 2 ≤ j → j < data.length → data.getD j 0
        = if j % 2 = 0 then packed.getD (j / 2) 0 / 16 % 16 else packed.getD (j / 2) 0 % 16) →
      (unpack4BitLoop ((2 * m + 1 : Nat) : Int) data).length = data.length ∧
      ∀ j, j < data.length →
        (unpack4BitLoop ((2 * m + 1 : Nat) : Int) data).getD j 0
          = if j % 2 = 0 then packed.getD (j / 2) 0 / 16 % 16
            else packed.getD (j / 2) 0 % 16 := by
  intro m
  induction m with
  | zero =>
    intro data hlen hsrc hdone
    rw [unpack4BitLoop_step _ _ (by omega), unpack4BitLoop_stop _ _ (by omega)]
    refine ⟨unpack4BitBody_length _ _, ?_⟩
    intro j hj
    have hb := unpack4BitBody_getD data 0 j (by omega)
    simp only [Nat.mul_zero, Nat.zero_add, Int.toNat_ofNat] at hb ⊢
    rw [hb]
    by_cases h0 : j = 0
    · subst h0
      rw [if_pos rfl, hsrc 0 (le_refl 0)]
      rfl
    · by_cases h1 : j = 1
      · subst h1
        rw [if_neg h0, if_pos rfl, hsrc 0 (le_refl 0)]
        rfl
      · rw [if_neg h0, if_neg h1]
        exact hdone j (by omega) hj
  | succ m ih =>
    intro data hlen hsrc hdone
    rw [unpack4BitLoop_step _ _ (by omega)]
    have hi : (((2 * (m + 1) + 1 : Nat) : Int) - 2) = ((2 * m + 1 : Nat) : Int) := by omega
    rw [hi, Int.toNat_ofNat]
    have hbl := unpack4BitBody_length data (2 * (m + 1) + 1)
    have hb := fun j => unpack4BitBody_getD data (m + 1) j (by omega)
    have := ih (unpack4BitBody data (2 * (m + 1) + 1)) (by rw [hbl]; omega)
      (by
        intro k hk
        rw [hb k, if_neg (by omega), if_neg (by omega)]
        exact hsrc k (by omega))
      (by
        intro j hj1 hj2
        rw [hb j]
        by_cases h0 : j = 2 * (m + 1)
        · rw [if_pos h0, hsrc (m + 1) (le_refl _), if_pos (by omega),
            show j / 2 = m + 1 by omega]
        · by_cases h1 : j = 2 * (m + 1) + 1
          · rw [if_neg h0, if_pos h1, hsrc (m + 1) (le_refl _), if_neg (by omega),
              show j / 2 = m + 1 by omega]
          · rw [if_neg h0, if_neg h1]
            rw [hbl] at hj2
            exact hdone j (by omega) hj2)
    rw [hbl] at this
    exact this

/-- C30 (for an even pixel count): when `n = width * height` is even, the in-place loop
of `ReadData4Bit` turns the `n/2` packed bytes at the start of the `n`-byte buffer into
`n` one-byte pixels, pixel `j` being the high nibble of packed byte `j div 2` when `j`
is even and its low nibble when `j` is odd, whatever the rest of the buffer held. -/
theorem ReadData4Bit_unpack_even (biWidth biHeight : Nat) (packed rest : List Nat)
    (heven : biWidth * biHeight % 2 = 0)
    (hpacked : packed.length = (biWidth * biHeight) >>> 1)
    (hrest : packed.length + rest.length = biWidth * biHeight) :
    (ReadData4Bit_unpack biWidth biHeight (packed ++ rest)).length = biWidth * biHeight ∧
    ∀ j, j < biWidth * biHeight →
      (ReadData4Bit_unpack biWidth biHeight (packed ++ rest)).getD j 0
        = if j % 2 = 0 then packed.getD (j / 2) 0 / 16 % 16
          else packed.getD (j / 2) 0 % 16 := by
  rw [Nat.shiftRight_eq_div_pow] at hpacked
  have hlen0 : (packed ++ rest).length = biWidth * biHeight := by
    rw [List.length_append]; exact hrest
  by_cases hz : biWidth * biHeight = 0
  · unfold ReadData4Bit_unpack
    have hidx : ((biWidth : Int) * (biHeight : Int) - 1) ≤ 0 := by
      have : ((biWidth * biHeight : Nat) : Int) = 0 := by rw [hz]; rfl
      push_cast at this
      omega
    rw [unpack4BitLoop_stop _ _ hidx]
    exact ⟨hlen0, fun j hj => absurd hj (by omega)⟩
  · obtain ⟨m, hm⟩ : ∃ m, biWidth * biHeight = 2 * m + 2 :=
      ⟨biWidth * biHeight / 2 - 1, by omega⟩
    have hlen : (packed ++ rest).length = 2 * m + 2 := by rw [hlen0, hm]
    have hidx : ((biWidth : Int) * (biHeight : Int) - 1) = ((2 * m + 1 : Nat) : Int) := by
      have : ((biWidth * biHeight : Nat) : Int) = ((2 * m + 2 : Nat) : Int) := by rw [hm]
      push_cast at this ⊢
      omega
    unfold ReadData4Bit_unpack
    rw [hidx, hm]
    have key := unpack4BitLoop_correct packed m (packed ++ rest) (by omega)
      (by
        intro k hk
        simp only [List.getD_eq_getElem?_getD]
        rw [List.getElem?_append_left (by omega)])
      (by intro j hj1 hj2; omega)
    rw [hlen] at key
    exact key

/-- C30 (instance): the 2 by 2 image packed in the bytes `AB CD`. -/
theorem ReadData4Bit_unpack_even_witness :
    (ReadData4Bit_unpack (2 : Nat) (2 : Nat) ([0xAB, 0xCD] ++ [7, 7])).length = 2 * 2 ∧
    (∀ j, j < 2 * 2 →
      (ReadData4Bit_unpack (2 : Nat) (2 : Nat) ([0xAB, 0xCD] ++ [7, 7])).getD j 0
        = if j % 2 = 0 then ([0xAB, 0xCD] : List Nat).getD (j / 2) 0 / 16 % 16
          else ([0xAB, 0xCD] : List Nat).getD (j / 2) 0 % 16) ∧
    ReadData4Bit_unpack (2 : Nat) (2 : Nat) ([0xAB, 0xCD] ++ [7, 7]) = [0xA, 0xB, 0xC, 0xD] :=
  ⟨(ReadData4Bit_unpack_even 2 2 [0xAB, 0xCD] [7, 7] (by decide) (by decide) (by decide)).1,
   (ReadData4Bit_unpack_even 2 2 [0xAB, 0xCD] [7, 7] (by decide) (by decide) (by decide)).2,
   by
    unfold ReadData4Bit_unpack
    rw [unpack4BitLoop_step _ _ (by decide), unpack4BitLoop_step _ _ (by decide),
      unpack4BitLoop_stop _ _ (by decide)]
    decide⟩

set_option maxRecDepth 100000 in
/-- C30 (counterexample): a 4-bit bitmap of 3 by 1 pixels whose packed data start with
the byte `0xAB`, decoded into a buffer of three zero bytes. One byte is read; the loop
runs for `i = 2` only, where it unpacks byte 1, which was never read, and ends before
byte 0 is unpacked: `data[0]` still holds `0xAB` instead of the first pixel `0xA`, and
`data[1]` holds 0 instead of the second pixel `0xB`. -/
theorem ReadData4Bit_odd_count :
    (gbImageType_BMP_T.headers exampleBmp4 []).2.1.biWidth = 3 ∧
    (gbImageType_BMP_T.headers exampleBmp4 []).2.1.biHeight = 1 ∧
    (gbImageType_BMP_T.headers exampleBmp4 []).2.1.biBitCount = 4 ∧
    readInto (seekToBits ((gbImageType_BMP_T.headers exampleBmp4 []).2.2.read 64)
      (gbImageType_BMP_T.headers exampleBmp4 []).1 0) 1 [0, 0, 0] = [0xAB, 0, 0] ∧
    ReadData4Bit_data (gbImageType_BMP_T.headers exampleBmp4 []).2.2
      (gbImageType_BMP_T.headers exampleBmp4 []).2.1
      (gbImageType_BMP_T.headers exampleBmp4 []).1 0 [0, 0, 0] = .ok [0xAB, 0, 0] ∧
    ReadData4Bit_unpack 3 1 [0xAB, 0, 0] = [0xAB, 0, 0] ∧
    ([0xAB, 0, 0] : List Nat).getD 0 0 ≠ 0xAB / 16 % 16 ∧
    ([0xAB, 0, 0] : List Nat).getD 1 0 ≠ 0xAB % 16 := by
  have hu : ReadData4Bit_unpack 3 1 [0xAB, 0, 0] = [0xAB, 0, 0] := by
    unfold ReadData4Bit_unpack
    rw [unpack4BitLoop_step _ _ (by decide), unpack4BitLoop_stop _ _ (by decide)]
    decide
  have hr : readInto (seekToBits ((gbImageType_BMP_T.headers exampleBmp4 []).2.2.read 64)
      (gbImageType_BMP_T.headers exampleBmp4 []).1 0) 1 [0, 0, 0] = [0xAB, 0, 0] := rfl
  refine ⟨rfl, rfl, rfl, hr, ?_, hu, by decide, by decide⟩
  unfold ReadData4Bit_data
  rw [if_pos (show (gbImageType_BMP_T.headers exampleBmp4 []).2.1.biCompression = 0 from rfl)]
  simp only []
  rw [show (gbImageType_BMP_T.headers exampleBmp4 []).2.1.biWidth = 3 from rfl,
    show (gbImageType_BMP_T.headers exampleBmp4 []).2.1.biHeight = 1 from rfl,
    show (((3 : Int) * 1) >>> 1).toNat = 1 from rfl, hr, hu]

end GhulbusUtil

/-! ### Vertical flip -/

namespace GhulbusUtil

theorem getD_flatMap_block_nat {α : Type} [Inhabited α] (f : α → List Nat) (c : Nat) :
    ∀ (l : List α), (∀ a ∈ l, (f a).length = c) → ∀ k r, k < l.length → r < c →
      (l.flatMap f).getD (c * k + r) 0 = (f (l.getD k default)).getD r 0 := by
  intro l
  induction l with
  | nil => intro _ k r hk; simp at hk
  | cons a l ih =>
    intro hc k r hk hr
    rw [List.flatMap_cons]
    have ha : (f a).length = c := hc a (List.mem_cons_self a l)
    cases k with
    | zero =>
      rw [Nat.mul_zero, Nat.zero_add, List.getD_append _ _ _ _ (by omega)]
      rfl
    | succ k =>
      rw [List.getD_append_right _ _ _ _ (by rw [ha, Nat.mul_succ]; omega)]
      have e : c * (k + 1) + r - (f a).length = c * k + r := by rw [ha, Nat.mul_succ]; omega
      rw [e, ih (fun b hb => hc b (List.mem_cons_of_mem a hb)) k r
        (by simpa using hk) hr]
      rfl

theorem length_flatMap_block_nat {α : Type} (f : α → List Nat) (c : Nat) :
    ∀ (l : List α), (∀ a ∈ l, (f a).length = c) → (l.flatMap f).length = c * l.length := by
  intro l
  induction l with
  | nil => intro _; simp
  | cons a l ih =>
    intro hc
    rw [List.flatMap_cons, List.length_append, hc a (List.mem_cons_self a l),
      ih (fun b hb => hc b (List.mem_cons_of_mem a hb)), List.length_cons, Nat.mul_succ]
    omega

theorem map_range_getD_nat (l : List Nat) :
    (List.range l.length).map (fun i => l.getD i 0) = l := by
  apply List.ext_getElem (by simp)
  intro i h1 h2
  rw [List.getElem_map, List.getElem_range, List.getD_eq_getElem _ _ h2]

theorem overlay_length (s prior : List Nat) (n : Nat) : (overlay s prior n).length = n := by
  simp [overlay]

theorem overlay_getD (s prior : List Nat) (n j : Nat) (hj : j < n) :
    (overlay s prior n).getD j 0 = if j < s.length then s.getD j 0 else prior.getD j 0 := by
  unfold overlay
  rw [getD_map_range _ _ _ _ hj]

theorem overlay_full (s prior : List Nat) : overlay s prior s.length = s := by
  apply List.ext_getElem (overlay_length _ _ _)
  intro i h1 h2
  have h := overlay_getD s prior s.length i h2
  rw [if_pos h2, List.getD_eq_getElem _ _ h1, List.getD_eq_getElem _ _ h2] at h
  exact h

/-- The colour is put together again from its four components. -/
theorem ARGB_of_components (c : Nat) (hc : c < 4294967296) :
    GBCOLOR32.ARGB (GBCOLOR32.GetA c) (GBCOLOR32.GetR c) (GBCOLOR32.GetG c) (GBCOLOR32.GetB c)
      = c := by
  have ha : GBCOLOR32.GetA c = c / 16777216 % 256 := by
    unfold GBCOLOR32.GetA
    rw [show (0xff : Nat) = 255 from rfl, and_255_eq_mod, Nat.shiftRight_eq_div_pow]
    norm_num
  have hr : GBCOLOR32.GetR c = c / 65536 % 256 := by
    unfold GBCOLOR32.GetR
    rw [show (0xff : Nat) = 255 from rfl, and_255_eq_mod, Nat.shiftRight_eq_div_pow]
    norm_num
  have hg : GBCOLOR32.GetG c = c / 256 % 256 := by
    unfold GBCOLOR32.GetG
    rw [show (0xff : Nat) = 255 from rfl, and_255_eq_mod, Nat.shiftRight_eq_div_pow]
    norm_num
  have hb : GBCOLOR32.GetB c = c % 256 := by
    unfold GBCOLOR32.GetB
    rw [show (0xff : Nat) = 255 from rfl, and_255_eq_mod]
    norm_num
  rw [ha, hr, hg, hb, GBCOLOR32.ARGB_eq_add _ _ _ _ (Nat.mod_lt _ (by norm_num))
    (Nat.mod_lt _ (by norm_num)) (Nat.mod_lt _ (by norm_num)) (Nat.mod_lt _ (by norm_num))]
  omega

/-- What `WriteImage` writes for a width and a height that fit 16 bits, and how the TGA
decoder reads the header back. -/
theorem WriteImage_header_read (W H : Nat) (data prior : List Nat) (hW : W ≤ 65535)
    (hH : H ≤ 65535) (hWH : W * H ≤ 2147483647) :
    WriteImage data (W : Int) (H : Int)
      = .ok (WriteImage_header (W : Int) (H : Int) ++
          (List.range (W * H)).flatMap (fun i =>
            [GBCOLOR32.GetB (data.getD i 0), GBCOLOR32.GetG (data.getD i 0),
             GBCOLOR32.GetR (data.getD i 0), GBCOLOR32.GetA (data.getD i 0)])) ∧
    ∀ px : List Nat,
      gbImageType_TGA_T.header (WriteImage_header (W : Int) (H : Int) ++ px) prior
        = ({ nCharIDField := 0, ColorMapType := 0, ImageTypeCode := 2, XOrigin := 0,
             YOrigin := 0, Width := W, Height := H, ImagePixelSize := 32,
             ImageDescByte := 0x28 },
           { bytes := WriteImage_header (W : Int) (H : Int) ++ px, pos := 18,
             failed := false }) := by
  have hn : ((W : Int) * (H : Int)).toNat = W * H := by
    rw [← Int.natCast_mul, Int.toNat_ofNat]
  have hhl : (WriteImage_header (W : Int) (H : Int)).length = 18 := rfl
  constructor
  · unfold WriteImage
    have h1 : ¬ ((W : Int) > 65535 ∨ (H : Int) > 65535) := by omega
    have h2 : ¬ ((W : Int) * (H : Int) > 2147483647 ∨ (W : Int) * (H : Int) < -2147483648) := by
      have : ((W * H : Nat) : Int) ≤ 2147483647 := by exact_mod_cast hWH
      push_cast at this
      have h0 : (0 : Int) ≤ (W : Int) * (H : Int) := by positivity
      omega
    rw [if_neg h1, if_neg h2, hn]
  · intro px
    have hw : ((W : Int) % 65536).toNat = W := by omega
    have hh : ((H : Int) % 65536).toNat = H := by omega
    have hst : ((FileStream.ofBytes (WriteImage_header (W : Int) (H : Int) ++ px)).seekg 0).stored 18
        = WriteImage_header (W : Int) (H : Int) := by
      simp only [FileStream.ofBytes, FileStream.seekg, FileStream.stored, List.drop_zero]
      simp only [Bool.false_eq_true, if_false]
      rw [← hhl]
      exact List.take_left _ _
    have hrd : ((FileStream.ofBytes (WriteImage_header (W : Int) (H : Int) ++ px)).seekg 0).read 18
        = { bytes := WriteImage_header (W : Int) (H : Int) ++ px, pos := 18, failed := false } := by
      simp only [FileStream.ofBytes, FileStream.seekg, FileStream.read]
      simp only [Bool.false_eq_true, if_false]
      rw [if_pos (by rw [List.length_append, hhl]; omega)]
    unfold gbImageType_TGA_T.header
    simp only
    rw [hst, hrd]
    have hov := overlay_full (WriteImage_header (W : Int) (H : Int)) prior
    rw [hhl] at hov
    rw [hov]
    unfold WriteImage_header
    rw [hw, hh]
    simp only [TGAHEADER.ofMemory, u16At, PS2Icon.getU16, PS2Icon.putU16, List.cons_append,
      List.nil_append, List.getD_cons_zero, List.getD_cons_succ, Prod.mk.injEq, and_true,
      TGAHEADER.mk.injEq, true_and]
    refine ⟨by omega, by omega⟩

/-- C21 (with the bound of `int`): for a width and a height in [0, 65535] with
`width * height * 32 ≤ INT_MAX` and an array of `width * height` 32-bit colours,
`WriteImage` writes the 18-byte header (image type 2, 32 bits per pixel, descriptor
`0x28`) and `B, G, R, A` for every pixel; the TGA `ReadFile` returns the same width and
height and 32 bits per pixel, its buffer is not flipped, and `GetImageData32` returns
the colour array, whatever the local header, the allocated buffer held before. -/
theorem WriteImage_ReadFile_roundtrip (W H : Nat) (data prior junk : List Nat)
    (hW : W ≤ 65535) (hH : H ≤ 65535) (hsize : W * H * 32 ≤ 2147483647)
    (hlen : data.length = W * H) (hcol : ∀ i, i < W * H → data.getD i 0 < 4294967296) :
    ∃ bytes file buffer,
      WriteImage data (W : Int) (H : Int) = .ok bytes ∧
      bytes.length = 18 + 4 * (W * H) ∧
      bytes.take 18 = WriteImage_header (W : Int) (H : Int) ∧
      (∀ i, i < W * H →
        bytes.getD (18 + 4 * i) 0 = GBCOLOR32.GetB (data.getD i 0) ∧
        bytes.getD (18 + 4 * i + 1) 0 = GBCOLOR32.GetG (data.getD i 0) ∧
        bytes.getD (18 + 4 * i + 2) 0 = GBCOLOR32.GetR (data.getD i 0) ∧
        bytes.getD (18 + 4 * i + 3) 0 = GBCOLOR32.GetA (data.getD i 0)) ∧
      gbImageType_TGA_T.ReadFile bytes prior
        = .ok ({ m_width := W, m_height := H, m_bpp := 32, m_palette := false }, file) ∧
      gbImageType_TGA_T.ReadFile_data bytes prior junk = .ok buffer ∧
      buffer = readInto ((gbImageType_TGA_T.header bytes prior).2.seekg 18) (4 * (W * H))
        (newBuffer (W * H * 32) junk) ∧
      gbImageLoader.GetImageData32
        { m_width := W, m_height := H, m_bpp := 32, m_palette := false } buffer []
        = .ok data := by
  have hWH : W * H ≤ 2147483647 := by omega
  obtain ⟨hwr, hhd⟩ := WriteImage_header_read W H data prior hW hH hWH
  have hhl : (WriteImage_header (W : Int) (H : Int)).length = 18 := rfl
  have hquad : ∀ a ∈ List.range (W * H),
      ((fun i => [GBCOLOR32.GetB (data.getD i 0), GBCOLOR32.GetG (data.getD i 0),
        GBCOLOR32.GetR (data.getD i 0), GBCOLOR32.GetA (data.getD i 0)]) a).length = 4 :=
    fun _ _ => rfl
  generalize hpx : (List.range (W * H)).flatMap (fun i =>
      [GBCOLOR32.GetB (data.getD i 0), GBCOLOR32.GetG (data.getD i 0),
       GBCOLOR32.GetR (data.getD i 0), GBCOLOR32.GetA (data.getD i 0)]) = px at hwr
  have hpl : px.length = 4 * (W * H) := by
    rw [← hpx, length_flatMap_block_nat _ 4 _ hquad, List.length_range]
  have hpg : ∀ i r, i < W * H → r < 4 → px.getD (4 * i + r) 0
      = ([GBCOLOR32.GetB (data.getD i 0), GBCOLOR32.GetG (data.getD i 0),
          GBCOLOR32.GetR (data.getD i 0), GBCOLOR32.GetA (data.getD i 0)] : List Nat).getD r 0 := by
    intro i r hi hr
    rw [← hpx, getD_flatMap_block_nat _ 4 _ hquad i r (by rw [List.length_range]; exact hi) hr]
    have : (List.range (W * H)).getD i default = i := by
      rw [List.getD_eq_getElem _ _ (by rw [List.length_range]; exact hi), List.getElem_range]
    rw [this]
  have hbytes : ∀ j, j < 4 * (W * H) →
      (WriteImage_header (W : Int) (H : Int) ++ px).getD (18 + j) 0 = px.getD j 0 := by
    intro j _
    rw [List.getD_append_right _ _ _ _ (by rw [hhl]; omega), hhl]
    congr 1
    omega
  have hd := hhd px
  have hstored : ((FileStream.mk (WriteImage_header (W : Int) (H : Int) ++ px) 18 false).seekg 18).stored (4 * (W * H)) = px := by
    simp only [FileStream.seekg, FileStream.stored]
    simp only [Bool.false_eq_true, if_false]
    rw [← hhl, List.drop_left, ← hpl, List.take_length]
  have hread : (((FileStream.mk (WriteImage_header (W : Int) (H : Int) ++ px) 18 false).seekg 18).read (4 * (W * H))).failed = false := by
    simp only [FileStream.seekg, FileStream.read]
    simp only [Bool.false_eq_true, if_false]
    rw [if_pos (by rw [List.length_append, hhl, hpl])]
  have hdiv : W * H * 32 / 8 = 4 * (W * H) := by omega
  have hov : ¬ (W * H > 2147483647 ∨ W * H * 32 > 2147483647) := by omega
  have hbuf : ∀ j, j < 4 * (W * H) →
      (readInto ((FileStream.mk (WriteImage_header (W : Int) (H : Int) ++ px) 18 false).seekg 18) (4 * (W * H))
        (newBuffer (W * H * 32) junk)).getD j 0 = px.getD j 0 := by
    intro j hj
    unfold readInto
    rw [hstored, overlay_getD _ _ _ _ (by simp [newBuffer]; omega), if_pos (by omega)]
  refine ⟨WriteImage_header (W : Int) (H : Int) ++ px,
    ((FileStream.mk (WriteImage_header (W : Int) (H : Int) ++ px) 18 false).seekg 18).read
      (4 * (W * H)),
    readInto ((FileStream.mk (WriteImage_header (W : Int) (H : Int) ++ px) 18 false).seekg 18)
      (4 * (W * H)) (newBuffer (W * H * 32) junk), hwr, ?_, ?_, ?_, ?_, ?_, ?_, ?_⟩
  · rw [List.length_append, hhl, hpl]
  · rw [← hhl]
    exact List.take_left _ _
  · intro i hi
    have e1 : 18 + 4 * i + 1 = 18 + (4 * i + 1) := by omega
    have e2 : 18 + 4 * i + 2 = 18 + (4 * i + 2) := by omega
    have e3 : 18 + 4 * i + 3 = 18 + (4 * i + 3) := by omega
    have e0 : 18 + 4 * i = 18 + (4 * i + 0) := by omega
    rw [e1, e2, e3, e0, hbytes (4 * i + 0) (by omega), hbytes (4 * i + 1) (by omega),
      hbytes (4 * i + 2) (by omega), hbytes (4 * i + 3) (by omega), hpg i 0 hi (by omega), hpg i 1 hi (by omega), hpg i 2 hi (by omega),
      hpg i 3 hi (by omega)]
    exact ⟨rfl, rfl, rfl, rfl⟩
  · unfold gbImageType_TGA_T.ReadFile
    simp only [hd]
    rw [if_neg hov, if_pos trivial]
    unfold ReadUnmappedRBG
    simp only [Nat.zero_add, Nat.add_zero, hdiv]
    rw [if_neg (by rw [hread]; simp)]
    rfl
  · unfold gbImageType_TGA_T.ReadFile_data
    simp only [hd]
    rw [if_neg hov, if_pos trivial]
    unfold ReadUnmappedRBG
    simp only [Nat.zero_add, Nat.add_zero, hdiv]
    rw [if_neg (by rw [hread]; simp), if_neg (by decide)]
  · rw [hd]
  · unfold gbImageLoader.GetImageData32
    simp only
    rw [if_pos trivial]
    have hn : ((W : Int) * (H : Int)).toNat = W * H := by
      rw [← Int.natCast_mul, Int.toNat_ofNat]
    rw [hn]
    congr 1
    have hm := map_range_getD_nat data
    rw [hlen] at hm
    conv_rhs => rw [← hm]
    apply List.map_congr_left
    intro i hi
    rw [List.mem_range] at hi
    rw [show i * 4 + 3 = 4 * i + 3 by omega, show i * 4 + 2 = 4 * i + 2 by omega,
      show i * 4 + 1 = 4 * i + 1 by omega, show i * 4 = 4 * i + 0 by omega,
      hbuf (4 * i + 3) (by omega), hbuf (4 * i + 2) (by omega), hbuf (4 * i + 1) (by omega),
      hbuf (4 * i + 0) (by omega), hpg i 0 hi (by omega), hpg i 1 hi (by omega), hpg i 2 hi (by omega),
      hpg i 3 hi (by omega)]
    exact ARGB_of_components _ (hcol i hi)

/-- C21 (instance): an image of 2 by 1 pixels. -/
theorem WriteImage_ReadFile_roundtrip_witness :
    ∃ bytes file buffer,
      WriteImage [0x11223344, 0xAABBCCDD] ((2 : Nat) : Int) ((1 : Nat) : Int) = .ok bytes ∧
      bytes.length = 18 + 4 * (2 * 1) ∧
      gbImageType_TGA_T.ReadFile bytes []
        = .ok ({ m_width := (2 : Nat), m_height := (1 : Nat), m_bpp := 32, m_palette := false },
            file) ∧
      gbImageType_TGA_T.ReadFile_data bytes [] [] = .ok buffer ∧
      gbImageLoader.GetImageData32
        { m_width := (2 : Nat), m_height := (1 : Nat), m_bpp := 32, m_palette := false } buffer []
        = .ok [0x11223344, 0xAABBCCDD] :=
  match WriteImage_ReadFile_roundtrip 2 1 [0x11223344, 0xAABBCCDD] [] [] (by decide) (by decide)
    (by decide) (by decide) (by decide) with
  | ⟨b, f, d, h1, h2, _, _, h5, h6, _, h8⟩ => ⟨b, f, d, h1, h2, h5, h6, h8⟩

/-- An image whose `width * height * 32` leaves the range of `int` is written, but the
TGA decoder computes the size of its buffer as that product. -/
theorem WriteImage_read_overflow (W H : Nat) (data prior junk : List Nat) (hW : W ≤ 65535)
    (hH : H ≤ 65535) (hWH : W * H ≤ 2147483647) (hbig : W * H * 32 > 2147483647) :
    ∃ bytes, WriteImage data (W : Int) (H : Int) = .ok bytes ∧
      (gbImageType_TGA_T.header bytes prior).1.Width = W ∧
      (gbImageType_TGA_T.header bytes prior).1.Height = H ∧
      (gbImageType_TGA_T.header bytes prior).1.ImagePixelSize = 32 ∧
      gbImageType_TGA_T.ReadFile bytes prior = .error .undefined ∧
      gbImageType_TGA_T.ReadFile_data bytes prior junk = .error .undefined := by
  obtain ⟨hwr, hhd⟩ := WriteImage_header_read W H data prior hW hH hWH
  refine ⟨_, hwr, ?_, ?_, ?_, ?_, ?_⟩
  · rw [hhd]
  · rw [hhd]
  · rw [hhd]
  · unfold gbImageType_TGA_T.ReadFile
    simp only [hhd]
    rw [if_pos (Or.inr hbig)]
  · unfold gbImageType_TGA_T.ReadFile_data
    simp only [hhd]
    rw [if_pos (Or.inr hbig)]

/-- C21 (counterexample): an image of 8192 by 8192 pixels, all 0. Width and height lie
in [0, 65535] and `WriteImage` writes the file. The TGA `ReadFile` computes the size of
its buffer as the `int` product `8192 * 8192 * 32 = 2^31`, which is out of range: the
behaviour is undefined (a negative size makes `new[]` raise `std::bad_alloc`), and no
image is returned. -/
theorem WriteImage_large_not_read :
    (List.replicate (8192 * 8192) 0).length = 8192 * 8192 ∧
    ∃ bytes, WriteImage (List.replicate (8192 * 8192) 0) ((8192 : Nat) : Int) ((8192 : Nat) : Int)
        = .ok bytes ∧
      (gbImageType_TGA_T.header bytes []).1.Width = 8192 ∧
      (gbImageType_TGA_T.header bytes []).1.Height = 8192 ∧
      (gbImageType_TGA_T.header bytes []).1.ImagePixelSize = 32 ∧
      gbImageType_TGA_T.ReadFile bytes [] = .error .undefined ∧
      gbImageType_TGA_T.ReadFile_data bytes [] [] = .error .undefined :=
  ⟨List.length_replicate _ _,
   WriteImage_read_overflow 8192 8192 _ [] [] (by decide) (by decide) (by decide) (by decide)⟩

end GhulbusUtil

/-! ### The RLE reader on a stream that has failed -/

namespace PS2Icon

theorem readShort_failed (fin : GhulbusUtil.FileStream) (prior : Nat)
    (h : fin.failed = true) : (readShort fin prior).2.failed = true :=
  GhulbusUtil.FileStream.read_failed fin 2 h

theorem rleReadLiteral_failed (junk_c : Nat) :
    ∀ (count : Nat) (st st' : RleReader), st.fin.failed = true →
      rleReadLiteral junk_c count st = .ok st' → st'.fin.failed = true := by
  intro count
  induction count with
  | zero =>
    intro st st' hf h
    simp only [rleReadLiteral, Except.ok.injEq] at h
    rw [← h]
    exact hf
  | succ n ih =>
    intro st st' hf h
    unfold rleReadLiteral at h
    split_ifs at h
    exact ih _ st' (readShort_failed st.fin junk_c hf) h

theorem rleReadBody_failed (junk_rep junk_c : Nat) (st st' : RleReader)
    (hf : st.fin.failed = true) (h : rleReadBody junk_rep junk_c st = .ok st') :
    st'.fin.failed = true := by
  unfold rleReadBody at h
  simp only at h
  split_ifs at h
  · simp only [Except.ok.injEq] at h
    rw [← h]
    exact readShort_failed _ junk_c (readShort_failed _ junk_rep hf)
  · exact rleReadLiteral_failed junk_c _ _ st' (readShort_failed _ junk_rep hf) h

theorem rleReadLiteral_error (junk_c : Nat) :
    ∀ (count : Nat) (st : RleReader) (e : GhulbusUtil.Failure),
      rleReadLiteral junk_c count st = .error e → e = .undefined := by
  intro count
  induction count with
  | zero =>
    intro st e h
    simp [rleReadLiteral] at h
  | succ n ih =>
    intro st e h
    unfold rleReadLiteral at h
    split_ifs at h
    · exact ih _ e h
    · simp only [Except.error.injEq] at h
      exact h.symm

theorem rleReadBody_error (junk_rep junk_c : Nat) (st : RleReader) (e : GhulbusUtil.Failure)
    (h : rleReadBody junk_rep junk_c st = .error e) : e = .undefined := by
  unfold rleReadBody at h
  simp only at h
  split_ifs at h
  · simp only [Except.error.injEq] at h
    exact h.symm
  · exact rleReadLiteral_error junk_c _ _ e h

/-- Once the stream has failed, no number of iterations ends the loop. -/
theorem rleReadLoop_failed (limit : Int) (junk_rep junk_c : Nat) (hl : 0 ≤ limit) :
    ∀ (fuel : Nat) (st : RleReader), st.fin.failed = true →
      rleReadLoop limit junk_rep junk_c fuel st = none ∨
      rleReadLoop limit junk_rep junk_c fuel st = some (.error .undefined) := by
  intro fuel
  induction fuel with
  | zero =>
    intro st hf
    left
    unfold rleReadLoop tellg
    rw [if_pos hf, if_pos (by omega)]
  | succ n ih =>
    intro st hf
    unfold rleReadLoop tellg
    rw [if_pos hf, if_pos (by omega)]
    cases hb : rleReadBody junk_rep junk_c st with
    | error e =>
      right
      rw [rleReadBody_error junk_rep junk_c st e hb]
    | ok st' =>
      exact ih st' (rleReadBody_failed junk_rep junk_c st st' hf hb)

/-- With a fresh `rep_count` that holds 0, a failed stream keeps the loop running
without a write. -/
theorem rleReadLoop_failed_zero (limit : Int) (junk_c : Nat) (hl : 0 ≤ limit) :
    ∀ (fuel : Nat) (st : RleReader), st.fin.failed = true → st.index ≤ 16384 →
      rleReadLoop limit 0 junk_c fuel st = none := by
  intro fuel
  induction fuel with
  | zero =>
    intro st hf _
    unfold rleReadLoop tellg
    rw [if_pos hf, if_pos (by omega)]
  | succ n ih =>
    intro st hf hi
    have hrep : (readShort st.fin 0).1 = 0 := by
      unfold readShort GhulbusUtil.FileStream.stored
      rw [if_pos hf]
      rfl
    have hb : rleReadBody 0 junk_c st
        = .ok { fin := (readShort (readShort st.fin 0).2 junk_c).2, index := st.index } := by
      unfold rleReadBody
      simp only [hrep]
      rw [if_pos (by decide), if_pos (by omega)]
      rfl
    unfold rleReadLoop tellg
    rw [if_pos hf, if_pos (by omega), hb]
    exact ih _ (readShort_failed _ junk_c (readShort_failed _ 0 hf)) hi

/-- When the loop ends without undefined behaviour, the position has reached the
limit. -/
theorem rleReadLoop_exit (limit : Int) (junk_rep junk_c : Nat) :
    ∀ (fuel : Nat) (st st' : RleReader),
      rleReadLoop limit junk_rep junk_c fuel st = some (.ok st') → ¬ tellg st'.fin < limit := by
  intro fuel
  induction fuel with
  | zero =>
    intro st st' h
    unfold rleReadLoop at h
    split_ifs at h with hc
    simp only [Option.some.injEq, Except.ok.injEq] at h
    rw [← h]
    exact hc
  | succ n ih =>
    intro st st' h
    unfold rleReadLoop at h
    split_ifs at h with hc
    · split at h
      · simp at h
      · exact ih _ st' h
    · simp only [Option.some.injEq, Except.ok.injEq] at h
      rw [← h]
      exact hc

theorem rleReadLoop_error (limit : Int) (junk_rep junk_c : Nat) :
    ∀ (fuel : Nat) (st : RleReader) (e : GhulbusUtil.Failure),
      rleReadLoop limit junk_rep junk_c fuel st = some (.error e) → e = .undefined := by
  intro fuel
  induction fuel with
  | zero =>
    intro st e h
    unfold rleReadLoop at h
    split_ifs at h
    simp at h
  | succ n ih =>
    intro st e h
    unfold rleReadLoop at h
    split_ifs at h
    · split at h
      · rename_i e' hb
        simp only [Option.some.injEq, Except.error.injEq] at h
        rw [← h]
        exact rleReadBody_error junk_rep junk_c st e' hb
      · exact ih _ e h
    · simp at h

/-- C27 (what the code does instead): in the compressed branch of `ReadFile`, once a
read has failed the test `fin.tellg() < static_cast<int>(limit)` compares `-1` with a
limit that is not negative, so that no number of iterations ends the loop: it runs
until a write leaves `texture` (undefined behaviour), or for ever. Consequently the
final test `fin.fail()` is never true when it is reached, and `GB_FAILED` with the
message "File read error" is not raised for any stream; a stream that has failed
before the loop either raises the `INT_MAX` error because of the value of the unread
size variable, or never leaves the loop. -/
theorem rle_read_failure_not_reported :
    (∀ (limit : Int) (junk_rep junk_c : Nat) (st : RleReader),
      st.fin.failed = true → 0 ≤ limit → ∀ fuel,
        rleReadLoop limit junk_rep junk_c fuel st = none ∨
        rleReadLoop limit junk_rep junk_c fuel st = some (.error .undefined)) ∧
    (∀ (fin : GhulbusUtil.FileStream) (junk_size junk_rep junk_c fuel : Nat),
      readTexture_rle_stream fin junk_size junk_rep junk_c fuel
        ≠ some (.error (.raised (.GB_FAILED "File read error")))) ∧
    (∀ (fin : GhulbusUtil.FileStream) (junk_size junk_rep junk_c fuel : Nat),
      (fin.read 4).failed = true →
        readTexture_rle_stream fin junk_size junk_rep junk_c fuel = none ∨
        readTexture_rle_stream fin junk_size junk_rep junk_c fuel = some (.error .undefined) ∨
        readTexture_rle_stream fin junk_size junk_rep junk_c fuel
          = some (.error (.raised (.GB_FAILED "File size is bigger than INT_MAX")))) := by
  have hlim : ∀ limit : Nat, ¬ limit > 2147483647 → 0 ≤ toInt32 limit := by
    intro limit h
    unfold toInt32
    split_ifs <;> omega
  refine ⟨fun limit jr jc st hf hl fuel => rleReadLoop_failed limit jr jc hl fuel st hf, ?_, ?_⟩
  · intro fin js jr jc fuel h
    unfold readTexture_rle_stream at h
    simp only at h
    split_ifs at h with hbig
    · simp at h
    · split at h
      · simp at h
      · rename_i e he
        simp only [Option.some.injEq, Except.error.injEq] at h
        rw [h] at he
        exact absurd (rleReadLoop_error _ jr jc fuel _ _ he) (by simp)
      · rename_i st' he
        have hex := rleReadLoop_exit _ jr jc fuel _ st' he
        have h0 := hlim _ hbig
        split_ifs at h with hfail
        · have ht : tellg st'.fin = -1 := by
            unfold tellg
            rw [if_pos hfail]
          rw [ht] at hex
          omega
        · simp at h
  · intro fin js jr jc fuel hf
    unfold readTexture_rle_stream
    simp only
    split_ifs with hbig
    · right; right; rfl
    · rcases rleReadLoop_failed _ jr jc (hlim _ hbig) fuel { fin := fin.read 4, index := 0 } hf
        with h | h
      · left; rw [h]
      · right; left; rw [h]

/-- C27 (instance): a failed stream and the limit 48. -/
theorem rle_read_failure_not_reported_witness :
    rleReadLoop 48 7 0 10 { fin := { bytes := [], pos := 0, failed := true }, index := 0 } = none ∨
    rleReadLoop 48 7 0 10 { fin := { bytes := [], pos := 0, failed := true }, index := 0 }
      = some (.error .undefined) :=
  rle_read_failure_not_reported.1 48 7 0
    { fin := { bytes := [], pos := 0, failed := true }, index := 0 } rfl (by decide) 10

/-- An iteration whose first read fails leaves a failed stream. -/
theorem rleReadBody_short (junk_rep junk_c : Nat) (st st' : RleReader)
    (hf : (st.fin.read 2).failed = true) (h : rleReadBody junk_rep junk_c st = .ok st') :
    st'.fin.failed = true := by
  unfold rleReadBody at h
  simp only at h
  split_ifs at h
  · simp only [Except.ok.injEq] at h
    rw [← h]
    exact readShort_failed _ junk_c hf
  · exact rleReadLiteral_failed junk_c _ _ st' hf h

/-- When the first read of an iteration fails, the loop does not end. -/
theorem rleReadLoop_short (limit : Int) (junk_rep junk_c : Nat) (st : RleReader)
    (hl : 0 ≤ limit) (hpos : tellg st.fin < limit) (hf : (st.fin.read 2).failed = true) :
    ∀ fuel, rleReadLoop limit junk_rep junk_c fuel st = none ∨
      rleReadLoop limit junk_rep junk_c fuel st = some (.error .undefined) := by
  intro fuel
  cases fuel with
  | zero =>
    left
    unfold rleReadLoop
    rw [if_pos hpos]
  | succ n =>
    unfold rleReadLoop
    rw [if_pos hpos]
    cases hb : rleReadBody junk_rep junk_c st with
    | error e =>
      right
      rw [rleReadBody_error junk_rep junk_c st e hb]
    | ok st' =>
      exact rleReadLoop_failed limit junk_rep junk_c hl n st'
        (rleReadBody_short junk_rep junk_c st st' hf hb)

/-- When the first read of an iteration finds no byte and the fresh `rep_count` holds
0, the loop runs for ever without a write. -/
theorem rleReadLoop_short_zero (limit : Int) (junk_c : Nat) (st : RleReader)
    (hl : 0 ≤ limit) (hpos : tellg st.fin < limit) (hs : st.fin.stored 2 = [])
    (hf : (st.fin.read 2).failed = true) (hi : st.index ≤ 16384) :
    ∀ fuel, rleReadLoop limit 0 junk_c fuel st = none := by
  intro fuel
  cases fuel with
  | zero =>
    unfold rleReadLoop
    rw [if_pos hpos]
  | succ n =>
    have hrep : (readShort st.fin 0).1 = 0 := by
      unfold readShort
      rw [hs]
      rfl
    have hb : rleReadBody 0 junk_c st
        = .ok { fin := (readShort (readShort st.fin 0).2 junk_c).2, index := st.index } := by
      unfold rleReadBody
      simp only [hrep]
      rw [if_pos (by decide), if_pos (by omega)]
      rfl
    unfold rleReadLoop
    rw [if_pos hpos, hb]
    exact rleReadLoop_failed_zero limit junk_c hl n _ (readShort_failed _ junk_c hf) hi

set_option maxRecDepth 100000 in
/-- C27 (counterexample): an icon file of 44 bytes, the header (texture type `0x0F`, no
vertices) and the animation header (no frames) followed by the size field 4, after
which the stream ends. The geometry is read, the limit is 48, and the first read of
the loop fails at position 44. From then on `fin.tellg()` is `-1`, which is below 48:
whatever the unread variables hold, no number of iterations ends the loop other than
by undefined behaviour, and when the unread `rep_count` holds 0 the loop runs for
ever; `GB_FAILED` is not raised. The same file with one complete repeat record is read
in one iteration. -/
theorem rle_truncated_stream_loops :
    exampleTruncatedRle.length = 44 ∧
    (∃ g, ReadFile_geometry exampleTruncatedRle = .ok (g, [4, 0, 0, 0]) ∧
      g.header.texture_type = 0x0F) ∧
    (∀ junk_size junk_rep junk_c fuel : Nat,
      readTexture_rle_stream { bytes := exampleTruncatedRle, pos := 40, failed := false }
          junk_size junk_rep junk_c fuel = none ∨
      readTexture_rle_stream { bytes := exampleTruncatedRle, pos := 40, failed := false }
          junk_size junk_rep junk_c fuel = some (.error .undefined)) ∧
    (∀ junk_size junk_c fuel : Nat,
      readTexture_rle_stream { bytes := exampleTruncatedRle, pos := 40, failed := false }
          junk_size 0 junk_c fuel = none) ∧
    readTexture_rle_stream { bytes := exampleOneRunRle, pos := 40, failed := false } 0 0 0 1
      = some (.ok { fin := { bytes := exampleOneRunRle, pos := 48, failed := false },
                    index := 16384 }) := by
  have hstored : (GhulbusUtil.FileStream.mk exampleTruncatedRle 40 false).stored 4
      = [4, 0, 0, 0] := by decide
  have hread : (GhulbusUtil.FileStream.mk exampleTruncatedRle 40 false).read 4
      = GhulbusUtil.FileStream.mk exampleTruncatedRle 44 false := by decide
  have hov : ∀ js, GhulbusUtil.u32At (GhulbusUtil.overlay [4, 0, 0, 0] (putU32 js) 4) 0 = 4 :=
    fun _ => rfl
  have hlimit : u32 (GBCOLOR32.toU32
      (tellg (GhulbusUtil.FileStream.mk exampleTruncatedRle 44 false)) + 4) = 48 := by decide
  have hi48 : toInt32 48 = 48 := by decide
  have hpos : tellg (GhulbusUtil.FileStream.mk exampleTruncatedRle 44 false) < 48 := by decide
  have hs2 : (GhulbusUtil.FileStream.mk exampleTruncatedRle 44 false).stored 2 = [] := by decide
  have hf2 : ((GhulbusUtil.FileStream.mk exampleTruncatedRle 44 false).read 2).failed = true := by
    decide
  have hunfold : ∀ js jr jc fuel,
      readTexture_rle_stream { bytes := exampleTruncatedRle, pos := 40, failed := false }
        js jr jc fuel
      = match rleReadLoop 48 jr jc fuel
          { fin := GhulbusUtil.FileStream.mk exampleTruncatedRle 44 false, index := 0 } with
        | none => none
        | some (.error e) => some (.error e)
        | some (.ok st) =>
          if st.fin.failed then some (.error (.raised (.GB_FAILED "File read error")))
          else some (.ok st) := by
    intro js jr jc fuel
    unfold readTexture_rle_stream
    simp only [hstored, hread, hov, hlimit, hi48]
    rw [if_neg (by decide)]
  refine ⟨by decide, ⟨_, rfl, rfl⟩, ?_, ?_, rfl⟩
  · intro js jr jc fuel
    rw [hunfold]
    rcases rleReadLoop_short 48 jr jc
      { fin := GhulbusUtil.FileStream.mk exampleTruncatedRle 44 false, index := 0 }
      (by decide) hpos hf2 fuel with h | h
    · left; rw [h]
    · right; rw [h]
  · intro js jc fuel
    rw [hunfold, rleReadLoop_short_zero 48 jc
      { fin := GhulbusUtil.FileStream.mk exampleTruncatedRle 44 false, index := 0 }
      (by decide) hpos hs2 hf2 (by decide) fuel]

end PS2Icon

/-! ### Record choice and run lengths of the RLE encoder -/

namespace PS2Icon

/-- The repeat scan on a memory whose word behind the array differs from the last
entry: it ends inside the array or at its end. -/
theorem countRep_benign (mem : List Nat) (x : Nat) (hmlen : 16386 ≤ mem.length)
    (h84 : mem.getD 16384 0 = x) (hx : x ≠ mem.getD 16383 0) (i : Nat) (hi : i < 16384) :
    ∃ r, countRep mem i mem.length 1 = some r ∧ 1 ≤ r ∧ i + r ≤ 16384 ∧
      (∀ k, k < r → mem.getD (i + k) 0 = mem.getD i 0) ∧
      mem.getD (i + r) 0 ≠ mem.getD i 0 := by
  by_cases hix : mem.getD i 0 = x
  · have hi2 : i ≤ 16382 := by
      by_contra hc
      have : i = 16383 := by omega
      rw [this] at hix
      exact hx hix.symm
    obtain ⟨r, h1, h2, h3, h4, h5⟩ := countRep_stops mem i (16382 - i) 1 mem.length
      (by omega)
      (by rw [show i + 1 + (16382 - i) = 16383 by omega, hix]
          exact fun h => hx h.symm)
      (by omega)
    refine ⟨r, h1, h2, by omega, ?_, h5⟩
    intro k hk
    by_cases hk0 : k = 0
    · rw [hk0]; rfl
    · exact h4 k (by omega) hk
  · obtain ⟨r, h1, h2, h3, h4, h5⟩ := countRep_stops mem i (16383 - i) 1 mem.length
      (by omega)
      (by rw [show i + 1 + (16383 - i) = 16384 by omega, h84]
          exact fun h => hix h.symm)
      (by omega)
    refine ⟨r, h1, h2, by omega, ?_, h5⟩
    intro k hk
    by_cases hk0 : k = 0
    · rw [hk0]; rfl
    · exact h4 k (by omega) hk

/-- The literal scan stops at the first pair of equal neighbours or at 255, and not
before. -/
theorem countLiteral_least (mem : List Nat) (i stop : Nat) (hstop : i + stop + 1 < mem.length)
    (heq : mem.getD (i + stop) 0 = mem.getD (i + stop + 1) 0) :
    ∀ (fuel pix : Nat), 256 ≤ fuel + pix → pix ≤ 255 → pix ≤ stop →
      ∃ p, countLiteral mem i fuel pix = some p ∧ pix ≤ p ∧ p ≤ 255 ∧ p ≤ stop ∧
        (p < 255 → mem.getD (i + p) 0 = mem.getD (i + p + 1) 0) ∧
        (∀ k, pix ≤ k → k < p → mem.getD (i + k) 0 ≠ mem.getD (i + k + 1) 0) := by
  intro fuel
  induction fuel with
  | zero => intro pix h1 h2 _; omega
  | succ fuel ih =>
    intro pix h1 h2 h3
    rw [countLiteral, getElem?_eq_some_getD mem (i + pix) (by omega),
      getElem?_eq_some_getD mem (i + pix + 1) (by omega)]
    simp only
    by_cases hc : mem.getD (i + pix) 0 ≠ mem.getD (i + pix + 1) 0 ∧ pix < 255
    · rw [if_pos hc]
      have hne : pix ≠ stop := by
        intro h
        rw [h] at hc
        exact hc.1 heq
      obtain ⟨p, q1, q2, q3, q4, q5, q6⟩ := ih (pix + 1) (by omega) (by omega) (by omega)
      refine ⟨p, q1, by omega, q3, q4, q5, ?_⟩
      intro k hk1 hk2
      by_cases hk : k = pix
      · rw [hk]; exact hc.1
      · exact q6 k (by omega) hk2
    · rw [if_neg hc]
      refine ⟨pix, rfl, le_refl _, h2, h3, ?_, fun k hk1 hk2 => by omega⟩
      intro hlt
      by_contra hne
      exact hc ⟨hne, hlt⟩

/-- One iteration of the main loop of the encoder on a memory whose two words behind
the array are equal to each other and differ from the last entry. -/
theorem rleEncodeLoop_step (mem : List Nat) (x : Nat) (hmlen : 16386 ≤ mem.length)
    (h84 : mem.getD 16384 0 = x) (h85 : mem.getD 16385 0 = x) (hx : x ≠ mem.getD 16383 0)
    (i : Nat) (hi : i < 16384) (f : Nat) :
    (mem.getD i 0 = mem.getD (i + 1) 0 →
      ∃ r, 2 ≤ r ∧ i + r ≤ 16384 ∧ (∀ k, k < r → mem.getD (i + k) 0 = mem.getD i 0) ∧
        mem.getD (i + r) 0 ≠ mem.getD i 0 ∧
        rleEncodeLoop mem (f + 1) i = (rleEncodeLoop mem f (i + r)).map (fun bytes =>
          putU16 r ++ putU16 (encodeWord_repeat (mem.getD i 0)) ++ bytes)) ∧
    (mem.getD i 0 ≠ mem.getD (i + 1) 0 →
      ∃ L, 1 ≤ L ∧ L ≤ 255 ∧ i + L ≤ 16384 ∧
        (∀ k, k < L → mem.getD (i + k) 0 ≠ mem.getD (i + k + 1) 0) ∧
        (L < 255 → mem.getD (i + L) 0 = mem.getD (i + L + 1) 0) ∧
        rleEncodeLoop mem (f + 1) i = (rleEncodeLoop mem f (i + L)).map (fun bytes =>
          putU16 (0xFFFF - (L - 1)) ++ (List.range L).flatMap (fun k =>
            putU16 (encodeWord_literal (mem.getD (i + k) 0))) ++ bytes)) := by
  obtain ⟨r, hr, hr1, hr2, hr3, hr4⟩ := countRep_benign mem x hmlen h84 hx i hi
  have hti : mem[i]? = some (mem.getD i 0) := getElem?_eq_some_getD mem i (by omega)
  constructor
  · intro heq
    have hr2' : 2 ≤ r := by
      by_contra hc
      have : r = 1 := by omega
      rw [this] at hr4
      exact hr4 heq.symm
    refine ⟨r, hr2', hr2, hr3, hr4, ?_⟩
    rw [rleEncodeLoop, if_pos hi, hr]
    simp only
    rw [if_pos (by omega), hti]
    simp only
    rw [Nat.mod_eq_of_lt (show r < 65536 by omega)]
    cases rleEncodeLoop mem f (i + r) <;> rfl
  · intro hne
    have hr1' : r = 1 := by
      by_contra hc
      exact hne (hr3 1 (by omega)).symm
    subst hr1'
    have hstopeq : mem.getD (i + (16384 - i)) 0 = mem.getD (i + (16384 - i) + 1) 0 := by
      rw [show i + (16384 - i) = 16384 by omega, h84, h85]
    obtain ⟨p, hp, _, hp2, hp3, hp4, hp5⟩ := countLiteral_least mem i (16384 - i) (by omega)
      hstopeq 256 0 (by omega) (by omega) (by omega)
    have hp1 : 1 ≤ p := by
      by_contra hc
      have : p = 0 := by omega
      subst this
      exact hne (hp4 (by omega))
    obtain ⟨ht1, ht2, _⟩ := literal_token p hp1 hp2
    refine ⟨p, hp1, hp2, by omega, fun k hk => hp5 k (by omega) hk, hp4, ?_⟩
    rw [rleEncodeLoop, if_pos hi, hr]
    simp only
    rw [if_neg (by omega), hp]
    simp only
    rw [ht1, ht2, show p - 1 + 1 = p by omega, literalPixels_eq mem p i (by omega)]
    simp only
    rw [show 0xFFFF - (p - 1) = 65536 - p by omega]
    cases rleEncodeLoop mem f (i + p) <;> rfl

theorem encodeWord_lt (t : Nat) : encodeWord_repeat t < 65536 ∧ encodeWord_literal t < 65536 :=
  ⟨Nat.mod_lt _ (by norm_num), Nat.mod_lt _ (by norm_num)⟩

/-- The memory of the examples: 16384 equal entries, the same word behind the array,
then a zero word. -/
theorem overrun_memory (c : Nat) (hc : c ≠ 0) :
    (List.replicate 16384 c ++ [c, 0]).length = 16386 ∧
    (∀ k, k < 16385 → (List.replicate 16384 c ++ [c, 0]).getD k 0 = c) ∧
    (List.replicate 16384 c ++ [c, 0]).getD 16385 0 ≠ c := by
  refine ⟨by rw [List.length_append, List.length_replicate]; rfl, ?_, ?_⟩
  · intro k hk
    by_cases h : k < 16384
    · rw [List.getD_append _ _ _ _ (by rw [List.length_replicate]; exact h),
        List.getD_eq_getElem _ _ (by rw [List.length_replicate]; exact h),
        List.getElem_replicate]
    · rw [List.getD_append_right _ _ _ _ (by rw [List.length_replicate]; omega),
        List.length_replicate, show k - 16384 = 0 by omega]
      rfl
  · rw [List.getD_append_right _ _ _ _ (by rw [List.length_replicate]; omega),
      List.length_replicate]
    exact fun h => hc h.symm

/-- C28 (conditional form): let the two words behind the array `texture` be equal to
each other and different from `texture[16383]`. At every position `i < 16384`, if
pixel `i` has a successor equal to it, the encoder emits one repeat record whose count
`r` is the length of the whole run of pixels equal to pixel `i` (`2 ≤ r`, the run ends
at the end of the array or before a different pixel), followed by the pixel word, and
goes on at `i + r`; otherwise it emits one literal record with the token
`0xFFFF - (L - 1)` and the words of the pixels `i .. i+L-1`, where `L ≥ 1` is the least
number with `L = 255`, or `i + L` the end of the array, or pixel `i+L` equal to pixel
`i+L+1`, and goes on at `i + L`. A literal record holds between 1 and 255 pixels; the
count of a repeat record is below `0xFF00` and the token of a literal record is not. -/
theorem rle_record_choice (texture : List Nat) (x : Nat) (rest : List Nat)
    (hlen : texture.length = 16384) (hx : x ≠ texture.getD 16383 0)
    (i : Nat) (hi : i < 16384) (f : Nat) :
    ((i + 1 < 16384 ∧ texture.getD i 0 = texture.getD (i + 1) 0) →
      ∃ r, 2 ≤ r ∧ r < 0xFF00 ∧ i + r ≤ 16384 ∧
        (∀ k, k < r → texture.getD (i + k) 0 = texture.getD i 0) ∧
        (i + r < 16384 → texture.getD (i + r) 0 ≠ texture.getD i 0) ∧
        rleEncodeLoop (texture ++ x :: x :: rest) (f + 1) i
          = (rleEncodeLoop (texture ++ x :: x :: rest) f (i + r)).map (fun bytes =>
              putU16 r ++ putU16 (encodeWord_repeat (texture.getD i 0)) ++ bytes)) ∧
    (¬ (i + 1 < 16384 ∧ texture.getD i 0 = texture.getD (i + 1) 0) →
      ∃ L, 1 ≤ L ∧ L ≤ 255 ∧ i + L ≤ 16384 ∧
        (∀ k, 1 ≤ k → k < L → i + k + 1 < 16384 →
          texture.getD (i + k) 0 ≠ texture.getD (i + k + 1) 0) ∧
        (L = 255 ∨ i + L = 16384 ∨
          (i + L + 1 < 16384 ∧ texture.getD (i + L) 0 = texture.getD (i + L + 1) 0)) ∧
        0xFF00 ≤ 0xFFFF - (L - 1) ∧ 0xFFFF - (L - 1) < 65536 ∧
        rleEncodeLoop (texture ++ x :: x :: rest) (f + 1) i
          = (rleEncodeLoop (texture ++ x :: x :: rest) f (i + L)).map (fun bytes =>
              putU16 (0xFFFF - (L - 1)) ++ (List.range L).flatMap (fun k =>
                putU16 (encodeWord_literal (texture.getD (i + k) 0))) ++ bytes)) := by
  have hmlen : 16386 ≤ (texture ++ x :: x :: rest).length := by
    simp [hlen]
    omega
  have hm : ∀ k, k < 16384 → (texture ++ x :: x :: rest).getD k 0 = texture.getD k 0 := by
    intro k hk
    rw [List.getD_append _ _ _ _ (by omega)]
  have h84 : (texture ++ x :: x :: rest).getD 16384 0 = x := by
    rw [List.getD_append_right _ _ _ _ (by omega), hlen]
    rfl
  have h85 : (texture ++ x :: x :: rest).getD 16385 0 = x := by
    rw [List.getD_append_right _ _ _ _ (by omega), hlen]
    rfl
  have hx' : x ≠ (texture ++ x :: x :: rest).getD 16383 0 := by
    rw [hm 16383 (by omega)]
    exact hx
  obtain ⟨hrep, hlit⟩ :=
    rleEncodeLoop_step (texture ++ x :: x :: rest) x hmlen h84 h85 hx' i hi f
  generalize texture ++ x :: x :: rest = mem at hm h84 h85 hrep hlit
  constructor
  · intro ⟨hi1, heq⟩
    obtain ⟨r, h1, h2, h3, h4, h5⟩ := hrep (by rw [hm i hi, hm (i + 1) hi1]; exact heq)
    refine ⟨r, h1, by omega, h2, ?_, ?_, ?_⟩
    · intro k hk
      rw [← hm (i + k) (by omega), ← hm i hi]
      exact h3 k hk
    · intro hlt
      rw [← hm (i + r) hlt, ← hm i hi]
      exact h4
    · rw [h5, hm i hi]
  · intro hcond
    have hne : mem.getD i 0 ≠ mem.getD (i + 1) 0 := by
      intro heq
      by_cases hi1 : i + 1 < 16384
      · exact hcond ⟨hi1, by rw [← hm i hi, ← hm (i + 1) hi1]; exact heq⟩
      · have e : i = 16383 := by omega
        subst e
        rw [h84, hm 16383 (by omega)] at heq
        exact hx heq.symm
    obtain ⟨L, h1, h2, h3, h4, h5, h6⟩ := hlit hne
    refine ⟨L, h1, h2, h3, ?_, ?_, by omega, by omega, ?_⟩
    · intro k _ hk hk1
      rw [← hm (i + k) (by omega), ← hm (i + k + 1) hk1]
      exact h4 k hk
    · by_cases c1 : L = 255
      · exact Or.inl c1
      · by_cases c2 : i + L = 16384
        · exact Or.inr (Or.inl c2)
        · have heq := h5 (by omega)
          have c3 : i + L + 1 < 16384 := by
            by_contra hc
            have e : i + L = 16383 := by omega
            rw [e, h84, hm 16383 (by omega)] at heq
            exact hx heq.symm
          exact Or.inr (Or.inr ⟨c3, by rw [← hm (i + L) (by omega), ← hm (i + L + 1) c3]; exact heq⟩)
    · rw [h6]
      congr 1
      funext bytes
      congr 2
      apply flatMap_congr_mem
      intro k hk
      rw [hm (i + k) (by have := List.mem_range.mp hk; omega)]

/-- C28 (instance): the texture of 16384 entries `0xFF000000` followed by two zero
words, at position 0. -/
theorem rle_record_choice_witness :
    ∃ r, 2 ≤ r ∧ r < 0xFF00 ∧ 0 + r ≤ 16384 ∧
      rleEncodeLoop (List.replicate 16384 0xFF000000 ++ 0 :: 0 :: []) (0 + 1) 0
        = (rleEncodeLoop (List.replicate 16384 0xFF000000 ++ 0 :: 0 :: []) 0 (0 + r)).map
            (fun bytes => putU16 r
              ++ putU16 (encodeWord_repeat ((List.replicate 16384 0xFF000000).getD 0 0))
              ++ bytes) :=
  have h1 : (List.replicate 16384 0xFF000000).length = 16384 := List.length_replicate _ _
  have hg : ∀ k, k < 16384 → (List.replicate 16384 0xFF000000).getD k 0 = 0xFF000000 :=
    fun k hk => by
      rw [List.getD_eq_getElem _ _ (by rw [h1]; exact hk), List.getElem_replicate]
  have h3 : 0 ≠ (List.replicate 16384 0xFF000000).getD 16383 0 := by
    rw [hg 16383 (by omega)]
    decide
  match (rle_record_choice (List.replicate 16384 0xFF000000) 0 [] h1 h3 0 (by omega) 0).1
    ⟨by omega, by rw [hg 0 (by omega), hg (0 + 1) (by omega)]⟩ with
  | ⟨r, a1, a2, a3, _, _, a6⟩ => ⟨r, a1, a2, a3, a6⟩

/-- C28 (failing input): the texture holds 16384 times `0xFF000000` and the word behind
the array is `0xFF000000` too, followed by a zero word. The run of pixels equal to
pixel 0 has the length 16384, but the record emitted at position 0 has the count
16385: the repeat scan has no bound and counts the word behind the array. -/
theorem rle_record_counts_behind_array :
    (List.replicate 16384 0xFF000000).length = 16384 ∧
    (∀ k, k < 16384 → (List.replicate 16384 0xFF000000).getD k 0 = 0xFF000000) ∧
    rleEncodeLoop (List.replicate 16384 0xFF000000 ++ [0xFF000000, 0]) 16384 0
      = some (putU16 16385 ++ putU16 (encodeWord_repeat 0xFF000000) ++ []) ∧
    putU16 16385 = [1, 64] := by
  obtain ⟨hl, hg, hlast⟩ := overrun_memory 0xFF000000 (by decide)
  refine ⟨List.length_replicate _ _, ?_, ?_, rfl⟩
  · intro k hk
    rw [List.getD_eq_getElem _ _ (by rw [List.length_replicate]; exact hk),
      List.getElem_replicate]
  · rw [rleEncodeLoop_overrun _ 0xFF000000 hl hg hlast]

/-- The records that the encoder emits from index `i` on, on a memory whose two words
behind the array are equal to each other and differ from the last entry, make the
decoder write `16384 - i` entries. -/
theorem rle_loop_lengths (mem : List Nat) (x : Nat) (hmlen : 16386 ≤ mem.length)
    (h84 : mem.getD 16384 0 = x) (h85 : mem.getD 16385 0 = x) (hx : x ≠ mem.getD 16383 0) :
    ∀ (d i fuelE : Nat), i + d = 16384 → d ≤ fuelE →
      ∃ bytes, rleEncodeLoop mem fuelE i = some bytes ∧
        bytes.length ≤ 4 * d ∧
        ∀ (pos fuelD : Nat) (tail : List Nat), bytes.length ≤ fuelD →
          ∃ ts, rleDecodeLoop ((pos + bytes.length : Nat) : Int) fuelD pos (bytes ++ tail)
            = some (ts, tail) ∧ ts.length = d := by
  intro d
  induction d using Nat.strong_induction_on with
  | _ d ih =>
    intro i fuelE hid hfuel
    by_cases hd : d = 0
    · have hi : i = 16384 := by omega
      have henc : rleEncodeLoop mem fuelE i = some [] := by
        cases fuelE with
        | zero => rw [rleEncodeLoop, if_neg (by omega)]
        | succ f => rw [rleEncodeLoop, if_neg (by omega)]
      refine ⟨[], henc, by simp, ?_⟩
      intro pos fuelD tail _
      refine ⟨[], ?_, by rw [hd]; rfl⟩
      cases fuelD with
      | zero => rw [rleDecodeLoop, if_neg (by simp)]; rfl
      | succ f => rw [rleDecodeLoop, if_neg (by simp)]; rfl
    · have hi : i < 16384 := by omega
      obtain ⟨f, rfl⟩ : ∃ f, fuelE = f + 1 := ⟨fuelE - 1, by omega⟩
      obtain ⟨hrep, hlit⟩ := rleEncodeLoop_step mem x hmlen h84 h85 hx i hi f
      by_cases heq : mem.getD i 0 = mem.getD (i + 1) 0
      · obtain ⟨r, hr1, hr2, _, _, hstep⟩ := hrep heq
        obtain ⟨bytes', he', hl', hd'⟩ := ih (d - r) (by omega) (i + r) f (by omega) (by omega)
        rw [hstep, he']
        have hwlt := (encodeWord_lt (mem.getD i 0)).1
        have hlen4 : (putU16 r ++ putU16 (encodeWord_repeat (mem.getD i 0)) ++ bytes').length
            = 4 + bytes'.length := by
          simp only [List.length_append, putU16, List.length_cons, List.length_nil]
        refine ⟨_, rfl, by rw [hlen4]; omega, ?_⟩
        intro pos fuelD tail hfd
        rw [hlen4] at hfd ⊢
        obtain ⟨fd, rfl⟩ : ∃ fd, fuelD = fd + 1 := ⟨fuelD - 1, by omega⟩
        obtain ⟨ts, hts, htl⟩ := hd' (pos + 4) fd tail (by omega)
        have hlim : ((pos + (4 + bytes'.length) : Nat) : Int)
            = ((pos + 4 + bytes'.length : Nat) : Int) := by
          push_cast; ring
        rw [rleDecodeLoop, if_pos (by push_cast; omega), List.append_assoc, List.append_assoc,
          readU16_putU16 r (by omega)]
        simp only
        rw [if_pos (by omega), readU16_putU16 _ hwlt]
        simp only
        rw [hlim, hts]
        refine ⟨_, rfl, ?_⟩
        rw [List.length_append, List.length_replicate, htl]
        omega
      · obtain ⟨L, hL1, hL2, hL3, _, _, hstep⟩ := hlit heq
        obtain ⟨bytes', he', hl', hd'⟩ := ih (d - L) (by omega) (i + L) f (by omega) (by omega)
        rw [hstep, he']
        have hpix : ((List.range L).flatMap (fun k =>
            putU16 (encodeWord_literal (mem.getD (i + k) 0))))
            = ((List.range L).map (fun k => encodeWord_literal (mem.getD (i + k) 0))).flatMap
                putU16 := by
          rw [flatMap_map_eq]
        have hplen : ((List.range L).map
            (fun k => encodeWord_literal (mem.getD (i + k) 0))).length = L := by simp
        have hlen2 : (putU16 (0xFFFF - (L - 1)) ++ (List.range L).flatMap (fun k =>
            putU16 (encodeWord_literal (mem.getD (i + k) 0))) ++ bytes').length
            = 2 + 2 * L + bytes'.length := by
          rw [hpix, List.length_append, List.length_append, length_flatMap_putU16, hplen]
          rfl
        obtain ⟨_, _, ht3⟩ := literal_token L hL1 hL2
        have htok : 0xFFFF - (L - 1) = 65536 - L := by omega
        refine ⟨_, rfl, by rw [hlen2]; omega, ?_⟩
        intro pos fuelD tail hfd
        rw [hlen2] at hfd ⊢
        obtain ⟨fd, rfl⟩ : ∃ fd, fuelD = fd + 1 := ⟨fuelD - 1, by omega⟩
        obtain ⟨ts, hts, htl⟩ := hd' (pos + 2 + 2 * L) fd tail (by omega)
        have hlim : ((pos + (2 + 2 * L + bytes'.length) : Nat) : Int)
            = ((pos + 2 + 2 * L + bytes'.length : Nat) : Int) := by
          push_cast; ring
        rw [rleDecodeLoop, if_pos (by push_cast; omega), List.append_assoc, List.append_assoc,
          htok, readU16_putU16 (65536 - L) (by omega)]
        simp only
        rw [if_neg (by omega), ht3, hpix]
        nth_rewrite 1 [← hplen]
        rw [readLiteral_words _ (fun w hw => by
          obtain ⟨k, _, rfl⟩ := List.mem_map.mp hw
          exact (encodeWord_lt _).2)]
        simp only
        rw [hlim, hts]
        refine ⟨_, rfl, ?_⟩
        rw [List.length_append, List.length_map, hplen, htl]
        omega

/-- C29 (conditional form): let the two words behind the array `texture` be equal to
each other and different from `texture[16383]`. Then, for every content of the 16384
entries, the RLE encoder of `WriteFile` terminates and the records it emits make the
decoder write exactly 16384 entries: the run lengths sum to 16384. -/
theorem rle_run_lengths_sum (texture : List Nat) (x : Nat) (rest : List Nat)
    (hlen : texture.length = 16384) (hx : x ≠ texture.getD 16383 0) :
    ∃ records, rleEncodeLoop (texture ++ x :: x :: rest) 16384 0 = some records ∧
      writeTexture_rle texture (x :: x :: rest)
        = some (putU32 (u32 records.length) ++ records) ∧
      records.length ≤ 65536 ∧
      ∀ (pos fuelD : Nat) (tail : List Nat), records.length ≤ fuelD →
        ∃ ts, rleDecodeLoop ((pos + records.length : Nat) : Int) fuelD pos (records ++ tail)
          = some (ts, tail) ∧ ts.length = 16384 := by
  have hmlen : 16386 ≤ (texture ++ x :: x :: rest).length := by
    simp [hlen]
    omega
  have hm : (texture ++ x :: x :: rest).getD 16383 0 = texture.getD 16383 0 := by
    rw [List.getD_append _ _ _ _ (by omega)]
  have h84 : (texture ++ x :: x :: rest).getD 16384 0 = x := by
    rw [List.getD_append_right _ _ _ _ (by omega), hlen]
    rfl
  have h85 : (texture ++ x :: x :: rest).getD 16385 0 = x := by
    rw [List.getD_append_right _ _ _ _ (by omega), hlen]
    rfl
  obtain ⟨records, henc, hl, hdec⟩ :=
    rle_loop_lengths (texture ++ x :: x :: rest) x hmlen h84 h85 (by rw [hm]; exact hx)
      16384 0 16384 (by omega) (by omega)
  refine ⟨records, henc, ?_, by omega, hdec⟩
  rw [writeTexture_rle, henc]

/-- C29 (instance): the texture of 16384 entries `0x12345678`, which is not the
decoding of a pixel word, followed by two zero words. -/
theorem rle_run_lengths_sum_witness :
    ∃ records, rleEncodeLoop (List.replicate 16384 0x12345678 ++ 0 :: 0 :: []) 16384 0
        = some records ∧
      ∀ (pos fuelD : Nat) (tail : List Nat), records.length ≤ fuelD →
        ∃ ts, rleDecodeLoop ((pos + records.length : Nat) : Int) fuelD pos (records ++ tail)
          = some (ts, tail) ∧ ts.length = 16384 :=
  have h1 : (List.replicate 16384 0x12345678).length = 16384 := List.length_replicate _ _
  have h3 : 0 ≠ (List.replicate 16384 0x12345678).getD 16383 0 := by
    rw [List.getD_eq_getElem _ _ (by rw [h1]; omega), List.getElem_replicate]
    decide
  match rle_run_lengths_sum (List.replicate 16384 0x12345678) 0 [] h1 h3 with
  | ⟨records, a1, _, _, a4⟩ => ⟨records, a1, a4⟩

/-- C29 (failing input): the texture holds 16384 times `0xFF000000` and the word behind
the array is `0xFF000000` too, followed by a zero word. The encoder emits the single
record `(16385, 0)`; its run length is 16385, and the decoder writes 16385 entries. -/
theorem rle_run_lengths_exceed :
    writeTexture_rle (List.replicate 16384 0xFF000000) [0xFF000000, 0]
      = some [4, 0, 0, 0, 1, 64, 0, 0] ∧
    readU16 [1, 64, 0, 0] = some (16385, [0, 0]) ∧
    ∃ ts, rleDecodeLoop 8 4 4 [1, 64, 0, 0] = some (ts, []) ∧ ts.length = 16385 := by
  obtain ⟨hl, hg, hlast⟩ := overrun_memory 0xFF000000 (by decide)
  refine ⟨?_, rfl, ?_⟩
  · rw [writeTexture_rle, rleEncodeLoop_overrun _ 0xFF000000 hl hg hlast]
    decide
  · have h1 : readU16 [1, 64, 0, 0] = some (16385, [0, 0]) := rfl
    have h2 : readU16 [0, 0] = some (0, []) := rfl
    refine ⟨List.replicate 16385 (decodeWord_repeat 0) ++ [], ?_, ?_⟩
    · rw [rleDecodeLoop, if_pos (by omega), h1]
      simp only
      rw [if_pos (by omega), h2]
      simp only
      rw [rleDecodeLoop, if_neg (by omega)]
    · rw [List.append_nil, List.length_replicate]

end PS2Icon

/-! ### Fixed-point values through `BuildMesh` and `SetGeometry` -/

namespace PS2Icon

/-- C38: a stored 16-bit value decoded by `convert_f16_to_f32` and encoded again by
`convert_f32_to_f16` is unchanged, for every value of the `short` range; the other
direction loses information: `1/8192` is encoded as `0` and decoded as `0`. -/
theorem convert_f16_f32_f16_exact (s : Int) (h1 : -32768 ≤ s) (h2 : s ≤ 32767) :
    convert_f32_to_f16 (convert_f16_to_f32 s) = s ∧
    convert_f16_to_f32 (convert_f32_to_f16 (1 / 8192)) ≠ 1 / 8192 := by
  refine ⟨convert_f16_roundtrip s h1 h2, ?_⟩
  have e : convert_f32_to_f16 (1 / 8192) = 0 := by
    unfold convert_f32_to_f16
    rw [truncToInt_of_nonneg _ (by norm_num)]
    have : ⌊(1 / 8192 : ℚ) * 4096⌋ = 0 := by
      rw [Int.floor_eq_iff]
      norm_num
    rw [this]
    rfl
  rw [e]
  unfold convert_f16_to_f32
  norm_num

theorem convert_f16_f32_f16_exact_witness :
    convert_f32_to_f16 (convert_f16_to_f32 (-32768)) = -32768 ∧
    convert_f16_to_f32 (convert_f32_to_f16 (1 / 8192)) ≠ 1 / 8192 :=
  convert_f16_f32_f16_exact (-32768) (by decide) (by decide)

theorem range_getD_self (n i : Nat) (hi : i < n) : (List.range n).getD i default = i := by
  rw [List.getD_eq_getElem?_getD, List.getElem?_range hi]
  rfl

theorem shapePositions_getD (self : Icon) (hs : self.header.animation_shapes = 1) (i d : Nat)
    (hi : i < self.header.n_vertices) (hd : d < 3) :
    (shapePositions self 0).getD (i * 3 + d) 0 = self.fvertices.getD (i * 3 + d) 0 := by
  unfold shapePositions
  rw [Nat.mul_comm i 3]
  refine (getD_flatMap_block _ 3 (List.range self.header.n_vertices) ?_ i d
    (by rw [List.length_range]; exact hi) hd).trans ?_
  · intro _ _
    rfl
  · rw [range_getD_self _ _ hi, hs]
    simp only [Nat.mul_one, Nat.add_zero]
    rw [Nat.mul_comm i 3]
    rcases d with _ | _ | _ | d
    · rfl
    · rfl
    · rfl
    · omega

/-- C37: for an icon with one shape and `3 k` vertices, `3 * n_vertices ≤ INT_MAX`,
whose 16-bit positions and normals are the conversions of its float arrays, which hold
`float` values (as after `ReadFile` and after every `SetGeometry`), `BuildMesh` returns
a mesh, and
`SetGeometry(mesh)` of that mesh stores the same vertex count and, for every vertex,
the same 16-bit position, normal and texture coordinates. -/
theorem BuildMesh_SetGeometry_same_fixed_point (self : Icon) (mesh : OBJ_Mesh) (k : Nat)
    (hs : self.header.animation_shapes = 1)
    (hn : self.header.n_vertices = 3 * k) (h3 : 3 * self.header.n_vertices ≤ 2147483647)
    (hfn : self.fnormals.length = 3 * self.header.n_vertices)
    (hvt : self.vert_texture.length = self.header.n_vertices)
    (hpos : ∀ i, i < self.header.n_vertices →
      (self.vertices.getD i default).f16_x = convert_f32_to_f16 (self.fvertices.getD (i * 3) 0) ∧
      (self.vertices.getD i default).f16_y
        = convert_f32_to_f16 (self.fvertices.getD (i * 3 + 1) 0) ∧
      (self.vertices.getD i default).f16_z
        = convert_f32_to_f16 (self.fvertices.getD (i * 3 + 2) 0))
    (hnrm : ∀ i, i < self.header.n_vertices →
      (self.normals.getD i default).f16_x = convert_f32_to_f16 (self.fnormals.getD (i * 3) 0) ∧
      (self.normals.getD i default).f16_y
        = convert_f32_to_f16 (self.fnormals.getD (i * 3 + 1) 0) ∧
      (self.normals.getD i default).f16_z
        = convert_f32_to_f16 (self.fnormals.getD (i * 3 + 2) 0))
    (hshort : ∀ t ∈ self.vert_texture,
      (-32768 ≤ t.f16_u ∧ t.f16_u ≤ 32767) ∧ (-32768 ≤ t.f16_v ∧ t.f16_v ≤ 32767))
    (hfl : ∀ x ∈ self.fvertices, Float32.isFloat32 x)
    (hnfl : ∀ x ∈ self.fnormals, Float32.isFloat32 x) :
    ∃ m, BuildMesh self mesh = .ok m ∧
      (SetGeometry_default self m).header.n_vertices = self.header.n_vertices ∧
      ∀ i, i < self.header.n_vertices →
        ((SetGeometry_default self m).vertices.getD i default).f16_x
            = (self.vertices.getD i default).f16_x ∧
        ((SetGeometry_default self m).vertices.getD i default).f16_y
            = (self.vertices.getD i default).f16_y ∧
        ((SetGeometry_default self m).vertices.getD i default).f16_z
            = (self.vertices.getD i default).f16_z ∧
        ((SetGeometry_default self m).normals.getD i default).f16_x
            = (self.normals.getD i default).f16_x ∧
        ((SetGeometry_default self m).normals.getD i default).f16_y
            = (self.normals.getD i default).f16_y ∧
        ((SetGeometry_default self m).normals.getD i default).f16_z
            = (self.normals.getD i default).f16_z ∧
        ((SetGeometry_default self m).vert_texture.getD i default).f16_u
            = (self.vert_texture.getD i default).f16_u ∧
        ((SetGeometry_default self m).vert_texture.getD i default).f16_v
            = (self.vert_texture.getD i default).f16_v := by
  have hb := BuildMesh_eq self mesh (by omega) (by omega) h3 (by rw [hs]; omega) hfn hvt
  refine ⟨_, hb, ?_⟩
  have hk : self.header.n_vertices / 3 = k := by omega
  have hP := shapePositions_length self 0
  have hT := textureTriples_length self
  rw [hvt] at hT
  set m : OBJ_Mesh :=
    { m_name := mesh.m_name
      m_geometry := shapePositions self 0
      m_normals := self.fnormals
      m_texcoords := textureTriples self
      m_faces := (List.range (self.header.n_vertices / 3)).map freshFace } with hm
  have hU : m.GetMeshGeometryUnindexed 1
      = (shapePositions self 0, self.fnormals, textureTriples self) :=
    unindexed_fresh m k (by omega) (by rw [hm, hk]) (by rw [hm]; simp only; omega)
      (by rw [hm]; simp only; omega) (by rw [hm]; simp only; omega)
      (shapePositions_isFloat32 self 0 hfl) hnfl (textureTriples_isFloat32 self hshort)
  have hF : (m.GetNFaces * 3).toNat = self.header.n_vertices := by
    unfold OBJ_Mesh.GetNFaces
    rw [hm]
    simp only [List.length_map, List.length_range, hk]
    omega
  have hF2 : GBCOLOR32.toU32 (m.GetNFaces * 3) = self.header.n_vertices := by
    unfold GBCOLOR32.toU32 OBJ_Mesh.GetNFaces
    rw [hm]
    simp only [List.length_map, List.length_range, hk]
    have h : ((k : Nat) : Int) * 3 % 4294967296 = ((self.header.n_vertices : Nat) : Int) := by
      omega
    rw [h, Int.toNat_ofNat]
  have e_v : (SetGeometry_default self m).vertices = (List.range self.header.n_vertices).map
      (fun i =>
        ({ f16_x := convert_f32_to_f16 ((shapePositions self 0).getD (i * 3) 0),
           f16_y := convert_f32_to_f16 ((shapePositions self 0).getD (i * 3 + 1) 0),
           f16_z := convert_f32_to_f16 ((shapePositions self 0).getD (i * 3 + 2) 0),
           f16_unknown := 0 } : Vertex_Coord)) := by
    unfold SetGeometry_default SetGeometry; simp only [hU, hF]
  have e_n : (SetGeometry_default self m).normals = (List.range self.header.n_vertices).map
      (fun i =>
        ({ f16_x := convert_f32_to_f16 (self.fnormals.getD (i * 3) 0),
           f16_y := convert_f32_to_f16 (self.fnormals.getD (i * 3 + 1) 0),
           f16_z := convert_f32_to_f16 (self.fnormals.getD (i * 3 + 2) 0),
           f16_unknown := 0 } : Vertex_Coord)) := by
    unfold SetGeometry_default SetGeometry; simp only [hU, hF]
  have e_t : (SetGeometry_default self m).vert_texture = (List.range self.header.n_vertices).map
      (fun i =>
        ({ f16_u := convert_f32_to_f16 ((textureTriples self).getD (i * 3) 0),
           f16_v := convert_f32_to_f16 ((textureTriples self).getD (i * 3 + 1) 0),
           color := 0xFFFFFFFF } : Texture_Data)) := by
    unfold SetGeometry_default SetGeometry; simp only [hU, hF]
  refine ⟨?_, ?_⟩
  · unfold SetGeometry_default SetGeometry
    exact hF2
  intro i hi
  rw [e_v, e_n, e_t, getD_map_range _ _ _ _ hi, getD_map_range _ _ _ _ hi,
    getD_map_range _ _ _ _ hi]
  simp only
  have p0 := shapePositions_getD self hs i 0 hi (by omega)
  have p1 := shapePositions_getD self hs i 1 hi (by omega)
  have p2 := shapePositions_getD self hs i 2 hi (by omega)
  rw [Nat.add_zero] at p0
  rw [p0, p1, p2]
  obtain ⟨a0, a1, a2⟩ := hpos i hi
  obtain ⟨b0, b1, b2⟩ := hnrm i hi
  obtain ⟨t0, t1, _⟩ := textureTriples_getD self i (by rw [hvt]; exact hi)
  have hmem : self.vert_texture.getD i default ∈ self.vert_texture := by
    rw [List.getD_eq_getElem?_getD, List.getElem?_eq_getElem (by rw [hvt]; exact hi)]
    exact List.getElem_mem _
  obtain ⟨⟨u1, u2⟩, ⟨v1, v2⟩⟩ := hshort _ hmem
  rw [t0, t1, convert_f16_roundtrip _ u1 u2, convert_f16_roundtrip _ v1 v2]
  exact ⟨a0.symm, a1.symm, a2.symm, b0.symm, b1.symm, b2.symm, rfl, rfl⟩

theorem convert_f32_to_f16_zero : convert_f32_to_f16 0 = 0 := by
  unfold convert_f32_to_f16
  rw [zero_mul, show (0 : ℚ) = ((0 : Int) : ℚ) from rfl, truncToInt_intCast]
  rfl

/-- When three times the vertex count is above `INT_MAX` (and below `2^32`), the
element counts `BuildMesh` passes to `OBJ_Mesh::SetGeometry` and `SetNormals` are
negative as `int`: the mesh receives no position and no normal values, and still
`n_vertices / 3` faces. -/
theorem BuildMesh_count_wraps (self : Icon) (mesh : OBJ_Mesh)
    (hs : self.header.animation_shapes = 1)
    (hlo : 2147483647 < 3 * self.header.n_vertices)
    (hhi : 3 * self.header.n_vertices < 4294967296) :
    ∃ m, BuildMesh self mesh = .ok m ∧ m.m_geometry = [] ∧ m.m_normals = [] ∧
      m.m_faces = (List.range (self.header.n_vertices / 3)).map freshFace := by
  have hcount : (toInt32 (u32 (self.header.n_vertices * 3))).toNat = 0 := by
    unfold toInt32 u32
    have e : self.header.n_vertices * 3 % 4294967296 % 4294967296
        = self.header.n_vertices * 3 := by omega
    rw [e, if_neg (by omega)]
    omega
  unfold BuildMesh
  rw [GetVertexData_zero self (by omega) (by omega) (by rw [hs]; omega)]
  simp only
  rw [foldl_AddFaceData, foldl_addVertexTexture]
  refine ⟨_, rfl, ?_, ?_, ?_⟩
  · simp only [OBJ_Mesh.ClearFaceData, OBJ_Mesh.ClearTextureData, OBJ_Mesh.SetNormals,
      OBJ_Mesh.SetGeometry, OBJ_Mesh.FillVector, hcount, List.range_zero, List.map_nil]
  · simp only [OBJ_Mesh.ClearFaceData, OBJ_Mesh.ClearTextureData, OBJ_Mesh.SetNormals,
      OBJ_Mesh.SetGeometry, OBJ_Mesh.FillVector, hcount, List.range_zero, List.map_nil]
  · simp only [OBJ_Mesh.ClearFaceData, List.nil_append]

/-- Unindexing a mesh that holds faces and no positions: the first stored position
value is the conversion of `0` (the model reads `0` outside a vector). -/
theorem SetGeometry_without_positions (self : Icon) (m : OBJ_Mesh) (hg : m.m_geometry = [])
    (hf : 0 < m.m_faces.length) :
    ((SetGeometry_default self m).vertices.getD 0 default).f16_x = 0 := by
  have hF : 0 < (m.GetNFaces * 3).toNat := by
    unfold OBJ_Mesh.GetNFaces
    omega
  unfold SetGeometry_default SetGeometry
  simp only
  rw [getD_map_range _ _ _ _ hF]
  simp only
  obtain ⟨f, rest, hfr⟩ : ∃ f rest, m.m_faces = f :: rest := by
    cases hm : m.m_faces with
    | nil => rw [hm] at hf; simp at hf
    | cons f rest => exact ⟨f, rest, rfl⟩
  unfold OBJ_Mesh.GetMeshGeometryUnindexed
  simp only [hfr, List.flatMap_cons, OBJ_Mesh.faceGeometry, hg, OBJ_Mesh.elemAt, List.getD_nil,
    List.cons_append, List.getD_cons_zero, Nat.zero_mul]
  rw [Float32.fmul_toFloat32_one 0 Float32.isFloat32_zero]
  exact convert_f32_to_f16_zero

/-- C37, failing input: the icon `iconWideCount` has one shape, `3 * 238609295`
vertices and stored x position `4096` for vertex 0. `BuildMesh` returns a mesh with
`238609295` faces and empty position and normal vectors, because the count
`n_vertices * 3 = 2147483655` is negative as `int`; `SetGeometry` of that mesh stores
x position `0` for vertex 0. -/
theorem BuildMesh_wide_count_drops_geometry :
    iconWideCount.header.animation_shapes = 1 ∧
    iconWideCount.header.n_vertices = 3 * 238609295 ∧
    iconWideCount.vertices.length = 715827885 ∧
    iconWideCount.fvertices.length = 3 * 715827885 ∧
    (iconWideCount.vertices.getD 0 default).f16_x = 4096 ∧
    ∃ m, BuildMesh iconWideCount exampleQuad = .ok m ∧ m.m_geometry = [] ∧ m.m_normals = [] ∧
      m.m_faces.length = 238609295 ∧
      ((SetGeometry_default iconWideCount m).vertices.getD 0 default).f16_x = 0 := by
  refine ⟨rfl, rfl, List.length_replicate _ _, List.length_replicate _ _, rfl, ?_⟩
  obtain ⟨m, hm, hg, hn, hf⟩ := BuildMesh_count_wraps iconWideCount exampleQuad rfl
    (by show 2147483647 < 3 * 715827885; norm_num)
    (by show 3 * 715827885 < 4294967296; norm_num)
  have hlen : m.m_faces.length = 238609295 := by
    rw [hf, List.length_map, List.length_range]
    show 715827885 / 3 = 238609295
    norm_num
  exact ⟨m, hm, hg, hn, hlen,
    SetGeometry_without_positions iconWideCount m hg (by rw [hlen]; norm_num)⟩

/-! ### `SetGeometry` from raw arrays -/

/-- C31: after `SetGeometry(pverts, pnormals, ptexture, n)` with `n ≥ 0` the three
arrays hold `n` entries; the position and the normal of every vertex `i < n` are the
conversions of `pverts[3i .. 3i+2]` and `pnormals[3i .. 3i+2]`, and the colour is
`0xFFFFFFFF`. The texture coordinates are the conversions of `tmptexture[2i]` and
`tmptexture[2i+1]`, the array the function allocates and never fills: they are the
conversions of `ptexture[2i]`, `ptexture[2i+1]` when that memory happens to hold the
values of `ptexture`. -/
theorem SetGeometry_raw_stored (self : Icon) (pverts pnormals ptexture tmptexture : List ℚ)
    (n i : Nat) (hi : i < n) :
    (SetGeometry_raw self pverts pnormals ptexture tmptexture n).vertices.length = n ∧
    (SetGeometry_raw self pverts pnormals ptexture tmptexture n).normals.length = n ∧
    (SetGeometry_raw self pverts pnormals ptexture tmptexture n).vert_texture.length = n ∧
    (SetGeometry_raw self pverts pnormals ptexture tmptexture n).vertices.getD i default
      = ⟨convert_f32_to_f16 (pverts.getD (3 * i) 0), convert_f32_to_f16 (pverts.getD (3 * i + 1) 0),
         convert_f32_to_f16 (pverts.getD (3 * i + 2) 0), 0⟩ ∧
    (SetGeometry_raw self pverts pnormals ptexture tmptexture n).normals.getD i default
      = ⟨convert_f32_to_f16 (pnormals.getD (3 * i) 0),
         convert_f32_to_f16 (pnormals.getD (3 * i + 1) 0),
         convert_f32_to_f16 (pnormals.getD (3 * i + 2) 0), 0⟩ ∧
    (SetGeometry_raw self pverts pnormals ptexture tmptexture n).vert_texture.getD i default
      = ⟨convert_f32_to_f16 (tmptexture.getD (2 * i) 0),
         convert_f32_to_f16 (tmptexture.getD (2 * i + 1) 0), 0xFFFFFFFF⟩ ∧
    (tmptexture.getD (2 * i) 0 = ptexture.getD (2 * i) 0 →
      tmptexture.getD (2 * i + 1) 0 = ptexture.getD (2 * i + 1) 0 →
      (SetGeometry_raw self pverts pnormals ptexture tmptexture n).vert_texture.getD i default
        = ⟨convert_f32_to_f16 (ptexture.getD (2 * i) 0),
           convert_f32_to_f16 (ptexture.getD (2 * i + 1) 0), 0xFFFFFFFF⟩) := by
  have hn : ((n : Nat) : Int).toNat = n := Int.toNat_ofNat n
  have h3 : (3 * ((n : Nat) : Int)).toNat = 3 * n := by omega
  have htex : (SetGeometry_raw self pverts pnormals ptexture tmptexture n).vert_texture.getD i
      default = ⟨convert_f32_to_f16 (tmptexture.getD (2 * i) 0),
         convert_f32_to_f16 (tmptexture.getD (2 * i + 1) 0), 0xFFFFFFFF⟩ := by
    unfold SetGeometry_raw
    simp only [hn]
    rw [getD_map_range _ _ _ _ hi, Nat.mul_comm i 2]
  refine ⟨?_, ?_, ?_, ?_, ?_, htex, ?_⟩
  · unfold SetGeometry_raw
    simp only [hn, List.length_map, List.length_range]
  · unfold SetGeometry_raw
    simp only [hn, List.length_map, List.length_range]
  · unfold SetGeometry_raw
    simp only [hn, List.length_map, List.length_range]
  · unfold SetGeometry_raw
    simp only [hn, h3]
    rw [getD_map_range _ _ _ _ hi, getD_map_range _ _ _ _ (by omega : i * 3 < 3 * n),
      getD_map_range _ _ _ _ (by omega : i * 3 + 1 < 3 * n),
      getD_map_range _ _ _ _ (by omega : i * 3 + 2 < 3 * n), Nat.mul_comm i 3]
  · unfold SetGeometry_raw
    simp only [hn, h3]
    rw [getD_map_range _ _ _ _ hi, getD_map_range _ _ _ _ (by omega : i * 3 < 3 * n),
      getD_map_range _ _ _ _ (by omega : i * 3 + 1 < 3 * n),
      getD_map_range _ _ _ _ (by omega : i * 3 + 2 < 3 * n), Nat.mul_comm i 3]
  · intro e0 e1
    rw [htex, e0, e1]

theorem SetGeometry_raw_stored_witness :
    (SetGeometry_raw PS2Icon_default [1, 0, 0] [0, 0, 1] [1 / 2, 1 / 4] [1 / 2, 1 / 4]
        1).vert_texture.getD 0 default
      = ⟨convert_f32_to_f16 (1 / 2), convert_f32_to_f16 (1 / 4), 0xFFFFFFFF⟩ :=
  (SetGeometry_raw_stored PS2Icon_default [1, 0, 0] [0, 0, 1] [1 / 2, 1 / 4] [1 / 2, 1 / 4]
    1 0 (by decide)).2.2.2.2.2.2 rfl rfl

theorem convert_f32_to_f16_half : convert_f32_to_f16 (1 / 2) = 2048 := by
  unfold convert_f32_to_f16
  rw [show (1 / 2 : ℚ) * 4096 = ((2048 : Int) : ℚ) by norm_num, truncToInt_intCast]
  rfl

theorem convert_f32_to_f16_quarter : convert_f32_to_f16 (1 / 4) = 1024 := by
  unfold convert_f32_to_f16
  rw [show (1 / 4 : ℚ) * 4096 = ((1024 : Int) : ℚ) by norm_num, truncToInt_intCast]
  rfl

/-- C31, failing input: one vertex with texture coordinates `(1/2, 1/4)` in `ptexture`
and zeros in the memory of `tmptexture`. The conversions of `ptexture` are `2048` and
`1024`; the icon stores `u = 0`, `v = 0`. -/
theorem SetGeometry_raw_texture_from_unfilled :
    convert_f32_to_f16 (1 / 2) = 2048 ∧ convert_f32_to_f16 (1 / 4) = 1024 ∧
    (SetGeometry_raw PS2Icon_default [1, 0, 0] [0, 0, 1] [1 / 2, 1 / 4] [0, 0]
        1).vert_texture = [⟨0, 0, 0xFFFFFFFF⟩] := by
  refine ⟨convert_f32_to_f16_half, convert_f32_to_f16_quarter, ?_⟩
  unfold SetGeometry_raw
  simp only [Int.toNat_one]
  rw [show List.range 1 = [0] from rfl]
  simp only [List.map_cons, List.map_nil, Nat.zero_mul, List.getD_cons_zero, Nat.zero_add,
    List.getD_cons_succ, convert_f32_to_f16_zero]

end PS2Icon

/-! ### `icon.sys` colours -/

namespace IconSys

namespace IconSys_Color

theorem checkChannel_bounds (v : Int) : 0 ≤ checkChannel v ∧ checkChannel v ≤ 255 := by
  unfold checkChannel
  simp only
  split_ifs <;> omega

theorem checkChannel_fixed (v : Int) (h0 : 0 ≤ v) (h1 : v ≤ 255) : checkChannel v = v := by
  unfold checkChannel
  simp only
  rw [if_neg (by omega), if_neg (by omega)]

/-- C32: what the constructors and setters of `IconSys_Color` establish. Every
constructor leaves each channel in `0 .. 255`, and stores a constructor argument of that
range unchanged. A setter stores its argument exactly when the argument lies in
`0 .. 0x80` and then reports `true`; otherwise it changes nothing. So a colour whose
channels lie in `0 .. 0x80` keeps that property under every setter, and a constructor
called with channels in `0 .. 0x80` establishes it. -/
theorem IconSys_Color_ranges (r g b x v : Int) (p : List Int) (q : List Nat)
    (c : IconSys_Color) :
    (∀ d ∈ [ofInts r g b x, ofIntArray p, ofUnsignedArray q, copy c],
      (0 ≤ d.R ∧ d.R ≤ 255) ∧ (0 ≤ d.G ∧ d.G ≤ 255) ∧ (0 ≤ d.B ∧ d.B ≤ 255) ∧
      (0 ≤ d.X ∧ d.X ≤ 255)) ∧
    (inRange ⟨r, g, b, x⟩ → ofInts r g b x = ⟨r, g, b, x⟩ ∧ inRange (ofInts r g b x)) ∧
    (inRange c → copy c = c ∧ inRange (copy c)) ∧
    (∀ s ∈ [SetR c v, SetG c v, SetB c v, SetX c v],
      (s.1 = true ↔ (0 ≤ v ∧ v ≤ 128)) ∧ (s.1 = false → s.2 = c) ∧
      (inRange c → inRange s.2)) ∧
    ((0 ≤ v ∧ v ≤ 128) → (SetR c v).2 = { c with R := v } ∧ (SetG c v).2 = { c with G := v } ∧
      (SetB c v).2 = { c with B := v } ∧ (SetX c v).2 = { c with X := v }) := by
  have hfix : ∀ d : IconSys_Color, inRange d → CheckRanges d = d := by
    intro d hd
    obtain ⟨⟨a1, a2⟩, ⟨b1, b2⟩, ⟨c1, c2⟩, ⟨d1, d2⟩⟩ := hd
    unfold CheckRanges
    rw [checkChannel_fixed _ a1 (by omega), checkChannel_fixed _ b1 (by omega),
      checkChannel_fixed _ c1 (by omega), checkChannel_fixed _ d1 (by omega)]
  refine ⟨?_, ?_, ?_, ?_, ?_⟩
  · intro d hd
    simp only [List.mem_cons, List.mem_singleton, List.not_mem_nil, or_false] at hd
    rcases hd with rfl | rfl | rfl | rfl <;>
      exact ⟨checkChannel_bounds _, checkChannel_bounds _, checkChannel_bounds _,
        checkChannel_bounds _⟩
  · intro h
    have e : ofInts r g b x = ⟨r, g, b, x⟩ := hfix _ h
    rw [e]
    exact ⟨rfl, h⟩
  · intro h
    have e : copy c = c := hfix _ h
    rw [e]
    exact ⟨rfl, h⟩
  · intro s hs
    simp only [List.mem_cons, List.mem_singleton, List.not_mem_nil, or_false] at hs
    rcases hs with rfl | rfl | rfl | rfl
    · unfold SetR
      by_cases h : v ≥ 0 ∧ v ≤ 128
      · rw [if_pos h]
        refine ⟨⟨fun _ => h, fun _ => rfl⟩, fun hf => by simp at hf, fun hc => ?_⟩
        exact ⟨⟨h.1, h.2⟩, hc.2⟩
      · rw [if_neg h]
        exact ⟨⟨fun hf => by simp at hf, fun hv => absurd hv h⟩, fun _ => rfl, fun hc => hc⟩
    · unfold SetG
      by_cases h : v ≥ 0 ∧ v ≤ 128
      · rw [if_pos h]
        refine ⟨⟨fun _ => h, fun _ => rfl⟩, fun hf => by simp at hf, fun hc => ?_⟩
        exact ⟨hc.1, ⟨h.1, h.2⟩, hc.2.2⟩
      · rw [if_neg h]
        exact ⟨⟨fun hf => by simp at hf, fun hv => absurd hv h⟩, fun _ => rfl, fun hc => hc⟩
    · unfold SetB
      by_cases h : v ≥ 0 ∧ v ≤ 128
      · rw [if_pos h]
        refine ⟨⟨fun _ => h, fun _ => rfl⟩, fun hf => by simp at hf, fun hc => ?_⟩
        exact ⟨hc.1, hc.2.1, ⟨h.1, h.2⟩, hc.2.2.2⟩
      · rw [if_neg h]
        exact ⟨⟨fun hf => by simp at hf, fun hv => absurd hv h⟩, fun _ => rfl, fun hc => hc⟩
    · unfold SetX
      by_cases h : v ≥ 0 ∧ v ≤ 128
      · rw [if_pos h]
        refine ⟨⟨fun _ => h, fun _ => rfl⟩, fun hf => by simp at hf, fun hc => ?_⟩
        exact ⟨hc.1, hc.2.1, hc.2.2.1, ⟨h.1, h.2⟩⟩
      · rw [if_neg h]
        exact ⟨⟨fun hf => by simp at hf, fun hv => absurd hv h⟩, fun _ => rfl, fun hc => hc⟩
  · intro h
    have h' : v ≥ 0 ∧ v ≤ 128 := h
    unfold SetR SetG SetB SetX
    simp only [if_pos h', and_self]

/-- C32, failing input: `IconSys_Color(200, 0, 0, 0)` keeps `R = 200`, above `0x80`,
because `CheckRanges` limits a channel to `255`; a later `SetG(5)` succeeds and leaves
`R = 200`. -/
theorem IconSys_Color_keeps_200 :
    (ofInts 200 0 0 0).R = 200 ∧ ¬ inRange (ofInts 200 0 0 0) ∧
    (ofIntArray [200, 0, 0, 0]).R = 200 ∧ (ofUnsignedArray [200, 0, 0, 0]).R = 200 ∧
    SetG (ofInts 200 0 0 0) 5 = (true, ⟨200, 5, 0, 0⟩) ∧
    ¬ inRange (SetG (ofInts 200 0 0 0) 5).2 := by
  decide

end IconSys_Color

/-! ### Title coding -/

theorem encodeChar_decodeChar_small : ∀ c, c < 126 → supported c →
    (encodeChar c).length = 2 ∧
    decodeChar ((encodeChar c).getD 0 0) ((encodeChar c).getD 1 0) = some c ∧ c ≠ 0 := by
  decide

theorem encodeChar_pair (c : Nat) (h : supported c) :
    ∃ a b, encodeChar c = [a, b] ∧ decodeChar a b = some c ∧ c ≠ 0 := by
  have hc : c < 126 := by
    unfold supported at h
    omega
  obtain ⟨h1, h2, h3⟩ := encodeChar_decodeChar_small c hc h
  match he : encodeChar c, h1 with
  | [a, b], _ =>
    rw [he] at h2
    exact ⟨a, b, rfl, h2, h3⟩

theorem getD_of_drop (l : List Nat) (i a b : Nat) (z : List Nat) (h : l.drop i = a :: b :: z) :
    l.getD i 0 = a ∧ l.getD (i + 1) 0 = b := by
  have h0 : (l.drop i)[0]? = some a := by rw [h]; rfl
  have h1 : (l.drop i)[1]? = some b := by rw [h]; simp
  rw [List.getElem?_drop] at h0 h1
  rw [List.getD_eq_getElem?_getD, List.getD_eq_getElem?_getD]
  rw [Nat.add_zero] at h0
  rw [h0, h1]
  exact ⟨rfl, rfl⟩

theorem cString_set (pre : List Nat) : ∀ out : List Nat, out.take pre.length = pre →
    pre.length < out.length → (∀ c ∈ pre, c ≠ 0) → cString (out.set pre.length 0) = pre := by
  induction pre with
  | nil =>
    intro out _ hl _
    cases out with
    | nil => simp at hl
    | cons a out => simp [cString]
  | cons p pre ih =>
    intro out ht hl hnz
    cases out with
    | nil => simp at hl
    | cons a out =>
      simp only [List.length_cons, List.take_succ_cons, List.cons.injEq] at ht
      obtain ⟨rfl, ht⟩ := ht
      have ha : a ≠ 0 := hnz a (List.mem_cons_self _ _)
      have hrec := ih out ht (by simpa using hl) (fun c hc => hnz c (List.mem_cons_of_mem _ hc))
      unfold cString at hrec ⊢
      simp only [List.length_cons, List.set_cons_succ]
      rw [List.takeWhile_cons, if_pos (by simpa using ha), hrec]

theorem take_set_succ (pre : List Nat) (c : Nat) : ∀ out : List Nat,
    out.take pre.length = pre → pre.length < out.length →
    (out.set pre.length c).take (pre ++ [c]).length = pre ++ [c] := by
  induction pre with
  | nil =>
    intro out _ hl
    cases out with
    | nil => simp at hl
    | cons a out => simp
  | cons p pre ih =>
    intro out ht hl
    cases out with
    | nil => simp at hl
    | cons a out =>
      simp only [List.length_cons, List.take_succ_cons, List.cons.injEq] at ht
      obtain ⟨rfl, ht⟩ := ht
      have hrec := ih out ht (by simpa using hl)
      simp only [List.length_cons, List.set_cons_succ, List.cons_append, List.take_succ_cons,
        List.cons.injEq, true_and]
      exact hrec

theorem DecodeTitle_loop_spec (str_in z : List Nat) : ∀ (rest pre out : List Nat) (n i : Nat),
    (∀ c ∈ rest, supported c) → (∀ c ∈ pre, c ≠ 0) →
    str_in.drop i = rest.flatMap encodeChar ++ 0 :: 0 :: z →
    i = 2 * pre.length → rest.length < n → pre.length + rest.length < out.length →
    out.take pre.length = pre →
    cString (DecodeTitle_loop str_in n i out) = pre ++ rest := by
  intro rest
  induction rest with
  | nil =>
    intro pre out n i _ hnz hdrop hi hn hl ht
    obtain ⟨n, rfl⟩ : ∃ m, n = m + 1 := ⟨n - 1, by simp at hn; omega⟩
    rw [List.flatMap_nil, List.nil_append] at hdrop
    obtain ⟨g0, g1⟩ := getD_of_drop _ _ _ _ _ hdrop
    have hk : i >>> 1 = pre.length := by
      rw [Nat.shiftRight_eq_div_pow]
      omega
    rw [DecodeTitle_loop, g0, g1, hk, List.append_nil]
    exact cString_set pre out ht (by simpa using hl) hnz
  | cons c rest ih =>
    intro pre out n i hs hnz hdrop hi hn hl ht
    obtain ⟨n, rfl⟩ : ∃ m, n = m + 1 := ⟨n - 1, by simp at hn; omega⟩
    obtain ⟨a, b, he, hd, hc0⟩ := encodeChar_pair c (hs c (List.mem_cons_self _ _))
    rw [List.flatMap_cons, he] at hdrop
    obtain ⟨g0, g1⟩ := getD_of_drop _ _ _ _ _ hdrop
    have hk : i >>> 1 = pre.length := by
      rw [Nat.shiftRight_eq_div_pow]
      omega
    rw [DecodeTitle_loop, g0, g1, hd, hk]
    simp only
    have hdrop2 : str_in.drop (i + 2) = rest.flatMap encodeChar ++ 0 :: 0 :: z := by
      rw [← List.drop_drop, hdrop]
      rfl
    have hlen : (pre ++ [c]).length = pre.length + 1 := by simp
    simp only [List.length_cons] at hn hl
    have hrec := ih (pre ++ [c]) (out.set pre.length c) n (i + 2)
      (fun x hx => hs x (List.mem_cons_of_mem _ hx))
      (by
        intro x hx
        rcases List.mem_append.1 hx with hx | hx
        · exact hnz x hx
        · rw [List.mem_singleton.1 hx]; exact hc0)
      hdrop2 (by rw [hlen]; omega) (by omega)
      (by rw [hlen, List.length_set]; omega)
      (take_set_succ pre c out ht (by omega))
    rw [hrec, List.append_assoc]
    rfl

theorem encodeChar_flatMap_length (s : List Nat) (hs : ∀ c ∈ s, supported c) :
    (s.flatMap encodeChar).length = 2 * s.length := by
  induction s with
  | nil => rfl
  | cons c s ih =>
    obtain ⟨a, b, he, _, _⟩ := encodeChar_pair c (hs c (List.mem_cons_self _ _))
    rw [List.flatMap_cons, he, List.length_append, ih (fun x hx => hs x (List.mem_cons_of_mem _ hx))]
    simp only [List.length_cons, List.length_nil]
    omega

/-- C33: for a title of at most 32 characters of the supported alphabet, `EncodeTitle`
fills the 68-byte buffer with the two bytes of every character followed by zero bytes,
and `DecodeTitle` applied to that buffer leaves the title itself as the C string of its
34-character output buffer, whatever that buffer held before. (`SetTitle` refuses
longer titles before it calls `EncodeTitle`.) -/
theorem EncodeTitle_DecodeTitle (s str_out : List Nat) (hlen : s.length ≤ 32)
    (hs : ∀ c ∈ s, supported c) (hout : str_out.length = 34) :
    ∃ buf, EncodeTitle s = some buf ∧ buf.length = 68 ∧
      (∀ c ∈ s, (encodeChar c).length = 2) ∧
      buf = s.flatMap encodeChar ++ List.replicate (68 - 2 * s.length) 0 ∧
      cString (DecodeTitle buf str_out) = s := by
  have hL := encodeChar_flatMap_length s hs
  have hE : EncodeTitle s
      = some (s.flatMap encodeChar ++ List.replicate (68 - 2 * s.length) 0) := by
    unfold EncodeTitle
    simp only [hL]
    rw [if_pos (by omega)]
  refine ⟨_, hE, ?_, ?_, rfl, ?_⟩
  · rw [List.length_append, List.length_replicate, hL]
    omega
  · intro c hc
    obtain ⟨a, b, he, _, _⟩ := encodeChar_pair c (hs c hc)
    rw [he]
    rfl
  · obtain ⟨m, hm⟩ : ∃ m, 68 - 2 * s.length = m + 2 := ⟨68 - 2 * s.length - 2, by omega⟩
    have hz : List.replicate (68 - 2 * s.length) 0 = 0 :: 0 :: List.replicate m 0 := by
      rw [hm]
      rfl
    unfold DecodeTitle
    have h := DecodeTitle_loop_spec
      (s.flatMap encodeChar ++ List.replicate (68 - 2 * s.length) 0) (List.replicate m 0)
      s [] str_out 34 0 hs (fun _ h => absurd h (List.not_mem_nil _))
      (by rw [List.drop_zero, hz]) rfl (by omega) (by simp only [List.length_nil]; omega) rfl
    rw [h]
    rfl

theorem EncodeTitle_DecodeTitle_witness :
    ∃ buf, EncodeTitle exampleTitle = some buf ∧ buf.length = 68 ∧
      (∀ c ∈ exampleTitle, (encodeChar c).length = 2) ∧
      buf = exampleTitle.flatMap encodeChar ++ List.replicate (68 - 2 * exampleTitle.length) 0 ∧
      cString (DecodeTitle buf (List.replicate 34 88)) = exampleTitle :=
  EncodeTitle_DecodeTitle exampleTitle (List.replicate 34 88) (by decide) (by decide) (by decide)

end IconSys

/-! ### Pixel words of the RLE path -/

namespace PS2Icon

/-- C36: the word of a repeat record and the word of a literal record are computed
alike, and they equal the word of the uncompressed path when the green and the blue
channel of the texture value are multiples of 8. (The RLE path does not mask the
shifted channels.) -/
theorem rle_word_eq_uncompressed (t : Nat) (hgreen : t / 256 % 256 % 8 = 0)
    (hblue : t % 256 % 8 = 0) :
    encodeWord_repeat t = encodeWord_uncompressed t ∧
    encodeWord_literal t = encodeWord_uncompressed t := by
  have key : encodeWord_repeat t = encodeWord_uncompressed t := by
    rw [encodeWord_uncompressed_eq]
    obtain ⟨hr, hg, hb⟩ := channels_eq t
    unfold encodeWord_repeat
    simp only [hr, hg, hb]
    simp only [Nat.shiftLeft_eq, Nat.shiftRight_eq_div_pow]
    have e1 : t / 65536 % 256 / 2 ^ 3 % 65536 = t / 65536 % 256 / 8 := by omega
    have e2 : t / 256 % 256 * 2 ^ 2 = t / 256 % 256 / 8 * 32 := by omega
    have e3 : t % 256 * 2 ^ 7 = t % 256 / 8 * 1024 := by omega
    rw [e1, e2, e3, or3_eq_add _ _ _ (by omega) (by omega)]
    have := pixelWord_lt t
    unfold pixelWord at this ⊢
    omega
  exact ⟨key, key⟩

theorem rle_word_eq_uncompressed_witness :
    encodeWord_repeat 0x00F8F8F8 = encodeWord_uncompressed 0x00F8F8F8 ∧
    encodeWord_literal 0x00F8F8F8 = encodeWord_uncompressed 0x00F8F8F8 :=
  rle_word_eq_uncompressed 0x00F8F8F8 (by decide) (by decide)

/-- C36, failing input: the texture value `0xFF000100` (green channel 1). The
uncompressed path writes the word `0`, a repeat record and a literal record hold the
word `4`, which the reader decodes as red 32. -/
theorem rle_word_differs :
    encodeWord_uncompressed 0xFF000100 = 0 ∧ encodeWord_repeat 0xFF000100 = 4 ∧
    encodeWord_literal 0xFF000100 = 4 ∧
    decodeWord_repeat 4 = 0xFF200000 ∧ decodeWord_repeat 0 = 0xFF000000 := by
  decide

/-! ### Write index of the RLE reader -/

theorem rleDecodeLoop_repeat_records : ∀ (records : List (Nat × Nat)) (pos fuel : Nat),
    (∀ r ∈ records, r.1 < 0xFF00 ∧ r.2 < 65536) → records.length ≤ fuel →
    rleDecodeLoop ((pos + 4 * records.length : Nat) : Int) fuel pos
        (records.flatMap (fun r => putU16 r.1 ++ putU16 r.2))
      = some (records.flatMap (fun r => List.replicate r.1 (decodeWord_repeat r.2)), []) := by
  intro records
  induction records with
  | nil =>
    intro pos fuel _ _
    cases fuel with
    | zero => rw [rleDecodeLoop, if_neg (by simp)]; rfl
    | succ f => rw [rleDecodeLoop, if_neg (by simp)]; rfl
  | cons r records ih =>
    intro pos fuel hr hfuel
    obtain ⟨fuel, rfl⟩ : ∃ f, fuel = f + 1 := ⟨fuel - 1, by simp at hfuel; omega⟩
    obtain ⟨h1, h2⟩ := hr r (List.mem_cons_self _ _)
    have hrec := ih (pos + 4) fuel (fun x hx => hr x (List.mem_cons_of_mem _ hx))
      (by simp at hfuel; omega)
    have hlim : ((pos + 4 * (r :: records).length : Nat) : Int)
        = ((pos + 4 + 4 * records.length : Nat) : Int) := by
      simp only [List.length_cons]
      push_cast
      ring
    rw [hlim, List.flatMap_cons, rleDecodeLoop, if_pos (by push_cast; omega),
      List.append_assoc, readU16_putU16 r.1 (by omega)]
    simp only
    rw [if_pos h1, readU16_putU16 r.2 h2]
    simp only
    rw [hrec]
    rfl

theorem length_flatMap_replicate (records : List (Nat × Nat)) (f : Nat → Nat) :
    (records.flatMap (fun r => List.replicate r.1 (f r.2))).length
      = (records.map Prod.fst).sum := by
  induction records with
  | nil => rfl
  | cons r records ih =>
    rw [List.flatMap_cons, List.length_append, List.length_replicate, ih, List.map_cons,
      List.sum_cons]

theorem readTexture_repeat_records (records : List (Nat × Nat)) (pos : Nat)
    (hr : ∀ r ∈ records, r.1 < 0xFF00 ∧ r.2 < 65536)
    (hsz : pos + 4 + 4 * records.length ≤ 2147483647) :
    readTexture 0x0F pos
        (putU32 (4 * records.length) ++ records.flatMap (fun r => putU16 r.1 ++ putU16 r.2))
      = .ok (records.flatMap (fun r => List.replicate r.1 (decodeWord_repeat r.2))) := by
  have hlen : (records.flatMap (fun r => putU16 r.1 ++ putU16 r.2)).length
      = 4 * records.length := by
    refine (GhulbusUtil.length_flatMap_block_nat _ 4 _ ?_).trans rfl
    intro _ _
    rfl
  have hl : u32 (u32 (pos + 4) + 4 * records.length) = pos + 4 + 4 * records.length := by
    unfold u32
    omega
  have hi : toInt32 (pos + 4 + 4 * records.length)
      = ((pos + 4 + 4 * records.length : Nat) : Int) := by
    unfold toInt32
    have e : (pos + 4 + 4 * records.length) % 4294967296 = pos + 4 + 4 * records.length := by
      omega
    rw [e, if_pos (by omega)]
  unfold readTexture
  rw [if_neg (by omega), readU32_putU32 _ (by omega)]
  simp only
  rw [hl, if_neg (by omega), hi, hlen,
    rleDecodeLoop_repeat_records records (pos + 4) (4 * records.length) hr (by omega)]

/-- C35: the RLE reader on a texture segment that consists of repeat records (count
below `0xFF00`, any pixel word) with the matching declared size: it writes, in order,
as many entries as the counts add up to, starting at index 0. All writes lie in
`[0, 16383]` exactly when the counts add up to at most 16384; the reader does not
compare its index with the array size. -/
theorem rle_decoder_writes_count_total (records : List (Nat × Nat)) (pos : Nat)
    (hr : ∀ r ∈ records, r.1 < 0xFF00 ∧ r.2 < 65536)
    (hsz : pos + 4 + 4 * records.length ≤ 2147483647) :
    ∃ ts, readTexture 0x0F pos
        (putU32 (4 * records.length) ++ records.flatMap (fun r => putU16 r.1 ++ putU16 r.2))
        = .ok ts ∧
      ts = records.flatMap (fun r => List.replicate r.1 (decodeWord_repeat r.2)) ∧
      ts.length = (records.map Prod.fst).sum ∧
      ((∀ k, k < ts.length → k ≤ 16383) ↔ (records.map Prod.fst).sum ≤ 16384) := by
  refine ⟨_, readTexture_repeat_records records pos hr hsz, rfl,
    length_flatMap_replicate records decodeWord_repeat, ?_⟩
  rw [length_flatMap_replicate records decodeWord_repeat]
  constructor
  · intro h
    by_contra hc
    have := h 16384 (by omega)
    omega
  · intro h k hk
    omega

theorem rle_decoder_writes_count_total_witness :
    ∃ ts, readTexture 0x0F 0
        (putU32 (4 * [(16384, 31)].length)
          ++ [(16384, 31)].flatMap (fun r => putU16 r.1 ++ putU16 r.2))
        = .ok ts ∧
      ts = [(16384, 31)].flatMap (fun r => List.replicate r.1 (decodeWord_repeat r.2)) ∧
      ts.length = ([(16384, 31)].map Prod.fst).sum ∧
      ((∀ k, k < ts.length → k ≤ 16383) ↔ ([(16384, 31)].map Prod.fst).sum ≤ 16384) :=
  rle_decoder_writes_count_total [(16384, 31)] 0 (by decide) (by decide)

/-- C35, failing input: a texture segment of declared size 8 with the two repeat
records `(16384, 0x001F)` and `(1, 0x001F)`. The reader writes 16385 entries, the last
one at index 16384, behind the array; the stream-level model reports the write behind
`texture[16383]`. -/
theorem rle_decoder_writes_behind_array :
    putU32 8 ++ [(16384, 31), (1, 31)].flatMap (fun r => putU16 r.1 ++ putU16 r.2)
      = [8, 0, 0, 0, 0, 64, 31, 0, 1, 0, 31, 0] ∧
    (∃ ts, readTexture 0x0F 0 [8, 0, 0, 0, 0, 64, 31, 0, 1, 0, 31, 0] = .ok ts ∧
      ts.length = 16385) ∧
    readTexture_rle_stream
        (GhulbusUtil.FileStream.ofBytes [8, 0, 0, 0, 0, 64, 31, 0, 1, 0, 31, 0]) 0 0 0 2
      = some (.error .undefined) := by
  have hb : putU32 8 ++ [(16384, 31), (1, 31)].flatMap (fun r => putU16 r.1 ++ putU16 r.2)
      = [8, 0, 0, 0, 0, 64, 31, 0, 1, 0, 31, 0] := by decide
  refine ⟨hb, ?_, ?_⟩
  · have h := readTexture_repeat_records [(16384, 31), (1, 31)] 0 (by decide) (by decide)
    rw [show 4 * [((16384 : Nat), (31 : Nat)), (1, 31)].length = 8 from rfl, hb] at h
    refine ⟨_, h, ?_⟩
    rw [length_flatMap_replicate]
    rfl
  · rfl

/-! ### Reads of the RLE encoder -/

theorem getElem?_some_lt (mem : List Nat) (k a : Nat) (h : mem[k]? = some a) :
    k < mem.length ∧ mem.getD k 0 = a := by
  have hk : k < mem.length := by
    by_contra hc
    rw [List.getElem?_eq_none (by omega)] at h
    cases h
  refine ⟨hk, ?_⟩
  rw [getElem?_eq_some_getD mem k hk] at h
  exact Option.some.inj h

/-- A repeat scan that returns `r` has compared `texture[i]` with `texture[i + r]`,
and found them different. -/
theorem countRep_result (mem : List Nat) (i : Nat) : ∀ (fuel rep r : Nat),
    countRep mem i fuel rep = some r →
    rep ≤ r ∧ i + r < mem.length ∧ mem.getD (i + r) 0 ≠ mem.getD i 0 ∧
      ∀ k, rep ≤ k → k < r → mem.getD (i + k) 0 = mem.getD i 0 := by
  intro fuel
  induction fuel with
  | zero =>
    intro rep r h
    rw [countRep] at h
    cases h
  | succ fuel ih =>
    intro rep r h
    rw [countRep] at h
    cases ha : mem[i]? with
    | none => rw [ha] at h; cases h
    | some a =>
      cases hb : mem[i + rep]? with
      | none => rw [ha, hb] at h; cases h
      | some b =>
        rw [ha, hb] at h
        simp only at h
        obtain ⟨_, ga⟩ := getElem?_some_lt mem i a ha
        obtain ⟨lb, gb⟩ := getElem?_some_lt mem (i + rep) b hb
        by_cases heq : a = b
        · rw [if_pos heq] at h
          obtain ⟨q1, q2, q3, q4⟩ := ih (rep + 1) r h
          refine ⟨by omega, q2, q3, ?_⟩
          intro k hk1 hk2
          by_cases hk : k = rep
          · rw [hk, gb, ga, heq]
          · exact q4 k (by omega) hk2
        · rw [if_neg heq] at h
          have hr : rep = r := Option.some.inj h
          subst hr
          refine ⟨le_refl _, lb, ?_, fun k h1 h2 => by omega⟩
          rw [ga, gb]
          exact fun e => heq e.symm

/-- A literal scan that returns `p` has compared `texture[i + p]` with
`texture[i + p + 1]`. -/
theorem countLiteral_result (mem : List Nat) (i : Nat) : ∀ (fuel pix p : Nat),
    countLiteral mem i fuel pix = some p →
    pix ≤ p ∧ i + p + 1 < mem.length ∧ (pix ≤ 255 → p ≤ 255) ∧
      (mem.getD (i + pix) 0 ≠ mem.getD (i + pix + 1) 0 → pix < 255 → pix < p) := by
  intro fuel
  induction fuel with
  | zero =>
    intro pix p h
    rw [countLiteral] at h
    cases h
  | succ fuel ih =>
    intro pix p h
    rw [countLiteral] at h
    cases ha : mem[i + pix]? with
    | none => rw [ha] at h; cases h
    | some a =>
      cases hb : mem[i + pix + 1]? with
      | none => rw [ha, hb] at h; cases h
      | some b =>
        rw [ha, hb] at h
        simp only at h
        obtain ⟨_, ga⟩ := getElem?_some_lt mem (i + pix) a ha
        obtain ⟨lb, gb⟩ := getElem?_some_lt mem (i + pix + 1) b hb
        by_cases hc : a ≠ b ∧ pix < 255
        · rw [if_pos hc] at h
          obtain ⟨q1, q2, q3, _⟩ := ih (pix + 1) p h
          exact ⟨by omega, q2, fun _ => q3 (by omega), fun _ _ => by omega⟩
        · rw [if_neg hc] at h
          have hr : pix = p := Option.some.inj h
          subst hr
          refine ⟨le_refl _, lb, fun hp => hp, ?_⟩
          intro hne hlt
          rw [ga, gb] at hne
          exact absurd ⟨hne, hlt⟩ hc

theorem rleEncodeLoop_reads (mem : List Nat) : ∀ (d i fuel : Nat) (bytes : List Nat),
    i + d = 16384 → 0 < d → rleEncodeLoop mem fuel i = some bytes →
    ∃ j k, i ≤ j ∧ j < 16384 ∧ 16384 ≤ k ∧ k < mem.length ∧
      ((∃ r, countRep mem j mem.length 1 = some r ∧ 1 < r ∧ k = j + r) ∨
       (countRep mem j mem.length 1 = some 1 ∧
         ∃ p, countLiteral mem j 256 0 = some p ∧ k = j + p + 1)) := by
  intro d
  induction d using Nat.strong_induction_on with
  | _ d ih =>
    intro i fuel bytes hid hd h
    have hi : i < 16384 := by omega
    cases fuel with
    | zero =>
      rw [rleEncodeLoop, if_pos hi] at h
      cases h
    | succ f =>
      rw [rleEncodeLoop, if_pos hi] at h
      cases hcr : countRep mem i mem.length 1 with
      | none => rw [hcr] at h; cases h
      | some r =>
        rw [hcr] at h
        simp only at h
        obtain ⟨r1, r2, r3, r4⟩ := countRep_result mem i mem.length 1 r hcr
        by_cases hr : r > 1
        · rw [if_pos hr] at h
          cases hti : mem[i]? with
          | none => rw [hti] at h; cases h
          | some t =>
            rw [hti] at h
            simp only at h
            cases hrec : rleEncodeLoop mem f (i + r) with
            | none => rw [hrec] at h; cases h
            | some rest =>
              by_cases hend : 16384 ≤ i + r
              · exact ⟨i, i + r, le_refl _, hi, hend, r2, Or.inl ⟨r, hcr, hr, rfl⟩⟩
              · obtain ⟨j, k, a1, a2, a3, a4, a5⟩ :=
                  ih (16384 - (i + r)) (by omega) (i + r) f rest (by omega) (by omega) hrec
                exact ⟨j, k, by omega, a2, a3, a4, a5⟩
        · rw [if_neg hr] at h
          have hr1 : r = 1 := by omega
          subst hr1
          cases hcl : countLiteral mem i 256 0 with
          | none => rw [hcl] at h; cases h
          | some p =>
            rw [hcl] at h
            simp only at h
            obtain ⟨_, p2, p3, p4⟩ := countLiteral_result mem i 256 0 p hcl
            have hne : mem.getD (i + 0) 0 ≠ mem.getD (i + 0 + 1) 0 := by
              rw [Nat.add_zero]
              exact fun e => r3 e.symm
            have hp1 : 1 ≤ p := p4 hne (by omega)
            have hp2 : p ≤ 255 := p3 (by omega)
            obtain ⟨ht1, ht2, _⟩ := literal_token p hp1 hp2
            rw [ht1, ht2, show p - 1 + 1 = p by omega] at h
            cases hlp : literalPixels mem i p with
            | none => rw [hlp] at h; cases h
            | some pixels =>
              rw [hlp] at h
              simp only at h
              cases hrec : rleEncodeLoop mem f (i + p) with
              | none => rw [hrec] at h; cases h
              | some rest =>
                by_cases hend : 16384 ≤ i + p
                · exact ⟨i, i + p + 1, le_refl _, hi, by omega, p2,
                    Or.inr ⟨hcr, p, hcl, rfl⟩⟩
                · obtain ⟨j, k, a1, a2, a3, a4, a5⟩ :=
                    ih (16384 - (i + p)) (by omega) (i + p) f rest (by omega) (by omega) hrec
                  exact ⟨j, k, by omega, a2, a3, a4, a5⟩

/-- C34: for every content of the memory `mem` that starts at `texture[0]` (the 16384
entries and whatever lies behind them) and every bound on the number of records: when
the RLE encoder completes, the memory extends behind the array, and the scan of some
record start `j < 16384` has compared the entry at an index `k ≥ 16384`: the repeat scan
that returned `r` with `k = j + r`, or the literal scan that returned `p` with
`k = j + p + 1`. No texture is encoded without a read behind `texture[16383]`. -/
theorem rle_encoder_reads_behind_array (mem : List Nat) (fuel : Nat) (bytes : List Nat)
    (h : rleEncodeLoop mem fuel 0 = some bytes) :
    16384 < mem.length ∧
    ∃ j k, j < 16384 ∧ 16384 ≤ k ∧ k < mem.length ∧
      ((∃ r, countRep mem j mem.length 1 = some r ∧ 1 < r ∧ k = j + r ∧
          mem.getD k 0 ≠ mem.getD j 0) ∨
       (countRep mem j mem.length 1 = some 1 ∧
         ∃ p, countLiteral mem j 256 0 = some p ∧ k = j + p + 1)) := by
  obtain ⟨j, k, _, a2, a3, a4, a5⟩ :=
    rleEncodeLoop_reads mem 16384 0 fuel bytes (by omega) (by omega) h
  refine ⟨by omega, j, k, a2, a3, a4, ?_⟩
  rcases a5 with ⟨r, b1, b2, b3⟩ | b
  · left
    obtain ⟨_, _, r3, _⟩ := countRep_result mem j mem.length 1 r b1
    exact ⟨r, b1, b2, b3, by rw [b3]; exact r3⟩
  · right
    exact b

theorem replicate_append_getD (c : Nat) (after : List Nat) (n k : Nat) :
    (k < n → (List.replicate n c ++ after).getD k 0 = c) ∧
    (n ≤ k → (List.replicate n c ++ after).getD k 0 = after.getD (k - n) 0) := by
  constructor
  · intro h
    rw [List.getD_append _ _ _ _ (by rw [List.length_replicate]; exact h),
      List.getD_eq_getElem _ _ (by rw [List.length_replicate]; exact h),
      List.getElem_replicate]
  · intro h
    rw [List.getD_append_right _ _ _ _ (by rw [List.length_replicate]; omega),
      List.length_replicate]

/-- The encoder on 16384 equal entries `c` followed by two zero words, `c ≠ 0`: one
repeat record with the count 16384. -/
theorem rleEncodeLoop_uniform (c : Nat) (hc : c ≠ 0) :
    rleEncodeLoop (List.replicate 16384 c ++ [0, 0]) 16384 0
      = some (putU16 16384 ++ putU16 (encodeWord_repeat c) ++ []) := by
  have hlen : (List.replicate 16384 c ++ [0, 0]).length = 16386 := by
    rw [List.length_append, List.length_replicate]
    rfl
  have hin : ∀ k, k < 16384 → (List.replicate 16384 c ++ [0, 0]).getD k 0 = c :=
    fun k hk => (replicate_append_getD c [0, 0] 16384 k).1 hk
  have h84 : (List.replicate 16384 c ++ [0, 0]).getD 16384 0 = 0 :=
    (replicate_append_getD c [0, 0] 16384 16384).2 (le_refl _)
  have h85 : (List.replicate 16384 c ++ [0, 0]).getD 16385 0 = 0 :=
    (replicate_append_getD c [0, 0] 16384 16385).2 (by omega)
  obtain ⟨r, hr1, hr2, hr3, hr4, hr5⟩ :=
    (rleEncodeLoop_step (List.replicate 16384 c ++ [0, 0]) 0 (by omega) h84 h85
      (by rw [hin 16383 (by omega)]; exact fun e => hc e.symm) 0 (by omega) 16383).1
      (by rw [hin 0 (by omega), hin 1 (by omega)])
  have hr : r = 16384 := by
    by_contra hne
    apply hr4
    rw [Nat.zero_add, hin r (by omega), hin 0 (by omega)]
  subst hr
  rw [hr5, Nat.zero_add, hin 0 (by omega)]
  rw [rleEncodeLoop, if_neg (by omega)]
  rfl

theorem rle_encoder_reads_behind_array_witness :
    16384 < (List.replicate 16384 5 ++ [0, 0]).length ∧
    ∃ j k, j < 16384 ∧ 16384 ≤ k ∧ k < (List.replicate 16384 5 ++ [0, 0]).length ∧
      ((∃ r, countRep (List.replicate 16384 5 ++ [0, 0]) j
            (List.replicate 16384 5 ++ [0, 0]).length 1 = some r ∧ 1 < r ∧ k = j + r ∧
          (List.replicate 16384 5 ++ [0, 0]).getD k 0
            ≠ (List.replicate 16384 5 ++ [0, 0]).getD j 0) ∨
       (countRep (List.replicate 16384 5 ++ [0, 0]) j
            (List.replicate 16384 5 ++ [0, 0]).length 1 = some 1 ∧
         ∃ p, countLiteral (List.replicate 16384 5 ++ [0, 0]) j 256 0 = some p ∧
           k = j + p + 1)) :=
  rle_encoder_reads_behind_array (List.replicate 16384 5 ++ [0, 0]) 16384 _
    (rleEncodeLoop_uniform 5 (by decide))

/-- The encoder on 16383 equal entries `c`, a last entry `d ≠ c`, and the words
`x, y, y` behind the array with `x ≠ d`, `x ≠ y`: a repeat record for the first 16383
entries, then a literal record of two pixels, `texture[16383]` and the word `x` behind
the array. -/
theorem rleEncodeLoop_literal_behind (c d x y : Nat) (hcd : d ≠ c) (hxd : x ≠ d)
    (hxy : x ≠ y) :
    rleEncodeLoop (List.replicate 16383 c ++ [d, x, y, y]) 16384 0
      = some (putU16 16383 ++ putU16 (encodeWord_repeat c) ++
          (putU16 0xFFFE ++ (putU16 (encodeWord_literal d) ++ putU16 (encodeWord_literal x)))) := by
  have hlen : (List.replicate 16383 c ++ [d, x, y, y]).length = 16387 := by
    rw [List.length_append, List.length_replicate]
    rfl
  have hin : ∀ k, k < 16383 → (List.replicate 16383 c ++ [d, x, y, y]).getD k 0 = c :=
    fun k hk => (replicate_append_getD c [d, x, y, y] 16383 k).1 hk
  have h83 : (List.replicate 16383 c ++ [d, x, y, y]).getD 16383 0 = d :=
    (replicate_append_getD c [d, x, y, y] 16383 16383).2 (le_refl _)
  have h84 : (List.replicate 16383 c ++ [d, x, y, y]).getD 16384 0 = x :=
    (replicate_append_getD c [d, x, y, y] 16383 16384).2 (by omega)
  have h85 : (List.replicate 16383 c ++ [d, x, y, y]).getD 16385 0 = y :=
    (replicate_append_getD c [d, x, y, y] 16383 16385).2 (by omega)
  have h86 : (List.replicate 16383 c ++ [d, x, y, y]).getD 16386 0 = y :=
    (replicate_append_getD c [d, x, y, y] 16383 16386).2 (by omega)
  generalize hmem : List.replicate 16383 c ++ [d, x, y, y] = mem at hlen hin h83 h84 h85 h86
  obtain ⟨r, hr, hr1, hr2, hr3, hr4⟩ := countRep_stops mem 0 16382 1 mem.length (by omega)
    (by rw [show 0 + 1 + 16382 = 16383 from rfl, h83, hin 0 (by omega)]; exact hcd)
    (by omega)
  have hr5 : r = 16383 := by
    by_contra hne
    apply hr4
    rw [hin (0 + r) (by omega), hin 0 (by omega)]
  subst hr5
  obtain ⟨s, hs, hs1, hs2, _, _⟩ := countRep_stops mem 16383 0 1 mem.length (by omega)
    (by rw [show 16383 + 1 + 0 = 16384 from rfl, h84, h83]; exact hxd)
    (by omega)
  have hs3 : s = 1 := by omega
  subst hs3
  obtain ⟨p, hp, _, _, hp3, hp4, hp5⟩ := countLiteral_least mem 16383 2 (by omega)
    (by rw [show 16383 + 2 = 16385 from rfl, h85, show 16385 + 1 = 16386 from rfl, h86])
    256 0 (by omega) (by omega) (by omega)
  have hp6 : p = 2 := by
    by_contra hne
    have hp7 := hp4 (by omega)
    rcases (by omega : p = 0 ∨ p = 1) with h0 | h1
    · rw [h0, show 16383 + 0 = 16383 from rfl, h83, show 16383 + 1 = 16384 from rfl, h84] at hp7
      exact hxd hp7.symm
    · rw [h1, show 16383 + 1 = 16384 from rfl, h84, show 16384 + 1 = 16385 from rfl, h85] at hp7
      exact hxy hp7
  subst hp6
  obtain ⟨ht1, ht2, _⟩ := literal_token 2 (by omega) (by omega)
  have h0 : mem[0]? = some c := by
    rw [getElem?_eq_some_getD mem 0 (by omega), hin 0 (by omega)]
  rw [rleEncodeLoop, if_pos (by omega), hr]
  simp only
  rw [if_pos (by omega), h0]
  simp only
  rw [Nat.zero_add, rleEncodeLoop, if_pos (by omega), hs]
  simp only
  rw [if_neg (by omega), hp]
  simp only
  rw [ht1, ht2, show 2 - 1 + 1 = 2 from rfl, literalPixels_eq mem 2 16383 (by omega)]
  simp only
  rw [rleEncodeLoop, if_neg (by omega)]
  rw [show List.range 2 = [0, 1] from rfl]
  simp only [List.flatMap_cons, List.flatMap_nil, List.append_nil, Nat.add_zero]
  rw [h83, show 16383 + 1 = 16384 from rfl, h84]

/-- C34, failing input: the texture of 16384 entries `0xFF000000`, encoded twice. With
the words `0, 0` behind the array the encoder emits the record `(16384, 0)`; with the
words `0xFF000000, 0` behind it, it emits the record `(16385, 0)`: the output depends
on `texture[16384]`, which the repeat loop has read and counted. And on the texture of
16383 entries `7` and a last entry `9`, with the words `1, 2, 2` behind the array, the
literal record that follows the repeat record holds two pixels, `texture[16383]` and
`texture[16384] = 1`. -/
theorem rle_encoder_depends_on_word_behind :
    rleEncodeLoop (List.replicate 16384 0xFF000000 ++ [0, 0]) 16384 0 = some [0, 64, 0, 0] ∧
    rleEncodeLoop (List.replicate 16384 0xFF000000 ++ [0xFF000000, 0]) 16384 0
      = some [1, 64, 0, 0] ∧
    rleEncodeLoop (List.replicate 16383 7 ++ [9, 1, 2, 2]) 16384 0
      = some (putU16 16383 ++ putU16 (encodeWord_repeat 7) ++
          (putU16 0xFFFE ++ (putU16 (encodeWord_literal 9) ++ putU16 (encodeWord_literal 1)))) := by
  obtain ⟨hl, hg, hlast⟩ := overrun_memory 0xFF000000 (by decide)
  refine ⟨?_, ?_, rleEncodeLoop_literal_behind 7 9 1 2 (by decide) (by decide) (by decide)⟩
  · rw [rleEncodeLoop_uniform 0xFF000000 (by decide)]
    decide
  · rw [rleEncodeLoop_overrun _ 0xFF000000 hl hg hlast]
    decide

end PS2Icon

/-! ### Divisor of the colour-mask expression -/

namespace GhulbusUtil

/-- C40: for every 32-bit mask `m` the divisor `(m >> 8) + 1` of `ReadData32Bit`,
computed in 32-bit unsigned arithmetic, is not zero: it lies between 1 and `2^24`, the
addition does not wrap, and it is the value by which `maskChannel` divides. For the
masks 0 and `0xFFFFFFFF` it is 1 and `0x1000000`. -/
theorem maskDivisor_nonzero (m tmp : Nat) (hm : m < 4294967296) :
    maskDivisor m ≠ 0 ∧ 1 ≤ maskDivisor m ∧ maskDivisor m ≤ 16777216 ∧
    maskDivisor m = (m >>> 8) + 1 ∧
    maskChannel tmp m = ((tmp &&& m) / maskDivisor m) &&& 0xff ∧
    maskDivisor 0 = 1 ∧ maskDivisor 0xFFFFFFFF = 0x1000000 := by
  have h : maskDivisor m = (m >>> 8) + 1 := by
    unfold maskDivisor
    rw [Nat.shiftRight_eq_div_pow]
    omega
  have hle : (m >>> 8) + 1 ≤ 16777216 := by
    rw [Nat.shiftRight_eq_div_pow]
    omega
  refine ⟨by omega, by omega, by omega, h, ?_, by decide, by decide⟩
  unfold maskChannel
  rw [h]

theorem maskDivisor_nonzero_witness :
    maskDivisor 0xFFFFFFFF ≠ 0 ∧ 1 ≤ maskDivisor 0xFFFFFFFF ∧
    maskDivisor 0xFFFFFFFF ≤ 16777216 ∧
    maskDivisor 0xFFFFFFFF = (0xFFFFFFFF >>> 8) + 1 ∧
    maskChannel 0x12345678 0xFFFFFFFF
      = ((0x12345678 &&& 0xFFFFFFFF) / maskDivisor 0xFFFFFFFF) &&& 0xff ∧
    maskDivisor 0 = 1 ∧ maskDivisor 0xFFFFFFFF = 0x1000000 :=
  maskDivisor_nonzero 0xFFFFFFFF 0x12345678 (by decide)

end GhulbusUtil

/-! ### Meshes without faces in the mesh list -/

namespace OBJ_FileLoader

theorem expectedMeshes_faces : ∀ (gs : List Group) (bv bt bn : Int),
    (∀ g ∈ gs, g.faces ≠ []) → ∀ m ∈ expectedMeshes bv bt bn gs, m.m_faces ≠ [] := by
  intro gs
  induction gs with
  | nil =>
    intro _ _ _ _ m hm
    simp [expectedMeshes] at hm
  | cons g gs ih =>
    intro bv bt bn hg m hm
    rw [expectedMeshes, List.mem_cons] at hm
    rcases hm with rfl | hm
    · have hf := hg g (List.mem_cons_self _ _)
      intro he
      apply hf
      simpa [groupMesh] using he
    · exact ih _ _ _ (fun g' hg' => hg g' (List.mem_cons_of_mem _ hg')) m hm

theorem writeMeshes_ok (reread : ℚ → ℚ) : ∀ (ms : List OBJ_Mesh) (a b c : Int),
    (∀ m ∈ ms, m.m_faces ≠ []) → ∃ ls, writeMeshes reread a b c ms = .ok ls := by
  intro ms
  induction ms with
  | nil => intro _ _ _ _; exact ⟨[], rfl⟩
  | cons m ms ih =>
    intro a b c h
    obtain ⟨ls, hls⟩ := ih (a + m.GetNVertices) (b + m.GetNTexture) (c + m.GetNNormals)
      (fun x hx => h x (List.mem_cons_of_mem _ hx))
    have hm := h m (List.mem_cons_self _ _)
    cases hf : m.m_faces with
    | nil => exact absurd hf hm
    | cons first rest =>
      rw [writeMeshes, hf]
      simp only
      rw [hls]
      exact ⟨_, rfl⟩

/-- C39: what `ReadFile` guarantees about faces. The mesh its last step appends has at
least one face (lines 227-232), for every input. For a file made of consecutive groups
in the order vertex data, named group line, faces, each group with at least one face,
every mesh of the list has at least one face, and `WriteFile` writes the list without
raising an exception. -/
theorem ReadFile_groups_have_faces (reread : ℚ → ℚ) (gs : List Group) (group_name : String)
    (hne : gs ≠ [])
    (hg : ∀ g ∈ gs, g.vlines ≠ [] ∧ (∀ l ∈ g.vlines, l.isVertexData = true) ∧ g.faces ≠ []) :
    (∀ st : ReadState, ∀ m ∈ finish st, m ∈ st.m_MeshList ∨ 0 < m.GetNFaces) ∧
    ∃ ms, ReadFile [] group_name (fileLines gs) = .ok ms ∧
      (∀ m ∈ ms, 0 < m.GetNFaces) ∧
      ∃ ls, WriteFile reread ms = .ok ls := by
  constructor
  · intro st m hm
    unfold finish at hm
    by_cases hpos : st.mesh.GetNFaces > 0
    · rw [if_pos hpos, List.mem_append, List.mem_singleton] at hm
      rcases hm with hm | rfl
      · exact Or.inl hm
      · exact Or.inr hpos
    · rw [if_neg hpos] at hm
      exact Or.inl hm
  · cases gs with
    | nil => exact absurd rfl hne
    | cons g gs =>
      have h := read_groups gs g [] 0 0 0 group_name hg
      rw [List.nil_append] at h
      have hfaces := expectedMeshes_faces (g :: gs) 0 0 0 (fun g' hg' => (hg g' hg').2.2)
      refine ⟨expectedMeshes 0 0 0 (g :: gs), ?_, ?_, ?_⟩
      · unfold ReadFile
        rw [if_neg (by simp), ← h]
        rfl
      · intro m hm
        have := hfaces m hm
        unfold OBJ_Mesh.GetNFaces
        have hl : 0 < m.m_faces.length := List.length_pos.2 this
        exact_mod_cast hl
      · obtain ⟨ls, hls⟩ := writeMeshes_ok reread (expectedMeshes 0 0 0 (g :: gs)) 0 0 0 hfaces
        unfold WriteFile
        rw [hls]
        exact ⟨_, rfl⟩

theorem ReadFile_groups_have_faces_witness :
    (∀ st : ReadState, ∀ m ∈ finish st, m ∈ st.m_MeshList ∨ 0 < m.GetNFaces) ∧
    ∃ ms, ReadFile [] "" (fileLines exampleGroups) = .ok ms ∧
      (∀ m ∈ ms, 0 < m.GetNFaces) ∧
      ∃ ls, WriteFile (fun x => x) ms = .ok ls :=
  ReadFile_groups_have_faces (fun x => x) exampleGroups "" (by simp [exampleGroups])
    (by simp [exampleGroups, Line.isVertexData])

/-- C39, failing input: the file `exampleGroupFirst` names its group before the vertex
data. `ReadFile` succeeds; at the first `v` line it appends the mesh under construction,
which is empty, under the name `cube`, and at the end the mesh with the data.
`GetNFaces` of the first mesh of the list is 0, and `WriteFile` raises
`GB_ILLEGALPARAMETER` at its `GetFace(0)`. -/
theorem ReadFile_keeps_empty_mesh :
    ReadFile [] "" exampleGroupFirst = .ok [exampleEmptyCube, exampleFullCube] ∧
    exampleEmptyCube.GetNFaces = 0 ∧
    exampleEmptyCube.GetFace 0 = .error .GB_ILLEGALPARAMETER ∧
    WriteFile (fun x => x) [exampleEmptyCube, exampleFullCube]
      = .error .GB_ILLEGALPARAMETER := by
  refine ⟨?_, rfl, rfl, rfl⟩
  simp [ReadFile, exampleGroupFirst, exampleEmptyCube, exampleFullCube, finish, readLine,
    openNewMesh, initialState, adjustFace, OBJ_Mesh.AddGeometry, OBJ_Mesh.AddTextureData,
    OBJ_Mesh.AddNormals, OBJ_Mesh.AddFaceData, OBJ_Mesh.AppendToVector, OBJ_Mesh.SetName,
    OBJ_Mesh.GetNFaces, show List.range 3 = [0, 1, 2] from rfl]

end OBJ_FileLoader

namespace PS2Icon

theorem convert_f32_to_f16_one : convert_f32_to_f16 1 = 4096 := by
  unfold convert_f32_to_f16
  rw [show (1 : ℚ) * 4096 = ((4096 : Int) : ℚ) by norm_num, truncToInt_intCast]
  rfl

theorem exampleTriangleIcon_converted (i : Nat) (hi : i < 3) :
    ((exampleTriangleIcon.vertices.getD i default).f16_x
        = convert_f32_to_f16 (exampleTriangleIcon.fvertices.getD (i * 3) 0) ∧
      (exampleTriangleIcon.vertices.getD i default).f16_y
        = convert_f32_to_f16 (exampleTriangleIcon.fvertices.getD (i * 3 + 1) 0) ∧
      (exampleTriangleIcon.vertices.getD i default).f16_z
        = convert_f32_to_f16 (exampleTriangleIcon.fvertices.getD (i * 3 + 2) 0)) ∧
    ((exampleTriangleIcon.normals.getD i default).f16_x
        = convert_f32_to_f16 (exampleTriangleIcon.fnormals.getD (i * 3) 0) ∧
      (exampleTriangleIcon.normals.getD i default).f16_y
        = convert_f32_to_f16 (exampleTriangleIcon.fnormals.getD (i * 3 + 1) 0) ∧
      (exampleTriangleIcon.normals.getD i default).f16_z
        = convert_f32_to_f16 (exampleTriangleIcon.fnormals.getD (i * 3 + 2) 0)) := by
  have z := convert_f32_to_f16_zero.symm
  have o := convert_f32_to_f16_one.symm
  rcases i with _ | _ | _ | i
  · exact ⟨⟨z, z, z⟩, ⟨z, z, o⟩⟩
  · exact ⟨⟨o, z, z⟩, ⟨z, z, o⟩⟩
  · exact ⟨⟨z, o, z⟩, ⟨z, z, o⟩⟩
  · omega

/-- C37 (instance): the one-triangle icon; vertex 1 keeps its stored x position 4096
and its texture coordinate u = 4096. -/
theorem BuildMesh_SetGeometry_same_fixed_point_witness :
    ∃ m, BuildMesh exampleTriangleIcon exampleQuad = .ok m ∧
      (SetGeometry_default exampleTriangleIcon m).header.n_vertices = 3 ∧
      ((SetGeometry_default exampleTriangleIcon m).vertices.getD 1 default).f16_x = 4096 ∧
      ((SetGeometry_default exampleTriangleIcon m).normals.getD 1 default).f16_z = 4096 ∧
      ((SetGeometry_default exampleTriangleIcon m).vert_texture.getD 1 default).f16_u = 4096 :=
  have h := BuildMesh_SetGeometry_same_fixed_point exampleTriangleIcon exampleQuad 1 rfl rfl
    (by decide) rfl rfl (fun i hi => (exampleTriangleIcon_converted i hi).1)
    (fun i hi => (exampleTriangleIcon_converted i hi).2)
    (by
      intro t ht
      simp only [exampleTriangleIcon, List.mem_cons, List.mem_singleton, List.not_mem_nil,
        or_false] at ht
      rcases ht with rfl | rfl | rfl <;> decide)
    exampleTriangleIcon_fvertices_isFloat32 exampleTriangleIcon_fnormals_isFloat32
  have h1 := h.choose_spec.2.2 1 (by decide)
  ⟨h.choose, h.choose_spec.1, h.choose_spec.2.1, h1.1, h1.2.2.2.2.2.1, h1.2.2.2.2.2.2.1⟩

end PS2Icon
